import Mathlib

/-!
# Bilinear form integrators (fem/bilininteg.cpp)

A shallow embedding of the element-level integrators of `fem/bilininteg.cpp`.

* The scalar type `double` is idealised: every definition is stated over an
  abstract scalar type `R` carrying just the algebra the code uses (an additive
  structure for the composite wrappers, a field for the quadrature loops).
* A C++ output parameter (`DenseMatrix &elmat`) becomes an input buffer and a
  returned buffer. A fatal error (`mfem_error`, `MFEM_ABORT`, a failed
  `MFEM_ASSERT`) becomes `Except.error msg`: control never returns, so no buffer
  is handed back.
* Virtual dispatch through `BilinearFormIntegrator *` becomes the record
  `Integrator` of the five virtual methods; a concrete class overrides the
  entries it defines in the source file and inherits the others from the base.
* Finite elements, element transformations, coefficients and quadrature rule
  tables are external collaborators and enter as records of functions.
-/

namespace mfem

/-! ## Dense linear algebra (linalg/vector, linalg/densemat) -/

/-- Class `Vector`: a length and the entries, addressed as `v(i)`. -/
structure Vector (R : Type) where
  size : Nat
  elem : Nat → R

/-- Class `DenseMatrix`: a height, a width and the entries, addressed as
`A(i,j)` with `i < height` and `j < width`. -/
structure DenseMatrix (R : Type) where
  height : Nat
  width : Nat
  elem : Nat → Nat → R

/-- Two buffers hold the same matrix: equal sizes and equal entries inside the
bounds. -/
def DenseMatrix.SameAs {R : Type} (A B : DenseMatrix R) : Prop :=
  A.height = B.height ∧ A.width = B.width ∧
    ∀ i, i < A.height → ∀ j, j < A.width → A.elem i j = B.elem i j

/-- Modelled from the spec: `DenseMatrix::SetSize(h, w)` (linalg/densemat) gives
the buffer the requested dimensions; the spec says buffers are sized per call
and resized on demand and promises nothing about the entries, which are kept
as they are here. -/
def DenseMatrix.SetSize {R : Type} (A : DenseMatrix R) (h w : Nat) : DenseMatrix R :=
  { height := h, width := w, elem := A.elem }

/-- Modelled from the spec: `DenseMatrix::operator=(double c)` (linalg/densemat)
sets every entry to `c` and keeps the dimensions. -/
def DenseMatrix.assign {R : Type} (A : DenseMatrix R) (c : R) : DenseMatrix R :=
  { height := A.height, width := A.width, elem := fun _ _ => c }

/-- The transpose of a matrix as a value. -/
def DenseMatrix.transpose {R : Type} (A : DenseMatrix R) : DenseMatrix R :=
  { height := A.width, width := A.height, elem := fun i j => A.elem j i }

/-- Modelled from the spec: `DenseMatrix::Transpose(A)` (linalg/densemat),
commented `elmat = bfi_elmat^t` at each call: the receiver is resized and
overwritten with the transpose of `A`. -/
def DenseMatrix.Transpose {R : Type} (_self A : DenseMatrix R) : DenseMatrix R :=
  A.transpose

/-- Sum of the entries of row `i`. -/
def DenseMatrix.rowSum {R : Type} [AddCommMonoid R] (A : DenseMatrix R) (i : Nat) : R :=
  Finset.sum (Finset.range A.width) fun j => A.elem i j

/-- Modelled from the spec: `DenseMatrix::Lump()` (linalg/densemat) collapses
each row to its row sum placed on the diagonal and zeroes the off-diagonal
entries. -/
def DenseMatrix.Lump {R : Type} [AddCommMonoid R] (A : DenseMatrix R) : DenseMatrix R :=
  { height := A.height, width := A.width,
    elem := fun i j => if i = j then A.rowSum i else 0 }

/-- Modelled from the spec: `DenseMatrix::operator+=(m)` (linalg/densemat) adds
`m` entry by entry into the receiver, whose dimensions are kept. -/
def DenseMatrix.addAssign {R : Type} [Add R] (A m : DenseMatrix R) : DenseMatrix R :=
  { height := A.height, width := A.width, elem := fun i j => A.elem i j + m.elem i j }

/-- Modelled from the spec: `DenseMatrix::operator*=(double c)` (linalg/densemat)
scales every entry by `c`. -/
def DenseMatrix.scale {R : Type} [Mul R] (A : DenseMatrix R) (c : R) : DenseMatrix R :=
  { height := A.height, width := A.width, elem := fun i j => A.elem i j * c }

/-- The entries of a buffer, read as an `m x n` matrix of the library. -/
def DenseMatrix.toFin {R : Type} (A : DenseMatrix R) (m n : Nat) : Matrix (Fin m) (Fin n) R :=
  Matrix.of fun i j => A.elem i.val j.val

/-- A library matrix stored in a buffer of its own dimensions. -/
def DenseMatrix.ofFin {R : Type} [Zero R] {m n : Nat} (M : Matrix (Fin m) (Fin n) R) :
    DenseMatrix R :=
  { height := m, width := n,
    elem := fun i j => if h : i < m ∧ j < n then M ⟨i, h.1⟩ ⟨j, h.2⟩ else 0 }

/-- Modelled from the spec: `DenseMatrix::Invert()` (linalg/densemat) replaces a
square, invertible matrix by its matrix inverse. The inverse is computed as the
adjugate divided by the determinant; outside the precondition the spec
promises nothing. -/
def DenseMatrix.Invert {R : Type} [Field R] (A : DenseMatrix R) : DenseMatrix R :=
  DenseMatrix.ofFin ((A.toFin A.height A.height).det⁻¹ • (A.toFin A.height A.height).adjugate)

/-- Entry `(i,j)` of the product `A * B` of two buffers, the inner index running
over the width of `A`. -/
def DenseMatrix.mulEntry {R : Type} [Semiring R] (A B : DenseMatrix R) (i j : Nat) : R :=
  Finset.sum (Finset.range A.width) fun k => A.elem i k * B.elem k j

/-- Modelled from the spec: `Mult(b, c, a)` (linalg/densemat) stores the matrix
product `b * c` in the pre-sized buffer `a`. -/
def Mult {R : Type} [Semiring R] (b c a : DenseMatrix R) : DenseMatrix R :=
  { height := a.height, width := a.width, elem := fun i j => b.mulEntry c i j }

/-- Modelled from the spec: `AddMult_a_AAt(a, A, AAt)` (linalg/densemat)
accumulates `a * A * A^t` into `AAt`, the contribution `w * G * G^T` of one
quadrature point. -/
def AddMult_a_AAt {R : Type} [Semiring R] (a : R) (A AAt : DenseMatrix R) : DenseMatrix R :=
  { height := AAt.height, width := AAt.width,
    elem := fun i j =>
      if i < A.height ∧ j < A.height then
        AAt.elem i j + a * Finset.sum (Finset.range A.width) fun k => A.elem i k * A.elem j k
      else AAt.elem i j }

/-- Modelled from the spec: `AddMultABt(A, B, ABt)` (linalg/densemat) accumulates
`A * B^t` into `ABt`. -/
def AddMultABt {R : Type} [Semiring R] (A B ABt : DenseMatrix R) : DenseMatrix R :=
  { height := ABt.height, width := ABt.width,
    elem := fun i j =>
      if i < A.height ∧ j < B.height then
        ABt.elem i j + Finset.sum (Finset.range A.width) fun k => A.elem i k * B.elem j k
      else ABt.elem i j }

/-- Modelled from the spec: `AddMult_a_VVt(a, v, VVt)` (linalg/densemat)
accumulates the outer product `a * v * v^t` into `VVt`, the contribution
`w * shape (x) shape` of one quadrature point. -/
def AddMult_a_VVt {R : Type} [Add R] [Mul R] (a : R) (v : Vector R) (VVt : DenseMatrix R) :
    DenseMatrix R :=
  { height := VVt.height, width := VVt.width,
    elem := fun i j =>
      if i < v.size ∧ j < v.size then VVt.elem i j + a * v.elem i * v.elem j
      else VVt.elem i j }

/-- The quadratic form `x^T K x` of a buffer, the indices running over its
rows and columns. -/
def DenseMatrix.quadForm {R : Type} [Semiring R] (K : DenseMatrix R) (x : Nat → R) : R :=
  Finset.sum (Finset.range K.height) fun i =>
    Finset.sum (Finset.range K.width) fun j => x i * K.elem i j * x j

/-- Modelled from the spec: `Vector::operator*=(double c)` (linalg/vector) scales
every entry by `c`. -/
def Vector.scale {R : Type} [Mul R] (v : Vector R) (c : R) : Vector R :=
  { size := v.size, elem := fun i => v.elem i * c }

/-- Modelled from the spec: `AddMultVWt(v, w, VWt)` (linalg/densemat) accumulates
the outer product `v * w^t` into `VWt`, the contribution `testShape (x)
trialShape` of one quadrature point. -/
def AddMultVWt {R : Type} [Semiring R] (v w : Vector R) (VWt : DenseMatrix R) : DenseMatrix R :=
  { height := VWt.height, width := VWt.width,
    elem := fun i j =>
      if i < v.size ∧ j < w.size then VWt.elem i j + v.elem i * w.elem j
      else VWt.elem i j }

/-- Modelled from the spec: `CalcAdjugate(a, adja)` (linalg/densemat), described
at its call as `adj(J)` if `J` is square and `adj(J^t.J).J^t` otherwise. -/
def CalcAdjugate {R : Type} [CommRing R] (a _adja : DenseMatrix R) : DenseMatrix R :=
  if a.height = a.width then
    DenseMatrix.ofFin (a.toFin a.height a.height).adjugate
  else
    DenseMatrix.ofFin
      (((a.toFin a.height a.width).transpose * a.toFin a.height a.width).adjugate *
        (a.toFin a.height a.width).transpose)

/-! ### Element access and vector operations -/

/-- The statement `A(i,j) += v`. -/
def DenseMatrix.addAt {R : Type} [Add R] (A : DenseMatrix R) (i j : Nat) (v : R) :
    DenseMatrix R :=
  { height := A.height, width := A.width,
    elem := fun a b => if a = i ∧ b = j then A.elem a b + v else A.elem a b }

/-- The statement `A(i,j) -= v`. -/
def DenseMatrix.subAt {R : Type} [Sub R] (A : DenseMatrix R) (i j : Nat) (v : R) :
    DenseMatrix R :=
  { height := A.height, width := A.width,
    elem := fun a b => if a = i ∧ b = j then A.elem a b - v else A.elem a b }

/-- The statement `A(i,j) = v`. -/
def DenseMatrix.setAt {R : Type} (A : DenseMatrix R) (i j : Nat) (v : R) : DenseMatrix R :=
  { height := A.height, width := A.width,
    elem := fun a b => if a = i ∧ b = j then v else A.elem a b }

/-- The statement `v(i) = c`. -/
def Vector.setAt {R : Type} (v : Vector R) (i : Nat) (c : R) : Vector R :=
  { size := v.size, elem := fun a => if a = i then c else v.elem a }

/-- Modelled from the spec: `Vector::SetSize(s)` (linalg/vector) gives the vector
the requested length; nothing is promised about the entries, which are kept
as they are here. -/
def Vector.SetSize {R : Type} (v : Vector R) (s : Nat) : Vector R :=
  { size := s, elem := v.elem }

/-- Modelled from the spec: `Vector::operator=(double c)` (linalg/vector) sets
every entry to `c` and keeps the length. -/
def Vector.assign {R : Type} (v : Vector R) (c : R) : Vector R :=
  { size := v.size, elem := fun _ => c }

/-- Modelled from the spec: `Vector::Set(a, x)` (linalg/vector) stores `a * x`
in the receiver. -/
def Vector.Set {R : Type} [Mul R] (self : Vector R) (a : R) (x : Vector R) : Vector R :=
  { size := self.size, elem := fun i => a * x.elem i }

/-- Modelled from the spec: `Vector::operator*(v)` (linalg/vector), the dot
product of two vectors of the same length. -/
def Vector.dot {R : Type} [Semiring R] (x y : Vector R) : R :=
  Finset.sum (Finset.range x.size) fun i => x.elem i * y.elem i

/-- Modelled from the spec: `DenseMatrix::Mult(x, y)` (linalg/densemat) stores
the matrix-vector product `A * x` in the pre-sized vector `y`. -/
def DenseMatrix.Mult {R : Type} [Semiring R] (A : DenseMatrix R) (x y : Vector R) : Vector R :=
  { size := y.size,
    elem := fun i => Finset.sum (Finset.range A.width) fun k => A.elem i k * x.elem k }

/-- Modelled from the spec: `DenseMatrix::MultTranspose(x, y)` (linalg/densemat)
stores the product `A^t * x` in the pre-sized vector `y`. -/
def DenseMatrix.MultTranspose {R : Type} [Semiring R] (A : DenseMatrix R) (x y : Vector R) :
    Vector R :=
  { size := y.size,
    elem := fun j => Finset.sum (Finset.range A.height) fun k => A.elem k j * x.elem k }

/-- Modelled from the spec: `DenseMatrix::AddMult(x, y)` (linalg/densemat) adds
the matrix-vector product `A * x` to `y`. -/
def DenseMatrix.AddMult {R : Type} [Semiring R] (A : DenseMatrix R) (x y : Vector R) :
    Vector R :=
  { size := y.size,
    elem := fun i =>
      y.elem i + Finset.sum (Finset.range A.width) fun k => A.elem i k * x.elem k }

/-- Modelled from the spec: `MultVVt(v, vvt)` (linalg/densemat) stores the outer
product `v * v^t` in the pre-sized buffer `vvt`. -/
def MultVVt {R : Type} [Mul R] (v : Vector R) (vvt : DenseMatrix R) : DenseMatrix R :=
  { height := vvt.height, width := vvt.width, elem := fun i j => v.elem i * v.elem j }

/-- Modelled from the spec: `MultVWt(v, w, VWt)` (linalg/densemat) stores the
outer product `v * w^t` in the pre-sized buffer `VWt`. -/
def MultVWt {R : Type} [Mul R] (v w : Vector R) (VWt : DenseMatrix R) : DenseMatrix R :=
  { height := VWt.height, width := VWt.width, elem := fun i j => v.elem i * w.elem j }

/-- Modelled from the spec: `DenseMatrix::AddMatrix(a, A, ro, co)`
(linalg/densemat) adds `a * A` into the block of the receiver whose first row
is `ro` and first column is `co`. -/
def DenseMatrix.AddMatrix_a {R : Type} [Semiring R] (E : DenseMatrix R) (a : R)
    (A : DenseMatrix R) (ro co : Nat) : DenseMatrix R :=
  { height := E.height, width := E.width,
    elem := fun i j =>
      if ro ≤ i ∧ i < ro + A.height ∧ co ≤ j ∧ j < co + A.width then
        E.elem i j + a * A.elem (i - ro) (j - co)
      else E.elem i j }

/-- Modelled from the spec: `DenseMatrix::AddMatrix(A, ro, co)` (linalg/densemat)
adds `A` into the block of the receiver whose first row is `ro` and first
column is `co`. -/
def DenseMatrix.AddMatrix {R : Type} [Add R] (E A : DenseMatrix R) (ro co : Nat) :
    DenseMatrix R :=
  { height := E.height, width := E.width,
    elem := fun i j =>
      if ro ≤ i ∧ i < ro + A.height ∧ co ≤ j ∧ j < co + A.width then
        E.elem i j + A.elem (i - ro) (j - co)
      else E.elem i j }

/-- Modelled from the spec: `AddMultADAt(A, D, ADAt)` (linalg/densemat)
accumulates `A * diag(D) * A^t` into `ADAt`, the diagonal-scaled outer
product. -/
def AddMultADAt {R : Type} [Semiring R] (A : DenseMatrix R) (D : Vector R)
    (ADAt : DenseMatrix R) : DenseMatrix R :=
  { height := ADAt.height, width := ADAt.width,
    elem := fun i j =>
      if i < A.height ∧ j < A.height then
        ADAt.elem i j +
          Finset.sum (Finset.range A.width) fun k => A.elem i k * D.elem k * A.elem j k
      else ADAt.elem i j }

/-- Modelled from the spec: `CalcOrtho(J, n)` (linalg/densemat) stores in `n` the
face normal, the vector orthogonal to the columns of the face Jacobian `J`: for
a `2 x 1` Jacobian the rotated column, for a `3 x 2` Jacobian the cross product
of the two columns. -/
def CalcOrtho {R : Type} [Ring R] (J : DenseMatrix R) (n : Vector R) : Vector R :=
  if J.height = 2 then
    { size := n.size,
      elem := fun i => if i = 0 then J.elem 1 0 else if i = 1 then -J.elem 0 0 else n.elem i }
  else
    { size := n.size,
      elem := fun i =>
        if i = 0 then J.elem 1 0 * J.elem 2 1 - J.elem 2 0 * J.elem 1 1
        else if i = 1 then J.elem 2 0 * J.elem 0 1 - J.elem 0 0 * J.elem 2 1
        else if i = 2 then J.elem 0 0 * J.elem 1 1 - J.elem 1 0 * J.elem 0 1
        else n.elem i }

/-! ### Inverse, products with a transpose, gradient transforms -/

/-- Modelled from the spec: `CalcInverse(a, inva)` (linalg/densemat) stores the
inverse used for the pullback: the matrix of `CalcAdjugate` divided by the
determinant, that is `adj(a) / det(a)` for a square `a` and the left inverse
`adj(a^t.a).a^t / det(a^t.a)` otherwise. -/
def CalcInverse {R : Type} [Field R] (a inva : DenseMatrix R) : DenseMatrix R :=
  if a.height = a.width then
    (CalcAdjugate a inva).scale (a.toFin a.height a.height).det⁻¹
  else
    (CalcAdjugate a inva).scale
      ((a.toFin a.height a.width).transpose * a.toFin a.height a.width).det⁻¹

/-- Modelled from the spec: `MultAAt(a, aat)` (linalg/densemat) stores the
product `a * a^t` in the pre-sized buffer `aat`. -/
def MultAAt {R : Type} [Semiring R] (a aat : DenseMatrix R) : DenseMatrix R :=
  { height := aat.height, width := aat.width,
    elem := fun i j => Finset.sum (Finset.range a.width) fun k => a.elem i k * a.elem j k }

/-- Modelled from the spec: `MultABt(A, B, ABt)` (linalg/densemat) stores the
product `A * B^t` in the pre-sized buffer `ABt`. -/
def MultABt {R : Type} [Semiring R] (A B ABt : DenseMatrix R) : DenseMatrix R :=
  { height := ABt.height, width := ABt.width,
    elem := fun i j => Finset.sum (Finset.range A.width) fun k => A.elem i k * B.elem j k }

/-- Modelled from the spec: `MultAtB(A, B, AtB)` (linalg/densemat) stores the
product `A^t * B` in the pre-sized buffer `AtB`. -/
def MultAtB {R : Type} [Semiring R] (A B AtB : DenseMatrix R) : DenseMatrix R :=
  { height := AtB.height, width := AtB.width,
    elem := fun i j => Finset.sum (Finset.range A.height) fun k => A.elem k i * B.elem k j }

/-- Modelled from the spec: `DenseMatrix::InnerProduct(x, y)` (linalg/densemat),
the value `y^t * A * x` of the bilinear form of the matrix. -/
def DenseMatrix.InnerProduct {R : Type} [Semiring R] (A : DenseMatrix R) (x y : Vector R) : R :=
  Finset.sum (Finset.range A.height) fun i =>
    y.elem i * Finset.sum (Finset.range A.width) fun j => A.elem i j * x.elem j

/-- Modelled from the spec: `DenseMatrix::GradToDiv(div)` (linalg/densemat), the
gradient-to-divergence transform: the `n x d` gradient table is copied column
after column into the vector `div`, so that `div(n*c + k)` is the derivative of
basis function `k` in direction `c`. -/
def DenseMatrix.GradToDiv {R : Type} (A : DenseMatrix R) (div : Vector R) : Vector R :=
  { size := div.size,
    elem := fun a =>
      if a < A.height * A.width then A.elem (a % A.height) (a / A.height) else div.elem a }

/-- Modelled from the spec: `DenseMatrix::GradToCurl(curl)` (linalg/densemat), the
gradient-to-curl transform of an `n x d` gradient table. With `(x, y)` the
gradient of basis function `i` in two dimensions, the scalar curl of `(Ui, 0)`
is `-y` (row `i`) and that of `(0, Ui)` is `x` (row `n + i`). With `(x, y, z)`
in three dimensions, the curls of `(Ui, 0, 0)`, `(0, Ui, 0)`, `(0, 0, Ui)` are
`(0, z, -y)` (row `i`), `(-z, 0, x)` (row `n + i`), `(y, -x, 0)` (row
`2n + i`). -/
def DenseMatrix.GradToCurl {R : Type} [Ring R] (A curl : DenseMatrix R) : DenseMatrix R :=
  let n := A.height
  if A.width = 2 then
    { height := curl.height, width := curl.width,
      elem := fun a b =>
        if b = 0 ∧ a < n then -A.elem a 1
        else if b = 0 ∧ a < 2 * n then A.elem (a - n) 0
        else curl.elem a b }
  else
    { height := curl.height, width := curl.width,
      elem := fun a b =>
        if a < n then
          (if b = 0 then 0 else if b = 1 then A.elem a 2 else if b = 2 then -A.elem a 1
            else curl.elem a b)
        else if a < 2 * n then
          (if b = 0 then -A.elem (a - n) 2 else if b = 1 then 0
            else if b = 2 then A.elem (a - n) 0 else curl.elem a b)
        else if a < 3 * n then
          (if b = 0 then A.elem (a - 2 * n) 1 else if b = 1 then -A.elem (a - 2 * n) 0
            else if b = 2 then 0 else curl.elem a b)
        else curl.elem a b }

/-- Modelled from the spec: `DenseMatrix::GetColumnReference(c, col)`
(linalg/densemat) makes `col` refer to column `c` of the matrix; this is the
content seen through the reference. -/
def DenseMatrix.GetColumnReference {R : Type} (A : DenseMatrix R) (c : Nat) : Vector R :=
  { size := A.height, elem := fun s => A.elem s c }

/-- A write through a column reference: column `c` of the matrix takes the
entries of `col`. -/
def DenseMatrix.SetColumn {R : Type} (A : DenseMatrix R) (c : Nat) (col : Vector R) :
    DenseMatrix R :=
  { height := A.height, width := A.width,
    elem := fun s j => if j = c then col.elem s else A.elem s j }

/-- The statement `v(i) += c`. -/
def Vector.addAt {R : Type} [Add R] (v : Vector R) (i : Nat) (c : R) : Vector R :=
  { size := v.size, elem := fun a => if a = i then v.elem a + c else v.elem a }

/-! ## Fatal errors (general/error) -/

/-- Modelled from the spec: `mfem_error(msg)` (general/error) is the fatal
signal: it reports `msg` and never returns. -/
def mfem_error {α : Type} (msg : String) : Except String α :=
  Except.error msg

/-- Modelled from the spec: the macro `MFEM_ABORT(msg)` (general/error) is the
fatal signal: it reports `msg` and never returns. -/
def MFEM_ABORT {α : Type} (msg : String) : Except String α :=
  Except.error msg

/-- Modelled from the spec: the macro `MFEM_ASSERT(x, msg)` (general/error)
enforces the contract `x` at the boundary of the call: when `x` is false the
failure is signalled immediately and is fatal. -/
def MFEM_ASSERT (x : Bool) (msg : String) : Except String Unit :=
  if x then Except.ok () else Except.error msg

/-! ## External collaborators -/

/-- Class `IntegrationPoint`: reference coordinates and a quadrature weight. -/
structure IntegrationPoint (R : Type) where
  x : R
  y : R
  z : R
  weight : R

/-- Class `IntegrationRule`: a finite ordered sequence of integration points. -/
abbrev IntegrationRule (R : Type) := List (IntegrationPoint R)

/-- The tables `IntRules` and `RefinedIntRules`: `Get(geometry, order)`. -/
structure IntegrationRules (R : Type) where
  Get : Nat → Int → IntegrationRule R

/-- The enumeration `FunctionSpace`. -/
inductive FunctionSpace where
  | Pk
  | Qk
  | rQk
  deriving DecidableEq, Repr

/-- The map types of a finite element; the source names `FiniteElement::VALUE`. -/
inductive MapType where
  | VALUE
  | INTEGRAL
  deriving DecidableEq, Repr

/-- Class `ElementTransformation`, the geometric mapping. `SetIntPoint(&ip)`
followed by `Jacobian()` or `Weight()` is the value of the field at `ip`.
`OrderGrad(&fe)` is a function of the dimension, the order and the function
space of the element `fe`. -/
structure ElementTransformation (R : Type) where
  GetSpaceDim : Nat
  OrderW : Int
  Jacobian : IntegrationPoint R → DenseMatrix R
  Weight : IntegrationPoint R → R
  OrderGrad : Nat → Int → FunctionSpace → Int := fun _ _ _ => 0
  Order : Int := 0

/-- Class `FiniteElement`, the basis evaluator. `CalcShape ip` are the values
written into a vector of length `GetDof`, `CalcDShape ip` the reference
gradients written into a `GetDof x GetDim` matrix, `CalcVShape Trans ip` the
vector values, mapped through `Trans` at its current point `ip`, written into a
`GetDof x GetDim` matrix, `GetNodes` the nodes of the element, `CalcCurlShape ip`
the reference curls written into a matrix with `GetDof` rows. -/
structure FiniteElement (R : Type) where
  GetDim : Nat
  GetGeomType : Nat
  GetDof : Nat
  GetOrder : Int
  Space : FunctionSpace
  CalcShape : IntegrationPoint R → Nat → R
  CalcDShape : IntegrationPoint R → Nat → Nat → R
  GetMapType : MapType := MapType.VALUE
  CalcVShape : ElementTransformation R → IntegrationPoint R → Nat → Nat → R
  GetNodes : IntegrationRule R := []
  CalcCurlShape : IntegrationPoint R → Nat → Nat → R

/-- Class `IntegrationPointTransformation`: maps a face point to an element
point. -/
structure IntegrationPointTransformation (R : Type) where
  Transform : IntegrationPoint R → IntegrationPoint R

/-- Class `FaceElementTransformations`: the two neighbours of a face (the second
is absent when `Elem2No < 0`), the face mapping and the two point maps. -/
structure FaceElementTransformations (R : Type) where
  Elem1No : Int
  Elem2No : Int
  FaceGeom : Nat
  Elem1 : ElementTransformation R
  Elem2 : ElementTransformation R
  Face : ElementTransformation R
  Loc1 : IntegrationPointTransformation R
  Loc2 : IntegrationPointTransformation R

/-- Class `Coefficient`: a scalar field, `Eval(T, ip)`. -/
structure Coefficient (R : Type) where
  Eval : ElementTransformation R → IntegrationPoint R → R

/-- Class `VectorCoefficient`: a vector field of dimension `GetVDim()`,
`Eval(V, T, ip)` writes `V`. -/
structure VectorCoefficient (R : Type) where
  GetVDim : Nat
  Eval : ElementTransformation R → IntegrationPoint R → Vector R

/-- Modelled from the spec: `VectorCoefficient::Eval(M, T, ir)` (fem/coefficient)
evaluates the coefficient at all points of the rule `ir` up front: `M` becomes
the `vdim x npoints` matrix whose column `i` is the value at point `i`. -/
def VectorCoefficient.EvalRule {R : Type} [Zero R] (Q : VectorCoefficient R)
    (_M : DenseMatrix R) (T : ElementTransformation R) (ir : IntegrationRule R) :
    DenseMatrix R :=
  { height := Q.GetVDim, width := ir.length,
    elem := fun s i =>
      match ir[i]? with
      | some ip => (Q.Eval T ip).elem s
      | none => 0 }

/-- Class `MatrixCoefficient`: a matrix field of dimension `GetVDim()`,
`Eval(K, T, ip)` writes `K`. -/
structure MatrixCoefficient (R : Type) where
  GetVDim : Nat
  Eval : ElementTransformation R → IntegrationPoint R → DenseMatrix R

/-! ## The integrator interface and its defaults (lines 23-62) -/

/-- A `BilinearFormIntegrator *`: the five virtual methods of an integrator
object. Each takes the output buffer of the caller and returns the buffer it
leaves behind, or aborts. -/
structure Integrator (R : Type) where
  AssembleElementMatrix :
    FiniteElement R → ElementTransformation R → DenseMatrix R → Except String (DenseMatrix R)
  AssembleElementMatrix2 :
    FiniteElement R → FiniteElement R → ElementTransformation R → DenseMatrix R →
      Except String (DenseMatrix R)
  AssembleFaceMatrix :
    FiniteElement R → FiniteElement R → FaceElementTransformations R → DenseMatrix R →
      Except String (DenseMatrix R)
  AssembleFaceMatrixMixed :
    FiniteElement R → FiniteElement R → FiniteElement R → FaceElementTransformations R →
      DenseMatrix R → Except String (DenseMatrix R)
  AssembleElementVector :
    FiniteElement R → ElementTransformation R → Vector R → Vector R → Except String (Vector R)

namespace BilinearFormIntegrator

/-- Method `BilinearFormIntegrator::AssembleElementMatrix` (lines 23-29). -/
def AssembleElementMatrix {R : Type} (_el : FiniteElement R) (_Trans : ElementTransformation R)
    (_elmat : DenseMatrix R) : Except String (DenseMatrix R) :=
  mfem_error
    "BilinearFormIntegrator::AssembleElementMatrix (...)\n   is not implemented fot this class."

/-- Method `BilinearFormIntegrator::AssembleElementMatrix2` (lines 31-37). -/
def AssembleElementMatrix2 {R : Type} (_el1 _el2 : FiniteElement R)
    (_Trans : ElementTransformation R) (_elmat : DenseMatrix R) :
    Except String (DenseMatrix R) :=
  mfem_error
    "BilinearFormIntegrator::AssembleElementMatrix2 (...)\n   is not implemented fot this class."

/-- Method `BilinearFormIntegrator::AssembleFaceMatrix`, two elements (lines 39-45). -/
def AssembleFaceMatrix {R : Type} (_el1 _el2 : FiniteElement R)
    (_Trans : FaceElementTransformations R) (_elmat : DenseMatrix R) :
    Except String (DenseMatrix R) :=
  mfem_error
    "BilinearFormIntegrator::AssembleFaceMatrix (...)\n   is not implemented fot this class."

/-- Method `BilinearFormIntegrator::AssembleFaceMatrix`, mixed form with a trace
element and two test elements (lines 47-54). -/
def AssembleFaceMatrixMixed {R : Type} (_trial_face_fe _test_fe1 _test_fe2 : FiniteElement R)
    (_Trans : FaceElementTransformations R) (_elmat : DenseMatrix R) :
    Except String (DenseMatrix R) :=
  MFEM_ABORT "AssembleFaceMatrix (mixed form) is not implemented for this Integrator class."

/-- Method `BilinearFormIntegrator::AssembleElementVector` (lines 56-62). -/
def AssembleElementVector {R : Type} (_el : FiniteElement R) (_Tr : ElementTransformation R)
    (_elfun _elvect : Vector R) : Except String (Vector R) :=
  mfem_error
    "BilinearFormIntegrator::AssembleElementVector\n   is not implemented fot this class."

/-- An object of a class that overrides nothing. -/
def toIntegrator {R : Type} : Integrator R :=
  { AssembleElementMatrix := AssembleElementMatrix
    AssembleElementMatrix2 := AssembleElementMatrix2
    AssembleFaceMatrix := AssembleFaceMatrix
    AssembleFaceMatrixMixed := AssembleFaceMatrixMixed
    AssembleElementVector := AssembleElementVector }

end BilinearFormIntegrator

/-! ## Composite wrappers (lines 65-125) -/

/-- Class `TransposeIntegrator`: the wrapped integrator `bfi` and the member
buffer `bfi_elmat` with its content at the time of the call. -/
structure TransposeIntegrator (R : Type) where
  bfi : Integrator R
  bfi_elmat : DenseMatrix R

namespace TransposeIntegrator

/-- Method `TransposeIntegrator::AssembleElementMatrix` (lines 65-71). -/
def AssembleElementMatrix {R : Type} (self : TransposeIntegrator R) (el : FiniteElement R)
    (Trans : ElementTransformation R) (elmat : DenseMatrix R) :
    Except String (DenseMatrix R) := do
  let bfi_elmat ← self.bfi.AssembleElementMatrix el Trans self.bfi_elmat
  -- elmat = bfi_elmat^t
  pure (elmat.Transpose bfi_elmat)

/-- Method `TransposeIntegrator::AssembleElementMatrix2` (lines 73-80). -/
def AssembleElementMatrix2 {R : Type} (self : TransposeIntegrator R)
    (trial_fe test_fe : FiniteElement R) (Trans : ElementTransformation R)
    (elmat : DenseMatrix R) : Except String (DenseMatrix R) := do
  let bfi_elmat ← self.bfi.AssembleElementMatrix2 test_fe trial_fe Trans self.bfi_elmat
  -- elmat = bfi_elmat^t
  pure (elmat.Transpose bfi_elmat)

/-- Method `TransposeIntegrator::AssembleFaceMatrix` (lines 82-89). -/
def AssembleFaceMatrix {R : Type} (self : TransposeIntegrator R) (el1 el2 : FiniteElement R)
    (Trans : FaceElementTransformations R) (elmat : DenseMatrix R) :
    Except String (DenseMatrix R) := do
  let bfi_elmat ← self.bfi.AssembleFaceMatrix el1 el2 Trans self.bfi_elmat
  -- elmat = bfi_elmat^t
  pure (elmat.Transpose bfi_elmat)

/-- A `TransposeIntegrator` object seen through the base class pointer. -/
def toIntegrator {R : Type} (self : TransposeIntegrator R) : Integrator R :=
  { BilinearFormIntegrator.toIntegrator with
    AssembleElementMatrix := self.AssembleElementMatrix
    AssembleElementMatrix2 := self.AssembleElementMatrix2
    AssembleFaceMatrix := self.AssembleFaceMatrix }

end TransposeIntegrator

/-- Class `LumpedIntegrator`: the wrapped integrator `bfi`. -/
structure LumpedIntegrator (R : Type) where
  bfi : Integrator R

namespace LumpedIntegrator

/-- Method `LumpedIntegrator::AssembleElementMatrix` (lines 91-96). -/
def AssembleElementMatrix {R : Type} [AddCommMonoid R] (self : LumpedIntegrator R)
    (el : FiniteElement R) (Trans : ElementTransformation R) (elmat : DenseMatrix R) :
    Except String (DenseMatrix R) := do
  let elmat ← self.bfi.AssembleElementMatrix el Trans elmat
  pure elmat.Lump

/-- A `LumpedIntegrator` object seen through the base class pointer. -/
def toIntegrator {R : Type} [AddCommMonoid R] (self : LumpedIntegrator R) : Integrator R :=
  { BilinearFormIntegrator.toIntegrator with
    AssembleElementMatrix := self.AssembleElementMatrix }

end LumpedIntegrator

/-- Class `InverseIntegrator`: the wrapped integrator `integrator`. -/
structure InverseIntegrator (R : Type) where
  integrator : Integrator R

namespace InverseIntegrator

/-- Method `InverseIntegrator::AssembleElementMatrix` (lines 98-103). -/
def AssembleElementMatrix {R : Type} [Field R] (self : InverseIntegrator R)
    (el : FiniteElement R) (Trans : ElementTransformation R) (elmat : DenseMatrix R) :
    Except String (DenseMatrix R) := do
  let elmat ← self.integrator.AssembleElementMatrix el Trans elmat
  pure elmat.Invert

/-- An `InverseIntegrator` object seen through the base class pointer. -/
def toIntegrator {R : Type} [Field R] (self : InverseIntegrator R) : Integrator R :=
  { BilinearFormIntegrator.toIntegrator with
    AssembleElementMatrix := self.AssembleElementMatrix }

end InverseIntegrator

/-- Class `SumIntegrator`: the ordered list `integrators`, the ownership flag
and the member buffer `elem_mat` with its content at the time of the call. -/
structure SumIntegrator (R : Type) where
  own_integrators : Bool
  integrators : List (Integrator R)
  elem_mat : DenseMatrix R

namespace SumIntegrator

/-- The loop `for (int i = 1; i < integrators.Size(); i++)` of lines 111-115
over the remaining integrators: each one assembles into `elem_mat`, which is
then added to `elmat`. -/
def loop {R : Type} [Add R] (el : FiniteElement R) (Trans : ElementTransformation R) :
    List (Integrator R) → DenseMatrix R → DenseMatrix R → Except String (DenseMatrix R)
  | [], elmat, _ => pure elmat
  | I :: rest, elmat, elem_mat => do
    let elem_mat ← I.AssembleElementMatrix el Trans elem_mat
    loop el Trans rest (elmat.addAssign elem_mat) elem_mat

/-- Method `SumIntegrator::AssembleElementMatrix` (lines 105-116). -/
def AssembleElementMatrix {R : Type} [Add R] (self : SumIntegrator R) (el : FiniteElement R)
    (Trans : ElementTransformation R) (elmat : DenseMatrix R) :
    Except String (DenseMatrix R) := do
  MFEM_ASSERT (decide (self.integrators.length > 0)) "empty SumIntegrator."
  match self.integrators with
  -- integrators[0] on an empty array; not reached, the assertion has failed
  | [] => Except.error "integrators[0]: index out of range"
  | I0 :: rest =>
    let elmat ← I0.AssembleElementMatrix el Trans elmat
    loop el Trans rest elmat self.elem_mat

/-- A `SumIntegrator` object seen through the base class pointer. -/
def toIntegrator {R : Type} [Add R] (self : SumIntegrator R) : Integrator R :=
  { BilinearFormIntegrator.toIntegrator with
    AssembleElementMatrix := self.AssembleElementMatrix }

end SumIntegrator

/-! ## Diffusion integrator (lines 128-190) -/

/-- Class `DiffusionIntegrator`: the optional rule `IntRule`, the optional
scalar coefficient `Q` and the optional matrix coefficient `MQ`. The work
matrices `dshape`, `dshapedxt`, `invdfdx` are sized and overwritten in every
call before they are read, so they are locals here. -/
structure DiffusionIntegrator (R : Type) where
  IntRule : Option (IntegrationRule R)
  Q : Option (Coefficient R)
  MQ : Option (MatrixCoefficient R)

namespace DiffusionIntegrator

/-- The quadrature order computed at lines 150-155 when no rule is supplied. -/
def order {R : Type} (el : FiniteElement R) : Int :=
  if el.Space = FunctionSpace.Pk then
    2 * el.GetOrder - 2
  else
    -- order = 2*el.GetOrder() - 2;  // <-- this seems to work fine too
    2 * el.GetOrder + (el.GetDim : Int) - 1

/-- The rule selected at lines 147-161: the supplied rule, else the rule of the
computed order from the refined table for `rQk` and from the plain table
otherwise. -/
def rule {R : Type} (IntRules RefinedIntRules : IntegrationRules R)
    (self : DiffusionIntegrator R) (el : FiniteElement R) : IntegrationRule R :=
  match self.IntRule with
  | some ir => ir
  | none =>
    if el.Space = FunctionSpace.rQk then
      RefinedIntRules.Get el.GetGeomType (order el)
    else
      IntRules.Get el.GetGeomType (order el)

/-- The body of the quadrature loop of lines 164-189 at one point `ip`. -/
def point {R : Type} [Field R] (self : DiffusionIntegrator R) (el : FiniteElement R)
    (Trans : ElementTransformation R) (elmat : DenseMatrix R) (ip : IntegrationPoint R) :
    DenseMatrix R :=
  let nd := el.GetDof
  let dim := el.GetDim
  let spaceDim := Trans.GetSpaceDim
  let square : Bool := decide (dim = spaceDim)
  let dshape : DenseMatrix R := { height := nd, width := dim, elem := el.CalcDShape ip }
  let dshapedxt : DenseMatrix R := { height := nd, width := spaceDim, elem := fun _ _ => 0 }
  let invdfdx : DenseMatrix R := { height := dim, width := spaceDim, elem := fun _ _ => 0 }
  -- Compute invdfdx = / adj(J),         if J is square
  --                   \ adj(J^t.J).J^t, otherwise
  let invdfdx := CalcAdjugate (Trans.Jacobian ip) invdfdx
  let w := Trans.Weight ip
  let w := ip.weight / (if square then w else w * w * w)
  let dshapedxt := Mult dshape invdfdx dshapedxt
  match self.MQ with
  | none =>
    let w := match self.Q with
      | some Q => w * Q.Eval Trans ip
      | none => w
    AddMult_a_AAt w dshapedxt elmat
  | some MQ =>
    let invdfdx := MQ.Eval Trans ip
    let invdfdx := invdfdx.scale w
    let dshape := Mult dshapedxt invdfdx dshape
    AddMultABt dshape dshapedxt elmat

/-- Method `DiffusionIntegrator::AssembleElementMatrix` (lines 128-190). -/
def AssembleElementMatrix {R : Type} [Field R] (IntRules RefinedIntRules : IntegrationRules R)
    (self : DiffusionIntegrator R) (el : FiniteElement R) (Trans : ElementTransformation R)
    (elmat : DenseMatrix R) : Except String (DenseMatrix R) :=
  let nd := el.GetDof
  let elmat := elmat.SetSize nd nd
  let ir := rule IntRules RefinedIntRules self el
  let elmat := elmat.assign 0
  pure (ir.foldl (point self el Trans) elmat)

end DiffusionIntegrator

/-! ### The diffusion matrix as the specification states it -/

namespace DiffusionIntegrator

/-- The coefficient matrix `C` of the specification at one point: the value of
`MQ` when one is configured, else the scalar coefficient value times the
identity (1 if no coefficient). -/
def formulaC {R : Type} [Field R] (self : DiffusionIntegrator R)
    (Trans : ElementTransformation R) (ip : IntegrationPoint R) (l k : Nat) : R :=
  match self.MQ with
  | some MQ => (MQ.Eval Trans ip).elem l k
  | none =>
    (match self.Q with
      | some Q => Q.Eval Trans ip
      | none => 1) * (if l = k then 1 else 0)

/-- The table `G = dshape * invdfdx` of the specification at one point, with
`invdfdx` computed by `CalcAdjugate` from the Jacobian. -/
def formulaG {R : Type} [Field R] (el : FiniteElement R) (Trans : ElementTransformation R)
    (ip : IntegrationPoint R) : DenseMatrix R :=
  Mult { height := el.GetDof, width := el.GetDim, elem := el.CalcDShape ip }
    (CalcAdjugate (Trans.Jacobian ip)
      { height := el.GetDim, width := Trans.GetSpaceDim, elem := fun _ _ => 0 })
    { height := el.GetDof, width := Trans.GetSpaceDim, elem := fun _ _ => 0 }

/-- Entry `(i,j)` of `s * G * C * G^T` at one point, as the specification states
it: `s = ip.weight / W` when the reference and physical dimensions are equal
and `ip.weight / W^3` when they differ. -/
def formulaPoint {R : Type} [Field R] (self : DiffusionIntegrator R) (el : FiniteElement R)
    (Trans : ElementTransformation R) (ip : IntegrationPoint R) (i j : Nat) : R :=
  let W := Trans.Weight ip
  let s := if el.GetDim = Trans.GetSpaceDim then ip.weight / W else ip.weight / W ^ 3
  s * Finset.sum (Finset.range Trans.GetSpaceDim) fun k =>
    Finset.sum (Finset.range Trans.GetSpaceDim) fun l =>
      (formulaG el Trans ip).elem i l * formulaC self Trans ip l k *
        (formulaG el Trans ip).elem j k

/-- Entry `(i,j)` of the sum over the quadrature points of `s * G * C * G^T`. -/
def formula {R : Type} [Field R] (IntRules RefinedIntRules : IntegrationRules R)
    (self : DiffusionIntegrator R) (el : FiniteElement R) (Trans : ElementTransformation R)
    (i j : Nat) : R :=
  ((rule IntRules RefinedIntRules self el).map fun ip =>
    formulaPoint self el Trans ip i j).sum

end DiffusionIntegrator

/-! ## Mass integrator (lines 442-516) -/

/-- Class `MassIntegrator`: the optional rule `IntRule` and the optional scalar
coefficient `Q`. The work vectors `shape` and `te_shape` are sized and
overwritten in every call before they are read, so they are locals here. -/
structure MassIntegrator (R : Type) where
  IntRule : Option (IntegrationRule R)
  Q : Option (Coefficient R)

namespace MassIntegrator

/-- The rule selected at lines 453-463: the supplied rule, else the rule of
order `2 * el.GetOrder() + Trans.OrderW()` from the refined table for `rQk` and
from the plain table otherwise. -/
def rule {R : Type} (IntRules RefinedIntRules : IntegrationRules R)
    (self : MassIntegrator R) (el : FiniteElement R) (Trans : ElementTransformation R) :
    IntegrationRule R :=
  match self.IntRule with
  | some ir => ir
  | none =>
    -- int order = 2 * el.GetOrder();
    let order := 2 * el.GetOrder + Trans.OrderW
    if el.Space = FunctionSpace.rQk then
      RefinedIntRules.Get el.GetGeomType order
    else
      IntRules.Get el.GetGeomType order

/-- The body of the quadrature loop of lines 466-477 at one point `ip`. -/
def point {R : Type} [Field R] (self : MassIntegrator R) (el : FiniteElement R)
    (Trans : ElementTransformation R) (elmat : DenseMatrix R) (ip : IntegrationPoint R) :
    DenseMatrix R :=
  let nd := el.GetDof
  let shape : Vector R := { size := nd, elem := el.CalcShape ip }
  let w := Trans.Weight ip * ip.weight
  let w := match self.Q with
    | some Q => w * Q.Eval Trans ip
    | none => w
  AddMult_a_VVt w shape elmat

/-- Method `MassIntegrator::AssembleElementMatrix` (lines 442-478). -/
def AssembleElementMatrix {R : Type} [Field R] (IntRules RefinedIntRules : IntegrationRules R)
    (self : MassIntegrator R) (el : FiniteElement R) (Trans : ElementTransformation R)
    (elmat : DenseMatrix R) : Except String (DenseMatrix R) :=
  let nd := el.GetDof
  let elmat := elmat.SetSize nd nd
  let ir := rule IntRules RefinedIntRules self el Trans
  let elmat := elmat.assign 0
  pure (ir.foldl (point self el Trans) elmat)

/-- The rule selected at lines 493-499 for the mixed form: the supplied rule,
else the rule of order `trial order + test order + Trans.OrderW()` from the
plain table. -/
def rule2 {R : Type} (IntRules : IntegrationRules R) (self : MassIntegrator R)
    (trial_fe test_fe : FiniteElement R) (Trans : ElementTransformation R) :
    IntegrationRule R :=
  match self.IntRule with
  | some ir => ir
  | none =>
    let order := trial_fe.GetOrder + test_fe.GetOrder + Trans.OrderW
    IntRules.Get trial_fe.GetGeomType order

/-- The body of the quadrature loop of lines 502-515 at one point `ip`. -/
def point2 {R : Type} [Field R] (self : MassIntegrator R) (trial_fe test_fe : FiniteElement R)
    (Trans : ElementTransformation R) (elmat : DenseMatrix R) (ip : IntegrationPoint R) :
    DenseMatrix R :=
  let tr_nd := trial_fe.GetDof
  let te_nd := test_fe.GetDof
  let shape : Vector R := { size := tr_nd, elem := trial_fe.CalcShape ip }
  let te_shape : Vector R := { size := te_nd, elem := test_fe.CalcShape ip }
  let w := Trans.Weight ip * ip.weight
  let w := match self.Q with
    | some Q => w * Q.Eval Trans ip
    | none => w
  let te_shape := te_shape.scale w
  AddMultVWt te_shape shape elmat

/-- Method `MassIntegrator::AssembleElementMatrix2` (lines 480-516). -/
def AssembleElementMatrix2 {R : Type} [Field R] (IntRules : IntegrationRules R)
    (self : MassIntegrator R) (trial_fe test_fe : FiniteElement R)
    (Trans : ElementTransformation R) (elmat : DenseMatrix R) :
    Except String (DenseMatrix R) :=
  let tr_nd := trial_fe.GetDof
  let te_nd := test_fe.GetDof
  let elmat := elmat.SetSize te_nd tr_nd
  let ir := rule2 IntRules self trial_fe test_fe Trans
  let elmat := elmat.assign 0
  pure (ir.foldl (point2 self trial_fe test_fe Trans) elmat)

/-- A `MassIntegrator` object seen through the base class pointer. -/
def toIntegrator {R : Type} [Field R] (IntRules RefinedIntRules : IntegrationRules R)
    (self : MassIntegrator R) : Integrator R :=
  { BilinearFormIntegrator.toIntegrator with
    AssembleElementMatrix := self.AssembleElementMatrix IntRules RefinedIntRules
    AssembleElementMatrix2 := self.AssembleElementMatrix2 IntRules }

end MassIntegrator

/-! ## Diffusion integrator, action form (lines 262-327) -/

namespace DiffusionIntegrator

/-- The quadrature order computed at lines 285-290 of `AssembleElementVector`
when no rule is supplied. -/
def orderVector {R : Type} (el : FiniteElement R) : Int :=
  if el.Space = FunctionSpace.Pk then
    2 * el.GetOrder - 2
  else
    -- order = 2*el.GetOrder() - 2;  // <-- this seems to work fine too
    2 * el.GetOrder + (el.GetDim : Int) - 1

/-- The rule selected at lines 282-296 of `AssembleElementVector`. -/
def ruleVector {R : Type} (IntRules RefinedIntRules : IntegrationRules R)
    (self : DiffusionIntegrator R) (el : FiniteElement R) : IntegrationRule R :=
  match self.IntRule with
  | some ir => ir
  | none =>
    if el.Space = FunctionSpace.rQk then
      RefinedIntRules.Get el.GetGeomType (orderVector el)
    else
      IntRules.Get el.GetGeomType (orderVector el)

/-- The body of the quadrature loop of lines 299-326 at one point `ip`. -/
def pointVector {R : Type} [Field R] (self : DiffusionIntegrator R) (el : FiniteElement R)
    (Tr : ElementTransformation R) (elfun elvect : Vector R) (ip : IntegrationPoint R) :
    Vector R :=
  let nd := el.GetDof
  let dim := el.GetDim
  let dshape : DenseMatrix R := { height := nd, width := dim, elem := el.CalcDShape ip }
  let invdfdx : DenseMatrix R := { height := dim, width := dim, elem := fun _ _ => 0 }
  let vec : Vector R := { size := dim, elem := fun _ => 0 }
  let pointflux : Vector R := { size := dim, elem := fun _ => 0 }
  let invdfdx := CalcAdjugate (Tr.Jacobian ip) invdfdx -- invdfdx = adj(J)
  let w := ip.weight / Tr.Weight ip
  let pointflux := match self.MQ with
    | none =>
      let vec := dshape.MultTranspose elfun vec
      invdfdx.MultTranspose vec pointflux
    | some MQ =>
      let pointflux := dshape.MultTranspose elfun pointflux
      let vec := invdfdx.MultTranspose pointflux vec
      let mq := MQ.Eval Tr ip
      mq.Mult vec pointflux
  let w := match self.MQ with
    | none =>
      match self.Q with
      | some Q => w * Q.Eval Tr ip
      | none => w
    | some _ => w
  let pointflux := pointflux.scale w
  let vec := invdfdx.Mult pointflux vec
  dshape.AddMult vec elvect

/-- Method `DiffusionIntegrator::AssembleElementVector` (lines 262-327). -/
def AssembleElementVector {R : Type} [Field R] (IntRules RefinedIntRules : IntegrationRules R)
    (self : DiffusionIntegrator R) (el : FiniteElement R) (Tr : ElementTransformation R)
    (elfun elvect : Vector R) : Except String (Vector R) :=
  let nd := el.GetDof
  let elvect := elvect.SetSize nd
  let ir := ruleVector IntRules RefinedIntRules self el
  let elvect := elvect.assign 0
  pure (ir.foldl (pointVector self el Tr elfun) elvect)

end DiffusionIntegrator

/-! ## Vector mass integrator (lines 614-750) -/

/-- Class `VectorMassIntegrator`: the optional rule `IntRule`, the optional
scalar, vector and matrix coefficients `Q`, `VQ`, `MQ` and the order `Q_order`
attributed to the coefficient. The work buffers are sized and overwritten in
every call before they are read, so they are locals here. -/
structure VectorMassIntegrator (R : Type) where
  IntRule : Option (IntegrationRule R)
  Q : Option (Coefficient R)
  VQ : Option (VectorCoefficient R)
  MQ : Option (MatrixCoefficient R)
  Q_order : Int

namespace VectorMassIntegrator

/-- The vector dimension of lines 625 and 693:
`vdim = (VQ) ? (VQ -> GetVDim()) : ((MQ) ? (MQ -> GetVDim()) : (dim))`. -/
def vdim {R : Type} (self : VectorMassIntegrator R) (dim : Nat) : Nat :=
  match self.VQ with
  | some VQ => VQ.GetVDim
  | none =>
    match self.MQ with
    | some MQ => MQ.GetVDim
    | none => dim

/-- The rule selected at lines 635-644. -/
def rule {R : Type} (IntRules RefinedIntRules : IntegrationRules R)
    (self : VectorMassIntegrator R) (el : FiniteElement R) (Trans : ElementTransformation R) :
    IntegrationRule R :=
  match self.IntRule with
  | some ir => ir
  | none =>
    let order := 2 * el.GetOrder + Trans.OrderW + self.Q_order
    if el.Space = FunctionSpace.rQk then
      RefinedIntRules.Get el.GetGeomType order
    else
      IntRules.Get el.GetGeomType order

/-- The body of the quadrature loop of lines 647-678 at one point `ip`. -/
def point {R : Type} [Field R] (self : VectorMassIntegrator R) (el : FiniteElement R)
    (Trans : ElementTransformation R) (elmat : DenseMatrix R) (ip : IntegrationPoint R) :
    DenseMatrix R :=
  let nd := el.GetDof
  let dim := el.GetDim
  let vdim := self.vdim dim
  let shape : Vector R := { size := nd, elem := el.CalcShape ip }
  let partelmat : DenseMatrix R := { height := nd, width := nd, elem := fun _ _ => 0 }
  let norm := ip.weight * Trans.Weight ip
  let partelmat := MultVVt shape partelmat
  match self.VQ with
  | some VQ =>
    let vec := VQ.Eval Trans ip
    (List.range vdim).foldl
      (fun elmat k => elmat.AddMatrix_a (norm * vec.elem k) partelmat (nd * k) (nd * k)) elmat
  | none =>
    match self.MQ with
    | some MQ =>
      let mcoeff := MQ.Eval Trans ip
      (List.range vdim).foldl
        (fun elmat i =>
          (List.range vdim).foldl
            (fun elmat j =>
              elmat.AddMatrix_a (norm * mcoeff.elem i j) partelmat (nd * i) (nd * j)) elmat)
        elmat
    | none =>
      let norm := match self.Q with
        | some Q => norm * Q.Eval Trans ip
        | none => norm
      let partelmat := partelmat.scale norm
      (List.range vdim).foldl
        (fun elmat k => elmat.AddMatrix partelmat (nd * k) (nd * k)) elmat

/-- Method `VectorMassIntegrator::AssembleElementMatrix` (lines 614-679). -/
def AssembleElementMatrix {R : Type} [Field R] (IntRules RefinedIntRules : IntegrationRules R)
    (self : VectorMassIntegrator R) (el : FiniteElement R) (Trans : ElementTransformation R)
    (elmat : DenseMatrix R) : Except String (DenseMatrix R) :=
  let nd := el.GetDof
  let dim := el.GetDim
  -- Get vdim from the ElementTransformation Trans ?
  let vdim := self.vdim dim
  let elmat := elmat.SetSize (nd * vdim) (nd * vdim)
  let ir := rule IntRules RefinedIntRules self el Trans
  let elmat := elmat.assign 0
  pure (ir.foldl (point self el Trans) elmat)

/-- The rule selected at lines 704-714 for the mixed form. -/
def rule2 {R : Type} (IntRules RefinedIntRules : IntegrationRules R)
    (self : VectorMassIntegrator R) (trial_fe test_fe : FiniteElement R)
    (Trans : ElementTransformation R) : IntegrationRule R :=
  match self.IntRule with
  | some ir => ir
  | none =>
    let order := trial_fe.GetOrder + test_fe.GetOrder + Trans.OrderW + self.Q_order
    if trial_fe.Space = FunctionSpace.rQk then
      RefinedIntRules.Get trial_fe.GetGeomType order
    else
      IntRules.Get trial_fe.GetGeomType order

/-- The body of the quadrature loop of lines 717-749 at one point `ip`. -/
def point2 {R : Type} [Field R] (self : VectorMassIntegrator R)
    (trial_fe test_fe : FiniteElement R) (Trans : ElementTransformation R)
    (elmat : DenseMatrix R) (ip : IntegrationPoint R) : DenseMatrix R :=
  let tr_nd := trial_fe.GetDof
  let te_nd := test_fe.GetDof
  let dim := trial_fe.GetDim
  let vdim := self.vdim dim
  let shape : Vector R := { size := tr_nd, elem := trial_fe.CalcShape ip }
  let te_shape : Vector R := { size := te_nd, elem := test_fe.CalcShape ip }
  let partelmat : DenseMatrix R := { height := te_nd, width := tr_nd, elem := fun _ _ => 0 }
  let norm := ip.weight * Trans.Weight ip
  let partelmat := MultVWt te_shape shape partelmat
  match self.VQ with
  | some VQ =>
    let vec := VQ.Eval Trans ip
    (List.range vdim).foldl
      (fun elmat k => elmat.AddMatrix_a (norm * vec.elem k) partelmat (te_nd * k) (tr_nd * k))
      elmat
  | none =>
    match self.MQ with
    | some MQ =>
      let mcoeff := MQ.Eval Trans ip
      (List.range vdim).foldl
        (fun elmat i =>
          (List.range vdim).foldl
            (fun elmat j =>
              elmat.AddMatrix_a (norm * mcoeff.elem i j) partelmat (te_nd * i) (tr_nd * j))
            elmat)
        elmat
    | none =>
      let norm := match self.Q with
        | some Q => norm * Q.Eval Trans ip
        | none => norm
      let partelmat := partelmat.scale norm
      (List.range vdim).foldl
        (fun elmat k => elmat.AddMatrix partelmat (te_nd * k) (tr_nd * k)) elmat

/-- Method `VectorMassIntegrator::AssembleElementMatrix2` (lines 681-750). -/
def AssembleElementMatrix2 {R : Type} [Field R]
    (IntRules RefinedIntRules : IntegrationRules R) (self : VectorMassIntegrator R)
    (trial_fe test_fe : FiniteElement R) (Trans : ElementTransformation R)
    (elmat : DenseMatrix R) : Except String (DenseMatrix R) :=
  let tr_nd := trial_fe.GetDof
  let te_nd := test_fe.GetDof
  let dim := trial_fe.GetDim
  -- Get vdim from the ElementTransformation Trans ?
  let vdim := self.vdim dim
  let elmat := elmat.SetSize (te_nd * vdim) (tr_nd * vdim)
  let ir := rule2 IntRules RefinedIntRules self trial_fe test_fe Trans
  let elmat := elmat.assign 0
  pure (ir.foldl (point2 self trial_fe test_fe Trans) elmat)

end VectorMassIntegrator

/-! ## Vector finite element mass integrator (lines 1045-1164) -/

/-- Class `VectorFEMassIntegrator`: the optional rule `IntRule` and the optional
scalar, vector and matrix coefficients `Q`, `VQ`, `MQ`. The work buffers are
sized and overwritten in every call before they are read, so they are locals
here. -/
structure VectorFEMassIntegrator (R : Type) where
  IntRule : Option (IntegrationRule R)
  Q : Option (Coefficient R)
  VQ : Option (VectorCoefficient R)
  MQ : Option (MatrixCoefficient R)

namespace VectorFEMassIntegrator

/-- The rule selected at lines 1069-1075. -/
def rule {R : Type} (IntRules : IntegrationRules R) (self : VectorFEMassIntegrator R)
    (el : FiniteElement R) (Trans : ElementTransformation R) : IntegrationRule R :=
  match self.IntRule with
  | some ir => ir
  | none =>
    -- int order = 2 * el.GetOrder();
    let order := Trans.OrderW + 2 * el.GetOrder
    IntRules.Get el.GetGeomType order

/-- The body of the quadrature loop of lines 1077-1105 at one point `ip`. -/
def point {R : Type} [Field R] (self : VectorFEMassIntegrator R) (el : FiniteElement R)
    (Trans : ElementTransformation R) (elmat : DenseMatrix R) (ip : IntegrationPoint R) :
    DenseMatrix R :=
  let dof := el.GetDof
  let dim := el.GetDim
  let vshape : DenseMatrix R := { height := dof, width := dim, elem := el.CalcVShape Trans ip }
  let kw := match self.MQ with
    | some MQ => MQ.GetVDim
    | none => 0
  let tmp : DenseMatrix R := { height := vshape.height, width := kw, elem := fun _ _ => 0 }
  let w := ip.weight * Trans.Weight ip
  match self.MQ with
  | some MQ =>
    let K := MQ.Eval Trans ip
    let K := K.scale w
    let tmp := Mult vshape K tmp
    AddMultABt tmp vshape elmat
  | none =>
    match self.VQ with
    | some VQ =>
      let D := VQ.Eval Trans ip
      let D := D.scale w
      AddMultADAt vshape D elmat
    | none =>
      let w := match self.Q with
        | some Q => w * Q.Eval Trans ip
        | none => w
      AddMult_a_AAt w vshape elmat

/-- Method `VectorFEMassIntegrator::AssembleElementMatrix` (lines 1045-1106). -/
def AssembleElementMatrix {R : Type} [Field R] (IntRules : IntegrationRules R)
    (self : VectorFEMassIntegrator R) (el : FiniteElement R) (Trans : ElementTransformation R)
    (elmat : DenseMatrix R) : Except String (DenseMatrix R) :=
  let dof := el.GetDof
  let elmat := elmat.SetSize dof dof
  let elmat := elmat.assign 0
  let ir := rule IntRules self el Trans
  pure (ir.foldl (point self el Trans) elmat)

/-- The rule selected at lines 1132-1137 for the mixed form. -/
def rule2 {R : Type} (IntRules : IntegrationRules R) (self : VectorFEMassIntegrator R)
    (trial_fe test_fe : FiniteElement R) (Trans : ElementTransformation R) :
    IntegrationRule R :=
  match self.IntRule with
  | some ir => ir
  | none =>
    let order := Trans.OrderW + test_fe.GetOrder + trial_fe.GetOrder
    IntRules.Get test_fe.GetGeomType order

/-- The body of the quadrature loop of lines 1140-1163 at one point `ip`. -/
def point2 {R : Type} [Field R] (self : VectorFEMassIntegrator R)
    (trial_fe test_fe : FiniteElement R) (Trans : ElementTransformation R)
    (elmat : DenseMatrix R) (ip : IntegrationPoint R) : DenseMatrix R :=
  -- assume test_fe is scalar FE and trial_fe is vector FE
  let dim := test_fe.GetDim
  let trial_dof := trial_fe.GetDof
  let test_dof := test_fe.GetDof
  let vshape : DenseMatrix R :=
    { height := trial_dof, width := dim, elem := trial_fe.CalcVShape Trans ip }
  let shape : Vector R := { size := test_dof, elem := test_fe.CalcShape ip }
  let w := ip.weight * Trans.Weight ip
  let w := match self.Q with
    | some Q => w * Q.Eval Trans ip
    | none => w
  (List.range dim).foldl
    (fun elmat d =>
      (List.range test_dof).foldl
        (fun elmat j =>
          (List.range trial_dof).foldl
            (fun elmat k =>
              elmat.addAt (d * test_dof + j) k (w * shape.elem j * vshape.elem k d))
            elmat)
        elmat)
    elmat

/-- Method `VectorFEMassIntegrator::AssembleElementMatrix2` (lines 1108-1164). -/
def AssembleElementMatrix2 {R : Type} [Field R] (IntRules : IntegrationRules R)
    (self : VectorFEMassIntegrator R) (trial_fe test_fe : FiniteElement R)
    (Trans : ElementTransformation R) (elmat : DenseMatrix R) :
    Except String (DenseMatrix R) := do
  let dim := test_fe.GetDim
  let trial_dof := trial_fe.GetDof
  let test_dof := test_fe.GetDof
  if self.VQ.isSome || self.MQ.isSome then
    (mfem_error
      "VectorFEMassIntegrator::AssembleElementMatrix2(...)\n   is not implemented for vector/tensor permeability" :
      Except String Unit)
  let elmat := elmat.SetSize (dim * test_dof) trial_dof
  let ir := rule2 IntRules self trial_fe test_fe Trans
  let elmat := elmat.assign 0
  pure (ir.foldl (point2 self trial_fe test_fe Trans) elmat)

end VectorFEMassIntegrator

/-! ## Discontinuous Galerkin trace integrator (lines 1396-1506) -/

/-- Class `DGTraceIntegrator`: the optional rule `IntRule`, the optional density
`rho`, the velocity `u` and the factors `alpha` and `beta`. The work vectors
`shape1` and `shape2` are sized and overwritten in every call before they are
read, so they are locals here. -/
structure DGTraceIntegrator (R : Type) where
  IntRule : Option (IntegrationRule R)
  rho : Option (Coefficient R)
  u : VectorCoefficient R
  alpha : R
  beta : R

namespace DGTraceIntegrator

/-- The rule selected at lines 1419-1432. -/
def rule {R : Type} (IntRules : IntegrationRules R) (self : DGTraceIntegrator R)
    (el1 el2 : FiniteElement R) (Trans : FaceElementTransformations R) : IntegrationRule R :=
  match self.IntRule with
  | some ir => ir
  | none =>
    -- Assuming order(u)==order(mesh)
    let order :=
      if Trans.Elem2No ≥ 0 then
        min Trans.Elem1.OrderW Trans.Elem2.OrderW + 2 * max el1.GetOrder el2.GetOrder
      else
        Trans.Elem1.OrderW + 2 * el1.GetOrder
    let order := if el1.Space = FunctionSpace.Pk then order + 1 else order
    IntRules.Get Trans.FaceGeom order

/-- The normal velocity `un = vu * nor` of lines 1438-1453 at the point `ip`. -/
def un {R : Type} [LinearOrderedField R] (self : DGTraceIntegrator R) (el1 : FiniteElement R)
    (Trans : FaceElementTransformations R) (ip : IntegrationPoint R) : R :=
  let dim := el1.GetDim
  let nor : Vector R := { size := dim, elem := fun _ => 0 }
  let eip1 := Trans.Loc1.Transform ip
  let vu := self.u.Eval Trans.Elem1 eip1
  let nor :=
    if dim = 1 then nor.setAt 0 (2 * eip1.x - 1)
    else CalcOrtho (Trans.Face.Jacobian ip) nor
  vu.dot nor

/-- The value `rho_p` of lines 1462-1471: the density on the second side when
`un >= 0` on a two-sided face, on the first side otherwise. -/
def rho_p {R : Type} [LinearOrderedField R] (self : DGTraceIntegrator R)
    (el1 : FiniteElement R) (Trans : FaceElementTransformations R) (ndof2 : Nat)
    (rho : Coefficient R) (ip : IntegrationPoint R) : R :=
  if 0 ≤ self.un el1 Trans ip ∧ ndof2 ≠ 0 then
    rho.Eval Trans.Elem2 (Trans.Loc2.Transform ip)
  else
    rho.Eval Trans.Elem1 (Trans.Loc1.Transform ip)

/-- The central part `a` of lines 1454 and 1472. -/
def a {R : Type} [LinearOrderedField R] (self : DGTraceIntegrator R) (el1 : FiniteElement R)
    (Trans : FaceElementTransformations R) (ndof2 : Nat) (ip : IntegrationPoint R) : R :=
  let a := 1 / 2 * self.alpha * self.un el1 Trans ip
  match self.rho with
  | some rho => a * self.rho_p el1 Trans ndof2 rho ip
  | none => a

/-- The upwind part `b` of lines 1455 and 1473. -/
def b {R : Type} [LinearOrderedField R] (self : DGTraceIntegrator R) (el1 : FiniteElement R)
    (Trans : FaceElementTransformations R) (ndof2 : Nat) (ip : IntegrationPoint R) : R :=
  let b := self.beta * |self.un el1 Trans ip|
  -- note: if |alpha/2|==|beta| then |a|==|b|, i.e. (a==b) or (a==-b)
  --       and therefore two blocks in the element matrix contribution
  --       (from the current quadrature point) are 0
  match self.rho with
  | some rho => b * self.rho_p el1 Trans ndof2 rho ip
  | none => b

/-- The block updates of lines 1476-1504 at one point `ip`, for the values `a`
and `b` of that point. -/
def blocks {R : Type} [LinearOrderedField R] (el1 el2 : FiniteElement R)
    (Trans : FaceElementTransformations R) (ndof1 ndof2 : Nat) (a b : R)
    (elmat : DenseMatrix R) (ip : IntegrationPoint R) : DenseMatrix R :=
  let eip1 := Trans.Loc1.Transform ip
  let shape1 : Vector R := { size := ndof1, elem := el1.CalcShape eip1 }
  let w := ip.weight * (a + b)
  let elmat :=
    if w ≠ 0 then
      (List.range ndof1).foldl
        (fun elmat i =>
          (List.range ndof1).foldl
            (fun elmat j => elmat.addAt i j (w * shape1.elem i * shape1.elem j)) elmat)
        elmat
    else elmat
  if ndof2 ≠ 0 then
    let eip2 := Trans.Loc2.Transform ip
    let shape2 : Vector R := { size := ndof2, elem := el2.CalcShape eip2 }
    let elmat :=
      if w ≠ 0 then
        (List.range ndof2).foldl
          (fun elmat i =>
            (List.range ndof1).foldl
              (fun elmat j => elmat.subAt (ndof1 + i) j (w * shape2.elem i * shape1.elem j))
              elmat)
          elmat
      else elmat
    let w := ip.weight * (b - a)
    if w ≠ 0 then
      let elmat :=
        (List.range ndof2).foldl
          (fun elmat i =>
            (List.range ndof2).foldl
              (fun elmat j =>
                elmat.addAt (ndof1 + i) (ndof1 + j) (w * shape2.elem i * shape2.elem j))
              elmat)
          elmat
      (List.range ndof1).foldl
        (fun elmat i =>
          (List.range ndof2).foldl
            (fun elmat j => elmat.subAt i (ndof1 + j) (w * shape1.elem i * shape2.elem j))
            elmat)
        elmat
    else elmat
  else elmat

/-- The body of the quadrature loop of lines 1434-1505 at one point `ip`, for
the numbers of degrees of freedom `ndof1` and `ndof2` fixed at lines
1406-1412. -/
def point {R : Type} [LinearOrderedField R] (self : DGTraceIntegrator R)
    (el1 el2 : FiniteElement R) (Trans : FaceElementTransformations R) (ndof1 ndof2 : Nat)
    (elmat : DenseMatrix R) (ip : IntegrationPoint R) : DenseMatrix R :=
  blocks el1 el2 Trans ndof1 ndof2 (self.a el1 Trans ndof2 ip) (self.b el1 Trans ndof2 ip)
    elmat ip

/-- Method `DGTraceIntegrator::AssembleFaceMatrix` (lines 1396-1506). -/
def AssembleFaceMatrix {R : Type} [LinearOrderedField R] (IntRules : IntegrationRules R)
    (self : DGTraceIntegrator R) (el1 el2 : FiniteElement R)
    (Trans : FaceElementTransformations R) (elmat : DenseMatrix R) :
    Except String (DenseMatrix R) :=
  let ndof1 := el1.GetDof
  let ndof2 := if Trans.Elem2No ≥ 0 then el2.GetDof else 0
  let elmat := elmat.SetSize (ndof1 + ndof2) (ndof1 + ndof2)
  let elmat := elmat.assign 0
  let ir := rule IntRules self el1 el2 Trans
  pure (ir.foldl (point self el1 el2 Trans ndof1 ndof2) elmat)

end DGTraceIntegrator

/-! ## Discontinuous Galerkin diffusion integrator (lines 1508-1703) -/

/-- Class `DGDiffusionIntegrator`: the optional rule `IntRule`, the optional
scalar and matrix coefficients `Q` and `MQ` and the parameters `sigma` and
`kappa`. The work buffers, the jump matrix `jmat` among them, are sized and
overwritten in every call before they are read, so they are locals here. -/
structure DGDiffusionIntegrator (R : Type) where
  IntRule : Option (IntegrationRule R)
  Q : Option (Coefficient R)
  MQ : Option (MatrixCoefficient R)
  sigma : R
  kappa : R

namespace DGDiffusionIntegrator

/-- The rule selected at lines 1548-1558. -/
def rule {R : Type} (IntRules : IntegrationRules R) (self : DGDiffusionIntegrator R)
    (el1 el2 : FiniteElement R) (Trans : FaceElementTransformations R) (ndof2 : Nat) :
    IntegrationRule R :=
  match self.IntRule with
  | some ir => ir
  | none =>
    -- a simple choice for the integration order; is this OK?
    let order :=
      if ndof2 ≠ 0 then 2 * max el1.GetOrder el2.GetOrder
      else 2 * el1.GetOrder
    IntRules.Get Trans.FaceGeom order

/-- The face normal `nor` of lines 1567-1572 at the point `ip`. -/
def nor {R : Type} [Field R] (el1 : FiniteElement R) (Trans : FaceElementTransformations R)
    (ip : IntegrationPoint R) : Vector R :=
  let dim := el1.GetDim
  let nor : Vector R := { size := dim, elem := fun _ => 0 }
  let eip1 := Trans.Loc1.Transform ip
  if dim = 1 then nor.setAt 0 (2 * eip1.x - 1)
  else CalcOrtho (Trans.Face.Jacobian ip) nor

/-- The vector `ni` of the first side, lines 1576-1591: the normal scaled by
`ip.weight / det(J1)`, halved on a two-sided face, times the coefficient. -/
def ni1 {R : Type} [Field R] (self : DGDiffusionIntegrator R) (el1 : FiniteElement R)
    (Trans : FaceElementTransformations R) (ndof2 : Nat) (ip : IntegrationPoint R) :
    Vector R :=
  let dim := el1.GetDim
  let nh : Vector R := { size := dim, elem := fun _ => 0 }
  let ni : Vector R := { size := dim, elem := fun _ => 0 }
  let eip1 := Trans.Loc1.Transform ip
  let w := ip.weight / Trans.Elem1.Weight eip1
  let w := if ndof2 ≠ 0 then w / 2 else w
  match self.MQ with
  | none =>
    let w := match self.Q with
      | some Q => w * Q.Eval Trans.Elem1 eip1
      | none => w
    ni.Set w (nor el1 Trans ip)
  | some MQ =>
    let nh := nh.Set w (nor el1 Trans ip)
    let mq := MQ.Eval Trans.Elem1 eip1
    mq.MultTranspose nh ni

/-- The vector `ni` of the second side, lines 1617-1630. -/
def ni2 {R : Type} [Field R] (self : DGDiffusionIntegrator R) (el1 : FiniteElement R)
    (Trans : FaceElementTransformations R) (ip : IntegrationPoint R) : Vector R :=
  let dim := el1.GetDim
  let nh : Vector R := { size := dim, elem := fun _ => 0 }
  let ni : Vector R := { size := dim, elem := fun _ => 0 }
  let eip2 := Trans.Loc2.Transform ip
  let w := ip.weight / 2 / Trans.Elem2.Weight eip2
  match self.MQ with
  | none =>
    let w := match self.Q with
      | some Q => w * Q.Eval Trans.Elem2 eip2
      | none => w
    ni.Set w (nor el1 Trans ip)
  | some MQ =>
    let nh := nh.Set w (nor el1 Trans ip)
    let mq := MQ.Eval Trans.Elem2 eip2
    mq.MultTranspose nh ni

/-- The normal derivatives `dshape1dn` of the first side, lines 1575, 1592-1593
and 1607. -/
def dshape1dn {R : Type} [Field R] (self : DGDiffusionIntegrator R) (el1 : FiniteElement R)
    (Trans : FaceElementTransformations R) (ndof1 ndof2 : Nat) (ip : IntegrationPoint R) :
    Vector R :=
  let dim := el1.GetDim
  let nh : Vector R := { size := dim, elem := fun _ => 0 }
  let adjJ : DenseMatrix R := { height := dim, width := dim, elem := fun _ _ => 0 }
  let dshape1dn : Vector R := { size := ndof1, elem := fun _ => 0 }
  let eip1 := Trans.Loc1.Transform ip
  let dshape1 : DenseMatrix R := { height := ndof1, width := dim, elem := el1.CalcDShape eip1 }
  let adjJ := CalcAdjugate (Trans.Elem1.Jacobian eip1) adjJ
  let nh := adjJ.Mult (ni1 self el1 Trans ndof2 ip) nh
  dshape1.Mult nh dshape1dn

/-- The normal derivatives `dshape2dn` of the second side, lines 1616,
1631-1632 and 1636. -/
def dshape2dn {R : Type} [Field R] (self : DGDiffusionIntegrator R)
    (el1 el2 : FiniteElement R) (Trans : FaceElementTransformations R) (ndof2 : Nat)
    (ip : IntegrationPoint R) : Vector R :=
  let dim := el1.GetDim
  let nh : Vector R := { size := dim, elem := fun _ => 0 }
  let adjJ : DenseMatrix R := { height := dim, width := dim, elem := fun _ _ => 0 }
  let dshape2dn : Vector R := { size := ndof2, elem := fun _ => 0 }
  let eip2 := Trans.Loc2.Transform ip
  let dshape2 : DenseMatrix R := { height := ndof2, width := dim, elem := el2.CalcDShape eip2 }
  let adjJ := CalcAdjugate (Trans.Elem2.Jacobian eip2) adjJ
  let nh := adjJ.Mult (ni2 self el1 Trans ip) nh
  dshape2.Mult nh dshape2dn

/-- The value of `wq` when the jump term is assembled, lines 1594-1595 and
1633-1634: `ni * nor` of the first side, plus that of the second side on a
two-sided face. -/
def wq {R : Type} [Field R] (self : DGDiffusionIntegrator R) (el1 : FiniteElement R)
    (Trans : FaceElementTransformations R) (ndof2 : Nat) (ip : IntegrationPoint R) : R :=
  let wq := (ni1 self el1 Trans ndof2 ip).dot (nor el1 Trans ip)
  if ndof2 ≠ 0 then wq + (ni2 self el1 Trans ip).dot (nor el1 Trans ip) else wq

/-- The updates of `elmat` at lines 1608-1610 and 1638-1648 at one point, for
the normal derivatives `dshape1dn` and `dshape2dn` of that point. -/
def fluxBlocks {R : Type} [Field R] (el1 el2 : FiniteElement R)
    (Trans : FaceElementTransformations R) (ndof1 ndof2 : Nat)
    (dshape1dn dshape2dn : IntegrationPoint R → Vector R)
    (elmat : DenseMatrix R) (ip : IntegrationPoint R) : DenseMatrix R :=
  let eip1 := Trans.Loc1.Transform ip
  let shape1 : Vector R := { size := ndof1, elem := el1.CalcShape eip1 }
  let elmat :=
    (List.range ndof1).foldl
      (fun elmat i =>
        (List.range ndof1).foldl
          (fun elmat j => elmat.addAt i j (shape1.elem i * (dshape1dn ip).elem j)) elmat)
      elmat
  if ndof2 ≠ 0 then
    let eip2 := Trans.Loc2.Transform ip
    let shape2 : Vector R := { size := ndof2, elem := el2.CalcShape eip2 }
    let elmat :=
      (List.range ndof1).foldl
        (fun elmat i =>
          (List.range ndof2).foldl
            (fun elmat j =>
              elmat.addAt i (ndof1 + j) (shape1.elem i * (dshape2dn ip).elem j))
            elmat)
        elmat
    let elmat :=
      (List.range ndof2).foldl
        (fun elmat i =>
          (List.range ndof1).foldl
            (fun elmat j =>
              elmat.subAt (ndof1 + i) j (shape2.elem i * (dshape1dn ip).elem j))
            elmat)
        elmat
    (List.range ndof2).foldl
      (fun elmat i =>
        (List.range ndof2).foldl
          (fun elmat j =>
            elmat.subAt (ndof1 + i) (ndof1 + j) (shape2.elem i * (dshape2dn ip).elem j))
          elmat)
      elmat
  else elmat

/-- The updates of `jmat` at lines 1653-1672 at one point, for the value `wq` of
that point: only the lower triangle is assembled. -/
def jumpBlocks {R : Type} [Field R] (self : DGDiffusionIntegrator R)
    (el1 el2 : FiniteElement R) (Trans : FaceElementTransformations R) (ndof1 ndof2 : Nat)
    (wq : R) (jmat : DenseMatrix R) (ip : IntegrationPoint R) : DenseMatrix R :=
  let eip1 := Trans.Loc1.Transform ip
  let shape1 : Vector R := { size := ndof1, elem := el1.CalcShape eip1 }
  -- only assemble the lower triangular part of jmat
  let wq := wq * self.kappa
  let jmat :=
    (List.range ndof1).foldl
      (fun jmat i =>
        let wsi := wq * shape1.elem i
        (List.range (i + 1)).foldl
          (fun jmat j => jmat.addAt i j (wsi * shape1.elem j)) jmat)
      jmat
  if ndof2 ≠ 0 then
    let eip2 := Trans.Loc2.Transform ip
    let shape2 : Vector R := { size := ndof2, elem := el2.CalcShape eip2 }
    (List.range ndof2).foldl
      (fun jmat i =>
        let i2 := ndof1 + i
        let wsi := wq * shape2.elem i
        let jmat :=
          (List.range ndof1).foldl
            (fun jmat j => jmat.subAt i2 j (wsi * shape1.elem j)) jmat
        (List.range (i + 1)).foldl
          (fun jmat j => jmat.addAt i2 (ndof1 + j) (wsi * shape2.elem j)) jmat)
      jmat
  else jmat

/-- The body of the quadrature loop of lines 1562-1674 at one point `ip`,
acting on the pair `(elmat, jmat)`, for the numbers of degrees of freedom
`ndof1` and `ndof2` fixed at lines 1517-1537. -/
def point {R : Type} [Field R] [DecidableEq R] (self : DGDiffusionIntegrator R)
    (el1 el2 : FiniteElement R) (Trans : FaceElementTransformations R) (ndof1 ndof2 : Nat)
    (st : DenseMatrix R × DenseMatrix R) (ip : IntegrationPoint R) :
    DenseMatrix R × DenseMatrix R :=
  let kappa_is_nonzero : Bool := decide (self.kappa ≠ 0)
  let elmat :=
    fluxBlocks el1 el2 Trans ndof1 ndof2 (dshape1dn self el1 Trans ndof1 ndof2)
      (dshape2dn self el1 el2 Trans ndof2) st.1 ip
  if kappa_is_nonzero then
    (elmat, jumpBlocks self el1 el2 Trans ndof1 ndof2 (wq self el1 Trans ndof2 ip) st.2 ip)
  else (elmat, st.2)

/-- The update of one pair `(i,j)`, `(j,i)` with `j < i` at lines 1683-1685. -/
def finishPair {R : Type} [Ring R] (sigma : R) (jmat elmat : DenseMatrix R) (i j : Nat) :
    DenseMatrix R :=
  let aij := elmat.elem i j
  let aji := elmat.elem j i
  let mij := jmat.elem i j
  let elmat := elmat.setAt i j (sigma * aji - aij + mij)
  elmat.setAt j i (sigma * aij - aji + mij)

/-- The body of the loop over `i` at lines 1679-1688: the pairs of row `i`, then
its diagonal entry. -/
def finishRow {R : Type} [Ring R] (sigma : R) (jmat elmat : DenseMatrix R) (i : Nat) :
    DenseMatrix R :=
  let elmat := (List.range i).foldl (fun elmat j => finishPair sigma jmat elmat i j) elmat
  elmat.setAt i i ((sigma - 1) * elmat.elem i i + jmat.elem i i)

/-- The update of one pair `(i,j)`, `(j,i)` with `j < i` at lines 1696-1698,
without a jump matrix. -/
def finishPair0 {R : Type} [Ring R] (sigma : R) (elmat : DenseMatrix R) (i j : Nat) :
    DenseMatrix R :=
  let aij := elmat.elem i j
  let aji := elmat.elem j i
  let elmat := elmat.setAt i j (sigma * aji - aij)
  elmat.setAt j i (sigma * aij - aji)

/-- The body of the loop over `i` at lines 1692-1701, without a jump matrix. -/
def finishRow0 {R : Type} [Ring R] (sigma : R) (elmat : DenseMatrix R) (i : Nat) :
    DenseMatrix R :=
  let elmat := (List.range i).foldl (fun elmat j => finishPair0 sigma elmat i j) elmat
  elmat.setAt i i (elmat.elem i i * (sigma - 1))

/-- The final combination of lines 1676-1702,
`elmat := -elmat + sigma*elmat^t + jmat`, done in place pair by pair. -/
def finish {R : Type} [Ring R] (sigma : R) (kappa_is_nonzero : Bool) (ndofs : Nat)
    (jmat elmat : DenseMatrix R) : DenseMatrix R :=
  if kappa_is_nonzero then
    (List.range ndofs).foldl (finishRow sigma jmat) elmat
  else
    (List.range ndofs).foldl (finishRow0 sigma) elmat

/-- The pair `(elmat, jmat)` after the quadrature loop of lines 1562-1674: the
raw flux matrix and the lower triangle of the jump matrix. When `kappa` is zero
`jmat` is neither sized nor written, and is the buffer given here. -/
def accumulate {R : Type} [Field R] [DecidableEq R] (IntRules : IntegrationRules R)
    (self : DGDiffusionIntegrator R) (el1 el2 : FiniteElement R)
    (Trans : FaceElementTransformations R) (elmat jmat : DenseMatrix R) :
    DenseMatrix R × DenseMatrix R :=
  let ndof1 := el1.GetDof
  let kappa_is_nonzero : Bool := decide (self.kappa ≠ 0)
  let ndof2 := if Trans.Elem2No ≥ 0 then el2.GetDof else 0
  let ndofs := ndof1 + ndof2
  let elmat := elmat.SetSize ndofs ndofs
  let elmat := elmat.assign 0
  let jmat := if kappa_is_nonzero then (jmat.SetSize ndofs ndofs).assign 0 else jmat
  let ir := rule IntRules self el1 el2 Trans ndof2
  ir.foldl (point self el1 el2 Trans ndof1 ndof2) (elmat, jmat)

/-- Method `DGDiffusionIntegrator::AssembleFaceMatrix` (lines 1508-1703); `jmat`
is the member buffer with its content at the time of the call. -/
def AssembleFaceMatrix {R : Type} [Field R] [DecidableEq R] (IntRules : IntegrationRules R)
    (self : DGDiffusionIntegrator R) (jmat : DenseMatrix R) (el1 el2 : FiniteElement R)
    (Trans : FaceElementTransformations R) (elmat : DenseMatrix R) :
    Except String (DenseMatrix R) :=
  let ndof1 := el1.GetDof
  let kappa_is_nonzero : Bool := decide (self.kappa ≠ 0)
  let ndof2 := if Trans.Elem2No ≥ 0 then el2.GetDof else 0
  let ndofs := ndof1 + ndof2
  let st := accumulate IntRules self el1 el2 Trans elmat jmat
  -- elmat := -elmat + sigma*elmat^t + jmat
  pure (finish self.sigma kappa_is_nonzero ndofs st.2 st.1)

end DGDiffusionIntegrator

/-! ## Trace jump integrator (lines 1705-1778) -/

/-- Class `TraceJumpIntegrator`: the optional rule `IntRule`. The work vectors
`face_shape`, `shape1`, `shape2` are sized and overwritten in every call before
they are read, so they are locals here. -/
structure TraceJumpIntegrator (R : Type) where
  IntRule : Option (IntegrationRule R)

namespace TraceJumpIntegrator

/-- The quadrature order computed at lines 1736-1742 when no rule is
supplied. -/
def order {R : Type} (trial_face_fe test_fe1 test_fe2 : FiniteElement R)
    (Trans : FaceElementTransformations R) : Int :=
  let order :=
    if Trans.Elem2No ≥ 0 then max test_fe1.GetOrder test_fe2.GetOrder
    else test_fe1.GetOrder
  let order := order + trial_face_fe.GetOrder
  if trial_face_fe.GetMapType = MapType.VALUE then order + Trans.Face.OrderW else order

/-- The rule selected at lines 1733-1744. -/
def rule {R : Type} (IntRules : IntegrationRules R) (self : TraceJumpIntegrator R)
    (trial_face_fe test_fe1 test_fe2 : FiniteElement R)
    (Trans : FaceElementTransformations R) : IntegrationRule R :=
  match self.IntRule with
  | some ir => ir
  | none => IntRules.Get Trans.FaceGeom (order trial_face_fe test_fe1 test_fe2 Trans)

/-- The body of the quadrature loop of lines 1746-1777 at one point `ip`, for
the numbers of degrees of freedom fixed at lines 1715-1727. -/
def point {R : Type} [Field R] (trial_face_fe test_fe1 test_fe2 : FiniteElement R)
    (Trans : FaceElementTransformations R) (face_ndof ndof1 ndof2 : Nat)
    (elmat : DenseMatrix R) (ip : IntegrationPoint R) : DenseMatrix R :=
  -- Trace finite element shape function
  let face_shape : Vector R := { size := face_ndof, elem := trial_face_fe.CalcShape ip }
  -- Side 1 finite element shape function
  let eip1 := Trans.Loc1.Transform ip
  let shape1 : Vector R := { size := ndof1, elem := test_fe1.CalcShape eip1 }
  let w := ip.weight
  let w := if trial_face_fe.GetMapType = MapType.VALUE then w * Trans.Face.Weight ip else w
  let face_shape := face_shape.scale w
  let elmat :=
    (List.range ndof1).foldl
      (fun elmat i =>
        (List.range face_ndof).foldl
          (fun elmat j => elmat.addAt i j (shape1.elem i * face_shape.elem j)) elmat)
      elmat
  if ndof2 ≠ 0 then
    -- Side 2 finite element shape function
    let eip2 := Trans.Loc2.Transform ip
    let shape2 : Vector R := { size := ndof2, elem := test_fe2.CalcShape eip2 }
    -- Subtract contribution from side 2
    (List.range ndof2).foldl
      (fun elmat i =>
        (List.range face_ndof).foldl
          (fun elmat j => elmat.subAt (ndof1 + i) j (shape2.elem i * face_shape.elem j))
          elmat)
      elmat
  else elmat

/-- Method `TraceJumpIntegrator::AssembleFaceMatrix` (lines 1705-1778). -/
def AssembleFaceMatrix {R : Type} [Field R] (IntRules : IntegrationRules R)
    (self : TraceJumpIntegrator R) (trial_face_fe test_fe1 test_fe2 : FiniteElement R)
    (Trans : FaceElementTransformations R) (elmat : DenseMatrix R) :
    Except String (DenseMatrix R) :=
  let face_ndof := trial_face_fe.GetDof
  let ndof1 := test_fe1.GetDof
  let ndof2 := if Trans.Elem2No ≥ 0 then test_fe2.GetDof else 0
  let elmat := elmat.SetSize (ndof1 + ndof2) face_ndof
  let elmat := elmat.assign 0
  let ir := rule IntRules self trial_face_fe test_fe1 test_fe2 Trans
  pure (ir.foldl (point trial_face_fe test_fe1 test_fe2 Trans face_ndof ndof1 ndof2) elmat)

end TraceJumpIntegrator

/-! ## Flux energy of the diffusion integrator (lines 384-439) -/

namespace DiffusionIntegrator

/-- The vector `pointflux` of lines 412-415: the flux at the point `ip`,
`pointflux(k) = sum_j flux(k*nd+j) * shape(j)`. -/
def pointflux {R : Type} [Semiring R] (fluxelem : FiniteElement R) (flux : Vector R)
    (ip : IntegrationPoint R) : Vector R :=
  let nd := fluxelem.GetDof
  let dim := fluxelem.GetDim
  let shape : Vector R := { size := nd, elem := fluxelem.CalcShape ip }
  let pointflux : Vector R := { size := dim, elem := fun _ => 0 }
  (List.range dim).foldl
    (fun pointflux k =>
      (List.range nd).foldl
        (fun pointflux j => pointflux.addAt k (flux.elem (k * nd + j) * shape.elem j))
        pointflux)
    pointflux

/-- The body of the quadrature loop of lines 407-434 at one point `ip`. -/
def energyPoint {R : Type} [Semiring R] (self : DiffusionIntegrator R)
    (fluxelem : FiniteElement R) (Trans : ElementTransformation R) (flux : Vector R)
    (energy : R) (ip : IntegrationPoint R) : R :=
  let pointflux := pointflux fluxelem flux ip
  let co := Trans.Weight ip * ip.weight
  let co := match self.MQ with
    | none =>
      let co := co * pointflux.dot pointflux
      match self.Q with
      | some Q => co * Q.Eval Trans ip
      | none => co
    | some MQ =>
      let invdfdx := MQ.Eval Trans ip
      co * invdfdx.InnerProduct pointflux pointflux
  energy + co

/-- Method `DiffusionIntegrator::ComputeFluxEnergy` (lines 384-439). -/
def ComputeFluxEnergy {R : Type} [Semiring R] (IntRules : IntegrationRules R)
    (self : DiffusionIntegrator R) (fluxelem : FiniteElement R)
    (Trans : ElementTransformation R) (flux : Vector R) : R :=
  let order := 2 * fluxelem.GetOrder -- <--
  let ir := IntRules.Get fluxelem.GetGeomType order
  ir.foldl (energyPoint self fluxelem Trans flux) 0

end DiffusionIntegrator

/-! ## Convection integrator (lines 517-560) -/

/-- Class `ConvectionIntegrator`: the optional rule `IntRule`, the advection
coefficient `Q` and the factor `alpha`. The matrix `Q_ir` of the coefficient
values is filled in every call and is part of the state of the loop, since the
loop scales its columns in place; the other work buffers are locals. -/
structure ConvectionIntegrator (R : Type) where
  IntRule : Option (IntegrationRule R)
  Q : VectorCoefficient R
  alpha : R

namespace ConvectionIntegrator

/-- The rule selected at lines 531-536. -/
def rule {R : Type} (IntRules : IntegrationRules R) (self : ConvectionIntegrator R)
    (el : FiniteElement R) (Trans : ElementTransformation R) : IntegrationRule R :=
  match self.IntRule with
  | some ir => ir
  | none =>
    let order := Trans.OrderGrad el.GetDim el.GetOrder el.Space + Trans.Order + el.GetOrder
    IntRules.Get el.GetGeomType order

/-- The body of the quadrature loop of lines 541-559 at the index `i` of the
rule `ir`, acting on the pair `(Q_ir, elmat)`. -/
def point {R : Type} [Field R] (self : ConvectionIntegrator R) (el : FiniteElement R)
    (Trans : ElementTransformation R) (ir : IntegrationRule R)
    (st : DenseMatrix R × DenseMatrix R) (i : Nat) : DenseMatrix R × DenseMatrix R :=
  match ir[i]? with
  | none => st
  | some ip =>
    let nd := el.GetDof
    let dim := el.GetDim
    let Q_ir := st.1
    let elmat := st.2
    let dshape : DenseMatrix R := { height := nd, width := dim, elem := el.CalcDShape ip }
    let shape : Vector R := { size := nd, elem := el.CalcShape ip }
    let adjJ : DenseMatrix R := { height := dim, width := dim, elem := fun _ _ => 0 }
    let vec2 : Vector R := { size := dim, elem := fun _ => 0 }
    let BdFidxT : Vector R := { size := nd, elem := fun _ => 0 }
    -- CalcAdjugate fills the buffer adjJ, which keeps the size dim x dim of line 527
    let adjJ : DenseMatrix R :=
      { height := adjJ.height, width := adjJ.width,
        elem := (CalcAdjugate (Trans.Jacobian ip) adjJ).elem }
    let vec1 := Q_ir.GetColumnReference i
    let vec1 := vec1.scale (self.alpha * ip.weight)
    let Q_ir := Q_ir.SetColumn i vec1
    let vec2 := adjJ.Mult vec1 vec2
    let BdFidxT := dshape.Mult vec2 BdFidxT
    (Q_ir, AddMultVWt shape BdFidxT elmat)

/-- Method `ConvectionIntegrator::AssembleElementMatrix` (lines 517-560). -/
def AssembleElementMatrix {R : Type} [Field R] (IntRules : IntegrationRules R)
    (self : ConvectionIntegrator R) (Q_ir : DenseMatrix R) (el : FiniteElement R)
    (Trans : ElementTransformation R) (elmat : DenseMatrix R) :
    Except String (DenseMatrix R) :=
  let nd := el.GetDof
  let elmat := elmat.SetSize nd nd
  let ir := rule IntRules self el Trans
  let Q_ir := self.Q.EvalRule Q_ir Trans ir
  let elmat := elmat.assign 0
  pure ((List.range ir.length).foldl (point self el Trans ir) (Q_ir, elmat)).2

end ConvectionIntegrator

/-! ## Group convection integrator (lines 563-611) -/

/-- Class `GroupConvectionIntegrator`: the optional rule `IntRule`, the
advection coefficient `Q` and the factor `alpha`. The matrix `Q_nodal` and the
work buffers are filled in every call before they are read, so they are locals
here. -/
structure GroupConvectionIntegrator (R : Type) where
  IntRule : Option (IntegrationRule R)
  Q : VectorCoefficient R
  alpha : R

namespace GroupConvectionIntegrator

/-- The rule selected at lines 575-580. -/
def rule {R : Type} (IntRules : IntegrationRules R) (self : GroupConvectionIntegrator R)
    (el : FiniteElement R) (Trans : ElementTransformation R) : IntegrationRule R :=
  match self.IntRule with
  | some ir => ir
  | none =>
    let order := Trans.OrderGrad el.GetDim el.GetOrder el.Space + el.GetOrder
    IntRules.Get el.GetGeomType order

/-- The body of the quadrature loop of lines 585-610 at one point `ip`, for the
nodal values `Q_nodal` of the coefficient. -/
def point {R : Type} [Field R] (self : GroupConvectionIntegrator R) (el : FiniteElement R)
    (Trans : ElementTransformation R) (Q_nodal : DenseMatrix R) (elmat : DenseMatrix R)
    (ip : IntegrationPoint R) : DenseMatrix R :=
  let nd := el.GetDof
  let dim := el.GetDim
  let dshape : DenseMatrix R := { height := nd, width := dim, elem := el.CalcDShape ip }
  let shape : Vector R := { size := nd, elem := el.CalcShape ip }
  let adjJ : DenseMatrix R := { height := dim, width := dim, elem := fun _ _ => 0 }
  let grad : DenseMatrix R := { height := nd, width := dim, elem := fun _ _ => 0 }
  let adjJ := CalcAdjugate (Trans.Jacobian ip) adjJ
  let grad := Mult dshape adjJ grad
  let w := self.alpha * ip.weight
  -- elmat(k,l) += \sum_s w*shape(k)*Q_nodal(s,k)*grad(l,s)
  (List.range nd).foldl
    (fun elmat k =>
      let wsk := w * shape.elem k
      (List.range nd).foldl
        (fun elmat l =>
          let a := (List.range dim).foldl
            (fun a s => a + Q_nodal.elem s k * grad.elem l s) 0
          elmat.addAt k l (wsk * a))
        elmat)
    elmat

/-- Method `GroupConvectionIntegrator::AssembleElementMatrix` (lines 563-611). -/
def AssembleElementMatrix {R : Type} [Field R] (IntRules : IntegrationRules R)
    (self : GroupConvectionIntegrator R) (Q_nodal : DenseMatrix R) (el : FiniteElement R)
    (Trans : ElementTransformation R) (elmat : DenseMatrix R) :
    Except String (DenseMatrix R) :=
  let nd := el.GetDof
  let elmat := elmat.SetSize nd nd
  let ir := rule IntRules self el Trans
  let Q_nodal := self.Q.EvalRule Q_nodal Trans el.GetNodes -- sets the size of Q_nodal
  let elmat := elmat.assign 0
  pure (ir.foldl (point self el Trans Q_nodal) elmat)

/-- The sum over the quadrature points of
`alpha * ip.weight * shape(k) * sum_s Q_nodal(s, node) * grad(l, s)`, with
`grad = dshape * adj(J)`: the entry `(k,l)` of the group convection form when
the coefficient is sampled at the node `node`. -/
def nodalEntry {R : Type} [Field R] (IntRules : IntegrationRules R)
    (self : GroupConvectionIntegrator R) (Q_nodal : DenseMatrix R) (el : FiniteElement R)
    (Trans : ElementTransformation R) (node k l : Nat) : R :=
  let Q_nodal := self.Q.EvalRule Q_nodal Trans el.GetNodes
  ((rule IntRules self el Trans).map fun ip =>
    let grad := Mult { height := el.GetDof, width := el.GetDim, elem := el.CalcDShape ip }
      (CalcAdjugate (Trans.Jacobian ip)
        { height := el.GetDim, width := el.GetDim, elem := fun _ _ => 0 })
      { height := el.GetDof, width := el.GetDim, elem := fun _ _ => 0 }
    self.alpha * ip.weight * el.CalcShape ip k *
      Finset.sum (Finset.range el.GetDim) fun s =>
        Q_nodal.elem s node * grad.elem l s).sum

end GroupConvectionIntegrator

/-! ## Curl-curl integrators (lines 889-1042) -/

/-- Class `CurlCurlIntegrator`: the optional rule `IntRule` and the optional
scalar coefficient `Q`. -/
structure CurlCurlIntegrator (R : Type) where
  IntRule : Option (IntegrationRule R)
  Q : Option (Coefficient R)

namespace CurlCurlIntegrator

/-- The rule selected at lines 904-914. -/
def rule {R : Type} (IntRules : IntegrationRules R) (self : CurlCurlIntegrator R)
    (el : FiniteElement R) : IntegrationRule R :=
  match self.IntRule with
  | some ir => ir
  | none =>
    let order :=
      if el.Space = FunctionSpace.Pk then 2 * el.GetOrder - 2
      else 2 * el.GetOrder
    IntRules.Get el.GetGeomType order

/-- The body of the quadrature loop of lines 917-933 at one point `ip`. -/
def point {R : Type} [Field R] (self : CurlCurlIntegrator R) (el : FiniteElement R)
    (Trans : ElementTransformation R) (elmat : DenseMatrix R) (ip : IntegrationPoint R) :
    DenseMatrix R :=
  let nd := el.GetDof
  let dim := el.GetDim
  let Curlshape : DenseMatrix R := { height := nd, width := dim, elem := el.CalcCurlShape ip }
  let Curlshape_dFt : DenseMatrix R := { height := nd, width := dim, elem := fun _ _ => 0 }
  let w := ip.weight / Trans.Weight ip
  let Curlshape_dFt := MultABt Curlshape (Trans.Jacobian ip) Curlshape_dFt
  let w := match self.Q with
    | some Q => w * Q.Eval Trans ip
    | none => w
  AddMult_a_AAt w Curlshape_dFt elmat

/-- Method `CurlCurlIntegrator::AssembleElementMatrix` (lines 889-934). -/
def AssembleElementMatrix {R : Type} [Field R] (IntRules : IntegrationRules R)
    (self : CurlCurlIntegrator R) (el : FiniteElement R) (Trans : ElementTransformation R)
    (elmat : DenseMatrix R) : Except String (DenseMatrix R) :=
  let nd := el.GetDof
  let elmat := elmat.SetSize nd nd
  let ir := rule IntRules self el
  let elmat := elmat.assign 0
  pure (ir.foldl (point self el Trans) elmat)

end CurlCurlIntegrator

/-- Class `VectorCurlCurlIntegrator`: the optional rule `IntRule` and the
optional scalar coefficient `Q`. -/
structure VectorCurlCurlIntegrator (R : Type) where
  IntRule : Option (IntegrationRule R)
  Q : Option (Coefficient R)

namespace VectorCurlCurlIntegrator

/-- The rule selected at lines 954-960 and 999-1005. -/
def rule {R : Type} (IntRules : IntegrationRules R) (self : VectorCurlCurlIntegrator R)
    (el : FiniteElement R) (Trans : ElementTransformation R) : IntegrationRule R :=
  match self.IntRule with
  | some ir => ir
  | none =>
    -- use the same integration rule as diffusion
    let order := 2 * Trans.OrderGrad el.GetDim el.GetOrder el.Space
    IntRules.Get el.GetGeomType order

/-- The matrix `dshape` of lines 966-971 at one point `ip`: the reference
gradients times the adjugate of the Jacobian. -/
def dshape {R : Type} [Field R] (el : FiniteElement R) (Trans : ElementTransformation R)
    (ip : IntegrationPoint R) : DenseMatrix R :=
  let dim := el.GetDim
  let dof := el.GetDof
  let dshape_hat : DenseMatrix R := { height := dof, width := dim, elem := el.CalcDShape ip }
  let dshape : DenseMatrix R := { height := dof, width := dim, elem := fun _ _ => 0 }
  let Jadj : DenseMatrix R := { height := dim, width := dim, elem := fun _ _ => 0 }
  let Jadj := CalcAdjugate (Trans.Jacobian ip) Jadj
  Mult dshape_hat Jadj dshape

/-- The matrix `curlshape` of line 972 at one point `ip`. -/
def curlshape {R : Type} [Field R] (el : FiniteElement R) (Trans : ElementTransformation R)
    (ip : IntegrationPoint R) : DenseMatrix R :=
  let dim := el.GetDim
  let dof := el.GetDof
  let cld := (dim * (dim - 1)) / 2
  let curlshape : DenseMatrix R := { height := dim * dof, width := cld, elem := fun _ _ => 0 }
  (dshape el Trans ip).GradToCurl curlshape

/-- The body of the quadrature loop of lines 963-979 at one point `ip`. -/
def point {R : Type} [Field R] (self : VectorCurlCurlIntegrator R) (el : FiniteElement R)
    (Trans : ElementTransformation R) (elmat : DenseMatrix R) (ip : IntegrationPoint R) :
    DenseMatrix R :=
  let w := ip.weight / Trans.Weight ip
  let curlshape := curlshape el Trans ip
  let w := match self.Q with
    | some Q => w * Q.Eval Trans ip
    | none => w
  AddMult_a_AAt w curlshape elmat

/-- Method `VectorCurlCurlIntegrator::AssembleElementMatrix` (lines 937-980).
The buffer `elmat` is zeroed at line 962 and is not resized anywhere in the
method. -/
def AssembleElementMatrix {R : Type} [Field R] (IntRules : IntegrationRules R)
    (self : VectorCurlCurlIntegrator R) (el : FiniteElement R)
    (Trans : ElementTransformation R) (elmat : DenseMatrix R) :
    Except String (DenseMatrix R) :=
  let ir := rule IntRules self el Trans
  let elmat := elmat.assign 0
  pure (ir.foldl (point self el Trans) elmat)

/-- The matrix `grad` of lines 1011-1018 at one point `ip`: the gradient of the
field with the coefficients `elfun`, read as the `dof x dim` matrix
`elfun_mat(k, c) = elfun(k + dof*c)`. -/
def grad {R : Type} [Field R] (el : FiniteElement R) (Tr : ElementTransformation R)
    (elfun : Vector R) (ip : IntegrationPoint R) : DenseMatrix R :=
  let dim := el.GetDim
  let dof := el.GetDof
  let dshape_hat : DenseMatrix R := { height := dof, width := dim, elem := el.CalcDShape ip }
  let Jadj : DenseMatrix R := { height := dim, width := dim, elem := fun _ _ => 0 }
  let grad_hat : DenseMatrix R := { height := dim, width := dim, elem := fun _ _ => 0 }
  let grad : DenseMatrix R := { height := dim, width := dim, elem := fun _ _ => 0 }
  let elfun_mat : DenseMatrix R :=
    { height := dof, width := dim, elem := fun k c => elfun.elem (k + dof * c) }
  let grad_hat := MultAtB elfun_mat dshape_hat grad_hat
  let Jadj := CalcAdjugate (Tr.Jacobian ip) Jadj
  Mult grad_hat Jadj grad

/-- The body of the quadrature loop of lines 1008-1037 at one point `ip`. -/
def energyPoint {R : Type} [Field R] (self : VectorCurlCurlIntegrator R)
    (el : FiniteElement R) (Tr : ElementTransformation R) (elfun : Vector R)
    (energy : R) (ip : IntegrationPoint R) : R :=
  let dim := el.GetDim
  let grad := grad el Tr elfun ip
  let w := ip.weight / Tr.Weight ip
  let w :=
    if dim = 2 then
      let curl := grad.elem 0 1 - grad.elem 1 0
      w * (curl * curl)
    else
      let curl_x := grad.elem 2 1 - grad.elem 1 2
      let curl_y := grad.elem 0 2 - grad.elem 2 0
      let curl_z := grad.elem 1 0 - grad.elem 0 1
      w * (curl_x * curl_x + curl_y * curl_y + curl_z * curl_z)
  let w := match self.Q with
    | some Q => w * Q.Eval Tr ip
    | none => w
  energy + w

/-- Method `VectorCurlCurlIntegrator::GetElementEnergy` (lines 982-1042); the
factor `0.5` is the scalar `1/2`. -/
def GetElementEnergy {R : Type} [Field R] (IntRules : IntegrationRules R)
    (self : VectorCurlCurlIntegrator R) (el : FiniteElement R)
    (Tr : ElementTransformation R) (elfun : Vector R) : R :=
  let ir := rule IntRules self el Tr
  let energy := ir.foldl (energyPoint self el Tr elfun) 0
  1 / 2 * energy

end VectorCurlCurlIntegrator

/-! ## Vector diffusion integrator (lines 1260-1318) -/

/-- Class `VectorDiffusionIntegrator`: the optional rule `IntRule` and the
optional scalar coefficient `Q`. The work matrices are sized and overwritten in
every call before they are read, so they are locals here. -/
structure VectorDiffusionIntegrator (R : Type) where
  IntRule : Option (IntegrationRule R)
  Q : Option (Coefficient R)

namespace VectorDiffusionIntegrator

/-- The rule selected at lines 1277-1286. -/
def rule {R : Type} (IntRules RefinedIntRules : IntegrationRules R)
    (self : VectorDiffusionIntegrator R) (el : FiniteElement R)
    (Trans : ElementTransformation R) : IntegrationRule R :=
  match self.IntRule with
  | some ir => ir
  | none =>
    -- integrant is rational function if det(J) is not constant
    let order := 2 * Trans.OrderGrad el.GetDim el.GetOrder el.Space -- order of the numerator
    if el.Space = FunctionSpace.rQk then
      RefinedIntRules.Get el.GetGeomType order
    else
      IntRules.Get el.GetGeomType order

/-- The matrix `pelmat` of lines 1296-1308 at one point `ip`: `gshape * gshape^t`
scaled by `norm`. -/
def pelmat {R : Type} [Field R] (self : VectorDiffusionIntegrator R) (el : FiniteElement R)
    (Trans : ElementTransformation R) (ip : IntegrationPoint R) : DenseMatrix R :=
  let dim := el.GetDim
  let dof := el.GetDof
  let Jinv : DenseMatrix R := { height := dim, width := dim, elem := fun _ _ => 0 }
  let dshape : DenseMatrix R := { height := dof, width := dim, elem := el.CalcDShape ip }
  let gshape : DenseMatrix R := { height := dof, width := dim, elem := fun _ _ => 0 }
  let pelmat : DenseMatrix R := { height := dof, width := dof, elem := fun _ _ => 0 }
  let norm := ip.weight * Trans.Weight ip
  let Jinv := CalcInverse (Trans.Jacobian ip) Jinv
  let gshape := Mult dshape Jinv gshape
  let pelmat := MultAAt gshape pelmat
  let norm := match self.Q with
    | some Q => norm * Q.Eval Trans ip
    | none => norm
  pelmat.scale norm

/-- The body of the quadrature loop of lines 1290-1317 at one point `ip`. -/
def point {R : Type} [Field R] (self : VectorDiffusionIntegrator R) (el : FiniteElement R)
    (Trans : ElementTransformation R) (elmat : DenseMatrix R) (ip : IntegrationPoint R) :
    DenseMatrix R :=
  let dim := el.GetDim
  let dof := el.GetDof
  let pelmat := pelmat self el Trans ip
  (List.range dim).foldl
    (fun elmat d =>
      (List.range dof).foldl
        (fun elmat k =>
          (List.range dof).foldl
            (fun elmat l => elmat.addAt (dof * d + k) (dof * d + l) (pelmat.elem k l))
            elmat)
        elmat)
    elmat

/-- Method `VectorDiffusionIntegrator::AssembleElementMatrix` (lines
1260-1318). -/
def AssembleElementMatrix {R : Type} [Field R] (IntRules RefinedIntRules : IntegrationRules R)
    (self : VectorDiffusionIntegrator R) (el : FiniteElement R)
    (Trans : ElementTransformation R) (elmat : DenseMatrix R) :
    Except String (DenseMatrix R) :=
  let dim := el.GetDim
  let dof := el.GetDof
  let elmat := elmat.SetSize (dim * dof) (dim * dof)
  let ir := rule IntRules RefinedIntRules self el Trans
  let elmat := elmat.assign 0
  pure (ir.foldl (point self el Trans) elmat)

end VectorDiffusionIntegrator

/-! ## Elasticity integrator (lines 1321-1394) -/

/-- Class `ElasticityIntegrator`: the optional rule `IntRule`, the optional
coefficient `lambda`, the coefficient `mu` and the multipliers `q_lambda` and
`q_mu` used when `lambda` is absent. The work buffers are sized and overwritten
in every call before they are read, so they are locals here. -/
structure ElasticityIntegrator (R : Type) where
  IntRule : Option (IntegrationRule R)
  lambda : Option (Coefficient R)
  mu : Coefficient R
  q_lambda : R
  q_mu : R

namespace ElasticityIntegrator

/-- The rule selected at lines 1341-1346. -/
def rule {R : Type} (IntRules : IntegrationRules R) (self : ElasticityIntegrator R)
    (el : FiniteElement R) (Trans : ElementTransformation R) : IntegrationRule R :=
  match self.IntRule with
  | some ir => ir
  | none =>
    let order := 2 * Trans.OrderGrad el.GetDim el.GetOrder el.Space -- correct order?
    IntRules.Get el.GetGeomType order

/-- The matrix `gshape` of lines 1358-1359 at one point `ip`. -/
def gshape {R : Type} [Field R] (el : FiniteElement R) (Trans : ElementTransformation R)
    (ip : IntegrationPoint R) : DenseMatrix R :=
  let dof := el.GetDof
  let dim := el.GetDim
  let Jinv : DenseMatrix R := { height := dim, width := dim, elem := fun _ _ => 0 }
  let dshape : DenseMatrix R := { height := dof, width := dim, elem := el.CalcDShape ip }
  let gshape : DenseMatrix R := { height := dof, width := dim, elem := fun _ _ => 0 }
  let Jinv := CalcInverse (Trans.Jacobian ip) Jinv
  Mult dshape Jinv gshape

/-- The values `L` and `M` of lines 1363-1370 at one point `ip`. -/
def LM {R : Type} [Field R] (self : ElasticityIntegrator R) (Trans : ElementTransformation R)
    (ip : IntegrationPoint R) : R × R :=
  let M := self.mu.Eval Trans ip
  match self.lambda with
  | some lambda => (lambda.Eval Trans ip, M)
  | none => (self.q_lambda * M, self.q_mu * M)

/-- The updates of `elmat` at lines 1372-1392 at one point, for the values `w`,
`L`, `M`, `gshape`, `pelmat` and `divshape` of that point. Only `+`, `*` and the
comparison with zero are used, in the order of the source, so that the updates
can be read in exact arithmetic and in the arithmetic of `double`. -/
def update {R : Type} [Add R] [Mul R] [Zero R] [DecidableEq R] (dof dim : Nat)
    (w L M : R) (gshape pelmat : DenseMatrix R) (divshape : Vector R)
    (elmat : DenseMatrix R) : DenseMatrix R :=
  let elmat := if L ≠ 0 then AddMult_a_VVt (L * w) divshape elmat else elmat
  if M ≠ 0 then
    let elmat :=
      (List.range dim).foldl
        (fun elmat d =>
          (List.range dof).foldl
            (fun elmat k =>
              (List.range dof).foldl
                (fun elmat l =>
                  elmat.addAt (dof * d + k) (dof * d + l) (M * w * pelmat.elem k l))
                elmat)
            elmat)
        elmat
    (List.range dim).foldl
      (fun elmat i =>
        (List.range dim).foldl
          (fun elmat j =>
            (List.range dof).foldl
              (fun elmat k =>
                (List.range dof).foldl
                  (fun elmat l =>
                    elmat.addAt (dof * i + k) (dof * j + l)
                      (M * w * gshape.elem k j * gshape.elem l i))
                  elmat)
              elmat)
          elmat)
      elmat
  else elmat

/-- The body of the quadrature loop of lines 1350-1393 at one point `ip`. -/
def point {R : Type} [Field R] [DecidableEq R] (self : ElasticityIntegrator R)
    (el : FiniteElement R) (Trans : ElementTransformation R) (elmat : DenseMatrix R)
    (ip : IntegrationPoint R) : DenseMatrix R :=
  let dof := el.GetDof
  let dim := el.GetDim
  let pelmat : DenseMatrix R := { height := dof, width := dof, elem := fun _ _ => 0 }
  let divshape : Vector R := { size := dim * dof, elem := fun _ => 0 }
  let w := ip.weight * Trans.Weight ip
  let gshape := gshape el Trans ip
  let pelmat := MultAAt gshape pelmat
  let divshape := gshape.GradToDiv divshape
  let LM := LM self Trans ip
  update dof dim w LM.1 LM.2 gshape pelmat divshape elmat

/-- Method `ElasticityIntegrator::AssembleElementMatrix` (lines 1321-1394). -/
def AssembleElementMatrix {R : Type} [Field R] [DecidableEq R]
    (IntRules : IntegrationRules R) (self : ElasticityIntegrator R) (el : FiniteElement R)
    (Trans : ElementTransformation R) (elmat : DenseMatrix R) :
    Except String (DenseMatrix R) :=
  let dof := el.GetDof
  let dim := el.GetDim
  let elmat := elmat.SetSize (dof * dim) (dof * dim)
  let ir := rule IntRules self el Trans
  let elmat := elmat.assign 0
  pure (ir.foldl (point self el Trans) elmat)

end ElasticityIntegrator

/-! ## Exactness of a rule on the reference triangle -/

/-- The integral of `x^a * y^b` over the reference triangle with vertices
`(0,0)`, `(1,0)`, `(0,1)`, in closed form: `a! b! / (a + b + 2)!`. -/
def refTriangleMoment (R : Type) [Field R] (a b : Nat) : R :=
  ((a.factorial : R) * (b.factorial : R)) / ((a + b + 2).factorial : R)

/-- The value a rule gives to the integral of `f(x, y)`: the weighted sum of
the values of `f` at its points. -/
def IntegrationRule.integrate {R : Type} [Field R] (ir : IntegrationRule R)
    (f : R → R → R) : R :=
  (ir.map fun ip => ip.weight * f ip.x ip.y).sum

/-- A rule integrates every polynomial of degree at most `d` exactly over the
reference triangle: by linearity, it does so on the monomials `x^a * y^b` with
`a + b <= d`. -/
def IntegrationRule.ExactOnTriangle {R : Type} [Field R] (ir : IntegrationRule R)
    (d : Nat) : Prop :=
  ∀ a b, a + b ≤ d → ir.integrate (fun x y => x ^ a * y ^ b) = refTriangleMoment R a b

/-! ## Concrete data -/

/-! ## The arithmetic of `double` on whole numbers -/

/-- A value of the C++ type `double` (IEEE 754 binary64) that is a whole number.
Sums and products of such values, rounded as the machine rounds them, are whole
numbers again, so these values are a part of `double` closed under `+` and `*`;
overflow is beyond the values used here. -/
structure Double where
  val : Int
  deriving DecidableEq

/-- The number of binary digits of a natural number below `2 ^ fuel`. -/
def Double.bits : Nat → Nat → Nat
  | 0, _ => 0
  | fuel + 1, a => if a = 0 then 0 else Double.bits fuel (a / 2) + 1

/-- Rounding of a whole number to the 53 significant bits of a `double`: to the
nearest representable value, a tie going to the even significand. The exponent
range of a `double` ends at `2 ^ 1024`. -/
def Double.round (n : Int) : Int :=
  let a := n.natAbs
  let sh := Double.bits 1024 a - 53
  if sh = 0 then n
  else
    let q := a / 2 ^ sh
    let r := a % 2 ^ sh
    let half := 2 ^ (sh - 1)
    let q := if half < r ∨ (r = half ∧ q % 2 = 1) then q + 1 else q
    if n < 0 then -((q * 2 ^ sh : Nat) : Int) else ((q * 2 ^ sh : Nat) : Int)

/-- The sum of two values of type `double`: the exact sum, rounded. -/
instance Double.instAdd : Add Double :=
  ⟨fun x y => ⟨Double.round (x.val + y.val)⟩⟩

/-- The product of two values of type `double`: the exact product, rounded. -/
instance Double.instMul : Mul Double :=
  ⟨fun x y => ⟨Double.round (x.val * y.val)⟩⟩

/-- The value `0.0`. -/
instance Double.instZero : Zero Double :=
  ⟨⟨0⟩⟩

namespace Example

/-- The zero matrix of a given size. -/
def zeros (h w : Nat) : DenseMatrix ℚ :=
  { height := h, width := w, elem := fun _ _ => 0 }

/-- The edge midpoint rule of the reference triangle: three points of weight
`1/6`, exact for polynomials of degree two. -/
def midpointRule : IntegrationRule ℚ :=
  [ { x := 1/2, y := 0, z := 0, weight := 1/6 },
    { x := 1/2, y := 1/2, z := 0, weight := 1/6 },
    { x := 0, y := 1/2, z := 0, weight := 1/6 } ]

/-- A rule table that returns the edge midpoint rule for every request. -/
def rules : IntegrationRules ℚ :=
  { Get := fun _ _ => midpointRule }

/-- The 3-node linear triangle: shape functions `1 - x - y`, `x`, `y`. -/
def linearTriangle : FiniteElement ℚ :=
  { GetDim := 2, GetGeomType := 2, GetDof := 3, GetOrder := 1, Space := FunctionSpace.Pk
    CalcShape := fun ip i => if i = 0 then 1 - ip.x - ip.y else if i = 1 then ip.x else ip.y
    CalcDShape := fun _ i j =>
      if i = 0 then -1 else if i = 1 then (if j = 0 then 1 else 0) else (if j = 0 then 0 else 1)
    CalcVShape := fun _ _ _ _ => 0
    CalcCurlShape := fun _ _ _ => 0 }

/-- The 1-node piecewise constant triangle: shape function `1`. -/
def constantTriangle : FiniteElement ℚ :=
  { GetDim := 2, GetGeomType := 2, GetDof := 1, GetOrder := 0, Space := FunctionSpace.Pk
    CalcShape := fun _ _ => 1
    CalcDShape := fun _ _ _ => 0
    CalcVShape := fun _ _ _ _ => 0
    CalcCurlShape := fun _ _ _ => 0 }

/-- The identity mapping of the reference triangle onto itself. -/
def identityMap : ElementTransformation ℚ :=
  { GetSpaceDim := 2, OrderW := 0
    Jacobian := fun _ => { height := 2, width := 2, elem := fun i j => if i = j then 1 else 0 }
    Weight := fun _ => 1 }

/-- A mass integrator without a supplied rule and without a coefficient. -/
def mass : MassIntegrator ℚ :=
  { IntRule := none, Q := none }

/-- The mass integrator `mass` as an integrator object over the table `rules`. -/
def massObj : Integrator ℚ :=
  mass.toIntegrator rules rules

/-- The element matrix the quadrature loop of `mass` leaves for the linear
triangle under the identity mapping. -/
def massMatrix : DenseMatrix ℚ :=
  List.foldl (MassIntegrator.point mass linearTriangle identityMap) (zeros 3 3) midpointRule

/-- The 2-node linear segment: shape functions `1 - x`, `x`. -/
def linearSegment : FiniteElement ℚ :=
  { GetDim := 1, GetGeomType := 1, GetDof := 2, GetOrder := 1, Space := FunctionSpace.Pk
    CalcShape := fun ip i => if i = 0 then 1 - ip.x else ip.x
    CalcDShape := fun _ i _ => if i = 0 then -1 else 1
    CalcVShape := fun _ _ _ _ => 0
    CalcCurlShape := fun _ _ _ => 0 }

/-- The identity mapping of the reference segment onto itself. -/
def segmentMap : ElementTransformation ℚ :=
  { GetSpaceDim := 1, OrderW := 0
    Jacobian := fun _ => { height := 1, width := 1, elem := fun _ _ => 1 }
    Weight := fun _ => 1 }

/-- The mapping of a face that is a single point. -/
def pointMap : ElementTransformation ℚ :=
  { GetSpaceDim := 1, OrderW := 0
    Jacobian := fun _ => { height := 1, width := 0, elem := fun _ _ => 0 }
    Weight := fun _ => 1 }

/-- The point map that sends the face point to the right end `x = 1` of a
segment. -/
def rightEnd : IntegrationPointTransformation ℚ :=
  { Transform := fun ip => { x := 1, y := 0, z := 0, weight := ip.weight } }

/-- The point map that sends the face point to the left end `x = 0` of a
segment. -/
def leftEnd : IntegrationPointTransformation ℚ :=
  { Transform := fun ip => { x := 0, y := 0, z := 0, weight := ip.weight } }

/-- A boundary face: the right end of a segment, with no second element. -/
def boundaryFace : FaceElementTransformations ℚ :=
  { Elem1No := 0, Elem2No := -1, FaceGeom := 0, Elem1 := segmentMap, Elem2 := segmentMap
    Face := pointMap, Loc1 := rightEnd, Loc2 := leftEnd }

/-- The rule of a point: one point of weight 1. -/
def pointRule : IntegrationRule ℚ :=
  [ { x := 0, y := 0, z := 0, weight := 1 } ]

/-- A rule table that returns the rule of a point for every request. -/
def pointRules : IntegrationRules ℚ :=
  { Get := fun _ _ => pointRule }

/-- A diffusion face integrator with `sigma = 1`, `kappa = 1` and no
coefficient. -/
def dgDiffusionSigmaOne : DGDiffusionIntegrator ℚ :=
  { IntRule := none, Q := none, MQ := none, sigma := 1, kappa := 1 }

/-- A trace integrator with unit velocity, `alpha = 1`, `beta = 1/2` and no
density. -/
def dgTrace : DGTraceIntegrator ℚ :=
  { IntRule := none, rho := none
    u := { GetVDim := 1, Eval := fun _ _ => { size := 1, elem := fun _ => 1 } }
    alpha := 1, beta := 1 / 2 }

/-- A constant matrix coefficient of dimension 2 with the value
`[[1,2],[2,1]]`. -/
def matrixCoeff : MatrixCoefficient ℚ :=
  { GetVDim := 2
    Eval := fun _ _ => { height := 2, width := 2, elem := fun i j => if i = j then 1 else 2 } }

/-- A constant vector coefficient of dimension 2 with the value `(1, 1)`. -/
def vectorCoeffOne : VectorCoefficient ℚ :=
  { GetVDim := 2, Eval := fun _ _ => { size := 2, elem := fun _ => 1 } }

/-- A constant vector coefficient of dimension 2 with the value `(2, 2)`. -/
def vectorCoeffTwo : VectorCoefficient ℚ :=
  { GetVDim := 2, Eval := fun _ _ => { size := 2, elem := fun _ => 2 } }

/-- A vector mass integrator with both a vector coefficient and the matrix
coefficient `matrixCoeff` configured. -/
def vectorMass (vq : VectorCoefficient ℚ) : VectorMassIntegrator ℚ :=
  { IntRule := none, Q := none, VQ := some vq, MQ := some matrixCoeff, Q_order := 0 }

/-- The mapping of the reference segment onto the segment from `(0,0)` to
`(0,1)` of the plane: Jacobian `[[0],[1]]`, weight 1. -/
def segmentInPlane : ElementTransformation ℚ :=
  { GetSpaceDim := 2, OrderW := 0
    Jacobian := fun _ => { height := 2, width := 1, elem := fun i _ => if i = 1 then 1 else 0 }
    Weight := fun _ => 1 }

/-- The constant matrix coefficient of dimension 2 whose value is the identity. -/
def identityCoeff : MatrixCoefficient ℚ :=
  { GetVDim := 2
    Eval := fun _ _ => { height := 2, width := 2, elem := fun i j => if i = j then 1 else 0 } }

/-- The one-point rule of the reference segment: the midpoint with weight 1. -/
def segmentMidpointRule : IntegrationRule ℚ :=
  [ { x := 1 / 2, y := 0, z := 0, weight := 1 } ]

/-- A diffusion integrator with the identity matrix coefficient and the
midpoint rule of the segment. -/
def diffusionIdentity : DiffusionIntegrator ℚ :=
  { IntRule := some segmentMidpointRule, Q := none, MQ := some identityCoeff }

/-- The linear segment with its two nodes `x = 0` and `x = 1`. -/
def nodalSegment : FiniteElement ℚ :=
  { linearSegment with
    GetNodes := [ { x := 0, y := 0, z := 0, weight := 0 },
                  { x := 1, y := 0, z := 0, weight := 0 } ] }

/-- The vector field of dimension 1 whose value at a point is its coordinate
`x`. -/
def positionField : VectorCoefficient ℚ :=
  { GetVDim := 1, Eval := fun _ ip => { size := 1, elem := fun _ => ip.x } }

/-- A group convection integrator with the field `positionField`, `alpha = 1`
and the midpoint rule of the segment. -/
def groupConvection : GroupConvectionIntegrator ℚ :=
  { IntRule := some segmentMidpointRule, Q := positionField, alpha := 1 }

/-- The constant vector field of dimension 1 with the value 3. -/
def constantField : VectorCoefficient ℚ :=
  { GetVDim := 1, Eval := fun _ _ => { size := 1, elem := fun _ => 3 } }

/-- The refined linear segment, of function space `rQk`: three nodes `x = 0`,
`x = 1` and `x = 1/2`, shape functions linear on each half of the segment. -/
def refinedSegment : FiniteElement ℚ :=
  { GetDim := 1, GetGeomType := 1, GetDof := 3, GetOrder := 1, Space := FunctionSpace.rQk
    CalcShape := fun ip i =>
      if 2 * ip.x ≤ 1 then
        (if i = 0 then 1 - 2 * ip.x else if i = 1 then 0 else 2 * ip.x)
      else
        (if i = 0 then 0 else if i = 1 then 2 * ip.x - 1 else 2 - 2 * ip.x)
    CalcDShape := fun ip i _ =>
      if 2 * ip.x ≤ 1 then (if i = 0 then -2 else if i = 1 then 0 else 2)
      else (if i = 0 then 0 else if i = 1 then 2 else -2)
    CalcVShape := fun _ _ _ _ => 0
    CalcCurlShape := fun _ _ _ => 0 }

/-- A rule table that returns the midpoint rule of the segment for every
request. -/
def segmentRules : IntegrationRules ℚ :=
  { Get := fun _ _ => segmentMidpointRule }

/-- A table of refined rules: the midpoint rule on each half of the segment,
two points of weight `1/2`, for every request. -/
def refinedRules : IntegrationRules ℚ :=
  { Get := fun _ _ =>
      [ { x := 1 / 4, y := 0, z := 0, weight := 1 / 2 },
        { x := 3 / 4, y := 0, z := 0, weight := 1 / 2 } ] }

/-- The gradients `gshape = [[3, 5]]` of an element with one basis function in
dimension 2, as values of type `double`. -/
def gshapeDouble : DenseMatrix Double :=
  { height := 1, width := 2, elem := fun _ j => if j = 0 then ⟨3⟩ else ⟨5⟩ }

/-- The matrix `pelmat = gshape * gshape^T = [[34]]` of `gshapeDouble`. -/
def pelmatDouble : DenseMatrix Double :=
  { height := 1, width := 1, elem := fun _ _ => ⟨34⟩ }

/-- The vector `divshape = (3, 5)` of `gshapeDouble`. -/
def divshapeDouble : Vector Double :=
  { size := 2, elem := fun a => if a = 0 then ⟨3⟩ else ⟨5⟩ }

/-- The zeroed `2 x 2` buffer of values of type `double`. -/
def zerosDouble : DenseMatrix Double :=
  { height := 2, width := 2, elem := fun _ _ => 0 }

end Example

/-! ## Composite wrappers: theorems -/

/-- The loop of `SumIntegrator::AssembleElementMatrix` over children that
return the matrices `Ms` ends normally and leaves `elmat` plus their entry-wise
sum, in the dimensions of `elmat`. -/
theorem SumIntegrator.loop_ok {R : Type} [AddMonoid R] (el : FiniteElement R)
    (Trans : ElementTransformation R) (rest : List (Integrator R)) (Ms : List (DenseMatrix R))
    (hrest : List.Forall₂
      (fun I M => ∀ buf, I.AssembleElementMatrix el Trans buf = Except.ok M) rest Ms)
    (elmat elem_mat : DenseMatrix R) :
    ∃ S, SumIntegrator.loop el Trans rest elmat elem_mat = Except.ok S ∧
      S.height = elmat.height ∧ S.width = elmat.width ∧
      ∀ i j, S.elem i j = elmat.elem i j + (Ms.map fun M => M.elem i j).sum := by
  induction hrest generalizing elmat elem_mat with
  | nil => exact ⟨elmat, rfl, rfl, rfl, fun i j => by simp⟩
  | @cons I M rest Ms hI _ ih =>
    obtain ⟨S, hS, hh, hw, he⟩ := ih (elmat.addAssign M) M
    refine ⟨S, ?_, hh, hw, fun i j => ?_⟩
    · simp only [SumIntegrator.loop, hI elem_mat]
      exact hS
    · rw [he i j]
      simp [DenseMatrix.addAssign, add_assoc]

/-- Claim C1. For a non-empty ordered list of integrators whose element matrices
for `(el, Trans)` are `Ms`, all of the same dimensions `h x w`,
`SumIntegrator::AssembleElementMatrix` ends normally and returns the `h x w`
matrix whose entries are the sums of the entries of `Ms`; for a list of one
integrator it returns exactly what that child returns. -/
theorem SumIntegrator.assemble_eq_sum {R : Type} [AddMonoid R] (own : Bool)
    (integrators : List (Integrator R)) (elem_mat elmat : DenseMatrix R)
    (el : FiniteElement R) (Trans : ElementTransformation R)
    (Ms : List (DenseMatrix R)) (h w : Nat)
    (hne : integrators ≠ [])
    (hMs : List.Forall₂
      (fun I M => ∀ buf, I.AssembleElementMatrix el Trans buf = Except.ok M) integrators Ms)
    (hdim : ∀ M, M ∈ Ms → M.height = h ∧ M.width = w) :
    (∃ S, SumIntegrator.AssembleElementMatrix
          { own_integrators := own, integrators := integrators, elem_mat := elem_mat }
          el Trans elmat = Except.ok S ∧
        S.height = h ∧ S.width = w ∧
        ∀ i j, S.elem i j = (Ms.map fun M => M.elem i j).sum) ∧
      ∀ I : Integrator R, SumIntegrator.AssembleElementMatrix
          { own_integrators := own, integrators := [I], elem_mat := elem_mat }
          el Trans elmat = I.AssembleElementMatrix el Trans elmat := by
  constructor
  · cases hMs with
    | nil => exact absurd rfl hne
    | @cons I0 M0 rest Ms0 h0 hrest =>
      obtain ⟨S, hS, hh, hw, he⟩ := SumIntegrator.loop_ok el Trans rest Ms0 hrest M0 elem_mat
      have hd := hdim M0 (List.mem_cons_self _ _)
      refine ⟨S, ?_, hh.trans hd.1, hw.trans hd.2, fun i j => ?_⟩
      · simp only [SumIntegrator.AssembleElementMatrix, MFEM_ASSERT, List.length_cons,
          gt_iff_lt, Nat.zero_lt_succ, decide_True, if_true, h0 elmat]
        exact hS
      · rw [he i j]
        simp
  · intro I
    simp only [SumIntegrator.AssembleElementMatrix, MFEM_ASSERT, List.length_cons,
      List.length_nil, gt_iff_lt, Nat.zero_lt_succ, decide_True, if_true]
    cases hI : I.AssembleElementMatrix el Trans elmat with
    | error e => rfl
    | ok M => rfl

/-- Witness for C1: the sum of two mass integrators on the linear triangle. -/
theorem SumIntegrator.assemble_eq_sum_witness :
    ([Example.massObj, Example.massObj] ≠ [] ∧
      (∀ M, M ∈ [Example.massMatrix, Example.massMatrix] → M.height = 3 ∧ M.width = 3)) ∧
    ((∃ S, SumIntegrator.AssembleElementMatrix
          { own_integrators := false, integrators := [Example.massObj, Example.massObj],
            elem_mat := Example.zeros 0 0 }
          Example.linearTriangle Example.identityMap (Example.zeros 0 0) = Except.ok S ∧
        S.height = 3 ∧ S.width = 3 ∧
        ∀ i j, S.elem i j =
          ([Example.massMatrix, Example.massMatrix].map fun M => M.elem i j).sum) ∧
      ∀ I : Integrator ℚ, SumIntegrator.AssembleElementMatrix
          { own_integrators := false, integrators := [I], elem_mat := Example.zeros 0 0 }
          Example.linearTriangle Example.identityMap (Example.zeros 0 0) =
        I.AssembleElementMatrix Example.linearTriangle Example.identityMap
          (Example.zeros 0 0)) :=
  have hne : [Example.massObj, Example.massObj] ≠ [] := by simp
  have hdim : ∀ M, M ∈ [Example.massMatrix, Example.massMatrix] →
      M.height = 3 ∧ M.width = 3 := by
    intro M hM
    simp only [List.mem_cons, List.mem_singleton, List.mem_nil_iff, or_false, or_self] at hM
    subst hM
    exact ⟨rfl, rfl⟩
  ⟨⟨hne, hdim⟩,
    SumIntegrator.assemble_eq_sum false [Example.massObj, Example.massObj]
      (Example.zeros 0 0) (Example.zeros 0 0) Example.linearTriangle Example.identityMap
      [Example.massMatrix, Example.massMatrix] 3 3 hne
      (List.Forall₂.cons (fun _ => rfl) (List.Forall₂.cons (fun _ => rfl) List.Forall₂.nil))
      hdim⟩

/-- Claim C2. On a `SumIntegrator` whose list of integrators is empty,
`SumIntegrator::AssembleElementMatrix` fails with the fatal error
`empty SumIntegrator.` for every element, mapping and buffer, directly and
through the base class pointer, and hands back no matrix. -/
theorem SumIntegrator.assemble_empty_fails {R : Type} [Add R] (own : Bool)
    (elem_mat elmat : DenseMatrix R) (el : FiniteElement R) (Trans : ElementTransformation R) :
    SumIntegrator.AssembleElementMatrix
        { own_integrators := own, integrators := [], elem_mat := elem_mat } el Trans elmat =
      Except.error "empty SumIntegrator." ∧
    (SumIntegrator.toIntegrator
        { own_integrators := own, integrators := [], elem_mat := elem_mat }).AssembleElementMatrix
        el Trans elmat = Except.error "empty SumIntegrator." ∧
    ∀ M, SumIntegrator.AssembleElementMatrix
        { own_integrators := own, integrators := [], elem_mat := elem_mat } el Trans elmat ≠
      Except.ok M := by
  refine ⟨rfl, rfl, fun M h => ?_⟩
  have h2 : (Except.error "empty SumIntegrator." : Except String (DenseMatrix R)) =
      Except.ok M := h
  cases h2

/-- Claim C3. Transposing what `TransposeIntegrator(I)` assembles gives what `I`
assembles into the member buffer, for the element matrix and for the face
matrix, and a failure of `I` is the failure of the wrapper; wrapping twice
gives the result of `I` itself. -/
theorem TransposeIntegrator.transpose_assemble {R : Type} (I : Integrator R)
    (s s2 elmat : DenseMatrix R) (el el1 el2 : FiniteElement R)
    (Trans : ElementTransformation R) (FTrans : FaceElementTransformations R) :
    Except.map DenseMatrix.transpose
        (TransposeIntegrator.AssembleElementMatrix { bfi := I, bfi_elmat := s } el Trans elmat) =
      I.AssembleElementMatrix el Trans s ∧
    Except.map DenseMatrix.transpose
        (TransposeIntegrator.AssembleFaceMatrix { bfi := I, bfi_elmat := s }
          el1 el2 FTrans elmat) =
      I.AssembleFaceMatrix el1 el2 FTrans s ∧
    (TransposeIntegrator.toIntegrator
        { bfi := TransposeIntegrator.toIntegrator { bfi := I, bfi_elmat := s },
          bfi_elmat := s2 }).AssembleElementMatrix el Trans elmat =
      I.AssembleElementMatrix el Trans s ∧
    (TransposeIntegrator.toIntegrator
        { bfi := TransposeIntegrator.toIntegrator { bfi := I, bfi_elmat := s },
          bfi_elmat := s2 }).AssembleFaceMatrix el1 el2 FTrans elmat =
      I.AssembleFaceMatrix el1 el2 FTrans s := by
  refine ⟨?_, ?_, ?_, ?_⟩
  · simp only [TransposeIntegrator.AssembleElementMatrix]
    cases I.AssembleElementMatrix el Trans s <;> rfl
  · simp only [TransposeIntegrator.AssembleFaceMatrix]
    cases I.AssembleFaceMatrix el1 el2 FTrans s <;> rfl
  · simp only [TransposeIntegrator.toIntegrator, TransposeIntegrator.AssembleElementMatrix]
    cases I.AssembleElementMatrix el Trans s <;> rfl
  · simp only [TransposeIntegrator.toIntegrator, TransposeIntegrator.AssembleFaceMatrix]
    cases I.AssembleFaceMatrix el1 el2 FTrans s <;> rfl

/-- Claim C4. `TransposeIntegrator(I)::AssembleElementMatrix2(trial_fe, test_fe)`
is the transpose of `I::AssembleElementMatrix2(test_fe, trial_fe)`, the wrapped
integrator being invoked with the two spaces swapped; when `I` returns results
shaped test dofs by trial dofs, the result of the wrapper has
`test_fe.GetDof()` rows and `trial_fe.GetDof()` columns. -/
theorem TransposeIntegrator.assemble2_swaps {R : Type} (I : Integrator R)
    (s elmat : DenseMatrix R) (trial_fe test_fe : FiniteElement R)
    (Trans : ElementTransformation R)
    (hshape : ∀ (a b : FiniteElement R) (buf M : DenseMatrix R),
      I.AssembleElementMatrix2 a b Trans buf = Except.ok M →
        M.height = b.GetDof ∧ M.width = a.GetDof) :
    TransposeIntegrator.AssembleElementMatrix2 { bfi := I, bfi_elmat := s }
        trial_fe test_fe Trans elmat =
      Except.map DenseMatrix.transpose (I.AssembleElementMatrix2 test_fe trial_fe Trans s) ∧
    ∀ M, TransposeIntegrator.AssembleElementMatrix2 { bfi := I, bfi_elmat := s }
        trial_fe test_fe Trans elmat = Except.ok M →
      M.height = test_fe.GetDof ∧ M.width = trial_fe.GetDof := by
  have key : TransposeIntegrator.AssembleElementMatrix2 { bfi := I, bfi_elmat := s }
        trial_fe test_fe Trans elmat =
      Except.map DenseMatrix.transpose (I.AssembleElementMatrix2 test_fe trial_fe Trans s) := by
    simp only [TransposeIntegrator.AssembleElementMatrix2]
    cases I.AssembleElementMatrix2 test_fe trial_fe Trans s <;> rfl
  refine ⟨key, fun M hM => ?_⟩
  rw [key] at hM
  cases hA : I.AssembleElementMatrix2 test_fe trial_fe Trans s with
  | error e =>
    rw [hA] at hM
    cases hM
  | ok A =>
    rw [hA] at hM
    have hMA : A.transpose = M := by
      simpa [Except.map] using hM
    have hd := hshape test_fe trial_fe s A hA
    subst hMA
    exact ⟨hd.2, hd.1⟩

/-- The quadrature loop of the mixed mass form keeps the dimensions of the
buffer. -/
theorem MassIntegrator.foldl_point2_dims {R : Type} [Field R] (self : MassIntegrator R)
    (trial_fe test_fe : FiniteElement R) (Trans : ElementTransformation R)
    (ir : IntegrationRule R) (A : DenseMatrix R) :
    (ir.foldl (MassIntegrator.point2 self trial_fe test_fe Trans) A).height = A.height ∧
      (ir.foldl (MassIntegrator.point2 self trial_fe test_fe Trans) A).width = A.width := by
  induction ir generalizing A with
  | nil => exact ⟨rfl, rfl⟩
  | cons ip ir ih => exact ih _

/-- Method `MassIntegrator::AssembleElementMatrix2` returns a matrix with one row for
each test function and one column for each trial function. -/
theorem MassIntegrator.assemble2_dims {R : Type} [Field R] (IntRules : IntegrationRules R)
    (self : MassIntegrator R) (trial_fe test_fe : FiniteElement R)
    (Trans : ElementTransformation R) (buf M : DenseMatrix R)
    (h : MassIntegrator.AssembleElementMatrix2 IntRules self trial_fe test_fe Trans buf =
      Except.ok M) :
    M.height = test_fe.GetDof ∧ M.width = trial_fe.GetDof := by
  simp only [MassIntegrator.AssembleElementMatrix2, pure, Except.pure, Except.ok.injEq] at h
  subst h
  exact MassIntegrator.foldl_point2_dims self trial_fe test_fe Trans _ _

/-- Witness for C4: the transposed mixed mass form with the constant triangle
as trial space and the linear triangle as test space. -/
theorem TransposeIntegrator.assemble2_swaps_witness :
    (∀ (a b : FiniteElement ℚ) (buf M : DenseMatrix ℚ),
      Example.massObj.AssembleElementMatrix2 a b Example.identityMap buf = Except.ok M →
        M.height = b.GetDof ∧ M.width = a.GetDof) ∧
    (TransposeIntegrator.AssembleElementMatrix2
        { bfi := Example.massObj, bfi_elmat := Example.zeros 0 0 }
        Example.constantTriangle Example.linearTriangle Example.identityMap
        (Example.zeros 0 0) =
      Except.map DenseMatrix.transpose
        (Example.massObj.AssembleElementMatrix2 Example.linearTriangle
          Example.constantTriangle Example.identityMap (Example.zeros 0 0)) ∧
    ∀ M, TransposeIntegrator.AssembleElementMatrix2
        { bfi := Example.massObj, bfi_elmat := Example.zeros 0 0 }
        Example.constantTriangle Example.linearTriangle Example.identityMap
        (Example.zeros 0 0) = Except.ok M →
      M.height = Example.linearTriangle.GetDof ∧ M.width = Example.constantTriangle.GetDof) :=
  have hshape : ∀ (a b : FiniteElement ℚ) (buf M : DenseMatrix ℚ),
      Example.massObj.AssembleElementMatrix2 a b Example.identityMap buf = Except.ok M →
        M.height = b.GetDof ∧ M.width = a.GetDof :=
    fun a b buf M h =>
      MassIntegrator.assemble2_dims Example.rules Example.mass a b Example.identityMap buf M h
  ⟨hshape,
    TransposeIntegrator.assemble2_swaps Example.massObj (Example.zeros 0 0) (Example.zeros 0 0)
      Example.constantTriangle Example.linearTriangle Example.identityMap hshape⟩

/-- Claim C5. When `I` assembles a square matrix `A`, `LumpedIntegrator(I)`
returns a matrix `L` of the same size whose off-diagonal entries are zero and
whose diagonal entry in row `i` is the sum of row `i` of `A`. -/
theorem LumpedIntegrator.assemble_lumped {R : Type} [AddCommMonoid R] (I : Integrator R)
    (el : FiniteElement R) (Trans : ElementTransformation R) (elmat A : DenseMatrix R)
    (hA : I.AssembleElementMatrix el Trans elmat = Except.ok A)
    (hsq : A.height = A.width) :
    ∃ L, LumpedIntegrator.AssembleElementMatrix { bfi := I } el Trans elmat = Except.ok L ∧
      L.height = A.height ∧ L.width = A.height ∧
      (∀ i j, i ≠ j → L.elem i j = 0) ∧
      ∀ i, L.elem i i = Finset.sum (Finset.range A.height) fun j => A.elem i j := by
  refine ⟨A.Lump, ?_, rfl, hsq.symm, fun i j hij => ?_, fun i => ?_⟩
  · simp only [LumpedIntegrator.AssembleElementMatrix, hA]
    rfl
  · simp [DenseMatrix.Lump, hij]
  · simp [DenseMatrix.Lump, DenseMatrix.rowSum, hsq]

/-- Witness for C5: the lumped mass matrix of the linear triangle. -/
theorem LumpedIntegrator.assemble_lumped_witness :
    (Example.massObj.AssembleElementMatrix Example.linearTriangle Example.identityMap
        (Example.zeros 0 0) = Except.ok Example.massMatrix ∧
      Example.massMatrix.height = Example.massMatrix.width) ∧
    ∃ L, LumpedIntegrator.AssembleElementMatrix { bfi := Example.massObj }
        Example.linearTriangle Example.identityMap (Example.zeros 0 0) = Except.ok L ∧
      L.height = Example.massMatrix.height ∧ L.width = Example.massMatrix.height ∧
      (∀ i j, i ≠ j → L.elem i j = 0) ∧
      ∀ i, L.elem i i =
        Finset.sum (Finset.range Example.massMatrix.height) fun j =>
          Example.massMatrix.elem i j :=
  ⟨⟨rfl, rfl⟩,
    LumpedIntegrator.assemble_lumped Example.massObj Example.linearTriangle
      Example.identityMap (Example.zeros 0 0) Example.massMatrix rfl rfl⟩

/-- Inside its bounds, a stored library matrix has the entries of that matrix. -/
theorem DenseMatrix.ofFin_elem {R : Type} [Zero R] {m n : Nat} (M : Matrix (Fin m) (Fin n) R)
    (i j : Nat) (hi : i < m) (hj : j < n) :
    (DenseMatrix.ofFin M).elem i j = M ⟨i, hi⟩ ⟨j, hj⟩ := by
  simp [DenseMatrix.ofFin, hi, hj]

/-- Reading back a stored library matrix gives that matrix. -/
theorem DenseMatrix.toFin_ofFin {R : Type} [Zero R] {m n : Nat}
    (M : Matrix (Fin m) (Fin n) R) : (DenseMatrix.ofFin M).toFin m n = M := by
  ext i j
  simp [DenseMatrix.toFin, DenseMatrix.ofFin]

/-- The entries of the product of two buffers are those of the product of the
library matrices read from them. -/
theorem DenseMatrix.mulEntry_eq {R : Type} [Semiring R] (A B : DenseMatrix R) (m n p : Nat)
    (hw : A.width = n) (i j : Nat) (hi : i < m) (hj : j < p) :
    A.mulEntry B i j = (A.toFin m n * B.toFin n p) ⟨i, hi⟩ ⟨j, hj⟩ := by
  simp only [DenseMatrix.mulEntry, Matrix.mul_apply, DenseMatrix.toFin, Matrix.of_apply, hw]
  exact Finset.sum_range fun k => A.elem i k * B.elem k j

/-- Claim C6. When `I` assembles a square matrix `A` with non-zero determinant,
`InverseIntegrator(I)` returns a matrix `B` of the same size with
`A * B = B * A = identity`. -/
theorem InverseIntegrator.assemble_inverse {R : Type} [Field R] (I : Integrator R)
    (el : FiniteElement R) (Trans : ElementTransformation R) (elmat A : DenseMatrix R)
    (hA : I.AssembleElementMatrix el Trans elmat = Except.ok A)
    (hsq : A.height = A.width)
    (hinv : (A.toFin A.height A.height).det ≠ 0) :
    ∃ B, InverseIntegrator.AssembleElementMatrix { integrator := I } el Trans elmat =
        Except.ok B ∧
      B.height = A.height ∧ B.width = A.width ∧
      (∀ i j, i < A.height → j < A.height →
        A.mulEntry B i j = if i = j then 1 else 0) ∧
      ∀ i j, i < A.height → j < A.height →
        B.mulEntry A i j = if i = j then 1 else 0 := by
  refine ⟨A.Invert, ?_, rfl, hsq, fun i j hi hj => ?_, fun i j hi hj => ?_⟩
  · simp only [InverseIntegrator.AssembleElementMatrix, hA]
    rfl
  · rw [DenseMatrix.mulEntry_eq A A.Invert A.height A.height A.height hsq.symm i j hi hj]
    simp only [DenseMatrix.Invert, DenseMatrix.toFin_ofFin]
    rw [Matrix.mul_smul, Matrix.mul_adjugate, smul_smul, inv_mul_cancel₀ hinv, one_smul]
    simp [Matrix.one_apply]
  · rw [DenseMatrix.mulEntry_eq A.Invert A A.height A.height A.height rfl i j hi hj]
    simp only [DenseMatrix.Invert, DenseMatrix.toFin_ofFin]
    rw [Matrix.smul_mul, Matrix.adjugate_mul, smul_smul, inv_mul_cancel₀ hinv, one_smul]
    simp [Matrix.one_apply]

/-- Claim C7. Each of the five default operations of `BilinearFormIntegrator`
fails with the fatal error for every input and hands back no buffer; an object
of a class that does not override an operation (`SumIntegrator`,
`LumpedIntegrator`, `InverseIntegrator` on `AssembleElementMatrix2` and
`AssembleFaceMatrix`) fails on it in the same way for every input. -/
theorem BilinearFormIntegrator.defaults_fail {R : Type} [Field R]
    (el el1 el2 el3 : FiniteElement R) (Trans : ElementTransformation R)
    (FTrans : FaceElementTransformations R) (elmat : DenseMatrix R) (elfun elvect : Vector R)
    (S : SumIntegrator R) (L : LumpedIntegrator R) (V : InverseIntegrator R) :
    (BilinearFormIntegrator.AssembleElementMatrix el Trans elmat = Except.error
        "BilinearFormIntegrator::AssembleElementMatrix (...)\n   is not implemented fot this class." ∧
      BilinearFormIntegrator.AssembleElementMatrix2 el1 el2 Trans elmat = Except.error
        "BilinearFormIntegrator::AssembleElementMatrix2 (...)\n   is not implemented fot this class." ∧
      BilinearFormIntegrator.AssembleFaceMatrix el1 el2 FTrans elmat = Except.error
        "BilinearFormIntegrator::AssembleFaceMatrix (...)\n   is not implemented fot this class." ∧
      BilinearFormIntegrator.AssembleFaceMatrixMixed el1 el2 el3 FTrans elmat = Except.error
        "AssembleFaceMatrix (mixed form) is not implemented for this Integrator class." ∧
      BilinearFormIntegrator.AssembleElementVector el Trans elfun elvect = Except.error
        "BilinearFormIntegrator::AssembleElementVector\n   is not implemented fot this class.") ∧
    (S.toIntegrator.AssembleElementMatrix2 el1 el2 Trans elmat =
        BilinearFormIntegrator.AssembleElementMatrix2 el1 el2 Trans elmat ∧
      S.toIntegrator.AssembleFaceMatrix el1 el2 FTrans elmat =
        BilinearFormIntegrator.AssembleFaceMatrix el1 el2 FTrans elmat ∧
      L.toIntegrator.AssembleElementMatrix2 el1 el2 Trans elmat =
        BilinearFormIntegrator.AssembleElementMatrix2 el1 el2 Trans elmat ∧
      L.toIntegrator.AssembleFaceMatrix el1 el2 FTrans elmat =
        BilinearFormIntegrator.AssembleFaceMatrix el1 el2 FTrans elmat ∧
      V.toIntegrator.AssembleElementMatrix2 el1 el2 Trans elmat =
        BilinearFormIntegrator.AssembleElementMatrix2 el1 el2 Trans elmat ∧
      V.toIntegrator.AssembleFaceMatrix el1 el2 FTrans elmat =
        BilinearFormIntegrator.AssembleFaceMatrix el1 el2 FTrans elmat) ∧
    (∀ I : Integrator R, I ∈ [S.toIntegrator, L.toIntegrator, V.toIntegrator] →
      (∀ M, I.AssembleElementMatrix2 el1 el2 Trans elmat ≠ Except.ok M) ∧
      (∀ M, I.AssembleFaceMatrix el1 el2 FTrans elmat ≠ Except.ok M) ∧
      (∀ M, I.AssembleFaceMatrixMixed el1 el2 el3 FTrans elmat ≠ Except.ok M) ∧
      (∀ v, I.AssembleElementVector el Trans elfun elvect ≠ Except.ok v)) := by
  refine ⟨⟨rfl, rfl, rfl, rfl, rfl⟩, ⟨rfl, rfl, rfl, rfl, rfl, rfl⟩, fun I hI => ?_⟩
  simp only [List.mem_cons, List.mem_singleton, List.mem_nil_iff, or_false] at hI
  rcases hI with h | h | h <;> subst h <;>
    exact ⟨fun M h => (nomatch h), fun M h => (nomatch h), fun M h => (nomatch h),
      fun v h => (nomatch h)⟩

/-- Witness for C6: the inverse of the mass matrix of the linear triangle. -/
theorem InverseIntegrator.assemble_inverse_witness :
    (Example.massObj.AssembleElementMatrix Example.linearTriangle Example.identityMap
        (Example.zeros 0 0) = Except.ok Example.massMatrix ∧
      Example.massMatrix.height = Example.massMatrix.width ∧
      (Example.massMatrix.toFin Example.massMatrix.height Example.massMatrix.height).det ≠ 0) ∧
    ∃ B, InverseIntegrator.AssembleElementMatrix { integrator := Example.massObj }
        Example.linearTriangle Example.identityMap (Example.zeros 0 0) = Except.ok B ∧
      B.height = Example.massMatrix.height ∧ B.width = Example.massMatrix.width ∧
      (∀ i j, i < Example.massMatrix.height → j < Example.massMatrix.height →
        Example.massMatrix.mulEntry B i j = if i = j then 1 else 0) ∧
      ∀ i j, i < Example.massMatrix.height → j < Example.massMatrix.height →
        B.mulEntry Example.massMatrix i j = if i = j then 1 else 0 :=
  have hdet : (Example.massMatrix.toFin Example.massMatrix.height
      Example.massMatrix.height).det ≠ 0 := by
    show (Example.massMatrix.toFin 3 3).det ≠ 0
    rw [Matrix.det_fin_three]
    simp [DenseMatrix.toFin, Example.massMatrix, MassIntegrator.point, AddMult_a_VVt,
      Example.linearTriangle, Example.identityMap, Example.mass, Example.zeros,
      Example.midpointRule]
    norm_num
  ⟨⟨rfl, rfl, hdet⟩,
    InverseIntegrator.assemble_inverse Example.massObj Example.linearTriangle
      Example.identityMap (Example.zeros 0 0) Example.massMatrix rfl rfl hdet⟩

/-! ## Diffusion integrator: theorems -/

/-- Accumulating `a * A * A^t` into a symmetric buffer leaves it symmetric. -/
theorem AddMult_a_AAt_symm {R : Type} [CommSemiring R] (a : R) (A K : DenseMatrix R)
    (hK : ∀ i j, K.elem i j = K.elem j i) (i j : Nat) :
    (AddMult_a_AAt a A K).elem i j = (AddMult_a_AAt a A K).elem j i := by
  simp only [AddMult_a_AAt]
  by_cases h : i < A.height ∧ j < A.height
  · rw [if_pos h, if_pos ⟨h.2, h.1⟩, hK i j]
    congr 2
    exact Finset.sum_congr rfl fun k _ => mul_comm _ _
  · rw [if_neg h, if_neg (fun h2 => h ⟨h2.2, h2.1⟩), hK i j]

/-- Without a matrix coefficient the quadrature loop of the diffusion
integrator keeps the dimensions of the buffer and its symmetry. -/
theorem DiffusionIntegrator.foldl_point_symm {R : Type} [Field R]
    (IntRule : Option (IntegrationRule R)) (Q : Option (Coefficient R))
    (el : FiniteElement R) (Trans : ElementTransformation R) (ir : IntegrationRule R)
    (K : DenseMatrix R) (hK : ∀ i j, K.elem i j = K.elem j i) :
    (ir.foldl (DiffusionIntegrator.point { IntRule := IntRule, Q := Q, MQ := none } el Trans)
        K).height = K.height ∧
    (ir.foldl (DiffusionIntegrator.point { IntRule := IntRule, Q := Q, MQ := none } el Trans)
        K).width = K.width ∧
    ∀ i j,
      (ir.foldl (DiffusionIntegrator.point { IntRule := IntRule, Q := Q, MQ := none } el Trans)
          K).elem i j =
      (ir.foldl (DiffusionIntegrator.point { IntRule := IntRule, Q := Q, MQ := none } el Trans)
          K).elem j i := by
  induction ir generalizing K with
  | nil => exact ⟨rfl, rfl, hK⟩
  | cons ip ir ih =>
    simp only [List.foldl_cons]
    have hstep : ∀ i j,
        (DiffusionIntegrator.point { IntRule := IntRule, Q := Q, MQ := none } el Trans K
            ip).elem i j =
        (DiffusionIntegrator.point { IntRule := IntRule, Q := Q, MQ := none } el Trans K
            ip).elem j i := by
      intro i j
      simp only [DiffusionIntegrator.point]
      exact AddMult_a_AAt_symm _ _ K hK i j
    obtain ⟨h1, h2, h3⟩ := ih _ hstep
    exact ⟨h1, h2, h3⟩

/-- Claim C8. With no matrix coefficient (scalar coefficient absent or any
scalar field), for every element, mapping and quadrature rule,
`DiffusionIntegrator::AssembleElementMatrix` ends normally and returns a
symmetric `nd x nd` matrix. -/
theorem DiffusionIntegrator.assemble_symmetric {R : Type} [Field R]
    (IntRules RefinedIntRules : IntegrationRules R) (IntRule : Option (IntegrationRule R))
    (Q : Option (Coefficient R)) (el : FiniteElement R) (Trans : ElementTransformation R)
    (elmat : DenseMatrix R) :
    ∃ K, DiffusionIntegrator.AssembleElementMatrix IntRules RefinedIntRules
        { IntRule := IntRule, Q := Q, MQ := none } el Trans elmat = Except.ok K ∧
      K.height = el.GetDof ∧ K.width = el.GetDof ∧
      ∀ i j, K.elem i j = K.elem j i := by
  obtain ⟨h1, h2, h3⟩ := DiffusionIntegrator.foldl_point_symm IntRule Q el Trans
    (DiffusionIntegrator.rule IntRules RefinedIntRules
      { IntRule := IntRule, Q := Q, MQ := none } el)
    ((elmat.SetSize el.GetDof el.GetDof).assign 0) (fun _ _ => rfl)
  exact ⟨_, rfl, h1, h2, h3⟩

/-- The quadratic form of `A * A^t` is a sum of squares. -/
theorem quadForm_AAt {R : Type} [CommSemiring R] (A : DenseMatrix R) (n m : Nat)
    (x : Nat → R) :
    (Finset.sum (Finset.range n) fun i => Finset.sum (Finset.range n) fun j =>
        x i * (Finset.sum (Finset.range m) fun k => A.elem i k * A.elem j k) * x j) =
      Finset.sum (Finset.range m) fun k =>
        (Finset.sum (Finset.range n) fun i => x i * A.elem i k) ^ 2 := by
  have h1 : ∀ k, (Finset.sum (Finset.range n) fun i => x i * A.elem i k) ^ 2 =
      Finset.sum (Finset.range n) fun i => Finset.sum (Finset.range n) fun j =>
        x i * (A.elem i k * A.elem j k) * x j := by
    intro k
    rw [sq, Finset.sum_mul_sum]
    refine Finset.sum_congr rfl fun i _ => Finset.sum_congr rfl fun j _ => ?_
    ring
  simp only [h1]
  have h2 : ∀ i j, x i * (Finset.sum (Finset.range m) fun k => A.elem i k * A.elem j k) * x j =
      Finset.sum (Finset.range m) fun k => x i * (A.elem i k * A.elem j k) * x j := by
    intro i j
    rw [Finset.mul_sum, Finset.sum_mul]
  simp only [h2]
  exact (Finset.sum_congr rfl fun i _ => Finset.sum_comm).trans Finset.sum_comm

/-- Accumulating `a * A * A^t` into a square buffer of the height of `A` adds
`a` times a sum of squares to its quadratic form. -/
theorem AddMult_a_AAt_quadForm {R : Type} [CommSemiring R] (a : R) (A K : DenseMatrix R)
    (hh : A.height = K.height) (hw : K.width = K.height) (x : Nat → R) :
    (AddMult_a_AAt a A K).quadForm x =
      K.quadForm x + a * Finset.sum (Finset.range A.width) fun k =>
        (Finset.sum (Finset.range K.height) fun i => x i * A.elem i k) ^ 2 := by
  rw [← quadForm_AAt A K.height A.width x]
  simp only [DenseMatrix.quadForm, AddMult_a_AAt, hw, hh]
  rw [Finset.mul_sum, ← Finset.sum_add_distrib]
  refine Finset.sum_congr rfl fun i hi => ?_
  rw [Finset.mul_sum, ← Finset.sum_add_distrib]
  refine Finset.sum_congr rfl fun j hj => ?_
  rw [if_pos ⟨Finset.mem_range.mp hi, Finset.mem_range.mp hj⟩]
  ring

/-- With a coefficient that is absent or constantly 1 and a constant weight `W`
of the mapping, the quadrature loop of the mass integrator keeps the
dimensions of the buffer and adds to entry `(i,j)` the weighted sum of
`shape(i) * shape(j)` over the points of the rule. -/
theorem MassIntegrator.foldl_point_elem {R : Type} [Field R] (self : MassIntegrator R)
    (el : FiniteElement R) (Trans : ElementTransformation R) (W : R)
    (hW : ∀ ip, Trans.Weight ip = W)
    (hQ : ∀ q, self.Q = some q → ∀ ip, q.Eval Trans ip = 1)
    (ir : IntegrationRule R) (A : DenseMatrix R) :
    (ir.foldl (MassIntegrator.point self el Trans) A).height = A.height ∧
    (ir.foldl (MassIntegrator.point self el Trans) A).width = A.width ∧
    ∀ i j, i < el.GetDof → j < el.GetDof →
      (ir.foldl (MassIntegrator.point self el Trans) A).elem i j =
        A.elem i j +
          (ir.map fun ip => W * (ip.weight * (el.CalcShape ip i * el.CalcShape ip j))).sum := by
  induction ir generalizing A with
  | nil => exact ⟨rfl, rfl, fun i j _ _ => by simp⟩
  | cons ip ir ih =>
    obtain ⟨h1, h2, h3⟩ := ih (MassIntegrator.point self el Trans A ip)
    refine ⟨h1, h2, fun i j hi hj => ?_⟩
    rw [List.foldl_cons, h3 i j hi hj]
    have hw : (match self.Q with
        | some Q => Trans.Weight ip * ip.weight * Q.Eval Trans ip
        | none => Trans.Weight ip * ip.weight) = W * ip.weight := by
      cases hq : self.Q with
      | none => simp [hW]
      | some q => simp [hW, hQ q hq ip]
    simp only [MassIntegrator.point, AddMult_a_VVt, hw, if_pos (And.intro hi hj),
      List.map_cons, List.sum_cons]
    ring

/-- The value a rule gives to a product of two linear functions, in terms of
the values it gives to the six monomials of degree at most two. -/
theorem IntegrationRule.integrate_linear_mul {R : Type} [Field R] (ir : IntegrationRule R)
    (a1 b1 c1 a2 b2 c2 : R) :
    ir.integrate (fun x y => (a1 + b1 * x + c1 * y) * (a2 + b2 * x + c2 * y)) =
      a1 * a2 * ir.integrate (fun x y => x ^ 0 * y ^ 0) +
      (a1 * b2 + b1 * a2) * ir.integrate (fun x y => x ^ 1 * y ^ 0) +
      (a1 * c2 + c1 * a2) * ir.integrate (fun x y => x ^ 0 * y ^ 1) +
      b1 * b2 * ir.integrate (fun x y => x ^ 2 * y ^ 0) +
      (b1 * c2 + c1 * b2) * ir.integrate (fun x y => x ^ 1 * y ^ 1) +
      c1 * c2 * ir.integrate (fun x y => x ^ 0 * y ^ 2) := by
  induction ir with
  | nil => simp [IntegrationRule.integrate]
  | cons ip ir ih =>
    simp only [IntegrationRule.integrate, List.map_cons, List.sum_cons] at ih ⊢
    rw [ih]
    ring

/-- A rule that is exact for degree two over the reference triangle gives a
product of two linear functions its exact integral. -/
theorem IntegrationRule.integrate_linear_mul_exact {R : Type} [Field R] [CharZero R]
    (ir : IntegrationRule R) (hex : ir.ExactOnTriangle 2) (a1 b1 c1 a2 b2 c2 : R) :
    ir.integrate (fun x y => (a1 + b1 * x + c1 * y) * (a2 + b2 * x + c2 * y)) =
      a1 * a2 / 2 + (a1 * b2 + b1 * a2) / 6 + (a1 * c2 + c1 * a2) / 6 +
      b1 * b2 / 12 + (b1 * c2 + c1 * b2) / 24 + c1 * c2 / 12 := by
  rw [IntegrationRule.integrate_linear_mul, hex 0 0 (by norm_num), hex 1 0 (by norm_num),
    hex 0 1 (by norm_num), hex 2 0 (by norm_num), hex 1 1 (by norm_num),
    hex 0 2 (by norm_num)]
  simp only [refTriangleMoment, Nat.factorial]
  push_cast
  ring

/-- Claim C10. For the 3-node linear triangle (shape functions `1 - x - y`, `x`,
`y`), a mapping whose weight is the constant `2 * area`, a coefficient that is
absent or constantly 1, and a rule (supplied or selected) that integrates
polynomials of degree two exactly over the reference triangle,
`MassIntegrator::AssembleElementMatrix` returns the 3 x 3 matrix
`(area / 12) * [[2,1,1],[1,2,1],[1,1,2]]`. -/
theorem MassIntegrator.linear_triangle_gram {R : Type} [Field R] [CharZero R]
    (IntRules RefinedIntRules : IntegrationRules R) (self : MassIntegrator R)
    (el : FiniteElement R) (Trans : ElementTransformation R) (elmat : DenseMatrix R)
    (area : R)
    (hdof : el.GetDof = 3)
    (hshape : ∀ ip, el.CalcShape ip 0 = 1 - ip.x - ip.y ∧ el.CalcShape ip 1 = ip.x ∧
      el.CalcShape ip 2 = ip.y)
    (hW : ∀ ip, Trans.Weight ip = 2 * area)
    (hQ : ∀ q, self.Q = some q → ∀ ip, q.Eval Trans ip = 1)
    (hex : (MassIntegrator.rule IntRules RefinedIntRules self el Trans).ExactOnTriangle 2) :
    ∃ M, MassIntegrator.AssembleElementMatrix IntRules RefinedIntRules self el Trans elmat =
        Except.ok M ∧
      M.height = 3 ∧ M.width = 3 ∧
      ∀ i j, i < 3 → j < 3 → M.elem i j = area / 12 * (if i = j then 2 else 1) := by
  obtain ⟨h1, h2, h3⟩ := MassIntegrator.foldl_point_elem self el Trans (2 * area) hW hQ
    (MassIntegrator.rule IntRules RefinedIntRules self el Trans)
    ((elmat.SetSize el.GetDof el.GetDof).assign 0)
  refine ⟨_, rfl, h1.trans hdof, h2.trans hdof, fun i j hi hj => ?_⟩
  rw [h3 i j (hdof ▸ hi) (hdof ▸ hj)]
  have hlin : ∀ k, k < 3 → ∀ ip : IntegrationPoint R, el.CalcShape ip k =
      (if k = 0 then 1 else 0) + (if k = 0 then -1 else if k = 1 then 1 else 0) * ip.x +
        (if k = 0 then -1 else if k = 2 then 1 else 0) * ip.y := by
    intro k hk ip
    obtain ⟨s0, s1, s2⟩ := hshape ip
    interval_cases k
    · rw [s0]; simp; ring
    · rw [s1]; simp
    · rw [s2]; simp
  have hsum : (List.map (fun ip : IntegrationPoint R =>
        2 * area * (ip.weight * (el.CalcShape ip i * el.CalcShape ip j)))
        (MassIntegrator.rule IntRules RefinedIntRules self el Trans)).sum =
      2 * area * (MassIntegrator.rule IntRules RefinedIntRules self el Trans).integrate
        (fun x y =>
          ((if i = 0 then 1 else 0) + (if i = 0 then -1 else if i = 1 then 1 else 0) * x +
            (if i = 0 then -1 else if i = 2 then 1 else 0) * y) *
          ((if j = 0 then 1 else 0) + (if j = 0 then -1 else if j = 1 then 1 else 0) * x +
            (if j = 0 then -1 else if j = 2 then 1 else 0) * y)) := by
    simp only [IntegrationRule.integrate, hlin i hi, hlin j hj]
    rw [← List.sum_map_mul_left]
  rw [hsum, IntegrationRule.integrate_linear_mul_exact _ hex]
  simp only [DenseMatrix.assign]
  interval_cases i <;> interval_cases j <;> norm_num <;> ring

/-- The edge midpoint rule is exact for degree two over the reference
triangle. -/
theorem Example.midpointRule_exact : Example.midpointRule.ExactOnTriangle 2 := by
  intro a b h
  have ha : a ≤ 2 := by omega
  have hb : b ≤ 2 := by omega
  interval_cases a <;> interval_cases b <;>
    first
    | omega
    | norm_num [IntegrationRule.integrate, Example.midpointRule, refTriangleMoment,
        Nat.factorial]

/-- Witness for C10: on the reference triangle itself (weight 1, area `1/2`)
the mass matrix is `(1/24) * [[2,1,1],[1,2,1],[1,1,2]]`. -/
theorem MassIntegrator.linear_triangle_gram_witness :
    (Example.linearTriangle.GetDof = 3 ∧
      (∀ ip, Example.linearTriangle.CalcShape ip 0 = 1 - ip.x - ip.y ∧
        Example.linearTriangle.CalcShape ip 1 = ip.x ∧
        Example.linearTriangle.CalcShape ip 2 = ip.y) ∧
      (∀ ip, Example.identityMap.Weight ip = 2 * (1 / 2)) ∧
      (MassIntegrator.rule Example.rules Example.rules Example.mass Example.linearTriangle
        Example.identityMap).ExactOnTriangle 2) ∧
    ∃ M, MassIntegrator.AssembleElementMatrix Example.rules Example.rules Example.mass
        Example.linearTriangle Example.identityMap (Example.zeros 0 0) = Except.ok M ∧
      M.height = 3 ∧ M.width = 3 ∧
      ∀ i j, i < 3 → j < 3 → M.elem i j = 1 / 24 * (if i = j then 2 else 1) :=
  have hshape : ∀ ip : IntegrationPoint ℚ,
      Example.linearTriangle.CalcShape ip 0 = 1 - ip.x - ip.y ∧
      Example.linearTriangle.CalcShape ip 1 = ip.x ∧
      Example.linearTriangle.CalcShape ip 2 = ip.y :=
    fun _ => ⟨rfl, rfl, rfl⟩
  have hW : ∀ ip, Example.identityMap.Weight ip = 2 * (1 / 2) :=
    fun _ => by norm_num [Example.identityMap]
  have hex : (MassIntegrator.rule Example.rules Example.rules Example.mass
      Example.linearTriangle Example.identityMap).ExactOnTriangle 2 :=
    Example.midpointRule_exact
  have main := MassIntegrator.linear_triangle_gram Example.rules Example.rules Example.mass
    Example.linearTriangle Example.identityMap (Example.zeros 0 0) (1 / 2) rfl hshape hW
    (fun q hq => nomatch hq) hex
  ⟨⟨rfl, hshape, hW, hex⟩,
    main.elim fun M hM =>
      ⟨M, hM.1, hM.2.1, hM.2.2.1, fun i j hi hj => by
        rw [hM.2.2.2 i j hi hj]
        norm_num⟩⟩

/-! ## Loops of entry updates: theorems -/

/-- The statement `A(i,j) -= v` adds `-v`. -/
theorem DenseMatrix.subAt_eq_addAt {R : Type} [Ring R] (A : DenseMatrix R) (i j : Nat) (v : R) :
    A.subAt i j v = A.addAt i j (-v) := by
  simp only [DenseMatrix.subAt, DenseMatrix.addAt, sub_eq_add_neg]

/-- A loop whose every pass keeps the dimensions keeps the dimensions. -/
theorem DenseMatrix.foldl_dims {R α : Type} (l : List α)
    (g : DenseMatrix R → α → DenseMatrix R)
    (hg : ∀ E x, (g E x).height = E.height ∧ (g E x).width = E.width) (E : DenseMatrix R) :
    (l.foldl g E).height = E.height ∧ (l.foldl g E).width = E.width := by
  induction l generalizing E with
  | nil => exact ⟨rfl, rfl⟩
  | cons x l ih =>
    obtain ⟨h1, h2⟩ := ih (g E x)
    exact ⟨h1.trans (hg E x).1, h2.trans (hg E x).2⟩

/-- A loop whose every pass adds `h x a b` to entry `(a,b)` adds the sum of the
`h x a b` over the passes. -/
theorem DenseMatrix.foldl_additive {R α : Type} [AddCommMonoid R] (l : List α)
    (g : DenseMatrix R → α → DenseMatrix R) (h : α → Nat → Nat → R)
    (hg : ∀ E x, x ∈ l → ∀ a b, (g E x).elem a b = E.elem a b + h x a b)
    (E : DenseMatrix R) (a b : Nat) :
    (l.foldl g E).elem a b = E.elem a b + (l.map fun x => h x a b).sum := by
  induction l generalizing E with
  | nil => simp
  | cons x l ih =>
    rw [List.foldl_cons, ih (fun E y hy => hg E y (List.mem_cons_of_mem _ hy)),
      hg E x (List.mem_cons_self _ _), List.map_cons, List.sum_cons, add_assoc]

/-- The sum over `i < n` of a value placed at `ro + i` picks the value at
`a - ro` when `a` lies in the range. -/
theorem List.sum_range_indicator {R : Type} [AddCommMonoid R] (n ro a : Nat) (f : Nat → R) :
    ((List.range n).map fun i => if a = ro + i then f i else 0).sum =
      if ro ≤ a ∧ a < ro + n then f (a - ro) else 0 := by
  induction n with
  | zero =>
    have h : ¬ (ro ≤ a ∧ a < ro + 0) := by omega
    rw [if_neg h]
    rfl
  | succ n ih =>
    rw [List.range_succ, List.map_append, List.sum_append, ih]
    simp only [List.map_cons, List.map_nil, List.sum_cons, List.sum_nil, add_zero]
    by_cases h1 : a = ro + n
    · have h2 : ¬ (ro ≤ a ∧ a < ro + n) := by omega
      have h3 : ro ≤ a ∧ a < ro + (n + 1) := by omega
      have h4 : a - ro = n := by omega
      rw [if_neg h2, if_pos h1, if_pos h3, h4, zero_add]
    · rw [if_neg h1, add_zero]
      by_cases h2 : ro ≤ a ∧ a < ro + n
      · have h3 : ro ≤ a ∧ a < ro + (n + 1) := by omega
        rw [if_pos h2, if_pos h3]
      · have h3 : ¬ (ro ≤ a ∧ a < ro + (n + 1)) := by omega
        rw [if_neg h2, if_neg h3]

/-- The double loop `for i < n, for j < m i: E(ro+i, co+j) += f i j` keeps the
dimensions and adds `f (a-ro) (b-co)` to the entries `(a,b)` of the block. -/
theorem DenseMatrix.foldl_addAt_block {R : Type} [AddCommMonoid R] (n : Nat) (m : Nat → Nat)
    (ro co : Nat) (f : Nat → Nat → R) (E : DenseMatrix R) :
    ((List.range n).foldl
        (fun E i => (List.range (m i)).foldl
          (fun E j => E.addAt (ro + i) (co + j) (f i j)) E) E).height = E.height ∧
    ((List.range n).foldl
        (fun E i => (List.range (m i)).foldl
          (fun E j => E.addAt (ro + i) (co + j) (f i j)) E) E).width = E.width ∧
    ∀ a b,
      ((List.range n).foldl
          (fun E i => (List.range (m i)).foldl
            (fun E j => E.addAt (ro + i) (co + j) (f i j)) E) E).elem a b =
        E.elem a b +
          (if ro ≤ a ∧ a < ro + n ∧ co ≤ b ∧ b < co + m (a - ro) then f (a - ro) (b - co)
            else 0) := by
  have hin : ∀ (i : Nat) (E : DenseMatrix R),
      ((List.range (m i)).foldl (fun E j => E.addAt (ro + i) (co + j) (f i j)) E).height =
        E.height ∧
      ((List.range (m i)).foldl (fun E j => E.addAt (ro + i) (co + j) (f i j)) E).width =
        E.width :=
    fun i E => DenseMatrix.foldl_dims (List.range (m i))
      (fun E j => E.addAt (ro + i) (co + j) (f i j)) (fun _ _ => ⟨rfl, rfl⟩) E
  have hdim := DenseMatrix.foldl_dims (List.range n)
    (fun E i => (List.range (m i)).foldl (fun E j => E.addAt (ro + i) (co + j) (f i j)) E)
    (fun E i => hin i E) E
  refine ⟨hdim.1, hdim.2, fun a b => ?_⟩
  have hrow : ∀ (E : DenseMatrix R) (i : Nat), i ∈ List.range n → ∀ a b,
      ((List.range (m i)).foldl (fun E j => E.addAt (ro + i) (co + j) (f i j)) E).elem a b =
        E.elem a b +
          (if a = ro + i then (if co ≤ b ∧ b < co + m i then f i (b - co) else 0) else 0) := by
    intro E i _ a b
    rw [DenseMatrix.foldl_additive (List.range (m i))
      (fun E j => E.addAt (ro + i) (co + j) (f i j))
      (fun j a b => if a = ro + i ∧ b = co + j then f i j else 0)
      (fun E j _ a b => by
        simp only [DenseMatrix.addAt]
        split_ifs <;> simp) E a b]
    congr 1
    by_cases ha : a = ro + i
    · simp only [ha, true_and, if_true]
      exact List.sum_range_indicator (m i) co b (f i)
    · simp [ha]
  rw [DenseMatrix.foldl_additive (List.range n) _ _ hrow E a b]
  congr 1
  rw [List.sum_range_indicator n ro a
    (fun i => if co ≤ b ∧ b < co + m i then f i (b - co) else 0)]
  by_cases h1 : ro ≤ a ∧ a < ro + n
  · by_cases h2 : co ≤ b ∧ b < co + m (a - ro)
    · rw [if_pos h1, if_pos h2, if_pos ⟨h1.1, h1.2, h2.1, h2.2⟩]
    · rw [if_pos h1, if_neg h2, if_neg (fun h => h2 ⟨h.2.2.1, h.2.2.2⟩)]
  · rw [if_neg h1, if_neg (fun h => h1 ⟨h.1, h.2.1⟩)]

/-- The double loop `for i < n, for j < m: E(i, j) += f i j`. -/
theorem DenseMatrix.foldl_addAt_block00 {R : Type} [AddCommMonoid R] (n m : Nat)
    (f : Nat → Nat → R) (E : DenseMatrix R) (a b : Nat) :
    ((List.range n).foldl
        (fun E i => (List.range m).foldl (fun E j => E.addAt i j (f i j)) E) E).elem a b =
      E.elem a b + (if a < n ∧ b < m then f a b else 0) := by
  have h := (DenseMatrix.foldl_addAt_block n (fun _ => m) 0 0 f E).2.2 a b
  simpa using h

/-- The double loop `for i < n, for j < m: E(ro + i, j) += f i j`. -/
theorem DenseMatrix.foldl_addAt_block_r0 {R : Type} [AddCommMonoid R] (n m ro : Nat)
    (f : Nat → Nat → R) (E : DenseMatrix R) (a b : Nat) :
    ((List.range n).foldl
        (fun E i => (List.range m).foldl (fun E j => E.addAt (ro + i) j (f i j)) E)
        E).elem a b =
      E.elem a b + (if ro ≤ a ∧ a < ro + n ∧ b < m then f (a - ro) b else 0) := by
  have h := (DenseMatrix.foldl_addAt_block n (fun _ => m) ro 0 f E).2.2 a b
  simpa using h

/-- The double loop `for i < n, for j < m: E(ro + i, co + j) += f i j`. -/
theorem DenseMatrix.foldl_addAt_block_rc {R : Type} [AddCommMonoid R] (n m ro co : Nat)
    (f : Nat → Nat → R) (E : DenseMatrix R) (a b : Nat) :
    ((List.range n).foldl
        (fun E i => (List.range m).foldl (fun E j => E.addAt (ro + i) (co + j) (f i j)) E)
        E).elem a b =
      E.elem a b +
        (if ro ≤ a ∧ a < ro + n ∧ co ≤ b ∧ b < co + m then f (a - ro) (b - co) else 0) :=
  (DenseMatrix.foldl_addAt_block n (fun _ => m) ro co f E).2.2 a b

/-- A double loop of statements `E(r, c) += v` keeps the height. -/
theorem DenseMatrix.foldl_addAt_height {R : Type} [Add R] (n : Nat) (m : Nat → Nat)
    (r c : Nat → Nat → Nat) (f : Nat → Nat → R) (E : DenseMatrix R) :
    ((List.range n).foldl
        (fun E i => (List.range (m i)).foldl (fun E j => E.addAt (r i j) (c i j) (f i j)) E)
        E).height = E.height :=
  (DenseMatrix.foldl_dims (List.range n)
    (fun E i => (List.range (m i)).foldl (fun E j => E.addAt (r i j) (c i j) (f i j)) E)
    (fun E i => DenseMatrix.foldl_dims (List.range (m i))
      (fun E j => E.addAt (r i j) (c i j) (f i j)) (fun _ _ => ⟨rfl, rfl⟩) E) E).1

/-- A double loop of statements `E(r, c) += v` keeps the width. -/
theorem DenseMatrix.foldl_addAt_width {R : Type} [Add R] (n : Nat) (m : Nat → Nat)
    (r c : Nat → Nat → Nat) (f : Nat → Nat → R) (E : DenseMatrix R) :
    ((List.range n).foldl
        (fun E i => (List.range (m i)).foldl (fun E j => E.addAt (r i j) (c i j) (f i j)) E)
        E).width = E.width :=
  (DenseMatrix.foldl_dims (List.range n)
    (fun E i => (List.range (m i)).foldl (fun E j => E.addAt (r i j) (c i j) (f i j)) E)
    (fun E i => DenseMatrix.foldl_dims (List.range (m i))
      (fun E j => E.addAt (r i j) (c i j) (f i j)) (fun _ _ => ⟨rfl, rfl⟩) E) E).2

/-- The sum of the negated terms is the negated sum. -/
theorem List.sum_map_neg_eq {R α : Type} [AddCommGroup R] (l : List α) (f : α → R) :
    (l.map fun x => -f x).sum = -(l.map f).sum := by
  induction l with
  | nil => simp
  | cons x l ih =>
    rw [List.map_cons, List.sum_cons, ih, List.map_cons, List.sum_cons, neg_add]

/-! ## Discontinuous Galerkin trace integrator: block updates -/

/-- The block updates of the trace integrator keep the dimensions of the
buffer. -/
theorem DGTraceIntegrator.blocks_dims {R : Type} [LinearOrderedField R]
    (el1 el2 : FiniteElement R) (Trans : FaceElementTransformations R) (ndof1 ndof2 : Nat)
    (a b : R) (E : DenseMatrix R) (ip : IntegrationPoint R) :
    (DGTraceIntegrator.blocks el1 el2 Trans ndof1 ndof2 a b E ip).height = E.height ∧
    (DGTraceIntegrator.blocks el1 el2 Trans ndof1 ndof2 a b E ip).width = E.width := by
  simp only [DGTraceIntegrator.blocks, DenseMatrix.subAt_eq_addAt]
  split_ifs <;>
    simp only [DenseMatrix.foldl_addAt_height, DenseMatrix.foldl_addAt_width, and_self]

/-- The entries after the update of one pair. -/
theorem DGDiffusionIntegrator.finishPair_elem {R : Type} [Ring R] (sigma : R)
    (jmat E : DenseMatrix R) (i j a b : Nat) :
    (DGDiffusionIntegrator.finishPair sigma jmat E i j).elem a b =
      if a = j ∧ b = i then sigma * E.elem i j - E.elem j i + jmat.elem i j
      else if a = i ∧ b = j then sigma * E.elem j i - E.elem i j + jmat.elem i j
      else E.elem a b := by
  simp only [DGDiffusionIntegrator.finishPair, DenseMatrix.setAt]

/-- The entries after the pairs `(i,j)`, `j < m`, of row `i` have been
updated, for `m <= i`. -/
theorem DGDiffusionIntegrator.finishPairs_elem {R : Type} [Ring R] (sigma : R)
    (jmat E : DenseMatrix R) (i m : Nat) (hm : m ≤ i) (a b : Nat) :
    ((List.range m).foldl (fun elmat j => DGDiffusionIntegrator.finishPair sigma jmat elmat i j)
        E).elem a b =
      if a = i ∧ b < m then sigma * E.elem b i - E.elem i b + jmat.elem i b
      else if b = i ∧ a < m then sigma * E.elem i a - E.elem a i + jmat.elem i a
      else E.elem a b := by
  induction m generalizing a b with
  | zero => simp
  | succ m ih =>
    have hm' : m ≤ i := by omega
    rw [List.range_succ, List.foldl_append, List.foldl_cons, List.foldl_nil,
      DGDiffusionIntegrator.finishPair_elem, ih hm' i m, ih hm' m i, ih hm' a b]
    have e1 : ¬ (i = i ∧ m < m) := by omega
    have e2 : ¬ (m = i ∧ i < m) := by omega
    have e3 : ¬ (m = i ∧ i < m) := by omega
    have e4 : ¬ (i = i ∧ m < m) := by omega
    simp only [if_neg e1, if_neg e2]
    have e5 : ¬ (m = i ∧ i < m) := by omega
    by_cases c1 : a = m ∧ b = i
    · obtain ⟨rfl, rfl⟩ := c1
      have f1 : ¬ (a = b ∧ b < a + 1) := by omega
      have f2 : b = b ∧ a < a + 1 := by omega
      have f3 : ¬ (a = b ∧ b < a) := by omega
      simp [f1, f3]
    · by_cases c2 : a = i ∧ b = m
      · obtain ⟨rfl, rfl⟩ := c2
        have f1 : a = a ∧ b < b + 1 := by omega
        simp [c1]
      · rw [if_neg c1, if_neg c2]
        by_cases c3 : a = i ∧ b < m
        · have f1 : a = i ∧ b < m + 1 := by omega
          rw [if_pos c3, if_pos f1]
        · have f1 : ¬ (a = i ∧ b < m + 1) := by omega
          rw [if_neg c3, if_neg f1]
          by_cases c4 : b = i ∧ a < m
          · have f2 : b = i ∧ a < m + 1 := by omega
            rw [if_pos c4, if_pos f2]
          · have f2 : ¬ (b = i ∧ a < m + 1) := by omega
            rw [if_neg c4, if_neg f2]

/-- The entries after row `i` has been combined: its pairs and its diagonal
entry. -/
theorem DGDiffusionIntegrator.finishRow_elem {R : Type} [Ring R] (sigma : R)
    (jmat E : DenseMatrix R) (i a b : Nat) :
    (DGDiffusionIntegrator.finishRow sigma jmat E i).elem a b =
      if a = i ∧ b = i then (sigma - 1) * E.elem i i + jmat.elem i i
      else if a = i ∧ b < i then sigma * E.elem b i - E.elem i b + jmat.elem i b
      else if b = i ∧ a < i then sigma * E.elem i a - E.elem a i + jmat.elem i a
      else E.elem a b := by
  simp only [DGDiffusionIntegrator.finishRow, DenseMatrix.setAt]
  rw [DGDiffusionIntegrator.finishPairs_elem sigma jmat E i i (le_refl i) i i,
    DGDiffusionIntegrator.finishPairs_elem sigma jmat E i i (le_refl i) a b]
  have e1 : ¬ (i = i ∧ i < i) := by omega
  rw [if_neg e1, if_neg e1]

/-- The combination loop keeps the dimensions of the buffer. -/
theorem DGDiffusionIntegrator.finish_dims {R : Type} [Ring R] (sigma : R) (k : Bool)
    (n : Nat) (jmat E : DenseMatrix R) :
    (DGDiffusionIntegrator.finish sigma k n jmat E).height = E.height ∧
    (DGDiffusionIntegrator.finish sigma k n jmat E).width = E.width := by
  cases k
  · exact DenseMatrix.foldl_dims (List.range n) (DGDiffusionIntegrator.finishRow0 sigma)
      (fun E i => by
        simp only [DGDiffusionIntegrator.finishRow0, DenseMatrix.setAt]
        exact DenseMatrix.foldl_dims (List.range i)
          (fun elmat j => DGDiffusionIntegrator.finishPair0 sigma elmat i j)
          (fun _ _ => ⟨rfl, rfl⟩) E) E
  · exact DenseMatrix.foldl_dims (List.range n) (DGDiffusionIntegrator.finishRow sigma jmat)
      (fun E i => by
        simp only [DGDiffusionIntegrator.finishRow, DenseMatrix.setAt]
        exact DenseMatrix.foldl_dims (List.range i)
          (fun elmat j => DGDiffusionIntegrator.finishPair sigma jmat elmat i j)
          (fun _ _ => ⟨rfl, rfl⟩) E) E

/-- The entries after the rows `i < n` have been combined: inside the leading
block of size `n` the entry `(a,b)` is `sigma * E(b,a) - E(a,b)` plus the entry
of the lower triangle of `jmat` mirrored to `(a,b)`; outside, it is
unchanged. -/
theorem DGDiffusionIntegrator.finishRows_elem {R : Type} [Ring R] (sigma : R)
    (jmat E : DenseMatrix R) (n a b : Nat) :
    ((List.range n).foldl (DGDiffusionIntegrator.finishRow sigma jmat) E).elem a b =
      if a < n ∧ b < n then
        sigma * E.elem b a - E.elem a b + jmat.elem (max a b) (min a b)
      else E.elem a b := by
  induction n generalizing a b with
  | zero => simp
  | succ n ih =>
    rw [List.range_succ, List.foldl_append, List.foldl_cons, List.foldl_nil,
      DGDiffusionIntegrator.finishRow_elem]
    by_cases c1 : a = n ∧ b = n
    · have e1 : ¬ (n < n ∧ n < n) := by omega
      have e2 : n < n + 1 ∧ n < n + 1 := by omega
      rw [if_pos c1, c1.1, c1.2, ih n n, if_neg e1, if_pos e2, max_self, min_self, sub_mul,
        one_mul]
    · rw [if_neg c1]
      by_cases c2 : a = n ∧ b < n
      · have hb := c2.2
        have e1 : ¬ (b < n ∧ n < n) := by omega
        have e2 : ¬ (n < n ∧ b < n) := by omega
        have e3 : n < n + 1 ∧ b < n + 1 := by omega
        rw [if_pos c2, c2.1, ih b n, ih n b, if_neg e1, if_neg e2, if_pos e3,
          max_eq_left hb.le, min_eq_right hb.le]
      · rw [if_neg c2]
        by_cases c3 : b = n ∧ a < n
        · have ha := c3.2
          have e1 : ¬ (n < n ∧ a < n) := by omega
          have e2 : ¬ (a < n ∧ n < n) := by omega
          have e3 : a < n + 1 ∧ n < n + 1 := by omega
          rw [if_pos c3, c3.1, ih n a, ih a n, if_neg e1, if_neg e2, if_pos e3,
            max_eq_right ha.le, min_eq_left ha.le]
        · rw [if_neg c3, ih a b]
          by_cases c4 : a < n ∧ b < n
          · have e3 : a < n + 1 ∧ b < n + 1 := by omega
            rw [if_pos c4, if_pos e3]
          · have e3 : ¬ (a < n + 1 ∧ b < n + 1) := by omega
            rw [if_neg c4, if_neg e3]

/-- Without a jump matrix the update of a pair is the update with a zero jump
matrix. -/
theorem DGDiffusionIntegrator.finishRow0_eq {R : Type} [CommRing R] (sigma : R)
    (E : DenseMatrix R) (i : Nat) :
    DGDiffusionIntegrator.finishRow0 sigma E i =
      DGDiffusionIntegrator.finishRow sigma { height := 0, width := 0, elem := fun _ _ => 0 }
        E i := by
  have hp : (fun elmat j => DGDiffusionIntegrator.finishPair0 sigma elmat i j) =
      fun elmat j => DGDiffusionIntegrator.finishPair sigma
        { height := 0, width := 0, elem := fun _ _ => 0 } elmat i j := by
    funext elmat j
    simp only [DGDiffusionIntegrator.finishPair0, DGDiffusionIntegrator.finishPair, add_zero]
  simp only [DGDiffusionIntegrator.finishRow0, DGDiffusionIntegrator.finishRow, hp, add_zero,
    mul_comm]

/-- The entries after the combination loop, with or without a jump matrix. -/
theorem DGDiffusionIntegrator.finish_elem {R : Type} [CommRing R] (sigma : R) (k : Bool)
    (n : Nat) (jmat E : DenseMatrix R) (a b : Nat) :
    (DGDiffusionIntegrator.finish sigma k n jmat E).elem a b =
      if a < n ∧ b < n then
        sigma * E.elem b a - E.elem a b +
          (if k = true then jmat.elem (max a b) (min a b) else 0)
      else E.elem a b := by
  cases k
  · have hr : DGDiffusionIntegrator.finishRow0 sigma =
        DGDiffusionIntegrator.finishRow sigma
          { height := 0, width := 0, elem := fun _ _ => 0 } := by
      funext E i
      exact DGDiffusionIntegrator.finishRow0_eq sigma E i
    simp only [DGDiffusionIntegrator.finish, hr]
    rw [if_neg (by decide), DGDiffusionIntegrator.finishRows_elem]
    simp
  · simp only [DGDiffusionIntegrator.finish, if_true]
    rw [DGDiffusionIntegrator.finishRows_elem]

/-- One pass of the quadrature loop of the diffusion face integrator keeps the
dimensions of `elmat`, and leaves `jmat` as it is when `kappa` is zero. -/
theorem DGDiffusionIntegrator.flux_point_dims {R : Type} [Field R] [DecidableEq R]
    (self : DGDiffusionIntegrator R) (el1 el2 : FiniteElement R)
    (Trans : FaceElementTransformations R) (ndof1 ndof2 : Nat)
    (st : DenseMatrix R × DenseMatrix R) (ip : IntegrationPoint R) :
    (DGDiffusionIntegrator.point self el1 el2 Trans ndof1 ndof2 st ip).1.height =
        st.1.height ∧
    (DGDiffusionIntegrator.point self el1 el2 Trans ndof1 ndof2 st ip).1.width =
        st.1.width ∧
    (self.kappa = 0 →
      (DGDiffusionIntegrator.point self el1 el2 Trans ndof1 ndof2 st ip).2 = st.2) := by
  have hf : ∀ (d1 d2 : IntegrationPoint R → Vector R) (E : DenseMatrix R),
      (DGDiffusionIntegrator.fluxBlocks el1 el2 Trans ndof1 ndof2 d1 d2 E ip).height =
          E.height ∧
      (DGDiffusionIntegrator.fluxBlocks el1 el2 Trans ndof1 ndof2 d1 d2 E ip).width =
          E.width := by
    intro d1 d2 E
    simp only [DGDiffusionIntegrator.fluxBlocks, DenseMatrix.subAt_eq_addAt]
    split_ifs <;>
      simp only [DenseMatrix.foldl_addAt_height, DenseMatrix.foldl_addAt_width, and_self]
  simp only [DGDiffusionIntegrator.point]
  refine ⟨?_, ?_, fun hk => ?_⟩
  · split_ifs <;> exact (hf _ _ _).1
  · split_ifs <;> exact (hf _ _ _).2
  · simp [hk]

/-- The quadrature loop of the diffusion face integrator leaves a square raw
matrix of size `ndof1 + ndof2`, and leaves `jmat` as it is when `kappa` is
zero. -/
theorem DGDiffusionIntegrator.accumulate_dims {R : Type} [Field R] [DecidableEq R]
    (IntRules : IntegrationRules R) (self : DGDiffusionIntegrator R)
    (el1 el2 : FiniteElement R) (Trans : FaceElementTransformations R)
    (elmat jmat : DenseMatrix R) :
    (DGDiffusionIntegrator.accumulate IntRules self el1 el2 Trans elmat jmat).1.height =
        el1.GetDof + (if Trans.Elem2No ≥ 0 then el2.GetDof else 0) ∧
    (DGDiffusionIntegrator.accumulate IntRules self el1 el2 Trans elmat jmat).1.width =
        el1.GetDof + (if Trans.Elem2No ≥ 0 then el2.GetDof else 0) ∧
    (self.kappa = 0 →
      (DGDiffusionIntegrator.accumulate IntRules self el1 el2 Trans elmat jmat).2 = jmat) := by
  have key : ∀ (ir : IntegrationRule R) (st : DenseMatrix R × DenseMatrix R),
      (ir.foldl (DGDiffusionIntegrator.point self el1 el2 Trans el1.GetDof
          (if Trans.Elem2No ≥ 0 then el2.GetDof else 0)) st).1.height = st.1.height ∧
      (ir.foldl (DGDiffusionIntegrator.point self el1 el2 Trans el1.GetDof
          (if Trans.Elem2No ≥ 0 then el2.GetDof else 0)) st).1.width = st.1.width ∧
      (self.kappa = 0 →
        (ir.foldl (DGDiffusionIntegrator.point self el1 el2 Trans el1.GetDof
          (if Trans.Elem2No ≥ 0 then el2.GetDof else 0)) st).2 = st.2) := by
    intro ir
    induction ir with
    | nil => exact fun st => ⟨rfl, rfl, fun _ => rfl⟩
    | cons ip ir ih =>
      intro st
      obtain ⟨h1, h2, h3⟩ := ih (DGDiffusionIntegrator.point self el1 el2 Trans el1.GetDof
        (if Trans.Elem2No ≥ 0 then el2.GetDof else 0) st ip)
      obtain ⟨p1, p2, p3⟩ := DGDiffusionIntegrator.flux_point_dims self el1 el2 Trans el1.GetDof
        (if Trans.Elem2No ≥ 0 then el2.GetDof else 0) st ip
      exact ⟨h1.trans p1, h2.trans p2, fun hk => (h3 hk).trans (p3 hk)⟩
  obtain ⟨h1, h2, h3⟩ := key
    (DGDiffusionIntegrator.rule IntRules self el1 el2 Trans
      (if Trans.Elem2No ≥ 0 then el2.GetDof else 0))
    ((elmat.SetSize (el1.GetDof + (if Trans.Elem2No ≥ 0 then el2.GetDof else 0))
        (el1.GetDof + (if Trans.Elem2No ≥ 0 then el2.GetDof else 0))).assign 0,
      if decide (self.kappa ≠ 0) = true then
        (jmat.SetSize (el1.GetDof + (if Trans.Elem2No ≥ 0 then el2.GetDof else 0))
          (el1.GetDof + (if Trans.Elem2No ≥ 0 then el2.GetDof else 0))).assign 0
      else jmat)
  refine ⟨h1, h2, fun hk => ?_⟩
  have h4 := h3 hk
  simp only [DGDiffusionIntegrator.accumulate]
  rw [h4]
  simp [hk]

/-- The matrix returned by the diffusion face integrator is square of size
`ndof1 + ndof2`. -/
theorem DGDiffusionIntegrator.assemble_dims {R : Type} [Field R] [DecidableEq R]
    (IntRules : IntegrationRules R) (self : DGDiffusionIntegrator R)
    (el1 el2 : FiniteElement R) (Trans : FaceElementTransformations R)
    (elmat jmat : DenseMatrix R) :
    (DGDiffusionIntegrator.finish self.sigma (decide (self.kappa ≠ 0))
        (el1.GetDof + (if Trans.Elem2No ≥ 0 then el2.GetDof else 0))
        (DGDiffusionIntegrator.accumulate IntRules self el1 el2 Trans elmat jmat).2
        (DGDiffusionIntegrator.accumulate IntRules self el1 el2 Trans elmat jmat).1).height =
      el1.GetDof + (if Trans.Elem2No ≥ 0 then el2.GetDof else 0) ∧
    (DGDiffusionIntegrator.finish self.sigma (decide (self.kappa ≠ 0))
        (el1.GetDof + (if Trans.Elem2No ≥ 0 then el2.GetDof else 0))
        (DGDiffusionIntegrator.accumulate IntRules self el1 el2 Trans elmat jmat).2
        (DGDiffusionIntegrator.accumulate IntRules self el1 el2 Trans elmat jmat).1).width =
      el1.GetDof + (if Trans.Elem2No ≥ 0 then el2.GetDof else 0) ∧
    DGDiffusionIntegrator.AssembleFaceMatrix IntRules self jmat el1 el2 Trans elmat =
      Except.ok (DGDiffusionIntegrator.finish self.sigma (decide (self.kappa ≠ 0))
        (el1.GetDof + (if Trans.Elem2No ≥ 0 then el2.GetDof else 0))
        (DGDiffusionIntegrator.accumulate IntRules self el1 el2 Trans elmat jmat).2
        (DGDiffusionIntegrator.accumulate IntRules self el1 el2 Trans elmat jmat).1) := by
  obtain ⟨a1, a2, _⟩ := DGDiffusionIntegrator.accumulate_dims IntRules self el1 el2 Trans
    elmat jmat
  have fd := DGDiffusionIntegrator.finish_dims self.sigma (decide (self.kappa ≠ 0))
    (el1.GetDof + (if Trans.Elem2No ≥ 0 then el2.GetDof else 0))
    (DGDiffusionIntegrator.accumulate IntRules self el1 el2 Trans elmat jmat).2
    (DGDiffusionIntegrator.accumulate IntRules self el1 el2 Trans elmat jmat).1
  exact ⟨fd.1.trans a1, fd.2.trans a2, rfl⟩

/-! ## Boundary faces: theorems -/

/-- Claim C11. On a boundary face (`Trans.Elem2No < 0`) the matrices returned by
`DGTraceIntegrator::AssembleFaceMatrix` and
`DGDiffusionIntegrator::AssembleFaceMatrix` are square of size
`ndof1 = el1.GetDof()` and are the same for every second element `el2` and all
second-side data `Elem2`, `Loc2`, whatever the coefficients and the values of
`alpha`, `beta`, `sigma` and `kappa`. -/
theorem DGTraceIntegrator.boundary_face_one_sided {R : Type} [LinearOrderedField R]
    (IntRules : IntegrationRules R) (tr : DGTraceIntegrator R) (df : DGDiffusionIntegrator R)
    (jmat elmat : DenseMatrix R) (el1 el2 el2' : FiniteElement R)
    (Elem1No : Int) (FaceGeom : Nat) (Elem1 Face : ElementTransformation R)
    (Loc1 : IntegrationPointTransformation R)
    (n n' : Int) (Elem2 Elem2' : ElementTransformation R)
    (Loc2 Loc2' : IntegrationPointTransformation R)
    (hn : n < 0) (hn' : n' < 0) :
    (∃ M, DGTraceIntegrator.AssembleFaceMatrix IntRules tr el1 el2
          { Elem1No := Elem1No, Elem2No := n, FaceGeom := FaceGeom, Elem1 := Elem1,
            Elem2 := Elem2, Face := Face, Loc1 := Loc1, Loc2 := Loc2 } elmat = Except.ok M ∧
        DGTraceIntegrator.AssembleFaceMatrix IntRules tr el1 el2'
          { Elem1No := Elem1No, Elem2No := n', FaceGeom := FaceGeom, Elem1 := Elem1,
            Elem2 := Elem2', Face := Face, Loc1 := Loc1, Loc2 := Loc2' } elmat =
          Except.ok M ∧
        M.height = el1.GetDof ∧ M.width = el1.GetDof) ∧
    (∃ M, DGDiffusionIntegrator.AssembleFaceMatrix IntRules df jmat el1 el2
          { Elem1No := Elem1No, Elem2No := n, FaceGeom := FaceGeom, Elem1 := Elem1,
            Elem2 := Elem2, Face := Face, Loc1 := Loc1, Loc2 := Loc2 } elmat = Except.ok M ∧
        DGDiffusionIntegrator.AssembleFaceMatrix IntRules df jmat el1 el2'
          { Elem1No := Elem1No, Elem2No := n', FaceGeom := FaceGeom, Elem1 := Elem1,
            Elem2 := Elem2', Face := Face, Loc1 := Loc1, Loc2 := Loc2' } elmat =
          Except.ok M ∧
        M.height = el1.GetDof ∧ M.width = el1.GetDof) := by
  have h0 : ¬ n ≥ 0 := by omega
  have h0' : ¬ n' ≥ 0 := by omega
  constructor
  · have hpoint : DGTraceIntegrator.point tr el1 el2
          { Elem1No := Elem1No, Elem2No := n, FaceGeom := FaceGeom, Elem1 := Elem1,
            Elem2 := Elem2, Face := Face, Loc1 := Loc1, Loc2 := Loc2 } el1.GetDof 0 =
        DGTraceIntegrator.point tr el1 el2'
          { Elem1No := Elem1No, Elem2No := n', FaceGeom := FaceGeom, Elem1 := Elem1,
            Elem2 := Elem2', Face := Face, Loc1 := Loc1, Loc2 := Loc2' } el1.GetDof 0 := by
      funext E ip
      simp [DGTraceIntegrator.point, DGTraceIntegrator.blocks, DGTraceIntegrator.a,
        DGTraceIntegrator.b, DGTraceIntegrator.rho_p, DGTraceIntegrator.un]
    have hrule : DGTraceIntegrator.rule IntRules tr el1 el2
          { Elem1No := Elem1No, Elem2No := n, FaceGeom := FaceGeom, Elem1 := Elem1,
            Elem2 := Elem2, Face := Face, Loc1 := Loc1, Loc2 := Loc2 } =
        DGTraceIntegrator.rule IntRules tr el1 el2'
          { Elem1No := Elem1No, Elem2No := n', FaceGeom := FaceGeom, Elem1 := Elem1,
            Elem2 := Elem2', Face := Face, Loc1 := Loc1, Loc2 := Loc2' } := by
      simp [DGTraceIntegrator.rule, h0, h0']
    have hdim := DenseMatrix.foldl_dims
      (DGTraceIntegrator.rule IntRules tr el1 el2
          { Elem1No := Elem1No, Elem2No := n, FaceGeom := FaceGeom, Elem1 := Elem1,
            Elem2 := Elem2, Face := Face, Loc1 := Loc1, Loc2 := Loc2 })
      (DGTraceIntegrator.point tr el1 el2
          { Elem1No := Elem1No, Elem2No := n, FaceGeom := FaceGeom, Elem1 := Elem1,
            Elem2 := Elem2, Face := Face, Loc1 := Loc1, Loc2 := Loc2 } el1.GetDof 0)
      (fun E ip => DGTraceIntegrator.blocks_dims _ _ _ _ _ _ _ E ip)
      ((elmat.SetSize (el1.GetDof + 0) (el1.GetDof + 0)).assign 0)
    refine ⟨_, ?_, ?_, hdim.1, hdim.2⟩
    · simp only [DGTraceIntegrator.AssembleFaceMatrix, if_neg h0]
      rfl
    · simp only [DGTraceIntegrator.AssembleFaceMatrix, if_neg h0', ← hpoint, ← hrule]
      rfl
  · have hpoint : DGDiffusionIntegrator.point df el1 el2
          { Elem1No := Elem1No, Elem2No := n, FaceGeom := FaceGeom, Elem1 := Elem1,
            Elem2 := Elem2, Face := Face, Loc1 := Loc1, Loc2 := Loc2 } el1.GetDof 0 =
        DGDiffusionIntegrator.point df el1 el2'
          { Elem1No := Elem1No, Elem2No := n', FaceGeom := FaceGeom, Elem1 := Elem1,
            Elem2 := Elem2', Face := Face, Loc1 := Loc1, Loc2 := Loc2' } el1.GetDof 0 := by
      funext st ip
      simp [DGDiffusionIntegrator.point, DGDiffusionIntegrator.fluxBlocks,
        DGDiffusionIntegrator.jumpBlocks, DGDiffusionIntegrator.dshape1dn,
        DGDiffusionIntegrator.ni1, DGDiffusionIntegrator.nor, DGDiffusionIntegrator.wq]
    have hrule : DGDiffusionIntegrator.rule IntRules df el1 el2
          { Elem1No := Elem1No, Elem2No := n, FaceGeom := FaceGeom, Elem1 := Elem1,
            Elem2 := Elem2, Face := Face, Loc1 := Loc1, Loc2 := Loc2 } 0 =
        DGDiffusionIntegrator.rule IntRules df el1 el2'
          { Elem1No := Elem1No, Elem2No := n', FaceGeom := FaceGeom, Elem1 := Elem1,
            Elem2 := Elem2', Face := Face, Loc1 := Loc1, Loc2 := Loc2' } 0 := by
      simp [DGDiffusionIntegrator.rule]
    have hacc : DGDiffusionIntegrator.accumulate IntRules df el1 el2
          { Elem1No := Elem1No, Elem2No := n, FaceGeom := FaceGeom, Elem1 := Elem1,
            Elem2 := Elem2, Face := Face, Loc1 := Loc1, Loc2 := Loc2 } elmat jmat =
        DGDiffusionIntegrator.accumulate IntRules df el1 el2'
          { Elem1No := Elem1No, Elem2No := n', FaceGeom := FaceGeom, Elem1 := Elem1,
            Elem2 := Elem2', Face := Face, Loc1 := Loc1, Loc2 := Loc2' } elmat jmat := by
      simp only [DGDiffusionIntegrator.accumulate, if_neg h0, if_neg h0', hpoint, hrule]
    obtain ⟨d1, d2, d3⟩ := DGDiffusionIntegrator.assemble_dims IntRules df el1 el2
      { Elem1No := Elem1No, Elem2No := n, FaceGeom := FaceGeom, Elem1 := Elem1,
        Elem2 := Elem2, Face := Face, Loc1 := Loc1, Loc2 := Loc2 } elmat jmat
    obtain ⟨_, _, d3'⟩ := DGDiffusionIntegrator.assemble_dims IntRules df el1 el2'
      { Elem1No := Elem1No, Elem2No := n', FaceGeom := FaceGeom, Elem1 := Elem1,
        Elem2 := Elem2', Face := Face, Loc1 := Loc1, Loc2 := Loc2' } elmat jmat
    refine ⟨_, d3, ?_, ?_, ?_⟩
    · rw [d3', ← hacc]
      simp [h0, h0']
    · rw [d1]
      simp [h0]
    · rw [d2]
      simp [h0]

/-- Witness for C11: the right end of a linear segment as a boundary face, with
two different second-side settings. -/
theorem DGTraceIntegrator.boundary_face_one_sided_witness :
    ((-1 : Int) < 0 ∧ (-2 : Int) < 0) ∧
    (∃ M, DGTraceIntegrator.AssembleFaceMatrix Example.pointRules Example.dgTrace
          Example.linearSegment Example.linearSegment
          { Elem1No := 0, Elem2No := -1, FaceGeom := 0, Elem1 := Example.segmentMap,
            Elem2 := Example.segmentMap, Face := Example.pointMap, Loc1 := Example.rightEnd,
            Loc2 := Example.leftEnd } (Example.zeros 0 0) = Except.ok M ∧
        DGTraceIntegrator.AssembleFaceMatrix Example.pointRules Example.dgTrace
          Example.linearSegment Example.constantTriangle
          { Elem1No := 0, Elem2No := -2, FaceGeom := 0, Elem1 := Example.segmentMap,
            Elem2 := Example.identityMap, Face := Example.pointMap, Loc1 := Example.rightEnd,
            Loc2 := Example.rightEnd } (Example.zeros 0 0) = Except.ok M ∧
        M.height = Example.linearSegment.GetDof ∧ M.width = Example.linearSegment.GetDof) ∧
    (∃ M, DGDiffusionIntegrator.AssembleFaceMatrix Example.pointRules
          Example.dgDiffusionSigmaOne (Example.zeros 0 0) Example.linearSegment
          Example.linearSegment
          { Elem1No := 0, Elem2No := -1, FaceGeom := 0, Elem1 := Example.segmentMap,
            Elem2 := Example.segmentMap, Face := Example.pointMap, Loc1 := Example.rightEnd,
            Loc2 := Example.leftEnd } (Example.zeros 0 0) = Except.ok M ∧
        DGDiffusionIntegrator.AssembleFaceMatrix Example.pointRules
          Example.dgDiffusionSigmaOne (Example.zeros 0 0) Example.linearSegment
          Example.constantTriangle
          { Elem1No := 0, Elem2No := -2, FaceGeom := 0, Elem1 := Example.segmentMap,
            Elem2 := Example.identityMap, Face := Example.pointMap, Loc1 := Example.rightEnd,
            Loc2 := Example.rightEnd } (Example.zeros 0 0) = Except.ok M ∧
        M.height = Example.linearSegment.GetDof ∧ M.width = Example.linearSegment.GetDof) :=
  ⟨⟨by decide, by decide⟩,
    DGTraceIntegrator.boundary_face_one_sided Example.pointRules Example.dgTrace
      Example.dgDiffusionSigmaOne (Example.zeros 0 0) (Example.zeros 0 0) Example.linearSegment
      Example.linearSegment Example.constantTriangle 0 0 Example.segmentMap Example.pointMap
      Example.rightEnd (-1) (-2) Example.segmentMap Example.identityMap Example.leftEnd
      Example.rightEnd (by decide) (by decide)⟩

/-! ## Rule selection and coefficient precedence: theorems -/

/-- Claim C12. Without a supplied rule, `DiffusionIntegrator::AssembleElementMatrix`
takes the rule of order `2p - 2` for the space `Pk` and of order `2p + d - 1`
otherwise (so also for `Qk`), from the refined table exactly for the space
`rQk`; `AssembleElementVector` selects the same rule; a supplied rule is used
as it is. The matrix and the vector are the quadrature loops over that rule. -/
theorem DiffusionIntegrator.rule_selection {R : Type} [Field R]
    (IntRules RefinedIntRules : IntegrationRules R) (Q : Option (Coefficient R))
    (MQ : Option (MatrixCoefficient R)) (el : FiniteElement R)
    (Trans : ElementTransformation R) (ir : IntegrationRule R) (elmat : DenseMatrix R)
    (elfun elvect : Vector R) :
    (el.Space = FunctionSpace.Pk →
      DiffusionIntegrator.rule IntRules RefinedIntRules { IntRule := none, Q := Q, MQ := MQ }
          el = IntRules.Get el.GetGeomType (2 * el.GetOrder - 2)) ∧
    (el.Space = FunctionSpace.Qk →
      DiffusionIntegrator.rule IntRules RefinedIntRules { IntRule := none, Q := Q, MQ := MQ }
          el = IntRules.Get el.GetGeomType (2 * el.GetOrder + (el.GetDim : Int) - 1)) ∧
    (el.Space = FunctionSpace.rQk →
      DiffusionIntegrator.rule IntRules RefinedIntRules { IntRule := none, Q := Q, MQ := MQ }
          el = RefinedIntRules.Get el.GetGeomType (2 * el.GetOrder + (el.GetDim : Int) - 1)) ∧
    DiffusionIntegrator.ruleVector IntRules RefinedIntRules
        { IntRule := none, Q := Q, MQ := MQ } el =
      DiffusionIntegrator.rule IntRules RefinedIntRules { IntRule := none, Q := Q, MQ := MQ }
        el ∧
    DiffusionIntegrator.rule IntRules RefinedIntRules { IntRule := some ir, Q := Q, MQ := MQ }
        el = ir ∧
    DiffusionIntegrator.ruleVector IntRules RefinedIntRules
        { IntRule := some ir, Q := Q, MQ := MQ } el = ir ∧
    (∀ self : DiffusionIntegrator R,
      DiffusionIntegrator.AssembleElementMatrix IntRules RefinedIntRules self el Trans elmat =
        Except.ok
          ((DiffusionIntegrator.rule IntRules RefinedIntRules self el).foldl
            (DiffusionIntegrator.point self el Trans)
            ((elmat.SetSize el.GetDof el.GetDof).assign 0)) ∧
      DiffusionIntegrator.AssembleElementVector IntRules RefinedIntRules self el Trans elfun
          elvect =
        Except.ok
          ((DiffusionIntegrator.ruleVector IntRules RefinedIntRules self el).foldl
            (DiffusionIntegrator.pointVector self el Trans elfun)
            ((elvect.SetSize el.GetDof).assign 0))) := by
  refine ⟨fun h => ?_, fun h => ?_, fun h => ?_, rfl, rfl, rfl, fun self => ⟨rfl, rfl⟩⟩
  · simp [DiffusionIntegrator.rule, DiffusionIntegrator.order, h]
  · simp [DiffusionIntegrator.rule, DiffusionIntegrator.order, h]
  · simp [DiffusionIntegrator.rule, DiffusionIntegrator.order, h]

/-! ## Coefficient precedence of the vector mass integrator: theorems -/

/-- Counterexample to C13: with the matrix coefficient `[[1,2],[2,1]]`
configured, `VectorMassIntegrator::AssembleElementMatrix` on the constant
triangle returns entry `(0,0) = 1/2` for the vector coefficient `(1,1)` and
`1` for `(2,2)`, and entry `(0,1) = 0`: the blocks are weighted by `VQ`, the
result depends on `VQ`, and `MQ` is not used. -/
theorem VectorMassIntegrator.matrix_precedence_fails :
    ∃ MA MB,
      VectorMassIntegrator.AssembleElementMatrix Example.rules Example.rules
          (Example.vectorMass Example.vectorCoeffOne) Example.constantTriangle
          Example.identityMap (Example.zeros 0 0) = Except.ok MA ∧
      VectorMassIntegrator.AssembleElementMatrix Example.rules Example.rules
          (Example.vectorMass Example.vectorCoeffTwo) Example.constantTriangle
          Example.identityMap (Example.zeros 0 0) = Except.ok MB ∧
      MA.elem 0 0 = 1 / 2 ∧ MB.elem 0 0 = 1 ∧ MA.elem 0 1 = 0 ∧ MA.elem 0 0 ≠ MB.elem 0 0 := by
  have hA : (List.foldl
      (VectorMassIntegrator.point (Example.vectorMass Example.vectorCoeffOne)
        Example.constantTriangle Example.identityMap)
      ((DenseMatrix.SetSize (Example.zeros 0 0) (1 * 2) (1 * 2)).assign 0)
      Example.midpointRule).elem 0 0 = 1 / 2 := by
    norm_num [VectorMassIntegrator.point, VectorMassIntegrator.vdim, Example.vectorMass,
      Example.vectorCoeffOne, Example.constantTriangle, Example.identityMap,
      Example.midpointRule, DenseMatrix.AddMatrix_a, MultVVt, DenseMatrix.assign,
      DenseMatrix.SetSize, List.range_succ]
  have hB : (List.foldl
      (VectorMassIntegrator.point (Example.vectorMass Example.vectorCoeffTwo)
        Example.constantTriangle Example.identityMap)
      ((DenseMatrix.SetSize (Example.zeros 0 0) (1 * 2) (1 * 2)).assign 0)
      Example.midpointRule).elem 0 0 = 1 := by
    norm_num [VectorMassIntegrator.point, VectorMassIntegrator.vdim, Example.vectorMass,
      Example.vectorCoeffTwo, Example.constantTriangle, Example.identityMap,
      Example.midpointRule, DenseMatrix.AddMatrix_a, MultVVt, DenseMatrix.assign,
      DenseMatrix.SetSize, List.range_succ]
  have hA01 : (List.foldl
      (VectorMassIntegrator.point (Example.vectorMass Example.vectorCoeffOne)
        Example.constantTriangle Example.identityMap)
      ((DenseMatrix.SetSize (Example.zeros 0 0) (1 * 2) (1 * 2)).assign 0)
      Example.midpointRule).elem 0 1 = 0 := by
    norm_num [VectorMassIntegrator.point, VectorMassIntegrator.vdim, Example.vectorMass,
      Example.vectorCoeffOne, Example.constantTriangle, Example.identityMap,
      Example.midpointRule, DenseMatrix.AddMatrix_a, MultVVt, DenseMatrix.assign,
      DenseMatrix.SetSize, List.range_succ]
  refine ⟨_, _, rfl, rfl, hA, hB, hA01, fun h => ?_⟩
  exact absurd (hA.symm.trans (h.trans hB)) (by norm_num)

/-- Claim C13 as amended. In `VectorMassIntegrator` (`AssembleElementMatrix` and
`AssembleElementMatrix2`) the vector coefficient `VQ` comes first: with `VQ`
configured the vector dimension is `VQ->GetVDim()`, each point adds
`norm * VQ(k)` times the scalar block to the diagonal block `k`, and the
result is the same whatever `MQ` and `Q` are; without `VQ` a configured `MQ`
decides the result, whatever `Q` is. -/
theorem VectorMassIntegrator.vector_coefficient_first {R : Type} [Field R]
    (IntRules RefinedIntRules : IntegrationRules R) (IntRule : Option (IntegrationRule R))
    (Q Q' : Option (Coefficient R)) (MQ MQ' : Option (MatrixCoefficient R))
    (vq : VectorCoefficient R) (mq : MatrixCoefficient R) (qo : Int)
    (el trial_fe test_fe : FiniteElement R) (Trans : ElementTransformation R)
    (elmat E : DenseMatrix R) (ip : IntegrationPoint R) :
    (VectorMassIntegrator.AssembleElementMatrix IntRules RefinedIntRules
        { IntRule := IntRule, Q := Q, VQ := some vq, MQ := MQ, Q_order := qo } el Trans elmat =
      VectorMassIntegrator.AssembleElementMatrix IntRules RefinedIntRules
        { IntRule := IntRule, Q := Q', VQ := some vq, MQ := MQ', Q_order := qo } el Trans
        elmat ∧
    VectorMassIntegrator.AssembleElementMatrix2 IntRules RefinedIntRules
        { IntRule := IntRule, Q := Q, VQ := some vq, MQ := MQ, Q_order := qo } trial_fe
        test_fe Trans elmat =
      VectorMassIntegrator.AssembleElementMatrix2 IntRules RefinedIntRules
        { IntRule := IntRule, Q := Q', VQ := some vq, MQ := MQ', Q_order := qo } trial_fe
        test_fe Trans elmat) ∧
    (VectorMassIntegrator.AssembleElementMatrix IntRules RefinedIntRules
        { IntRule := IntRule, Q := Q, VQ := none, MQ := some mq, Q_order := qo } el Trans
        elmat =
      VectorMassIntegrator.AssembleElementMatrix IntRules RefinedIntRules
        { IntRule := IntRule, Q := Q', VQ := none, MQ := some mq, Q_order := qo } el Trans
        elmat ∧
    VectorMassIntegrator.AssembleElementMatrix2 IntRules RefinedIntRules
        { IntRule := IntRule, Q := Q, VQ := none, MQ := some mq, Q_order := qo } trial_fe
        test_fe Trans elmat =
      VectorMassIntegrator.AssembleElementMatrix2 IntRules RefinedIntRules
        { IntRule := IntRule, Q := Q', VQ := none, MQ := some mq, Q_order := qo } trial_fe
        test_fe Trans elmat) ∧
    VectorMassIntegrator.vdim
        { IntRule := IntRule, Q := Q, VQ := some vq, MQ := MQ, Q_order := qo } el.GetDim =
      vq.GetVDim ∧
    VectorMassIntegrator.point
        { IntRule := IntRule, Q := Q, VQ := some vq, MQ := MQ, Q_order := qo } el Trans E ip =
      (List.range vq.GetVDim).foldl
        (fun elmat k =>
          elmat.AddMatrix_a (ip.weight * Trans.Weight ip * (vq.Eval Trans ip).elem k)
            { height := el.GetDof, width := el.GetDof,
              elem := fun i j => el.CalcShape ip i * el.CalcShape ip j }
            (el.GetDof * k) (el.GetDof * k))
        E := by
  refine ⟨⟨?_, ?_⟩, ⟨?_, ?_⟩, ?_, ?_⟩
  · simp only [VectorMassIntegrator.AssembleElementMatrix, VectorMassIntegrator.vdim,
      VectorMassIntegrator.rule]
    rfl
  · simp only [VectorMassIntegrator.AssembleElementMatrix2, VectorMassIntegrator.vdim,
      VectorMassIntegrator.rule2]
    rfl
  · simp only [VectorMassIntegrator.AssembleElementMatrix, VectorMassIntegrator.vdim,
      VectorMassIntegrator.rule]
    rfl
  · simp only [VectorMassIntegrator.AssembleElementMatrix2, VectorMassIntegrator.vdim,
      VectorMassIntegrator.rule2]
    rfl
  · simp only [VectorMassIntegrator.vdim]
  · simp only [VectorMassIntegrator.point, VectorMassIntegrator.vdim, MultVVt]

/-- Claim C14. In `VectorFEMassIntegrator::AssembleElementMatrix` a configured
matrix coefficient `MQ` decides the result, whatever the vector coefficient
`VQ` and the scalar coefficient `Q` are, and without `MQ` a configured `VQ`
decides it, whatever `Q` is; in `DiffusionIntegrator::AssembleElementMatrix` a
configured `MQ` decides the result, whatever `Q` is. -/
theorem VectorFEMassIntegrator.matrix_coefficient_first {R : Type} [Field R]
    (IntRules RefinedIntRules : IntegrationRules R) (IntRule : Option (IntegrationRule R))
    (Q Q' : Option (Coefficient R)) (VQ VQ' : Option (VectorCoefficient R))
    (mq : MatrixCoefficient R) (vq : VectorCoefficient R) (el : FiniteElement R)
    (Trans : ElementTransformation R) (elmat : DenseMatrix R) :
    VectorFEMassIntegrator.AssembleElementMatrix IntRules
        { IntRule := IntRule, Q := Q, VQ := VQ, MQ := some mq } el Trans elmat =
      VectorFEMassIntegrator.AssembleElementMatrix IntRules
        { IntRule := IntRule, Q := Q', VQ := VQ', MQ := some mq } el Trans elmat ∧
    VectorFEMassIntegrator.AssembleElementMatrix IntRules
        { IntRule := IntRule, Q := Q, VQ := some vq, MQ := none } el Trans elmat =
      VectorFEMassIntegrator.AssembleElementMatrix IntRules
        { IntRule := IntRule, Q := Q', VQ := some vq, MQ := none } el Trans elmat ∧
    DiffusionIntegrator.AssembleElementMatrix IntRules RefinedIntRules
        { IntRule := IntRule, Q := Q, MQ := some mq } el Trans elmat =
      DiffusionIntegrator.AssembleElementMatrix IntRules RefinedIntRules
        { IntRule := IntRule, Q := Q', MQ := some mq } el Trans elmat :=
  ⟨rfl, rfl, rfl⟩

/-! ## Diffusion matrix formula: theorems -/

/-- A double sum against a multiple of the identity is a single sum. -/
theorem Finset.sum_range_scaled_identity {R : Type} [CommRing R] (n : Nat) (q : R)
    (g1 g2 : Nat → R) :
    (Finset.sum (Finset.range n) fun k =>
      Finset.sum (Finset.range n) fun l => g1 l * (q * (if l = k then 1 else 0)) * g2 k) =
      q * Finset.sum (Finset.range n) fun k => g1 k * g2 k := by
  rw [Finset.mul_sum]
  refine Finset.sum_congr rfl fun k hk => ?_
  rw [Finset.sum_eq_single k]
  · rw [if_pos rfl]
    ring
  · intro l _ hl
    rw [if_neg hl]
    ring
  · intro hk'
    exact absurd hk hk'

/-- One pass of the loop of `DiffusionIntegrator::AssembleElementMatrix` keeps
the dimensions of `elmat`. -/
theorem DiffusionIntegrator.point_keeps_dims {R : Type} [Field R]
    (self : DiffusionIntegrator R) (el : FiniteElement R) (Trans : ElementTransformation R)
    (E : DenseMatrix R) (ip : IntegrationPoint R) :
    (DiffusionIntegrator.point self el Trans E ip).height = E.height ∧
    (DiffusionIntegrator.point self el Trans E ip).width = E.width := by
  unfold DiffusionIntegrator.point
  cases self.MQ <;> exact ⟨rfl, rfl⟩

/-- Where no matrix coefficient is configured, or the reference and physical
dimensions are equal, one pass of the loop of
`DiffusionIntegrator::AssembleElementMatrix` adds `s * G * C * G^T`. -/
theorem DiffusionIntegrator.point_eq_formula {R : Type} [Field R]
    (self : DiffusionIntegrator R) (el : FiniteElement R) (Trans : ElementTransformation R)
    (h : self.MQ = none ∨ el.GetDim = Trans.GetSpaceDim)
    (E : DenseMatrix R) (ip : IntegrationPoint R) (i j : Nat)
    (hi : i < el.GetDof) (hj : j < el.GetDof) :
    (DiffusionIntegrator.point self el Trans E ip).elem i j =
      E.elem i j + DiffusionIntegrator.formulaPoint self el Trans ip i j := by
  obtain ⟨IntRule, Q, MQ⟩ := self
  cases MQ with
  | none =>
    simp only [DiffusionIntegrator.point, DiffusionIntegrator.formulaPoint,
      DiffusionIntegrator.formulaG, DiffusionIntegrator.formulaC, AddMult_a_AAt, Mult]
    rw [if_pos (And.intro hi hj)]
    congr 1
    rw [Finset.sum_range_scaled_identity]
    by_cases hd : el.GetDim = Trans.GetSpaceDim
    · simp only [hd, decide_True, if_true]
      cases Q <;> simp only <;> ring
    · simp only [hd, decide_False, Bool.false_eq_true, if_false]
      cases Q <;> simp only <;> ring
  | some mq =>
    have hd : el.GetDim = Trans.GetSpaceDim := by
      rcases h with h | h
      · exact absurd h (by simp)
      · exact h
    simp only [DiffusionIntegrator.point, DiffusionIntegrator.formulaPoint,
      DiffusionIntegrator.formulaG, DiffusionIntegrator.formulaC, AddMultABt, Mult,
      DenseMatrix.scale, DenseMatrix.mulEntry, hd, decide_True, if_true]
    rw [if_pos (And.intro hi hj)]
    congr 1
    rw [Finset.mul_sum]
    refine Finset.sum_congr rfl fun k _ => ?_
    rw [Finset.sum_mul, Finset.mul_sum]
    refine Finset.sum_congr rfl fun l _ => ?_
    ring

/-- Where no matrix coefficient is configured, or the reference and physical
dimensions are equal, the quadrature loop of
`DiffusionIntegrator::AssembleElementMatrix` adds the sum over the points of
`s * G * C * G^T`. -/
theorem DiffusionIntegrator.foldl_point_eq_formula {R : Type} [Field R]
    (self : DiffusionIntegrator R) (el : FiniteElement R) (Trans : ElementTransformation R)
    (h : self.MQ = none ∨ el.GetDim = Trans.GetSpaceDim)
    (ir : IntegrationRule R) (E : DenseMatrix R) (i j : Nat)
    (hi : i < el.GetDof) (hj : j < el.GetDof) :
    (ir.foldl (DiffusionIntegrator.point self el Trans) E).elem i j =
      E.elem i j +
        (ir.map fun ip => DiffusionIntegrator.formulaPoint self el Trans ip i j).sum := by
  induction ir generalizing E with
  | nil => simp
  | cons ip ir ih =>
    rw [List.foldl_cons, ih, DiffusionIntegrator.point_eq_formula self el Trans h E ip i j hi hj,
      List.map_cons, List.sum_cons, add_assoc]

/-- Where no matrix coefficient is configured, or the reference and physical
dimensions are equal, `DiffusionIntegrator::AssembleElementMatrix` returns the
`nd x nd` matrix whose entries are the sum over the quadrature points of
`s * G * C * G^T`. -/
theorem DiffusionIntegrator.assemble_eq_formula {R : Type} [Field R]
    (IntRules RefinedIntRules : IntegrationRules R)
    (self : DiffusionIntegrator R) (el : FiniteElement R) (Trans : ElementTransformation R)
    (elmat : DenseMatrix R)
    (h : self.MQ = none ∨ el.GetDim = Trans.GetSpaceDim) :
    ∃ M, DiffusionIntegrator.AssembleElementMatrix IntRules RefinedIntRules self el Trans
        elmat = Except.ok M ∧
      M.height = el.GetDof ∧ M.width = el.GetDof ∧
      ∀ i j, i < el.GetDof → j < el.GetDof →
        M.elem i j =
          DiffusionIntegrator.formula IntRules RefinedIntRules self el Trans i j := by
  refine ⟨_, rfl, ?_, ?_, fun i j hi hj => ?_⟩
  · exact (DenseMatrix.foldl_dims _ _
      (fun E ip => DiffusionIntegrator.point_keeps_dims self el Trans E ip) _).1
  · exact (DenseMatrix.foldl_dims _ _
      (fun E ip => DiffusionIntegrator.point_keeps_dims self el Trans E ip) _).2
  · rw [DiffusionIntegrator.foldl_point_eq_formula self el Trans h _ _ i j hi hj]
    simp [DiffusionIntegrator.formula, DenseMatrix.assign, DenseMatrix.SetSize]

/-- Claim C15 at its failing input. For the linear segment mapped onto the
segment from `(0,0)` to `(0,1)` of the plane, with the identity matrix
coefficient and the midpoint rule, `s * G * C * G^T` is `[[1,-1],[-1,1]]`, and
`DiffusionIntegrator::AssembleElementMatrix` returns the zero matrix: the
product `G * C` is stored in the `nd x dim` buffer `dshape`, which keeps only
its first `dim` columns. -/
theorem DiffusionIntegrator.manifold_matrix_coefficient_truncated :
    ∃ M, DiffusionIntegrator.AssembleElementMatrix Example.pointRules Example.pointRules
        Example.diffusionIdentity Example.linearSegment Example.segmentInPlane
        (Example.zeros 0 0) = Except.ok M ∧
      M.elem 0 0 = 0 ∧ M.elem 0 1 = 0 ∧ M.elem 1 0 = 0 ∧ M.elem 1 1 = 0 ∧
      DiffusionIntegrator.formula Example.pointRules Example.pointRules
        Example.diffusionIdentity Example.linearSegment Example.segmentInPlane 0 0 = 1 ∧
      DiffusionIntegrator.formula Example.pointRules Example.pointRules
        Example.diffusionIdentity Example.linearSegment Example.segmentInPlane 0 1 = -1 ∧
      DiffusionIntegrator.formula Example.pointRules Example.pointRules
        Example.diffusionIdentity Example.linearSegment Example.segmentInPlane 1 0 = -1 ∧
      DiffusionIntegrator.formula Example.pointRules Example.pointRules
        Example.diffusionIdentity Example.linearSegment Example.segmentInPlane 1 1 = 1 := by
  refine ⟨_, rfl, ?_, ?_, ?_, ?_, ?_, ?_, ?_, ?_⟩
  all_goals
    norm_num [DiffusionIntegrator.formula, DiffusionIntegrator.formulaPoint,
      DiffusionIntegrator.formulaG, DiffusionIntegrator.formulaC, DiffusionIntegrator.rule,
      DiffusionIntegrator.point, Example.diffusionIdentity, Example.segmentMidpointRule,
      Example.identityCoeff, Example.linearSegment, Example.segmentInPlane, Mult,
      DenseMatrix.mulEntry, DenseMatrix.scale, AddMultABt, CalcAdjugate, DenseMatrix.ofFin,
      DenseMatrix.toFin, DenseMatrix.assign, DenseMatrix.SetSize, Finset.sum_range_succ,
      Matrix.adjugate_fin_one, Matrix.mul_apply, Matrix.transpose_apply, Matrix.one_apply]
  all_goals
    erw [Matrix.adjugate_fin_one]
    change (Finset.sum Finset.univ fun x : Fin 1 => (1 : Matrix (Fin 1) (Fin 1) ℚ) 0 x) *
      (Finset.sum Finset.univ fun x : Fin 1 => (1 : Matrix (Fin 1) (Fin 1) ℚ) 0 x) = 1
    simp

/-! ## Discontinuous Galerkin diffusion integrator: theorems -/

/-- Claim C16. `DGDiffusionIntegrator::AssembleFaceMatrix` returns
`sigma * A^T - A + Jm`, where `A` is the raw matrix left by the quadrature loop
and `Jm(i,j) = Jm(j,i) = jmat(max(i,j), min(i,j))` mirrors the assembled lower
triangle of `jmat`; on the diagonal the entry is
`(sigma - 1) * A(i,i) + jmat(i,i)`. When `kappa = 0` the jump matrix is left
untouched and the result is `sigma * A^T - A`. -/
theorem DGDiffusionIntegrator.assemble_combination {R : Type} [Field R] [DecidableEq R]
    (IntRules : IntegrationRules R) (self : DGDiffusionIntegrator R)
    (el1 el2 : FiniteElement R) (Trans : FaceElementTransformations R)
    (elmat jmat : DenseMatrix R) :
    ∃ M, DGDiffusionIntegrator.AssembleFaceMatrix IntRules self jmat el1 el2 Trans elmat =
        Except.ok M ∧
      M.height = el1.GetDof + (if Trans.Elem2No ≥ 0 then el2.GetDof else 0) ∧
      M.width = el1.GetDof + (if Trans.Elem2No ≥ 0 then el2.GetDof else 0) ∧
      (self.kappa ≠ 0 →
        ∀ i j, i < el1.GetDof + (if Trans.Elem2No ≥ 0 then el2.GetDof else 0) →
          j < el1.GetDof + (if Trans.Elem2No ≥ 0 then el2.GetDof else 0) →
          M.elem i j =
            self.sigma *
                (DGDiffusionIntegrator.accumulate IntRules self el1 el2 Trans elmat
                  jmat).1.elem j i -
              (DGDiffusionIntegrator.accumulate IntRules self el1 el2 Trans elmat
                jmat).1.elem i j +
              (DGDiffusionIntegrator.accumulate IntRules self el1 el2 Trans elmat
                jmat).2.elem (max i j) (min i j)) ∧
      (self.kappa ≠ 0 →
        ∀ i, i < el1.GetDof + (if Trans.Elem2No ≥ 0 then el2.GetDof else 0) →
          M.elem i i =
            (self.sigma - 1) *
                (DGDiffusionIntegrator.accumulate IntRules self el1 el2 Trans elmat
                  jmat).1.elem i i +
              (DGDiffusionIntegrator.accumulate IntRules self el1 el2 Trans elmat
                jmat).2.elem i i) ∧
      (self.kappa = 0 →
        (DGDiffusionIntegrator.accumulate IntRules self el1 el2 Trans elmat jmat).2 = jmat ∧
        ∀ i j, i < el1.GetDof + (if Trans.Elem2No ≥ 0 then el2.GetDof else 0) →
          j < el1.GetDof + (if Trans.Elem2No ≥ 0 then el2.GetDof else 0) →
          M.elem i j =
            self.sigma *
                (DGDiffusionIntegrator.accumulate IntRules self el1 el2 Trans elmat
                  jmat).1.elem j i -
              (DGDiffusionIntegrator.accumulate IntRules self el1 el2 Trans elmat
                jmat).1.elem i j) := by
  obtain ⟨a1, a2, a3⟩ := DGDiffusionIntegrator.accumulate_dims IntRules self el1 el2 Trans
    elmat jmat
  have fd := DGDiffusionIntegrator.finish_dims self.sigma (decide (self.kappa ≠ 0))
    (el1.GetDof + (if Trans.Elem2No ≥ 0 then el2.GetDof else 0))
    (DGDiffusionIntegrator.accumulate IntRules self el1 el2 Trans elmat jmat).2
    (DGDiffusionIntegrator.accumulate IntRules self el1 el2 Trans elmat jmat).1
  have fe := fun a b => DGDiffusionIntegrator.finish_elem self.sigma
    (decide (self.kappa ≠ 0))
    (el1.GetDof + (if Trans.Elem2No ≥ 0 then el2.GetDof else 0))
    (DGDiffusionIntegrator.accumulate IntRules self el1 el2 Trans elmat jmat).2
    (DGDiffusionIntegrator.accumulate IntRules self el1 el2 Trans elmat jmat).1 a b
  refine ⟨_, rfl, fd.1.trans a1, fd.2.trans a2, fun hk i j hi hj => ?_, fun hk i hi => ?_,
    fun hk => ⟨a3 hk, fun i j hi hj => ?_⟩⟩
  · rw [fe i j, if_pos ⟨hi, hj⟩, if_pos (decide_eq_true hk)]
  · rw [fe i i, if_pos ⟨hi, hi⟩, if_pos (decide_eq_true hk), max_self, min_self]
    ring
  · have hd : ¬ (decide (self.kappa ≠ 0) = true) := by simp [hk]
    rw [fe i j, if_pos ⟨hi, hj⟩, if_neg hd, add_zero]

/-- Counterexample to C17: on the boundary point of a linear segment, with
`sigma = 1`, `kappa = 1` and no coefficient,
`DGDiffusionIntegrator::AssembleFaceMatrix` returns a matrix with entry
`(1,0) = 1` and entry `(0,1) = -1`, which is not symmetric. -/
theorem DGDiffusionIntegrator.sigma_one_not_symmetric :
    ∃ M, DGDiffusionIntegrator.AssembleFaceMatrix Example.pointRules
        Example.dgDiffusionSigmaOne (Example.zeros 0 0) Example.linearSegment
        Example.linearSegment Example.boundaryFace (Example.zeros 0 0) = Except.ok M ∧
      Example.dgDiffusionSigmaOne.sigma = 1 ∧
      M.elem 1 0 = 1 ∧ M.elem 0 1 = -1 ∧ M.elem 1 0 ≠ M.elem 0 1 := by
  have h10 : (DGDiffusionIntegrator.finish Example.dgDiffusionSigmaOne.sigma
      (decide (Example.dgDiffusionSigmaOne.kappa ≠ 0))
      (Example.linearSegment.GetDof +
        (if Example.boundaryFace.Elem2No ≥ 0 then Example.linearSegment.GetDof else 0))
      (DGDiffusionIntegrator.accumulate Example.pointRules Example.dgDiffusionSigmaOne
        Example.linearSegment Example.linearSegment Example.boundaryFace
        (Example.zeros 0 0) (Example.zeros 0 0)).2
      (DGDiffusionIntegrator.accumulate Example.pointRules Example.dgDiffusionSigmaOne
        Example.linearSegment Example.linearSegment Example.boundaryFace
        (Example.zeros 0 0) (Example.zeros 0 0)).1).elem 1 0 = 1 := by
    rw [DGDiffusionIntegrator.finish_elem]
    norm_num [DGDiffusionIntegrator.accumulate, DGDiffusionIntegrator.point,
      DGDiffusionIntegrator.rule, Example.pointRules, Example.pointRule,
      Example.dgDiffusionSigmaOne, Example.linearSegment, Example.boundaryFace,
      DGDiffusionIntegrator.fluxBlocks, DGDiffusionIntegrator.jumpBlocks,
      DGDiffusionIntegrator.dshape1dn, DGDiffusionIntegrator.ni1, DGDiffusionIntegrator.nor,
      DGDiffusionIntegrator.wq, DenseMatrix.foldl_addAt_block00,
      DenseMatrix.Mult, Vector.Set, Vector.setAt, Vector.dot, CalcAdjugate,
      DenseMatrix.ofFin, DenseMatrix.toFin, Example.segmentMap, Example.rightEnd,
      DenseMatrix.assign, DenseMatrix.SetSize, List.range_succ, DenseMatrix.addAt]
    rw [Matrix.adjugate_fin_one]
    rfl
  have h01 : (DGDiffusionIntegrator.finish Example.dgDiffusionSigmaOne.sigma
      (decide (Example.dgDiffusionSigmaOne.kappa ≠ 0))
      (Example.linearSegment.GetDof +
        (if Example.boundaryFace.Elem2No ≥ 0 then Example.linearSegment.GetDof else 0))
      (DGDiffusionIntegrator.accumulate Example.pointRules Example.dgDiffusionSigmaOne
        Example.linearSegment Example.linearSegment Example.boundaryFace
        (Example.zeros 0 0) (Example.zeros 0 0)).2
      (DGDiffusionIntegrator.accumulate Example.pointRules Example.dgDiffusionSigmaOne
        Example.linearSegment Example.linearSegment Example.boundaryFace
        (Example.zeros 0 0) (Example.zeros 0 0)).1).elem 0 1 = -1 := by
    rw [DGDiffusionIntegrator.finish_elem]
    norm_num [DGDiffusionIntegrator.accumulate, DGDiffusionIntegrator.point,
      DGDiffusionIntegrator.rule, Example.pointRules, Example.pointRule,
      Example.dgDiffusionSigmaOne, Example.linearSegment, Example.boundaryFace,
      DGDiffusionIntegrator.fluxBlocks, DGDiffusionIntegrator.jumpBlocks,
      DGDiffusionIntegrator.dshape1dn, DGDiffusionIntegrator.ni1, DGDiffusionIntegrator.nor,
      DGDiffusionIntegrator.wq, DenseMatrix.foldl_addAt_block00,
      DenseMatrix.Mult, Vector.Set, Vector.setAt, Vector.dot, CalcAdjugate,
      DenseMatrix.ofFin, DenseMatrix.toFin, Example.segmentMap, Example.rightEnd,
      DenseMatrix.assign, DenseMatrix.SetSize, List.range_succ, DenseMatrix.addAt]
    rw [Matrix.adjugate_fin_one]
    rfl
  refine ⟨_, rfl, rfl, h10, h01, fun h => ?_⟩
  exact absurd (h10.symm.trans (h.trans h01)) (by norm_num)

/-- Claim C17 as amended. `DGDiffusionIntegrator::AssembleFaceMatrix` returns a
symmetric matrix when `sigma = -1`, for every face, pair of elements,
coefficient and `kappa`. With `sigma = 1` the result is `A^T - A + Jm` with `A`
the raw matrix of the quadrature loop, so that
`elmat(i,j) - elmat(j,i) = 2 * (A(j,i) - A(i,j))`. -/
theorem DGDiffusionIntegrator.symmetric_for_sigma_minus_one {R : Type} [Field R]
    [DecidableEq R] (IntRules : IntegrationRules R) (IntRule : Option (IntegrationRule R))
    (Q : Option (Coefficient R)) (MQ : Option (MatrixCoefficient R)) (kappa : R)
    (el1 el2 : FiniteElement R) (Trans : FaceElementTransformations R)
    (elmat jmat : DenseMatrix R) :
    (∃ M, DGDiffusionIntegrator.AssembleFaceMatrix IntRules
          { IntRule := IntRule, Q := Q, MQ := MQ, sigma := -1, kappa := kappa } jmat el1 el2
          Trans elmat = Except.ok M ∧
        ∀ i j, i < el1.GetDof + (if Trans.Elem2No ≥ 0 then el2.GetDof else 0) →
          j < el1.GetDof + (if Trans.Elem2No ≥ 0 then el2.GetDof else 0) →
          M.elem i j = M.elem j i) ∧
    (∃ M, DGDiffusionIntegrator.AssembleFaceMatrix IntRules
          { IntRule := IntRule, Q := Q, MQ := MQ, sigma := 1, kappa := kappa } jmat el1 el2
          Trans elmat = Except.ok M ∧
        ∀ i j, i < el1.GetDof + (if Trans.Elem2No ≥ 0 then el2.GetDof else 0) →
          j < el1.GetDof + (if Trans.Elem2No ≥ 0 then el2.GetDof else 0) →
          M.elem i j - M.elem j i =
            2 * ((DGDiffusionIntegrator.accumulate IntRules
                    { IntRule := IntRule, Q := Q, MQ := MQ, sigma := 1, kappa := kappa }
                    el1 el2 Trans elmat jmat).1.elem j i -
                 (DGDiffusionIntegrator.accumulate IntRules
                    { IntRule := IntRule, Q := Q, MQ := MQ, sigma := 1, kappa := kappa }
                    el1 el2 Trans elmat jmat).1.elem i j)) := by
  refine ⟨⟨_, rfl, fun i j hi hj => ?_⟩, ⟨_, rfl, fun i j hi hj => ?_⟩⟩
  · rw [DGDiffusionIntegrator.finish_elem, DGDiffusionIntegrator.finish_elem,
      if_pos (And.intro hi hj), if_pos (And.intro hj hi), max_comm j i, min_comm j i]
    ring
  · rw [DGDiffusionIntegrator.finish_elem, DGDiffusionIntegrator.finish_elem,
      if_pos (And.intro hi hj), if_pos (And.intro hj hi), max_comm j i, min_comm j i]
    ring

/-! ## Discontinuous Galerkin trace integrator: theorems -/

/-- One pass of the quadrature loop of the trace jump integrator keeps the
dimensions of the buffer. -/
theorem TraceJumpIntegrator.jump_point_dims {R : Type} [Field R]
    (trial_face_fe test_fe1 test_fe2 : FiniteElement R) (Trans : FaceElementTransformations R)
    (face_ndof ndof1 ndof2 : Nat) (E : DenseMatrix R) (ip : IntegrationPoint R) :
    (TraceJumpIntegrator.point trial_face_fe test_fe1 test_fe2 Trans face_ndof ndof1 ndof2
        E ip).height = E.height ∧
    (TraceJumpIntegrator.point trial_face_fe test_fe1 test_fe2 Trans face_ndof ndof1 ndof2
        E ip).width = E.width := by
  simp only [TraceJumpIntegrator.point, DenseMatrix.subAt_eq_addAt]
  split_ifs <;>
    simp only [DenseMatrix.foldl_addAt_height, DenseMatrix.foldl_addAt_width, and_self]

/-- One pass of the quadrature loop of the trace jump integrator adds
`shape1(a) * w * face_shape(b)` in the first block of rows and subtracts
`shape2(a - ndof1) * w * face_shape(b)` in the second. -/
theorem TraceJumpIntegrator.jump_point_elem {R : Type} [Field R]
    (trial_face_fe test_fe1 test_fe2 : FiniteElement R) (Trans : FaceElementTransformations R)
    (face_ndof ndof1 ndof2 : Nat) (E : DenseMatrix R) (ip : IntegrationPoint R) (a b : Nat) :
    (TraceJumpIntegrator.point trial_face_fe test_fe1 test_fe2 Trans face_ndof ndof1 ndof2
        E ip).elem a b =
      E.elem a b +
        ((if a < ndof1 ∧ b < face_ndof then
            test_fe1.CalcShape (Trans.Loc1.Transform ip) a *
              (trial_face_fe.CalcShape ip b *
                (if trial_face_fe.GetMapType = MapType.VALUE then
                  ip.weight * Trans.Face.Weight ip else ip.weight))
          else 0) +
        (if ndof1 ≤ a ∧ a < ndof1 + ndof2 ∧ b < face_ndof then
            -(test_fe2.CalcShape (Trans.Loc2.Transform ip) (a - ndof1) *
              (trial_face_fe.CalcShape ip b *
                (if trial_face_fe.GetMapType = MapType.VALUE then
                  ip.weight * Trans.Face.Weight ip else ip.weight)))
          else 0)) := by
  simp only [TraceJumpIntegrator.point, DenseMatrix.subAt_eq_addAt, Vector.scale]
  by_cases h2 : ndof2 ≠ 0
  · rw [if_pos h2, DenseMatrix.foldl_addAt_block_r0, DenseMatrix.foldl_addAt_block00, add_assoc]
  · have h0 : ndof2 = 0 := by omega
    have h3 : ¬ (ndof1 ≤ a ∧ a < ndof1 + ndof2 ∧ b < face_ndof) := by omega
    rw [if_neg h2, DenseMatrix.foldl_addAt_block00, if_neg h3, add_zero]

/-- Claim C19. `TraceJumpIntegrator::AssembleFaceMatrix` returns a matrix with
`ndof1 + ndof2` rows and `face_ndof` columns whose first `ndof1` rows are the
sum over the quadrature points of `w * shape1 * face_shape^T` and whose last
`ndof2` rows are minus the sum of `w * shape2 * face_shape^T`, where `w` is
`ip.weight * Trans.Face->Weight()` for the map type `VALUE` and `ip.weight`
otherwise; on a boundary face `ndof2 = 0` and the matrix has `ndof1` rows. The
default rule has order `max(order(test1), order(test2))` (`order(test1)` on a
boundary face) plus `order(trace)`, plus `Trans.Face->OrderW()` exactly for the
map type `VALUE`. -/
theorem TraceJumpIntegrator.assemble_blocks {R : Type} [Field R]
    (IntRules : IntegrationRules R) (IntRule : Option (IntegrationRule R))
    (trial_face_fe test_fe1 test_fe2 : FiniteElement R)
    (Trans : FaceElementTransformations R) (elmat : DenseMatrix R) :
    (∃ M, TraceJumpIntegrator.AssembleFaceMatrix IntRules { IntRule := IntRule }
          trial_face_fe test_fe1 test_fe2 Trans elmat = Except.ok M ∧
        M.height = test_fe1.GetDof + (if Trans.Elem2No ≥ 0 then test_fe2.GetDof else 0) ∧
        M.width = trial_face_fe.GetDof ∧
        (Trans.Elem2No < 0 → M.height = test_fe1.GetDof) ∧
        (∀ i j, i < test_fe1.GetDof → j < trial_face_fe.GetDof →
          M.elem i j =
            ((TraceJumpIntegrator.rule IntRules { IntRule := IntRule } trial_face_fe
                test_fe1 test_fe2 Trans).map fun ip =>
              (if trial_face_fe.GetMapType = MapType.VALUE then
                  ip.weight * Trans.Face.Weight ip else ip.weight) *
                test_fe1.CalcShape (Trans.Loc1.Transform ip) i *
                trial_face_fe.CalcShape ip j).sum) ∧
        (∀ i j, i < (if Trans.Elem2No ≥ 0 then test_fe2.GetDof else 0) →
          j < trial_face_fe.GetDof →
          M.elem (test_fe1.GetDof + i) j =
            -((TraceJumpIntegrator.rule IntRules { IntRule := IntRule } trial_face_fe
                test_fe1 test_fe2 Trans).map fun ip =>
              (if trial_face_fe.GetMapType = MapType.VALUE then
                  ip.weight * Trans.Face.Weight ip else ip.weight) *
                test_fe2.CalcShape (Trans.Loc2.Transform ip) i *
                trial_face_fe.CalcShape ip j).sum)) ∧
    TraceJumpIntegrator.rule IntRules { IntRule := none } trial_face_fe test_fe1 test_fe2
        Trans =
      IntRules.Get Trans.FaceGeom
        ((if Trans.Elem2No ≥ 0 then max test_fe1.GetOrder test_fe2.GetOrder
            else test_fe1.GetOrder) +
          trial_face_fe.GetOrder +
          (if trial_face_fe.GetMapType = MapType.VALUE then Trans.Face.OrderW else 0)) := by
  constructor
  · have hdim := DenseMatrix.foldl_dims
      (TraceJumpIntegrator.rule IntRules { IntRule := IntRule } trial_face_fe test_fe1
        test_fe2 Trans)
      (TraceJumpIntegrator.point trial_face_fe test_fe1 test_fe2 Trans trial_face_fe.GetDof
        test_fe1.GetDof (if Trans.Elem2No ≥ 0 then test_fe2.GetDof else 0))
      (fun E ip => TraceJumpIntegrator.jump_point_dims _ _ _ _ _ _ _ E ip)
      ((elmat.SetSize (test_fe1.GetDof + (if Trans.Elem2No ≥ 0 then test_fe2.GetDof else 0))
        trial_face_fe.GetDof).assign 0)
    have helem := fun a b => DenseMatrix.foldl_additive
      (TraceJumpIntegrator.rule IntRules { IntRule := IntRule } trial_face_fe test_fe1
        test_fe2 Trans)
      (TraceJumpIntegrator.point trial_face_fe test_fe1 test_fe2 Trans trial_face_fe.GetDof
        test_fe1.GetDof (if Trans.Elem2No ≥ 0 then test_fe2.GetDof else 0)) _
      (fun E ip _ a b => TraceJumpIntegrator.jump_point_elem _ _ _ _ _ _ _ E ip a b)
      ((elmat.SetSize (test_fe1.GetDof + (if Trans.Elem2No ≥ 0 then test_fe2.GetDof else 0))
        trial_face_fe.GetDof).assign 0) a b
    refine ⟨_, rfl, hdim.1, hdim.2, fun hneg => ?_, fun i j hi hj => ?_, fun i j hi hj => ?_⟩
    · rw [hdim.1]
      have h0 : ¬ Trans.Elem2No ≥ 0 := by omega
      simp [DenseMatrix.assign, DenseMatrix.SetSize, h0]
    · rw [helem i j]
      have h3 : ¬ (test_fe1.GetDof ≤ i ∧
          i < test_fe1.GetDof + (if Trans.Elem2No ≥ 0 then test_fe2.GetDof else 0) ∧
          j < trial_face_fe.GetDof) := by omega
      simp only [DenseMatrix.assign, zero_add, if_pos (And.intro hi hj), if_neg h3, add_zero]
      refine congrArg List.sum (List.map_congr_left fun ip _ => ?_)
      ring
    · rw [helem (test_fe1.GetDof + i) j]
      have h3 : ¬ (test_fe1.GetDof + i < test_fe1.GetDof ∧ j < trial_face_fe.GetDof) := by
        omega
      have h4 : test_fe1.GetDof ≤ test_fe1.GetDof + i ∧
          test_fe1.GetDof + i <
            test_fe1.GetDof + (if Trans.Elem2No ≥ 0 then test_fe2.GetDof else 0) ∧
          j < trial_face_fe.GetDof := by omega
      simp only [DenseMatrix.assign, zero_add, if_neg h3, if_pos h4, Nat.add_sub_cancel_left]
      rw [← List.sum_map_neg_eq]
      refine congrArg List.sum (List.map_congr_left fun ip _ => ?_)
      ring
  · simp only [TraceJumpIntegrator.rule, TraceJumpIntegrator.order]
    split_ifs <;> simp

/-! ## Vector finite element mass integrator, mixed form: theorems -/

/-- Among the blocks of `T` rows, only block `d0` contains row `d0 * T + j0`
with `j0 < T`. -/
theorem List.sum_range_block_indicator {R : Type} [AddCommMonoid R] (n T d0 j0 : Nat)
    (hd : d0 < n) (hj : j0 < T) (P : Prop) [Decidable P] (F : Nat → R) :
    ((List.range n).map fun d =>
        if d * T ≤ d0 * T + j0 ∧ d0 * T + j0 < d * T + T ∧ P then F d else 0).sum =
      if P then F d0 else 0 := by
  have hiff : ∀ d, (d * T ≤ d0 * T + j0 ∧ d0 * T + j0 < d * T + T ∧ P) ↔ (d0 = 0 + d ∧ P) := by
    intro d
    constructor
    · rintro ⟨h1, h2, h3⟩
      refine ⟨?_, h3⟩
      rcases Nat.lt_trichotomy d d0 with h | h | h
      · exfalso
        have h4 : (d + 1) * T ≤ d0 * T := Nat.mul_le_mul_right T h
        rw [Nat.add_mul, Nat.one_mul] at h4
        omega
      · omega
      · exfalso
        have h4 : (d0 + 1) * T ≤ d * T := Nat.mul_le_mul_right T h
        rw [Nat.add_mul, Nat.one_mul] at h4
        omega
    · rintro ⟨h1, h3⟩
      have h4 : d = d0 := by omega
      subst h4
      exact ⟨by omega, by omega, h3⟩
  have hfun : (fun d => if d * T ≤ d0 * T + j0 ∧ d0 * T + j0 < d * T + T ∧ P then F d else 0) =
      fun d => if d0 = 0 + d then (if P then F d else 0) else 0 := by
    funext d
    by_cases h : d0 = 0 + d
    · by_cases hP : P
      · rw [if_pos ((hiff d).mpr ⟨h, hP⟩), if_pos h, if_pos hP]
      · rw [if_neg (fun hc => hP ((hiff d).mp hc).2), if_pos h, if_neg hP]
    · rw [if_neg (fun hc => h ((hiff d).mp hc).1), if_neg h]
  rw [hfun, List.sum_range_indicator n 0 d0 (fun d => if P then F d else 0)]
  have h5 : 0 ≤ d0 ∧ d0 < 0 + n := by omega
  rw [if_pos h5, Nat.sub_zero]

/-- One pass of the quadrature loop of the mixed vector finite element mass
form keeps the dimensions of the buffer. -/
theorem VectorFEMassIntegrator.point2_dims {R : Type} [Field R]
    (self : VectorFEMassIntegrator R) (trial_fe test_fe : FiniteElement R)
    (Trans : ElementTransformation R) (E : DenseMatrix R) (ip : IntegrationPoint R) :
    (VectorFEMassIntegrator.point2 self trial_fe test_fe Trans E ip).height = E.height ∧
    (VectorFEMassIntegrator.point2 self trial_fe test_fe Trans E ip).width = E.width := by
  simp only [VectorFEMassIntegrator.point2]
  exact DenseMatrix.foldl_dims (List.range test_fe.GetDim) _
    (fun E d => ⟨DenseMatrix.foldl_addAt_height _ _ _ _ _ E,
      DenseMatrix.foldl_addAt_width _ _ _ _ _ E⟩) E

/-- One pass of the quadrature loop of the mixed vector finite element mass
form adds `w * shape(j) * vshape(k, d)` to entry `(d * test_dof + j, k)`. -/
theorem VectorFEMassIntegrator.point2_elem {R : Type} [Field R]
    (self : VectorFEMassIntegrator R) (trial_fe test_fe : FiniteElement R)
    (Trans : ElementTransformation R) (E : DenseMatrix R) (ip : IntegrationPoint R)
    (a b : Nat) :
    (VectorFEMassIntegrator.point2 self trial_fe test_fe Trans E ip).elem a b =
      E.elem a b +
        ((List.range test_fe.GetDim).map fun d =>
          if d * test_fe.GetDof ≤ a ∧ a < d * test_fe.GetDof + test_fe.GetDof ∧
              b < trial_fe.GetDof then
            (match self.Q with
              | some Q => ip.weight * Trans.Weight ip * Q.Eval Trans ip
              | none => ip.weight * Trans.Weight ip) *
              test_fe.CalcShape ip (a - d * test_fe.GetDof) * trial_fe.CalcVShape Trans ip b d
          else 0).sum := by
  simp only [VectorFEMassIntegrator.point2]
  refine DenseMatrix.foldl_additive (List.range test_fe.GetDim) _
    (fun d a b =>
      if d * test_fe.GetDof ≤ a ∧ a < d * test_fe.GetDof + test_fe.GetDof ∧
          b < trial_fe.GetDof then
        (match self.Q with
          | some Q => ip.weight * Trans.Weight ip * Q.Eval Trans ip
          | none => ip.weight * Trans.Weight ip) *
          test_fe.CalcShape ip (a - d * test_fe.GetDof) * trial_fe.CalcVShape Trans ip b d
      else 0) ?_ E a b
  intro E d _ a b
  exact DenseMatrix.foldl_addAt_block_r0 test_fe.GetDof trial_fe.GetDof (d * test_fe.GetDof)
    _ E a b

/-- Claim C20. `VectorFEMassIntegrator::AssembleElementMatrix2` fails with the
fatal error exactly when a vector coefficient `VQ` or a matrix coefficient `MQ`
is configured; otherwise it returns a matrix with `dim * test_dof` rows and
`trial_dof` columns whose entry `(d * test_dof + j, k)` is the sum over the
quadrature points of `ip.weight * Trans.Weight() * Q * shape(j) * vshape(k, d)`
(`Q = 1` if absent). -/
theorem VectorFEMassIntegrator.assemble2_scalar_only {R : Type} [Field R]
    (IntRules : IntegrationRules R) (IntRule : Option (IntegrationRule R))
    (Q : Option (Coefficient R)) (VQ : Option (VectorCoefficient R))
    (MQ : Option (MatrixCoefficient R)) (trial_fe test_fe : FiniteElement R)
    (Trans : ElementTransformation R) (elmat : DenseMatrix R) :
    ((∃ e, VectorFEMassIntegrator.AssembleElementMatrix2 IntRules
          { IntRule := IntRule, Q := Q, VQ := VQ, MQ := MQ } trial_fe test_fe Trans elmat =
          Except.error e) ↔ (VQ.isSome = true ∨ MQ.isSome = true)) ∧
    ((VQ.isSome = true ∨ MQ.isSome = true) →
      VectorFEMassIntegrator.AssembleElementMatrix2 IntRules
          { IntRule := IntRule, Q := Q, VQ := VQ, MQ := MQ } trial_fe test_fe Trans elmat =
        Except.error
          "VectorFEMassIntegrator::AssembleElementMatrix2(...)\n   is not implemented for vector/tensor permeability") ∧
    ∃ M, VectorFEMassIntegrator.AssembleElementMatrix2 IntRules
          { IntRule := IntRule, Q := Q, VQ := none, MQ := none } trial_fe test_fe Trans
          elmat = Except.ok M ∧
      M.height = test_fe.GetDim * test_fe.GetDof ∧ M.width = trial_fe.GetDof ∧
      ∀ d j k, d < test_fe.GetDim → j < test_fe.GetDof → k < trial_fe.GetDof →
        M.elem (d * test_fe.GetDof + j) k =
          ((VectorFEMassIntegrator.rule2 IntRules
              { IntRule := IntRule, Q := Q, VQ := none, MQ := none } trial_fe test_fe
              Trans).map fun ip =>
            (match Q with
              | some Q => ip.weight * Trans.Weight ip * Q.Eval Trans ip
              | none => ip.weight * Trans.Weight ip) *
              test_fe.CalcShape ip j * trial_fe.CalcVShape Trans ip k d).sum := by
  have hfail : (VQ.isSome = true ∨ MQ.isSome = true) →
      VectorFEMassIntegrator.AssembleElementMatrix2 IntRules
          { IntRule := IntRule, Q := Q, VQ := VQ, MQ := MQ } trial_fe test_fe Trans elmat =
        Except.error
          "VectorFEMassIntegrator::AssembleElementMatrix2(...)\n   is not implemented for vector/tensor permeability" := by
    intro h
    have hb : (VQ.isSome || MQ.isSome) = true := by
      rcases h with h | h <;> simp [h]
    simp only [VectorFEMassIntegrator.AssembleElementMatrix2, hb, if_true]
    rfl
  have hok : ¬ (VQ.isSome = true ∨ MQ.isSome = true) →
      ∃ M, VectorFEMassIntegrator.AssembleElementMatrix2 IntRules
          { IntRule := IntRule, Q := Q, VQ := VQ, MQ := MQ } trial_fe test_fe Trans elmat =
        Except.ok M := by
    intro h
    have hb : (VQ.isSome || MQ.isSome) = false := by
      cases VQ <;> cases MQ <;> simp at h ⊢
    simp only [VectorFEMassIntegrator.AssembleElementMatrix2, hb]
    exact ⟨_, rfl⟩
  refine ⟨⟨fun ⟨e, he⟩ => ?_, fun h => ⟨_, hfail h⟩⟩, hfail, ?_⟩
  · by_contra hn
    obtain ⟨M, hM⟩ := hok hn
    rw [hM] at he
    cases he
  · have hdim := DenseMatrix.foldl_dims
      (VectorFEMassIntegrator.rule2 IntRules
        { IntRule := IntRule, Q := Q, VQ := none, MQ := none } trial_fe test_fe Trans)
      (VectorFEMassIntegrator.point2 { IntRule := IntRule, Q := Q, VQ := none, MQ := none }
        trial_fe test_fe Trans)
      (fun E ip => VectorFEMassIntegrator.point2_dims _ _ _ _ E ip)
      ((elmat.SetSize (test_fe.GetDim * test_fe.GetDof) trial_fe.GetDof).assign 0)
    have helem := fun a b => DenseMatrix.foldl_additive
      (VectorFEMassIntegrator.rule2 IntRules
        { IntRule := IntRule, Q := Q, VQ := none, MQ := none } trial_fe test_fe Trans)
      (VectorFEMassIntegrator.point2 { IntRule := IntRule, Q := Q, VQ := none, MQ := none }
        trial_fe test_fe Trans) _
      (fun E ip _ a b => VectorFEMassIntegrator.point2_elem _ _ _ _ E ip a b)
      ((elmat.SetSize (test_fe.GetDim * test_fe.GetDof) trial_fe.GetDof).assign 0) a b
    refine ⟨_, rfl, hdim.1, hdim.2, fun d j k hd hj hk => ?_⟩
    rw [helem (d * test_fe.GetDof + j) k]
    simp only [DenseMatrix.assign, zero_add]
    refine congrArg List.sum (List.map_congr_left fun ip _ => ?_)
    rw [List.sum_range_block_indicator test_fe.GetDim test_fe.GetDof d j hd hj]
    rw [if_pos hk, Nat.add_sub_cancel_left]

/-! ## Loops over blocks of a vector-valued element: theorems -/

/-- Among the blocks of `T` consecutive indices, only block `d0` contains the
index `T * d0 + j0` with `j0 < T`. -/
theorem List.sum_range_block_pick {R : Type} [AddCommMonoid R] (n T d0 j0 : Nat)
    (hd : d0 < n) (hj : j0 < T) (F : Nat → R) :
    ((List.range n).map fun d =>
        if T * d ≤ T * d0 + j0 ∧ T * d0 + j0 < T * d + T then F d else 0).sum = F d0 := by
  have hiff : ∀ d, (T * d ≤ T * d0 + j0 ∧ T * d0 + j0 < T * d + T) ↔ d0 = 0 + d := by
    intro d
    constructor
    · rintro ⟨h1, h2⟩
      rcases Nat.lt_trichotomy d d0 with h | h | h
      · exfalso
        have h4 : T * (d + 1) ≤ T * d0 := Nat.mul_le_mul_left T h
        rw [Nat.mul_add, Nat.mul_one] at h4
        omega
      · omega
      · exfalso
        have h4 : T * (d0 + 1) ≤ T * d := Nat.mul_le_mul_left T h
        rw [Nat.mul_add, Nat.mul_one] at h4
        omega
    · intro h1
      have h4 : d = d0 := by omega
      subst h4
      exact ⟨by omega, by omega⟩
  have hfun : (fun d => if T * d ≤ T * d0 + j0 ∧ T * d0 + j0 < T * d + T then F d else 0) =
      fun d => if d0 = 0 + d then F d else 0 := by
    funext d
    by_cases h : d0 = 0 + d
    · rw [if_pos ((hiff d).mpr h), if_pos h]
    · rw [if_neg (fun hc => h ((hiff d).mp hc)), if_neg h]
  rw [hfun, List.sum_range_indicator n 0 d0 F]
  have h5 : 0 ≤ d0 ∧ d0 < 0 + n := by omega
  rw [if_pos h5, Nat.sub_zero]

/-- The index `T * j0 + l0` with `l0 < T` lies in block `i0` exactly when
`i0 = j0`. -/
theorem Nat.block_index_iff (T i0 j0 l0 : Nat) (hl : l0 < T) :
    (T * i0 ≤ T * j0 + l0 ∧ T * j0 + l0 < T * i0 + T) ↔ i0 = j0 := by
  constructor
  · rintro ⟨h1, h2⟩
    rcases Nat.lt_trichotomy i0 j0 with h | h | h
    · exfalso
      have h4 : T * (i0 + 1) ≤ T * j0 := Nat.mul_le_mul_left T h
      rw [Nat.mul_add, Nat.mul_one] at h4
      omega
    · exact h
    · exfalso
      have h4 : T * (j0 + 1) ≤ T * i0 := Nat.mul_le_mul_left T h
      rw [Nat.mul_add, Nat.mul_one] at h4
      omega
  · intro h
    subst h
    exact ⟨by omega, by omega⟩

/-- The loop `for d < n, for k < T, for l < T: E(T*d+k, T*d+l) += p d k l` adds
`p i0 k0 l0` to the entry `(T*i0+k0, T*i0+l0)` of a diagonal block and nothing
to the entries of the other blocks. -/
theorem DenseMatrix.foldl_addAt_diag_blocks {R : Type} [AddCommMonoid R] (n T : Nat)
    (p : Nat → Nat → Nat → R) (E : DenseMatrix R) (i0 j0 k0 l0 : Nat)
    (hi : i0 < n) (hk : k0 < T) (hl : l0 < T) :
    ((List.range n).foldl
        (fun E d =>
          (List.range T).foldl
            (fun E k =>
              (List.range T).foldl (fun E l => E.addAt (T * d + k) (T * d + l) (p d k l)) E)
            E)
        E).elem (T * i0 + k0) (T * j0 + l0) =
      E.elem (T * i0 + k0) (T * j0 + l0) + (if i0 = j0 then p i0 k0 l0 else 0) := by
  rw [DenseMatrix.foldl_additive (List.range n) _
    (fun d a b =>
      if T * d ≤ a ∧ a < T * d + T ∧ T * d ≤ b ∧ b < T * d + T then
        p d (a - T * d) (b - T * d) else 0)
    (fun E d _ a b => DenseMatrix.foldl_addAt_block_rc T T (T * d) (T * d) (p d) E a b)]
  congr 1
  have hfun : (fun d =>
      if T * d ≤ T * i0 + k0 ∧ T * i0 + k0 < T * d + T ∧
          T * d ≤ T * j0 + l0 ∧ T * j0 + l0 < T * d + T then
        p d (T * i0 + k0 - T * d) (T * j0 + l0 - T * d) else 0) =
      fun d =>
        if T * d ≤ T * i0 + k0 ∧ T * i0 + k0 < T * d + T then
          (if T * d ≤ T * j0 + l0 ∧ T * j0 + l0 < T * d + T then
            p d (T * i0 + k0 - T * d) (T * j0 + l0 - T * d) else 0)
        else 0 := by
    funext d
    by_cases h1 : T * d ≤ T * i0 + k0 ∧ T * i0 + k0 < T * d + T
    · by_cases h2 : T * d ≤ T * j0 + l0 ∧ T * j0 + l0 < T * d + T
      · rw [if_pos ⟨h1.1, h1.2, h2.1, h2.2⟩, if_pos h1, if_pos h2]
      · rw [if_neg (fun h => h2 ⟨h.2.2.1, h.2.2.2⟩), if_pos h1, if_neg h2]
    · rw [if_neg (fun h => h1 ⟨h.1, h.2.1⟩), if_neg h1]
  rw [hfun, List.sum_range_block_pick n T i0 k0 hi hk]
  by_cases h : i0 = j0
  · subst h
    rw [if_pos ((Nat.block_index_iff T i0 i0 l0 hl).mpr rfl), if_pos rfl,
      Nat.add_sub_cancel_left, Nat.add_sub_cancel_left]
  · rw [if_neg (fun hc => h ((Nat.block_index_iff T i0 j0 l0 hl).mp hc)), if_neg h]

/-- The loop `for i < n, for j < m, for k < T, for l < T:
E(T*i+k, T*j+l) += g i j k l` adds `g i0 j0 k0 l0` to the entry
`(T*i0+k0, T*j0+l0)`. -/
theorem DenseMatrix.foldl_addAt_all_blocks {R : Type} [AddCommMonoid R] (n m T : Nat)
    (g : Nat → Nat → Nat → Nat → R) (E : DenseMatrix R) (i0 j0 k0 l0 : Nat)
    (hi : i0 < n) (hj : j0 < m) (hk : k0 < T) (hl : l0 < T) :
    ((List.range n).foldl
        (fun E i =>
          (List.range m).foldl
            (fun E j =>
              (List.range T).foldl
                (fun E k =>
                  (List.range T).foldl
                    (fun E l => E.addAt (T * i + k) (T * j + l) (g i j k l)) E)
                E)
            E)
        E).elem (T * i0 + k0) (T * j0 + l0) =
      E.elem (T * i0 + k0) (T * j0 + l0) + g i0 j0 k0 l0 := by
  have hrow : ∀ (E : DenseMatrix R) (i : Nat), i ∈ List.range n → ∀ a b,
      ((List.range m).foldl
          (fun E j =>
            (List.range T).foldl
              (fun E k =>
                (List.range T).foldl
                  (fun E l => E.addAt (T * i + k) (T * j + l) (g i j k l)) E)
              E)
          E).elem a b =
        E.elem a b +
          ((List.range m).map fun j =>
            if T * i ≤ a ∧ a < T * i + T ∧ T * j ≤ b ∧ b < T * j + T then
              g i j (a - T * i) (b - T * j) else 0).sum := by
    intro E i _ a b
    exact DenseMatrix.foldl_additive (List.range m) _
      (fun j a b =>
        if T * i ≤ a ∧ a < T * i + T ∧ T * j ≤ b ∧ b < T * j + T then
          g i j (a - T * i) (b - T * j) else 0)
      (fun E j _ a b => DenseMatrix.foldl_addAt_block_rc T T (T * i) (T * j) (g i j) E a b)
      E a b
  rw [DenseMatrix.foldl_additive (List.range n) _ _ hrow]
  congr 1
  have hfun : (fun i =>
      ((List.range m).map fun j =>
        if T * i ≤ T * i0 + k0 ∧ T * i0 + k0 < T * i + T ∧
            T * j ≤ T * j0 + l0 ∧ T * j0 + l0 < T * j + T then
          g i j (T * i0 + k0 - T * i) (T * j0 + l0 - T * j) else 0).sum) =
      fun i =>
        if T * i ≤ T * i0 + k0 ∧ T * i0 + k0 < T * i + T then
          g i j0 (T * i0 + k0 - T * i) l0
        else 0 := by
    funext i
    by_cases h1 : T * i ≤ T * i0 + k0 ∧ T * i0 + k0 < T * i + T
    · rw [if_pos h1]
      have hin : (fun j =>
          if T * i ≤ T * i0 + k0 ∧ T * i0 + k0 < T * i + T ∧
              T * j ≤ T * j0 + l0 ∧ T * j0 + l0 < T * j + T then
            g i j (T * i0 + k0 - T * i) (T * j0 + l0 - T * j) else 0) =
          fun j =>
            if T * j ≤ T * j0 + l0 ∧ T * j0 + l0 < T * j + T then
              g i j (T * i0 + k0 - T * i) (T * j0 + l0 - T * j) else 0 := by
        funext j
        by_cases h2 : T * j ≤ T * j0 + l0 ∧ T * j0 + l0 < T * j + T
        · rw [if_pos ⟨h1.1, h1.2, h2.1, h2.2⟩, if_pos h2]
        · rw [if_neg (fun h => h2 ⟨h.2.2.1, h.2.2.2⟩), if_neg h2]
      rw [hin, List.sum_range_block_pick m T j0 l0 hj hl, Nat.add_sub_cancel_left]
    · rw [if_neg h1]
      have hin : (fun j =>
          if T * i ≤ T * i0 + k0 ∧ T * i0 + k0 < T * i + T ∧
              T * j ≤ T * j0 + l0 ∧ T * j0 + l0 < T * j + T then
            g i j (T * i0 + k0 - T * i) (T * j0 + l0 - T * j) else 0) =
          fun _ => (0 : R) := by
        funext j
        rw [if_neg (fun h => h1 ⟨h.1, h.2.1⟩)]
      rw [hin]
      simp
  rw [hfun, List.sum_range_block_pick n T i0 k0 hi hk, Nat.add_sub_cancel_left]

/-- A triple loop of statements `E(r, c) += v` keeps the dimensions. -/
theorem DenseMatrix.foldl3_addAt_dims {R : Type} [Add R] (n m q : Nat)
    (r c : Nat → Nat → Nat → Nat) (f : Nat → Nat → Nat → R) (E : DenseMatrix R) :
    ((List.range n).foldl
        (fun E i =>
          (List.range m).foldl
            (fun E j =>
              (List.range q).foldl (fun E k => E.addAt (r i j k) (c i j k) (f i j k)) E)
            E)
        E).height = E.height ∧
    ((List.range n).foldl
        (fun E i =>
          (List.range m).foldl
            (fun E j =>
              (List.range q).foldl (fun E k => E.addAt (r i j k) (c i j k) (f i j k)) E)
            E)
        E).width = E.width :=
  DenseMatrix.foldl_dims (List.range n) _
    (fun E i => ⟨DenseMatrix.foldl_addAt_height m (fun _ => q) (r i) (c i) (f i) E,
      DenseMatrix.foldl_addAt_width m (fun _ => q) (r i) (c i) (f i) E⟩) E

/-- A quadruple loop of statements `E(r, c) += v` keeps the dimensions. -/
theorem DenseMatrix.foldl4_addAt_dims {R : Type} [Add R] (n m q t : Nat)
    (r c : Nat → Nat → Nat → Nat → Nat) (f : Nat → Nat → Nat → Nat → R)
    (E : DenseMatrix R) :
    ((List.range n).foldl
        (fun E i =>
          (List.range m).foldl
            (fun E j =>
              (List.range q).foldl
                (fun E k =>
                  (List.range t).foldl
                    (fun E l => E.addAt (r i j k l) (c i j k l) (f i j k l)) E)
                E)
            E)
        E).height = E.height ∧
    ((List.range n).foldl
        (fun E i =>
          (List.range m).foldl
            (fun E j =>
              (List.range q).foldl
                (fun E k =>
                  (List.range t).foldl
                    (fun E l => E.addAt (r i j k l) (c i j k l) (f i j k l)) E)
                E)
            E)
        E).width = E.width :=
  DenseMatrix.foldl_dims (List.range n) _
    (fun E i => DenseMatrix.foldl3_addAt_dims m q t (r i) (c i) (f i) E) E

/-- The sum over a list of sums over a finite set is the sum over the set of
the sums over the list. -/
theorem List.sum_map_finset_sum {R α : Type} [AddCommMonoid R] (l : List α) (s : Finset Nat)
    (f : α → Nat → R) :
    (l.map fun x => Finset.sum s fun j => f x j).sum =
      Finset.sum s fun j => (l.map fun x => f x j).sum := by
  induction l with
  | nil => simp
  | cons x l ih =>
    simp only [List.map_cons, List.sum_cons, ih, Finset.sum_add_distrib]

/-- Scaling every term scales the sum of a list. -/
theorem List.sum_map_mul_left_eq {R α : Type} [Semiring R] (l : List α) (c : R) (f : α → R) :
    (l.map fun x => c * f x).sum = c * (l.map f).sum := by
  induction l with
  | nil => simp
  | cons x l ih =>
    rw [List.map_cons, List.sum_cons, ih, List.map_cons, List.sum_cons, mul_add]

/-- A loop that adds `f s` to an accumulator computes the sum of the `f s`. -/
theorem List.foldl_add_eq_sum {R : Type} [AddCommMonoid R] (n : Nat) (f : Nat → R) (a : R) :
    (List.range n).foldl (fun a s => a + f s) a =
      a + Finset.sum (Finset.range n) f := by
  induction n with
  | zero => simp
  | succ n ih =>
    rw [List.range_succ, List.foldl_append, ih, Finset.sum_range_succ]
    simp [add_assoc]

/-- A sum over a list of points is a sum over the range. -/
theorem List.sum_range_eq_finset_sum {R : Type} [AddCommMonoid R] (n : Nat) (f : Nat → R) :
    ((List.range n).map f).sum = Finset.sum (Finset.range n) f := by
  induction n with
  | zero => simp
  | succ n ih =>
    rw [List.range_succ, List.map_append, List.sum_append, ih, Finset.sum_range_succ]
    simp

/-- A loop whose every pass adds `h x` to the entry `(a,b)` adds the sum of the
`h x` over the passes. -/
theorem DenseMatrix.foldl_additive_at {R α : Type} [AddCommMonoid R] (l : List α)
    (g : DenseMatrix R → α → DenseMatrix R) (a b : Nat) (h : α → R)
    (hg : ∀ E x, x ∈ l → (g E x).elem a b = E.elem a b + h x)
    (E : DenseMatrix R) :
    (l.foldl g E).elem a b = E.elem a b + (l.map h).sum := by
  induction l generalizing E with
  | nil => simp
  | cons x l ih =>
    rw [List.foldl_cons, ih (fun E y hy => hg E y (List.mem_cons_of_mem _ hy)),
      hg E x (List.mem_cons_self _ _), List.map_cons, List.sum_cons, add_assoc]

/-- Two lists of terms that agree on the points of the rule have the same
sum. -/
theorem List.sum_map_congr_mem {R α : Type} [AddCommMonoid R] (l : List α) (f g : α → R)
    (h : ∀ x, x ∈ l → f x = g x) : (l.map f).sum = (l.map g).sum := by
  induction l with
  | nil => rfl
  | cons x l ih =>
    rw [List.map_cons, List.sum_cons, List.map_cons, List.sum_cons,
      h x (List.mem_cons_self _ _), ih (fun y hy => h y (List.mem_cons_of_mem _ hy))]

/-- A loop over a rule whose every pass adds `h x` to the entry `i` of a vector
adds the sum of the `h x` over the passes. -/
theorem Vector.foldl_additive_entry {R α : Type} [AddCommMonoid R] (l : List α)
    (g : Vector R → α → Vector R) (i : Nat) (h : α → R)
    (hg : ∀ v x, x ∈ l → (g v x).elem i = v.elem i + h x) (v : Vector R) :
    (l.foldl g v).elem i = v.elem i + (l.map h).sum := by
  induction l generalizing v with
  | nil => simp
  | cons x l ih =>
    rw [List.foldl_cons, ih (fun v y hy => hg v y (List.mem_cons_of_mem _ hy)),
      hg v x (List.mem_cons_self _ _), List.map_cons, List.sum_cons, add_assoc]

/-- A loop whose passes keep the length of a vector keeps it. -/
theorem Vector.foldl_size {R α : Type} (l : List α) (g : Vector R → α → Vector R)
    (hg : ∀ v x, (g v x).size = v.size) (v : Vector R) : (l.foldl g v).size = v.size := by
  induction l generalizing v with
  | nil => rfl
  | cons x l ih => exact (ih (g v x)).trans (hg v x)

/-- Scaling every term on the right scales the sum of a list. -/
theorem List.sum_map_mul_right_eq {R α : Type} [Semiring R] (l : List α) (c : R)
    (f : α → R) : (l.map fun x => f x * c).sum = (l.map f).sum * c := by
  induction l with
  | nil => simp
  | cons x l ih =>
    rw [List.map_cons, List.sum_cons, ih, List.map_cons, List.sum_cons, add_mul]

/-- A loop that adds `h x` to an accumulator computes the sum of the `h x`. -/
theorem List.foldl_add_map_sum {R α : Type} [AddCommMonoid R] (l : List α) (h : α → R)
    (a : R) : l.foldl (fun e x => e + h x) a = a + (l.map h).sum := by
  induction l generalizing a with
  | nil => simp
  | cons x l ih => rw [List.foldl_cons, ih, List.map_cons, List.sum_cons, add_assoc]

/-- A loop whose every pass adds `h x` to an accumulator computes the sum of the
`h x`. -/
theorem List.foldl_eq_sum_of_add {R α : Type} [AddCommMonoid R] (l : List α)
    (g : R → α → R) (h : α → R) (hg : ∀ e x, g e x = e + h x) (a : R) :
    l.foldl g a = a + (l.map h).sum := by
  induction l generalizing a with
  | nil => simp
  | cons x l ih => rw [List.foldl_cons, ih, hg, List.map_cons, List.sum_cons, add_assoc]

/-- The quadratic form of a zeroed buffer is zero. -/
theorem DenseMatrix.quadForm_assign_zero {R : Type} [Semiring R] (E : DenseMatrix R)
    (u : Nat → R) : (E.assign 0).quadForm u = 0 := by
  simp [DenseMatrix.quadForm, DenseMatrix.assign]

/-! ## Vector diffusion integrator: theorems -/

/-- The index `dof*i + k` of component `i` and basis function `k` lies below
`dim*dof`. -/
theorem Nat.block_index_lt (dof dim i k : Nat) (hi : i < dim) (hk : k < dof) :
    dof * i + k < dim * dof := by
  have h : dof * (i + 1) ≤ dof * dim := Nat.mul_le_mul_left dof hi
  rw [Nat.mul_add, Nat.mul_one, Nat.mul_comm dof dim] at h
  omega

/-- The updates of one quadrature point of the elasticity integrator keep the
dimensions of the buffer. -/
theorem ElasticityIntegrator.update_dims {R : Type} [Field R] [DecidableEq R]
    (dof dim : Nat) (w L M : R) (gshape pelmat : DenseMatrix R) (divshape : Vector R)
    (E : DenseMatrix R) :
    (ElasticityIntegrator.update dof dim w L M gshape pelmat divshape E).height = E.height ∧
    (ElasticityIntegrator.update dof dim w L M gshape pelmat divshape E).width = E.width := by
  unfold ElasticityIntegrator.update
  have h3 := fun E' : DenseMatrix R => DenseMatrix.foldl3_addAt_dims dim dof dof
    (fun d k _ => dof * d + k) (fun d _ l => dof * d + l)
    (fun _ k l => M * w * pelmat.elem k l) E'
  have h4 := fun E' : DenseMatrix R => DenseMatrix.foldl4_addAt_dims dim dim dof dof
    (fun i _ k _ => dof * i + k) (fun _ j _ l => dof * j + l)
    (fun i j k l => M * w * gshape.elem k j * gshape.elem l i) E'
  by_cases hL : L = 0 <;> by_cases hM : M = 0
  · simp [hL, hM]
  · simp only [hL, hM, ne_eq, not_true_eq_false, not_false_eq_true, if_true, if_false]
    exact ⟨(h4 _).1.trans (h3 _).1, (h4 _).2.trans (h3 _).2⟩
  · simp [hL, hM, AddMult_a_VVt]
  · simp only [hL, hM, ne_eq, not_false_eq_true, if_true]
    exact ⟨(h4 _).1.trans ((h3 _).1.trans rfl), (h4 _).2.trans ((h3 _).2.trans rfl)⟩

/-- The updates of one quadrature point of the elasticity integrator add to the
entry `(dof*i+k, dof*j+l)` the three terms of the unguarded formula: the guards
`L != 0` and `M != 0` only skip terms that are zero. -/
theorem ElasticityIntegrator.update_elem {R : Type} [Field R] [DecidableEq R]
    (dof dim : Nat) (w L M : R) (gshape pelmat : DenseMatrix R) (divshape : Vector R)
    (hsize : divshape.size = dim * dof)
    (E : DenseMatrix R) (i j k l : Nat) (hi : i < dim) (hj : j < dim) (hk : k < dof)
    (hl : l < dof) :
    (ElasticityIntegrator.update dof dim w L M gshape pelmat divshape E).elem
        (dof * i + k) (dof * j + l) =
      E.elem (dof * i + k) (dof * j + l) +
        (L * w * divshape.elem (dof * i + k) * divshape.elem (dof * j + l) +
          (if i = j then M * w * pelmat.elem k l else 0) +
          M * w * gshape.elem k j * gshape.elem l i) := by
  have hb1 : dof * i + k < divshape.size := hsize ▸ Nat.block_index_lt dof dim i k hi hk
  have hb2 : dof * j + l < divshape.size := hsize ▸ Nat.block_index_lt dof dim j l hj hl
  have hV : ∀ a : R, (AddMult_a_VVt a divshape E).elem (dof * i + k) (dof * j + l) =
      E.elem (dof * i + k) (dof * j + l) +
        a * divshape.elem (dof * i + k) * divshape.elem (dof * j + l) := by
    intro a
    simp only [AddMult_a_VVt, if_pos (And.intro hb1 hb2)]
  unfold ElasticityIntegrator.update
  by_cases hL : L = 0 <;> by_cases hM : M = 0
  · simp [hL, hM]
  · simp only [hL, hM, ne_eq, not_true_eq_false, not_false_eq_true, if_true, if_false]
    rw [DenseMatrix.foldl_addAt_all_blocks dim dim dof
        (fun i j k l => M * w * gshape.elem k j * gshape.elem l i) _ i j k l hi hj hk hl,
      DenseMatrix.foldl_addAt_diag_blocks dim dof
        (fun _ k l => M * w * pelmat.elem k l) _ i j k l hi hk hl]
    ring
  · simp only [hL, hM, ne_eq, not_true_eq_false, not_false_eq_true, if_true, if_false]
    rw [hV]
    simp
  · simp only [hL, hM, ne_eq, not_false_eq_true, if_true]
    rw [DenseMatrix.foldl_addAt_all_blocks dim dim dof
        (fun i j k l => M * w * gshape.elem k j * gshape.elem l i) _ i j k l hi hj hk hl,
      DenseMatrix.foldl_addAt_diag_blocks dim dof
        (fun _ k l => M * w * pelmat.elem k l) _ i j k l hi hk hl, hV]
    ring

/-- A sum over the indices of a list, of a value read at the indexed element,
is the sum over the elements. -/
theorem List.sum_range_getElem? {R α : Type} [AddCommMonoid R] (l : List α) (H : α → R) :
    ((List.range l.length).map fun i =>
        match l[i]? with
        | some x => H x
        | none => 0).sum = (l.map H).sum := by
  induction l with
  | nil => rfl
  | cons x l ih =>
    rw [List.length_cons, List.range_succ_eq_map, List.map_cons, List.sum_cons,
      List.map_map, List.map_cons, List.sum_cons, ← ih]
    congr 1
    · simp
    · congr 1
      apply List.map_congr_left
      intro i _
      simp

/-- The contribution of the point of index `i` of the rule to the entry `(k,l)`
of the convection matrix. -/
theorem ConvectionIntegrator.point_spec {R : Type} [Field R] (self : ConvectionIntegrator R)
    (el : FiniteElement R) (Trans : ElementTransformation R) (ir : IntegrationRule R)
    (Q0 : DenseMatrix R) (st : DenseMatrix R × DenseMatrix R) (n : Nat)
    (hQ : ∀ s j, n ≤ j → st.1.elem s j = Q0.elem s j) :
    (∀ s j, n + 1 ≤ j →
      (ConvectionIntegrator.point self el Trans ir st n).1.elem s j = Q0.elem s j) ∧
    (ConvectionIntegrator.point self el Trans ir st n).2.height = st.2.height ∧
    (ConvectionIntegrator.point self el Trans ir st n).2.width = st.2.width ∧
    ∀ k l, (ConvectionIntegrator.point self el Trans ir st n).2.elem k l =
      st.2.elem k l +
        (match ir[n]? with
          | some ip =>
            if k < el.GetDof ∧ l < el.GetDof then
              el.CalcShape ip k *
                Finset.sum (Finset.range el.GetDim) fun s =>
                  el.CalcDShape ip l s *
                    Finset.sum (Finset.range el.GetDim) fun t =>
                      (CalcAdjugate (Trans.Jacobian ip)
                          { height := el.GetDim, width := el.GetDim,
                            elem := fun _ _ => 0 }).elem s t *
                        (Q0.elem t n * (self.alpha * ip.weight))
            else 0
          | none => 0) := by
  unfold ConvectionIntegrator.point
  cases h : ir[n]? with
  | none =>
    refine ⟨fun s j hj => hQ s j (by omega), rfl, rfl, fun k l => ?_⟩
    simp
  | some ip =>
    refine ⟨fun s j hj => ?_, rfl, rfl, fun k l => ?_⟩
    · have hne : j ≠ n := by omega
      simp only [DenseMatrix.SetColumn, if_neg hne]
      exact hQ s j (by omega)
    · simp only [AddMultVWt, DenseMatrix.Mult, Vector.scale, DenseMatrix.GetColumnReference,
        hQ _ n (le_refl n)]
      by_cases hkl : k < el.GetDof ∧ l < el.GetDof
      · rw [if_pos hkl, if_pos hkl]
      · rw [if_neg hkl, if_neg hkl, add_zero]

/-- The state of the loop of the convection integrator after `n` passes. -/
theorem ConvectionIntegrator.foldl_point_spec {R : Type} [Field R]
    (self : ConvectionIntegrator R) (el : FiniteElement R) (Trans : ElementTransformation R)
    (ir : IntegrationRule R) (Q0 E0 : DenseMatrix R) (n : Nat) :
    (∀ s j, n ≤ j →
      ((List.range n).foldl (ConvectionIntegrator.point self el Trans ir) (Q0, E0)).1.elem s j =
        Q0.elem s j) ∧
    ((List.range n).foldl (ConvectionIntegrator.point self el Trans ir) (Q0, E0)).2.height =
      E0.height ∧
    ((List.range n).foldl (ConvectionIntegrator.point self el Trans ir) (Q0, E0)).2.width =
      E0.width ∧
    ∀ k l,
      ((List.range n).foldl (ConvectionIntegrator.point self el Trans ir) (Q0, E0)).2.elem k l =
        E0.elem k l +
          ((List.range n).map fun i =>
            match ir[i]? with
            | some ip =>
              if k < el.GetDof ∧ l < el.GetDof then
                el.CalcShape ip k *
                  Finset.sum (Finset.range el.GetDim) fun s =>
                    el.CalcDShape ip l s *
                      Finset.sum (Finset.range el.GetDim) fun t =>
                        (CalcAdjugate (Trans.Jacobian ip)
                            { height := el.GetDim, width := el.GetDim,
                              elem := fun _ _ => 0 }).elem s t *
                          (Q0.elem t i * (self.alpha * ip.weight))
              else 0
            | none => 0).sum := by
  induction n with
  | zero =>
    refine ⟨fun _ _ _ => rfl, rfl, rfl, fun k l => ?_⟩
    simp
  | succ n ih =>
    obtain ⟨h1, h2, h3, h4⟩ := ih
    obtain ⟨p1, p2, p3, p4⟩ := ConvectionIntegrator.point_spec self el Trans ir Q0
      ((List.range n).foldl (ConvectionIntegrator.point self el Trans ir) (Q0, E0)) n h1
    rw [List.range_succ, List.foldl_append, List.foldl_cons, List.foldl_nil]
    refine ⟨p1, p2.trans h2, p3.trans h3, fun k l => ?_⟩
    rw [p4 k l, h4 k l, List.map_append, List.sum_append, List.map_cons, List.map_nil,
      List.sum_cons, List.sum_nil, add_zero, add_assoc]

/-- The matrix of the convection integrator: square of size `nd`, with entry
`(k,l)` the sum over the quadrature points of
`alpha * (ip.weight * shape(k) * (dshape * adj(J) * Q(ip))(l))`, whatever the
prior content of the buffers `Q_ir` and `elmat`. -/
theorem ConvectionIntegrator.assemble_entry {R : Type} [Field R]
    (IntRules : IntegrationRules R) (self : ConvectionIntegrator R) (Q_ir : DenseMatrix R)
    (el : FiniteElement R) (Trans : ElementTransformation R) (elmat : DenseMatrix R) :
    ∃ M, ConvectionIntegrator.AssembleElementMatrix IntRules self Q_ir el Trans elmat =
        Except.ok M ∧
      M.height = el.GetDof ∧ M.width = el.GetDof ∧
      ∀ k l, k < el.GetDof → l < el.GetDof →
        M.elem k l =
          ((ConvectionIntegrator.rule IntRules self el Trans).map fun ip =>
            self.alpha *
              (ip.weight * el.CalcShape ip k *
                Finset.sum (Finset.range el.GetDim) fun s =>
                  el.CalcDShape ip l s *
                    Finset.sum (Finset.range el.GetDim) fun t =>
                      (CalcAdjugate (Trans.Jacobian ip)
                          { height := el.GetDim, width := el.GetDim,
                            elem := fun _ _ => 0 }).elem s t *
                        (self.Q.Eval Trans ip).elem t)).sum := by
  obtain ⟨_, h2, h3, h4⟩ := ConvectionIntegrator.foldl_point_spec self el Trans
    (ConvectionIntegrator.rule IntRules self el Trans)
    (self.Q.EvalRule Q_ir Trans (ConvectionIntegrator.rule IntRules self el Trans))
    ((elmat.SetSize el.GetDof el.GetDof).assign 0)
    (ConvectionIntegrator.rule IntRules self el Trans).length
  refine ⟨_, rfl, h2, h3, fun k l hk hl => ?_⟩
  rw [h4 k l]
  simp only [DenseMatrix.assign, zero_add]
  refine Eq.trans ?_ (List.sum_range_getElem? _ _)
  congr 1
  apply List.map_congr_left
  intro i _
  cases h : (ConvectionIntegrator.rule IntRules self el Trans)[i]? with
  | none => rfl
  | some ip =>
    simp only [if_pos (And.intro hk hl), VectorCoefficient.EvalRule, h, Finset.mul_sum]
    exact Finset.sum_congr rfl fun s _ => Finset.sum_congr rfl fun t _ => by ring

/-- For a square matrix of size `n` the buffer written by `CalcAdjugate` holds
the adjugate of the matrix. -/
theorem CalcAdjugate_eq_adjugate {R : Type} [CommRing R] (a b : DenseMatrix R) (n : Nat)
    (h1 : a.height = n) (h2 : a.width = n) :
    CalcAdjugate a b = DenseMatrix.ofFin (a.toFin n n).adjugate := by
  subst h1
  simp only [CalcAdjugate, if_pos h2.symm]

/-- The matrix of the convection integrator for a Jacobian that is square of
the size of the element at the points of the rule: entry `(k,l)` is the sum
over the quadrature points of
`alpha * (ip.weight * shape(k) * (dshape * adj(J) * Q(ip))(l))` with `adj(J)`
the adjugate of the Jacobian. -/
theorem ConvectionIntegrator.assemble_entry_square {R : Type} [Field R]
    (IntRules : IntegrationRules R) (self : ConvectionIntegrator R) (Q_ir : DenseMatrix R)
    (el : FiniteElement R) (Trans : ElementTransformation R) (elmat : DenseMatrix R)
    (hJ : ∀ ip, ip ∈ ConvectionIntegrator.rule IntRules self el Trans →
      (Trans.Jacobian ip).height = el.GetDim ∧ (Trans.Jacobian ip).width = el.GetDim) :
    ∃ M, ConvectionIntegrator.AssembleElementMatrix IntRules self Q_ir el Trans elmat =
        Except.ok M ∧
      M.height = el.GetDof ∧ M.width = el.GetDof ∧
      ∀ k l, k < el.GetDof → l < el.GetDof →
        M.elem k l =
          ((ConvectionIntegrator.rule IntRules self el Trans).map fun ip =>
            self.alpha *
              (ip.weight * el.CalcShape ip k *
                Finset.sum (Finset.range el.GetDim) fun s =>
                  el.CalcDShape ip l s *
                    Finset.sum (Finset.range el.GetDim) fun t =>
                      (DenseMatrix.ofFin
                          ((Trans.Jacobian ip).toFin el.GetDim el.GetDim).adjugate).elem s t *
                        (self.Q.Eval Trans ip).elem t)).sum := by
  obtain ⟨M, hM, hMh, hMw, hMe⟩ := ConvectionIntegrator.assemble_entry IntRules self Q_ir el
    Trans elmat
  refine ⟨M, hM, hMh, hMw, fun k l hk hl => ?_⟩
  rw [hMe k l hk hl]
  refine List.sum_map_congr_mem _ _ _ fun ip hip => ?_
  rw [CalcAdjugate_eq_adjugate _ _ el.GetDim (hJ ip hip).1 (hJ ip hip).2]

/-- Claim C23. For a Jacobian that is square of the size of the element at the
points of the rule, `ConvectionIntegrator::AssembleElementMatrix` returns the
matrix with entry `(k,l)` the sum over the quadrature points of
`alpha * ip.weight * shape(k) * (dshape * adj(J) * Q(ip))(l)`, the coefficient
being evaluated at all points of the rule before the loop; the matrix for
`alpha` is `alpha` times the matrix for `alpha = 1`, and the matrix for `-alpha`
is its negation. -/
theorem ConvectionIntegrator.assemble_scales_with_alpha {R : Type} [Field R]
    (IntRules : IntegrationRules R) (IntRule : Option (IntegrationRule R))
    (Q : VectorCoefficient R) (alpha : R) (Q_ir : DenseMatrix R)
    (el : FiniteElement R) (Trans : ElementTransformation R) (elmat : DenseMatrix R)
    (hJ : ∀ ip,
      ip ∈ ConvectionIntegrator.rule IntRules
        { IntRule := IntRule, Q := Q, alpha := alpha } el Trans →
      (Trans.Jacobian ip).height = el.GetDim ∧ (Trans.Jacobian ip).width = el.GetDim) :
    ∃ M M1 Mneg,
      ConvectionIntegrator.AssembleElementMatrix IntRules
          { IntRule := IntRule, Q := Q, alpha := alpha } Q_ir el Trans elmat = Except.ok M ∧
      ConvectionIntegrator.AssembleElementMatrix IntRules
          { IntRule := IntRule, Q := Q, alpha := 1 } Q_ir el Trans elmat = Except.ok M1 ∧
      ConvectionIntegrator.AssembleElementMatrix IntRules
          { IntRule := IntRule, Q := Q, alpha := -alpha } Q_ir el Trans elmat =
        Except.ok Mneg ∧
      M.height = el.GetDof ∧ M.width = el.GetDof ∧
      (∀ k l, k < el.GetDof → l < el.GetDof →
        M.elem k l =
          ((ConvectionIntegrator.rule IntRules
              { IntRule := IntRule, Q := Q, alpha := alpha } el Trans).map fun ip =>
            alpha *
              (ip.weight * el.CalcShape ip k *
                Finset.sum (Finset.range el.GetDim) fun s =>
                  el.CalcDShape ip l s *
                    Finset.sum (Finset.range el.GetDim) fun t =>
                      (DenseMatrix.ofFin
                          ((Trans.Jacobian ip).toFin el.GetDim el.GetDim).adjugate).elem s t *
                        (Q.Eval Trans ip).elem t)).sum) ∧
      (∀ k l, k < el.GetDof → l < el.GetDof → M.elem k l = alpha * M1.elem k l) ∧
      (∀ k l, k < el.GetDof → l < el.GetDof → Mneg.elem k l = -M.elem k l) := by
  obtain ⟨M, hM, hMh, hMw, hMe⟩ := ConvectionIntegrator.assemble_entry_square IntRules
    { IntRule := IntRule, Q := Q, alpha := alpha } Q_ir el Trans elmat hJ
  obtain ⟨M1, hM1, _, _, hM1e⟩ := ConvectionIntegrator.assemble_entry_square IntRules
    { IntRule := IntRule, Q := Q, alpha := 1 } Q_ir el Trans elmat hJ
  obtain ⟨Mneg, hMneg, _, _, hMnege⟩ := ConvectionIntegrator.assemble_entry_square IntRules
    { IntRule := IntRule, Q := Q, alpha := -alpha } Q_ir el Trans elmat hJ
  have hr1 : ConvectionIntegrator.rule IntRules
      { IntRule := IntRule, Q := Q, alpha := 1 } el Trans =
      ConvectionIntegrator.rule IntRules
        { IntRule := IntRule, Q := Q, alpha := alpha } el Trans := rfl
  have hr2 : ConvectionIntegrator.rule IntRules
      { IntRule := IntRule, Q := Q, alpha := -alpha } el Trans =
      ConvectionIntegrator.rule IntRules
        { IntRule := IntRule, Q := Q, alpha := alpha } el Trans := rfl
  refine ⟨M, M1, Mneg, hM, hM1, hMneg, hMh, hMw, hMe, fun k l hk hl => ?_,
    fun k l hk hl => ?_⟩
  · rw [hMe k l hk hl, hM1e k l hk hl, hr1]
    simp only [one_mul]
    exact List.sum_map_mul_left_eq _ alpha _
  · rw [hMe k l hk hl, hMnege k l hk hl, hr2]
    refine (List.sum_map_mul_left_eq _ (-alpha) _).trans ?_
    rw [neg_mul]
    congr 1
    exact (List.sum_map_mul_left_eq _ alpha _).symm

/-- Witness for C23: the linear segment under the identity mapping, the
midpoint rule, the constant field of value 3 and `alpha = 2`. -/
theorem ConvectionIntegrator.assemble_scales_with_alpha_witness :
    (∀ ip,
      ip ∈ ConvectionIntegrator.rule Example.pointRules
        { IntRule := some Example.segmentMidpointRule, Q := Example.constantField,
          alpha := 2 } Example.linearSegment Example.segmentMap →
      (Example.segmentMap.Jacobian ip).height = Example.linearSegment.GetDim ∧
        (Example.segmentMap.Jacobian ip).width = Example.linearSegment.GetDim) ∧
    ∃ M M1 Mneg,
      ConvectionIntegrator.AssembleElementMatrix Example.pointRules
          { IntRule := some Example.segmentMidpointRule, Q := Example.constantField,
            alpha := 2 }
          (Example.zeros 0 0) Example.linearSegment Example.segmentMap (Example.zeros 0 0) =
        Except.ok M ∧
      ConvectionIntegrator.AssembleElementMatrix Example.pointRules
          { IntRule := some Example.segmentMidpointRule, Q := Example.constantField,
            alpha := 1 }
          (Example.zeros 0 0) Example.linearSegment Example.segmentMap (Example.zeros 0 0) =
        Except.ok M1 ∧
      ConvectionIntegrator.AssembleElementMatrix Example.pointRules
          { IntRule := some Example.segmentMidpointRule, Q := Example.constantField,
            alpha := -2 }
          (Example.zeros 0 0) Example.linearSegment Example.segmentMap (Example.zeros 0 0) =
        Except.ok Mneg ∧
      M.height = Example.linearSegment.GetDof ∧ M.width = Example.linearSegment.GetDof ∧
      (∀ k l, k < Example.linearSegment.GetDof → l < Example.linearSegment.GetDof →
        M.elem k l =
          ((ConvectionIntegrator.rule Example.pointRules
              { IntRule := some Example.segmentMidpointRule, Q := Example.constantField,
                alpha := 2 } Example.linearSegment Example.segmentMap).map fun ip =>
            2 *
              (ip.weight * Example.linearSegment.CalcShape ip k *
                Finset.sum (Finset.range Example.linearSegment.GetDim) fun s =>
                  Example.linearSegment.CalcDShape ip l s *
                    Finset.sum (Finset.range Example.linearSegment.GetDim) fun t =>
                      (DenseMatrix.ofFin
                          ((Example.segmentMap.Jacobian ip).toFin
                            Example.linearSegment.GetDim
                            Example.linearSegment.GetDim).adjugate).elem s t *
                        (Example.constantField.Eval Example.segmentMap ip).elem t)).sum) ∧
      (∀ k l, k < Example.linearSegment.GetDof → l < Example.linearSegment.GetDof →
        M.elem k l = 2 * M1.elem k l) ∧
      (∀ k l, k < Example.linearSegment.GetDof → l < Example.linearSegment.GetDof →
        Mneg.elem k l = -M.elem k l) :=
  ⟨fun _ _ => ⟨rfl, rfl⟩,
    ConvectionIntegrator.assemble_scales_with_alpha Example.pointRules
      (some Example.segmentMidpointRule) Example.constantField 2 (Example.zeros 0 0)
      Example.linearSegment Example.segmentMap (Example.zeros 0 0)
      (fun _ _ => ⟨rfl, rfl⟩)⟩

/-! ## Group convection integrator: theorems -/

/-- One pass of the quadrature loop of the group convection integrator keeps
the dimensions of the buffer. -/
theorem GroupConvectionIntegrator.point_same_shape {R : Type} [Field R]
    (self : GroupConvectionIntegrator R) (el : FiniteElement R)
    (Trans : ElementTransformation R) (Q_nodal E : DenseMatrix R) (ip : IntegrationPoint R) :
    (GroupConvectionIntegrator.point self el Trans Q_nodal E ip).height = E.height ∧
    (GroupConvectionIntegrator.point self el Trans Q_nodal E ip).width = E.width := by
  simp only [GroupConvectionIntegrator.point]
  exact ⟨DenseMatrix.foldl_addAt_height el.GetDof (fun _ => el.GetDof) (fun k _ => k)
      (fun _ l => l) _ E,
    DenseMatrix.foldl_addAt_width el.GetDof (fun _ => el.GetDof) (fun k _ => k)
      (fun _ l => l) _ E⟩

/-- One pass of the quadrature loop of the group convection integrator adds to
the entry `(k,l)` the value `alpha * ip.weight * shape(k) *
sum_s Q_nodal(s,k) * grad(l,s)`: the coefficient is read at the node `k` of the
row. -/
theorem GroupConvectionIntegrator.point_entry {R : Type} [Field R]
    (self : GroupConvectionIntegrator R) (el : FiniteElement R)
    (Trans : ElementTransformation R) (Q_nodal E : DenseMatrix R) (ip : IntegrationPoint R)
    (k l : Nat) (hk : k < el.GetDof) (hl : l < el.GetDof) :
    (GroupConvectionIntegrator.point self el Trans Q_nodal E ip).elem k l =
      E.elem k l +
        self.alpha * ip.weight * el.CalcShape ip k *
          Finset.sum (Finset.range el.GetDim) fun s =>
            Q_nodal.elem s k *
              (Mult { height := el.GetDof, width := el.GetDim, elem := el.CalcDShape ip }
                (CalcAdjugate (Trans.Jacobian ip)
                  { height := el.GetDim, width := el.GetDim, elem := fun _ _ => 0 })
                { height := el.GetDof, width := el.GetDim, elem := fun _ _ => 0 }).elem l s := by
  simp only [GroupConvectionIntegrator.point]
  rw [DenseMatrix.foldl_addAt_block00, if_pos (And.intro hk hl), List.foldl_add_eq_sum,
    zero_add]

/-- Counterexample to C24: on the linear segment with nodes `x = 0` and `x = 1`,
the field `Q(x) = x`, `alpha = 1` and the midpoint rule,
`GroupConvectionIntegrator::AssembleElementMatrix` returns entry `(0,1) = 0`
and entry `(1,0) = -1/2`, while the sums with the coefficient taken at the node
of the column are `1/2` and `0`. -/
theorem GroupConvectionIntegrator.trial_node_sampling_fails :
    ∃ M, GroupConvectionIntegrator.AssembleElementMatrix Example.pointRules
        Example.groupConvection (Example.zeros 0 0) Example.nodalSegment Example.segmentMap
        (Example.zeros 0 0) = Except.ok M ∧
      M.elem 0 1 = 0 ∧ M.elem 1 0 = -1 / 2 ∧
      GroupConvectionIntegrator.nodalEntry Example.pointRules Example.groupConvection
        (Example.zeros 0 0) Example.nodalSegment Example.segmentMap 1 0 1 = 1 / 2 ∧
      GroupConvectionIntegrator.nodalEntry Example.pointRules Example.groupConvection
        (Example.zeros 0 0) Example.nodalSegment Example.segmentMap 0 1 0 = 0 := by
  refine ⟨_, rfl, ?_, ?_, ?_, ?_⟩
  · show (GroupConvectionIntegrator.point Example.groupConvection Example.nodalSegment
        Example.segmentMap _ _ _).elem 0 1 = 0
    rw [GroupConvectionIntegrator.point_entry _ _ _ _ _ _ 0 1 (by decide) (by decide)]
    norm_num [VectorCoefficient.EvalRule, Example.groupConvection, Example.nodalSegment,
      Example.linearSegment, Example.positionField, Example.segmentMap, Mult,
      DenseMatrix.mulEntry, CalcAdjugate, DenseMatrix.ofFin, DenseMatrix.toFin,
      DenseMatrix.assign, DenseMatrix.SetSize, Finset.sum_range_succ]
  · show (GroupConvectionIntegrator.point Example.groupConvection Example.nodalSegment
        Example.segmentMap _ _ _).elem 1 0 = -1 / 2
    rw [GroupConvectionIntegrator.point_entry _ _ _ _ _ _ 1 0 (by decide) (by decide)]
    norm_num [VectorCoefficient.EvalRule, Example.groupConvection, Example.nodalSegment,
      Example.linearSegment, Example.positionField, Example.segmentMap, Mult,
      DenseMatrix.mulEntry, CalcAdjugate, DenseMatrix.ofFin, DenseMatrix.toFin,
      DenseMatrix.assign, DenseMatrix.SetSize, Finset.sum_range_succ]
    rw [Matrix.adjugate_fin_one]
    rfl
  · norm_num [GroupConvectionIntegrator.nodalEntry, GroupConvectionIntegrator.rule,
      VectorCoefficient.EvalRule, Example.groupConvection, Example.nodalSegment,
      Example.linearSegment, Example.positionField, Example.segmentMap,
      Example.segmentMidpointRule, Mult,
      DenseMatrix.mulEntry, CalcAdjugate, DenseMatrix.ofFin, DenseMatrix.toFin,
      Finset.sum_range_succ]
    rw [Matrix.adjugate_fin_one]
    rfl
  · norm_num [GroupConvectionIntegrator.nodalEntry, GroupConvectionIntegrator.rule,
      VectorCoefficient.EvalRule, Example.groupConvection, Example.nodalSegment,
      Example.linearSegment, Example.positionField, Example.segmentMap,
      Example.segmentMidpointRule, Mult,
      DenseMatrix.mulEntry, CalcAdjugate, DenseMatrix.ofFin, DenseMatrix.toFin,
      Finset.sum_range_succ, Matrix.adjugate_fin_one]

/-- Claim C24 as amended. In `GroupConvectionIntegrator::AssembleElementMatrix`
the coefficient is sampled per test basis node: the entry in row `k` and column
`l` is the sum over the quadrature points of `alpha * ip.weight * shape(k) *
sum_s Q_nodal(s, k) * grad(l, s)` with `grad = dshape * adj(J)`, which uses the
coefficient value at the node of the row basis function `k`. -/
theorem GroupConvectionIntegrator.test_node_sampling {R : Type} [Field R]
    (IntRules : IntegrationRules R) (self : GroupConvectionIntegrator R)
    (Q_nodal : DenseMatrix R) (el : FiniteElement R) (Trans : ElementTransformation R)
    (elmat : DenseMatrix R) :
    ∃ M, GroupConvectionIntegrator.AssembleElementMatrix IntRules self Q_nodal el Trans
        elmat = Except.ok M ∧
      M.height = el.GetDof ∧ M.width = el.GetDof ∧
      ∀ k l, k < el.GetDof → l < el.GetDof →
        M.elem k l =
          GroupConvectionIntegrator.nodalEntry IntRules self Q_nodal el Trans k k l := by
  refine ⟨_, rfl, ?_, ?_, fun k l hk hl => ?_⟩
  · exact (DenseMatrix.foldl_dims _ _
      (fun E ip => GroupConvectionIntegrator.point_same_shape self el Trans _ E ip) _).1
  · exact (DenseMatrix.foldl_dims _ _
      (fun E ip => GroupConvectionIntegrator.point_same_shape self el Trans _ E ip) _).2
  · rw [DenseMatrix.foldl_additive_at _ _ k l _
      (fun E ip _ => GroupConvectionIntegrator.point_entry self el Trans _ E ip k l hk hl)]
    simp [GroupConvectionIntegrator.nodalEntry, DenseMatrix.assign]

/-! ## Diffusion integrator, action form: theorems -/

/-- A row vector times a matrix times a column vector, associated either
way. -/
theorem Finset.sum_mul_sum_assoc {R : Type} [CommSemiring R] (s t : Finset Nat)
    (x : Nat → R) (a : Nat → Nat → R) (y : Nat → R) :
    (Finset.sum s fun d => x d * Finset.sum t fun e => a d e * y e) =
      Finset.sum t fun e => (Finset.sum s fun d => x d * a d e) * y e := by
  simp only [Finset.mul_sum, Finset.sum_mul]
  rw [Finset.sum_comm]
  exact Finset.sum_congr rfl fun e _ => Finset.sum_congr rfl fun d _ => by ring

/-- The action `G (w G^T u)` is the action of the matrix `w G G^T`. -/
theorem Finset.sum_action_scalar {R : Type} [CommSemiring R] (n m : Nat)
    (g : Nat → Nat → R) (u : Nat → R) (w : R) (i : Nat) :
    (Finset.sum (Finset.range m) fun e =>
        g i e * ((Finset.sum (Finset.range n) fun k => g k e * u k) * w)) =
      Finset.sum (Finset.range n) fun j =>
        (w * Finset.sum (Finset.range m) fun e => g i e * g j e) * u j := by
  simp only [Finset.mul_sum, Finset.sum_mul]
  rw [Finset.sum_comm]
  exact Finset.sum_congr rfl fun j _ => Finset.sum_congr rfl fun e _ => by ring

/-- The action `G (w M G^T u)` is the action of the matrix `w G M G^T`. -/
theorem Finset.sum_action_matrix {R : Type} [CommSemiring R] (n m : Nat)
    (g M : Nat → Nat → R) (u : Nat → R) (w : R) (i : Nat) :
    (Finset.sum (Finset.range m) fun e =>
        g i e *
          ((Finset.sum (Finset.range m) fun k' =>
              M e k' * Finset.sum (Finset.range n) fun k => g k k' * u k) * w)) =
      Finset.sum (Finset.range n) fun j =>
        (w * Finset.sum (Finset.range m) fun k' =>
          Finset.sum (Finset.range m) fun l => g i l * M l k' * g j k') * u j := by
  simp only [Finset.mul_sum, Finset.sum_mul]
  refine Finset.sum_comm.trans ?_
  refine (Finset.sum_congr rfl fun k' _ => Finset.sum_comm).trans ?_
  refine Finset.sum_comm.trans ?_
  exact Finset.sum_congr rfl fun j _ => Finset.sum_congr rfl fun k' _ =>
    Finset.sum_congr rfl fun e _ => by ring

/-- The action of the scalar diffusion form, computed as in the action loop, is
the action of the matrix `w G G^T` with `G = D a`. -/
theorem Finset.sum_vector_action_scalar {R : Type} [CommSemiring R] (n m : Nat)
    (D a : Nat → Nat → R) (u : Nat → R) (w : R) (i : Nat) :
    (Finset.sum (Finset.range m) fun d =>
        D i d *
          Finset.sum (Finset.range m) fun e =>
            a d e *
              ((Finset.sum (Finset.range m) fun d' =>
                  a d' e * Finset.sum (Finset.range n) fun k => D k d' * u k) * w)) =
      Finset.sum (Finset.range n) fun j =>
        (w * Finset.sum (Finset.range m) fun e =>
          (Finset.sum (Finset.range m) fun d => D i d * a d e) *
            (Finset.sum (Finset.range m) fun d => D j d * a d e)) * u j := by
  have hP : ∀ e, (Finset.sum (Finset.range m) fun d' =>
        a d' e * Finset.sum (Finset.range n) fun k => D k d' * u k) =
      Finset.sum (Finset.range n) fun k =>
        (Finset.sum (Finset.range m) fun d => D k d * a d e) * u k := by
    intro e
    rw [Finset.sum_mul_sum_assoc]
    refine Finset.sum_congr rfl fun k _ => ?_
    congr 1
    exact Finset.sum_congr rfl fun d _ => by ring
  rw [Finset.sum_mul_sum_assoc]
  simp only [hP]
  exact Finset.sum_action_scalar n m
    (fun i e => Finset.sum (Finset.range m) fun d => D i d * a d e) u w i

/-- The action of the diffusion form with a matrix coefficient, computed as in
the action loop, is the action of the matrix `w G M G^T` with `G = D a`. -/
theorem Finset.sum_vector_action_matrix {R : Type} [CommSemiring R] (n m : Nat)
    (D a M : Nat → Nat → R) (u : Nat → R) (w : R) (i : Nat) :
    (Finset.sum (Finset.range m) fun d =>
        D i d *
          Finset.sum (Finset.range m) fun e =>
            a d e *
              ((Finset.sum (Finset.range m) fun k' =>
                  M e k' *
                    Finset.sum (Finset.range m) fun d' =>
                      a d' k' * Finset.sum (Finset.range n) fun k => D k d' * u k) * w)) =
      Finset.sum (Finset.range n) fun j =>
        (w * Finset.sum (Finset.range m) fun k' =>
          Finset.sum (Finset.range m) fun l =>
            (Finset.sum (Finset.range m) fun d => D i d * a d l) * M l k' *
              (Finset.sum (Finset.range m) fun d => D j d * a d k')) * u j := by
  have hP : ∀ e, (Finset.sum (Finset.range m) fun d' =>
        a d' e * Finset.sum (Finset.range n) fun k => D k d' * u k) =
      Finset.sum (Finset.range n) fun k =>
        (Finset.sum (Finset.range m) fun d => D k d * a d e) * u k := by
    intro e
    rw [Finset.sum_mul_sum_assoc]
    refine Finset.sum_congr rfl fun k _ => ?_
    congr 1
    exact Finset.sum_congr rfl fun d _ => by ring
  rw [Finset.sum_mul_sum_assoc]
  simp only [hP]
  exact Finset.sum_action_matrix n m
    (fun i e => Finset.sum (Finset.range m) fun d => D i d * a d e) M u w i

/-- For a square matrix the buffer written by `CalcAdjugate` is square of the
same size. -/
theorem CalcAdjugate_dims_square {R : Type} [CommRing R] (a b : DenseMatrix R)
    (h : a.height = a.width) :
    (CalcAdjugate a b).height = a.height ∧ (CalcAdjugate a b).width = a.height := by
  simp [CalcAdjugate, h, DenseMatrix.ofFin]

/-- One pass of the loop of `DiffusionIntegrator::AssembleElementVector` keeps
the length of the vector. -/
theorem DiffusionIntegrator.pointVector_size {R : Type} [Field R]
    (self : DiffusionIntegrator R) (el : FiniteElement R) (Tr : ElementTransformation R)
    (elfun elvect : Vector R) (ip : IntegrationPoint R) :
    (DiffusionIntegrator.pointVector self el Tr elfun elvect ip).size = elvect.size := rfl

/-- At a point where the Jacobian is square of the size of the element, one
pass of the loop of `DiffusionIntegrator::AssembleElementVector` adds the
product of the point contribution `s * G * C * G^T` with `elfun`. -/
theorem DiffusionIntegrator.pointVector_eq_formula {R : Type} [Field R]
    (self : DiffusionIntegrator R) (el : FiniteElement R) (Tr : ElementTransformation R)
    (elfun elvect : Vector R) (ip : IntegrationPoint R)
    (hsq : el.GetDim = Tr.GetSpaceDim)
    (hJ : (Tr.Jacobian ip).height = el.GetDim ∧ (Tr.Jacobian ip).width = el.GetDim)
    (hMQ : ∀ mq, self.MQ = some mq → (mq.Eval Tr ip).width = el.GetDim)
    (i : Nat) :
    (DiffusionIntegrator.pointVector self el Tr elfun elvect ip).elem i =
      elvect.elem i +
        Finset.sum (Finset.range el.GetDof) fun j =>
          DiffusionIntegrator.formulaPoint self el Tr ip i j * elfun.elem j := by
  have hJsq : (Tr.Jacobian ip).height = (Tr.Jacobian ip).width := hJ.1.trans hJ.2.symm
  obtain ⟨hAh, hAw⟩ := CalcAdjugate_dims_square (Tr.Jacobian ip)
    { height := el.GetDim, width := el.GetDim, elem := fun _ _ => 0 } hJsq
  rw [hJ.1] at hAh hAw
  obtain ⟨IntRule, Q, MQ⟩ := self
  cases MQ with
  | none =>
    simp only [DiffusionIntegrator.pointVector, DiffusionIntegrator.formulaPoint,
      DiffusionIntegrator.formulaG, DiffusionIntegrator.formulaC, DenseMatrix.AddMult,
      DenseMatrix.Mult, DenseMatrix.MultTranspose, Vector.scale, Mult, DenseMatrix.mulEntry,
      hAh, hAw, ← hsq, if_true, Finset.sum_range_scaled_identity]
    congr 1
    refine (Finset.sum_vector_action_scalar el.GetDof el.GetDim (el.CalcDShape ip)
      (CalcAdjugate (Tr.Jacobian ip)
        { height := el.GetDim, width := el.GetDim, elem := fun _ _ => 0 }).elem
      elfun.elem _ i).trans ?_
    refine Finset.sum_congr rfl fun j _ => ?_
    cases Q <;> simp only <;> ring
  | some mq =>
    have hw := hMQ mq rfl
    simp only [DiffusionIntegrator.pointVector, DiffusionIntegrator.formulaPoint,
      DiffusionIntegrator.formulaG, DiffusionIntegrator.formulaC, DenseMatrix.AddMult,
      DenseMatrix.Mult, DenseMatrix.MultTranspose, Vector.scale, Mult, DenseMatrix.mulEntry,
      hAh, hAw, hw, ← hsq, if_true]
    congr 1
    exact Finset.sum_vector_action_matrix el.GetDof el.GetDim (el.CalcDShape ip)
      (CalcAdjugate (Tr.Jacobian ip)
        { height := el.GetDim, width := el.GetDim, elem := fun _ _ => 0 }).elem
      (mq.Eval Tr ip).elem elfun.elem _ i

/-- Claim C25. For an element with a square mapping (reference dimension equal
to the physical dimension, Jacobian of that size at every point of the rule)
and either coefficient shape (none or scalar `Q`, or a matrix `MQ` of that
size), `DiffusionIntegrator::AssembleElementVector(el, Tr, elfun)` is the
product of the matrix of `DiffusionIntegrator::AssembleElementMatrix(el, Tr)`
with `elfun`. -/
theorem DiffusionIntegrator.vector_is_matrix_action {R : Type} [Field R]
    (IntRules RefinedIntRules : IntegrationRules R) (self : DiffusionIntegrator R)
    (el : FiniteElement R) (Tr : ElementTransformation R) (elfun elvect : Vector R)
    (elmat : DenseMatrix R)
    (hsq : el.GetDim = Tr.GetSpaceDim)
    (hJ : ∀ ip, ip ∈ DiffusionIntegrator.rule IntRules RefinedIntRules self el →
      (Tr.Jacobian ip).height = el.GetDim ∧ (Tr.Jacobian ip).width = el.GetDim)
    (hMQ : ∀ mq, self.MQ = some mq →
      ∀ ip, ip ∈ DiffusionIntegrator.rule IntRules RefinedIntRules self el →
        (mq.Eval Tr ip).width = el.GetDim) :
    ∃ K v,
      DiffusionIntegrator.AssembleElementMatrix IntRules RefinedIntRules self el Tr elmat =
        Except.ok K ∧
      DiffusionIntegrator.AssembleElementVector IntRules RefinedIntRules self el Tr elfun
        elvect = Except.ok v ∧
      K.height = el.GetDof ∧ K.width = el.GetDof ∧ v.size = el.GetDof ∧
      ∀ i, i < el.GetDof →
        v.elem i = Finset.sum (Finset.range el.GetDof) fun j => K.elem i j * elfun.elem j := by
  obtain ⟨K, hK, hKh, hKw, hKe⟩ := DiffusionIntegrator.assemble_eq_formula IntRules
    RefinedIntRules self el Tr elmat (Or.inr hsq)
  have hrule : DiffusionIntegrator.ruleVector IntRules RefinedIntRules self el =
      DiffusionIntegrator.rule IntRules RefinedIntRules self el := rfl
  refine ⟨K, _, hK, rfl, hKh, hKw, ?_, fun i hi => ?_⟩
  · exact Vector.foldl_size _ _
      (fun v ip => DiffusionIntegrator.pointVector_size self el Tr elfun v ip) _
  · rw [hrule, Vector.foldl_additive_entry
      (DiffusionIntegrator.rule IntRules RefinedIntRules self el)
      (DiffusionIntegrator.pointVector self el Tr elfun) i
      (fun ip => Finset.sum (Finset.range el.GetDof) fun j =>
        DiffusionIntegrator.formulaPoint self el Tr ip i j * elfun.elem j)
      (fun v ip hip => DiffusionIntegrator.pointVector_eq_formula self el Tr elfun v ip hsq
        (hJ ip hip) (fun mq h => hMQ mq h ip hip) i)]
    rw [List.sum_map_finset_sum]
    simp only [Vector.assign, zero_add]
    refine Finset.sum_congr rfl fun j hj => ?_
    rw [hKe i j hi (Finset.mem_range.mp hj), List.sum_map_mul_right_eq]
    rfl

/-- Witness for C25: the linear triangle under the identity mapping, with the
identity matrix coefficient and the edge midpoint rule. -/
theorem DiffusionIntegrator.vector_is_matrix_action_witness :
    Example.linearTriangle.GetDim = Example.identityMap.GetSpaceDim ∧
    ∃ K v,
      DiffusionIntegrator.AssembleElementMatrix Example.rules Example.rules
          { IntRule := some Example.midpointRule, Q := none, MQ := some Example.identityCoeff }
          Example.linearTriangle Example.identityMap (Example.zeros 0 0) = Except.ok K ∧
      DiffusionIntegrator.AssembleElementVector Example.rules Example.rules
          { IntRule := some Example.midpointRule, Q := none, MQ := some Example.identityCoeff }
          Example.linearTriangle Example.identityMap { size := 3, elem := fun i => (i : ℚ) }
          { size := 0, elem := fun _ => 0 } = Except.ok v ∧
      K.height = Example.linearTriangle.GetDof ∧ K.width = Example.linearTriangle.GetDof ∧
      v.size = Example.linearTriangle.GetDof ∧
      ∀ i, i < Example.linearTriangle.GetDof →
        v.elem i =
          Finset.sum (Finset.range Example.linearTriangle.GetDof) fun j =>
            K.elem i j * (j : ℚ) :=
  ⟨rfl,
    DiffusionIntegrator.vector_is_matrix_action Example.rules Example.rules
      { IntRule := some Example.midpointRule, Q := none, MQ := some Example.identityCoeff }
      Example.linearTriangle Example.identityMap { size := 3, elem := fun i => (i : ℚ) }
      { size := 0, elem := fun _ => 0 } (Example.zeros 0 0) rfl
      (fun _ _ => ⟨rfl, rfl⟩)
      (fun mq h _ _ => by
        cases h
        rfl)⟩

/-! ## Curl-curl integrators: theorems -/

/-- The adjugate of an identity matrix is the identity matrix. -/
theorem CalcAdjugate_identity {R : Type} [CommRing R] (n : Nat) (b : DenseMatrix R)
    (i j : Nat) :
    (CalcAdjugate
        ({ height := n, width := n, elem := fun i j => if i = j then 1 else 0 } :
          DenseMatrix R)
        b).elem i j = if i = j ∧ i < n then 1 else 0 := by
  have h1 : (DenseMatrix.toFin
      ({ height := n, width := n, elem := fun i j => if i = j then 1 else 0 } :
        DenseMatrix R) n n) = 1 := by
    ext a c
    simp [DenseMatrix.toFin, Matrix.one_apply, Fin.ext_iff]
  simp only [CalcAdjugate, if_true, h1, Matrix.adjugate_one, DenseMatrix.ofFin,
    Matrix.one_apply, Fin.mk.injEq]
  by_cases hij : i = j
  · subst hij
    by_cases hn : i < n
    · simp [hn]
    · simp [hn]
  · by_cases hn : i < n ∧ j < n
    · simp [hij, hn]
    · simp [hij, hn]

/-- The matrix returned by `CurlCurlIntegrator::AssembleElementMatrix` is square
of size `nd`, whatever the prior size of the buffer. -/
theorem CurlCurlIntegrator.assemble_sized {R : Type} [Field R]
    (IntRules : IntegrationRules R) (self : CurlCurlIntegrator R) (el : FiniteElement R)
    (Trans : ElementTransformation R) (elmat : DenseMatrix R) :
    ∃ M, CurlCurlIntegrator.AssembleElementMatrix IntRules self el Trans elmat =
        Except.ok M ∧
      M.height = el.GetDof ∧ M.width = el.GetDof := by
  refine ⟨_, rfl, ?_, ?_⟩
  · exact (DenseMatrix.foldl_dims _ (CurlCurlIntegrator.point self el Trans)
      (fun _ _ => ⟨rfl, rfl⟩) _).1
  · exact (DenseMatrix.foldl_dims _ (CurlCurlIntegrator.point self el Trans)
      (fun _ _ => ⟨rfl, rfl⟩) _).2

/-- The matrix returned by `VectorCurlCurlIntegrator::AssembleElementMatrix` has
the size the buffer had before the call. -/
theorem VectorCurlCurlIntegrator.assemble_keeps_prior_size {R : Type} [Field R]
    (IntRules : IntegrationRules R) (self : VectorCurlCurlIntegrator R)
    (el : FiniteElement R) (Trans : ElementTransformation R) (elmat : DenseMatrix R) :
    ∃ M, VectorCurlCurlIntegrator.AssembleElementMatrix IntRules self el Trans elmat =
        Except.ok M ∧
      M.height = elmat.height ∧ M.width = elmat.width := by
  refine ⟨_, rfl, ?_, ?_⟩
  · exact (DenseMatrix.foldl_dims _ (VectorCurlCurlIntegrator.point self el Trans)
      (fun _ _ => ⟨rfl, rfl⟩) _).1
  · exact (DenseMatrix.foldl_dims _ (VectorCurlCurlIntegrator.point self el Trans)
      (fun _ _ => ⟨rfl, rfl⟩) _).2

/-- The quadrature loop of the vector curl-curl integrator adds to the entry
`(a,b)` with `a, b < dim*dof` the sum over the points of
`w * sum_c curlshape(a,c) * curlshape(b,c)`. -/
theorem VectorCurlCurlIntegrator.foldl_point_entry {R : Type} [Field R]
    (self : VectorCurlCurlIntegrator R) (el : FiniteElement R)
    (Trans : ElementTransformation R) (ir : IntegrationRule R) (E : DenseMatrix R)
    (a b : Nat) (ha : a < el.GetDim * el.GetDof) (hb : b < el.GetDim * el.GetDof) :
    (ir.foldl (VectorCurlCurlIntegrator.point self el Trans) E).elem a b =
      E.elem a b +
        (ir.map fun ip =>
          (match self.Q with
            | some Q => ip.weight / Trans.Weight ip * Q.Eval Trans ip
            | none => ip.weight / Trans.Weight ip) *
            Finset.sum (Finset.range ((el.GetDim * (el.GetDim - 1)) / 2)) fun c =>
              (VectorCurlCurlIntegrator.curlshape el Trans ip).elem a c *
                (VectorCurlCurlIntegrator.curlshape el Trans ip).elem b c).sum := by
  refine DenseMatrix.foldl_additive_at ir _ a b _ (fun E ip _ => ?_) E
  have hh : (VectorCurlCurlIntegrator.curlshape el Trans ip).height =
      el.GetDim * el.GetDof := by
    simp only [VectorCurlCurlIntegrator.curlshape, DenseMatrix.GradToCurl]
    split_ifs <;> rfl
  have hw : (VectorCurlCurlIntegrator.curlshape el Trans ip).width =
      (el.GetDim * (el.GetDim - 1)) / 2 := by
    simp only [VectorCurlCurlIntegrator.curlshape, DenseMatrix.GradToCurl]
    split_ifs <;> rfl
  simp only [VectorCurlCurlIntegrator.point, AddMult_a_AAt, hh, hw,
    if_pos (And.intro ha hb)]

/-- Claim C26 at its failing input. `VectorCurlCurlIntegrator::AssembleElementMatrix`
returns a matrix of the size the buffer had before the call, for every input:
called with an empty buffer for the linear triangle (`dim * dof = 6`) it returns
a `0 x 0` matrix and has written the entry `(0,0) = 1/2` outside its bounds, while
`CurlCurlIntegrator::AssembleElementMatrix` returns a matrix of size `nd` for
every prior buffer. -/
theorem VectorCurlCurlIntegrator.output_not_resized :
    (∀ (IntRules : IntegrationRules ℚ) (self : VectorCurlCurlIntegrator ℚ)
        (el : FiniteElement ℚ) (Trans : ElementTransformation ℚ) (elmat : DenseMatrix ℚ),
      ∃ M, VectorCurlCurlIntegrator.AssembleElementMatrix IntRules self el Trans elmat =
          Except.ok M ∧
        M.height = elmat.height ∧ M.width = elmat.width) ∧
    (∃ M, VectorCurlCurlIntegrator.AssembleElementMatrix Example.rules
          { IntRule := none, Q := none } Example.linearTriangle Example.identityMap
          (Example.zeros 0 0) = Except.ok M ∧
        M.height = 0 ∧ M.width = 0 ∧
        Example.linearTriangle.GetDim * Example.linearTriangle.GetDof = 6 ∧
        M.elem 0 0 = 1 / 2) ∧
    (∀ (IntRules : IntegrationRules ℚ) (self : CurlCurlIntegrator ℚ)
        (el : FiniteElement ℚ) (Trans : ElementTransformation ℚ) (elmat : DenseMatrix ℚ),
      ∃ M, CurlCurlIntegrator.AssembleElementMatrix IntRules self el Trans elmat =
          Except.ok M ∧
        M.height = el.GetDof ∧ M.width = el.GetDof) := by
  refine ⟨fun IntRules self el Trans elmat =>
      VectorCurlCurlIntegrator.assemble_keeps_prior_size IntRules self el Trans elmat,
    ?_,
    fun IntRules self el Trans elmat =>
      CurlCurlIntegrator.assemble_sized IntRules self el Trans elmat⟩
  obtain ⟨M, hM, hh, hw⟩ := VectorCurlCurlIntegrator.assemble_keeps_prior_size Example.rules
    { IntRule := none, Q := none } Example.linearTriangle Example.identityMap
    (Example.zeros 0 0)
  refine ⟨M, hM, hh, hw, rfl, ?_⟩
  have hM' : M = List.foldl
      (VectorCurlCurlIntegrator.point { IntRule := none, Q := none } Example.linearTriangle
        Example.identityMap)
      ((Example.zeros 0 0).assign 0) Example.midpointRule :=
    (Except.ok.inj hM).symm
  rw [hM', VectorCurlCurlIntegrator.foldl_point_entry _ _ _ _ _ 0 0 (by decide) (by decide)]
  norm_num [VectorCurlCurlIntegrator.curlshape, VectorCurlCurlIntegrator.dshape,
    DenseMatrix.GradToCurl, Mult,
    DenseMatrix.mulEntry, CalcAdjugate_identity,
    Example.linearTriangle, Example.identityMap, Example.midpointRule, Example.zeros,
    DenseMatrix.assign, Finset.sum_range_succ]

/-! ## Discontinuous Galerkin diffusion integrator: the jump term -/

/-- The loop `for j < m: E(r, co + j) += f j` adds `f (b - co)` to the entries
`(r, b)` with `co <= b < co + m`. -/
theorem DenseMatrix.foldl_addAt_row {R : Type} [AddCommMonoid R] (m r co : Nat)
    (f : Nat → R) (E : DenseMatrix R) (a b : Nat) :
    ((List.range m).foldl (fun E j => E.addAt r (co + j) (f j)) E).elem a b =
      E.elem a b + (if a = r ∧ co ≤ b ∧ b < co + m then f (b - co) else 0) := by
  rw [DenseMatrix.foldl_additive (List.range m) (fun E j => E.addAt r (co + j) (f j))
    (fun j a b => if a = r ∧ b = co + j then f j else 0)
    (fun E j _ a b => by
      simp only [DenseMatrix.addAt]
      split_ifs <;> simp) E a b]
  congr 1
  by_cases ha : a = r
  · simp only [ha, true_and]
    exact List.sum_range_indicator m co b f
  · simp [ha]

/-- The loop `for j < m: E(r, j) += f j`. -/
theorem DenseMatrix.foldl_addAt_row0 {R : Type} [AddCommMonoid R] (m r : Nat)
    (f : Nat → R) (E : DenseMatrix R) (a b : Nat) :
    ((List.range m).foldl (fun E j => E.addAt r j (f j)) E).elem a b =
      E.elem a b + (if a = r ∧ b < m then f b else 0) := by
  have h := DenseMatrix.foldl_addAt_row m r 0 f E a b
  simpa using h

/-- The loop `for i < n, for j <= i: E(i, j) += f i j` over the lower
triangle. -/
theorem DenseMatrix.foldl_addAt_lower {R : Type} [AddCommMonoid R] (n : Nat)
    (f : Nat → Nat → R) (E : DenseMatrix R) (a b : Nat) :
    ((List.range n).foldl
        (fun E i => (List.range (i + 1)).foldl (fun E j => E.addAt i j (f i j)) E)
        E).elem a b =
      E.elem a b + (if a < n ∧ b ≤ a then f a b else 0) := by
  have h := (DenseMatrix.foldl_addAt_block n (fun i => i + 1) 0 0 f E).2.2 a b
  simp only [Nat.zero_add, Nat.sub_zero, Nat.zero_le, true_and] at h
  rw [h]
  congr 1
  by_cases c : a < n ∧ b ≤ a
  · rw [if_pos c, if_pos ⟨c.1, by omega⟩]
  · rw [if_neg c, if_neg (fun hc => c ⟨hc.1, by omega⟩)]

/-- The face normal has the length of the dimension of the first element. -/
theorem DGDiffusionIntegrator.nor_size {R : Type} [Field R] (el1 : FiniteElement R)
    (Trans : FaceElementTransformations R) (ip : IntegrationPoint R) :
    (DGDiffusionIntegrator.nor el1 Trans ip).size = el1.GetDim := by
  simp only [DGDiffusionIntegrator.nor, CalcOrtho]
  split_ifs <;> rfl

/-- The updates of the jump matrix at one point add, on the lower triangle,
`wq * kappa` times the products of the entries of `[shape1; -shape2]`. -/
theorem DGDiffusionIntegrator.jumpBlocks_elem {R : Type} [Field R]
    (self : DGDiffusionIntegrator R) (el1 el2 : FiniteElement R)
    (Trans : FaceElementTransformations R) (ndof1 ndof2 : Nat) (wq : R)
    (jmat : DenseMatrix R) (ip : IntegrationPoint R) (a b : Nat)
    (hba : b ≤ a) (ha : a < ndof1 + ndof2) :
    (DGDiffusionIntegrator.jumpBlocks self el1 el2 Trans ndof1 ndof2 wq jmat ip).elem a b =
      jmat.elem a b +
        wq * self.kappa *
          (if a < ndof1 then el1.CalcShape (Trans.Loc1.Transform ip) a
            else -el2.CalcShape (Trans.Loc2.Transform ip) (a - ndof1)) *
          (if b < ndof1 then el1.CalcShape (Trans.Loc1.Transform ip) b
            else -el2.CalcShape (Trans.Loc2.Transform ip) (b - ndof1)) := by
  have hstep : ∀ (E : DenseMatrix R) (i : Nat), i ∈ List.range ndof2 → ∀ a b,
      ((List.range (i + 1)).foldl
          (fun jmat j =>
            jmat.addAt (ndof1 + i) (ndof1 + j)
              (wq * self.kappa * el2.CalcShape (Trans.Loc2.Transform ip) i *
                el2.CalcShape (Trans.Loc2.Transform ip) j))
          ((List.range ndof1).foldl
            (fun jmat j =>
              jmat.subAt (ndof1 + i) j
                (wq * self.kappa * el2.CalcShape (Trans.Loc2.Transform ip) i *
                  el1.CalcShape (Trans.Loc1.Transform ip) j))
            E)).elem a b =
        E.elem a b +
          (if a = ndof1 + i then
            (if b < ndof1 then
              -(wq * self.kappa * el2.CalcShape (Trans.Loc2.Transform ip) i *
                el1.CalcShape (Trans.Loc1.Transform ip) b) else 0) +
            (if ndof1 ≤ b ∧ b < ndof1 + (i + 1) then
              wq * self.kappa * el2.CalcShape (Trans.Loc2.Transform ip) i *
                el2.CalcShape (Trans.Loc2.Transform ip) (b - ndof1) else 0)
          else 0) := by
    intro E i _ a b
    simp only [DenseMatrix.subAt_eq_addAt]
    rw [DenseMatrix.foldl_addAt_row, DenseMatrix.foldl_addAt_row0]
    by_cases h1 : a = ndof1 + i
    · simp only [h1, true_and, if_true]
      rw [add_assoc]
    · simp [h1]
  simp only [DGDiffusionIntegrator.jumpBlocks]
  by_cases h2 : ndof2 = 0
  · have ha1 : a < ndof1 := by omega
    have hb1 : b < ndof1 := by omega
    simp only [h2, ne_eq, not_true_eq_false, if_false]
    rw [DenseMatrix.foldl_addAt_lower, if_pos (And.intro ha1 hba), if_pos ha1, if_pos hb1]
  · simp only [ne_eq, h2, not_false_eq_true, if_true]
    rw [DenseMatrix.foldl_additive (List.range ndof2) _ _ hstep,
      DenseMatrix.foldl_addAt_lower,
      List.sum_range_indicator ndof2 ndof1 a
        (fun i =>
          (if b < ndof1 then
            -(wq * self.kappa * el2.CalcShape (Trans.Loc2.Transform ip) i *
              el1.CalcShape (Trans.Loc1.Transform ip) b) else 0) +
          (if ndof1 ≤ b ∧ b < ndof1 + (i + 1) then
            wq * self.kappa * el2.CalcShape (Trans.Loc2.Transform ip) i *
              el2.CalcShape (Trans.Loc2.Transform ip) (b - ndof1) else 0))]
    by_cases ha1 : a < ndof1
    · have hb1 : b < ndof1 := by omega
      have hn : ¬ (ndof1 ≤ a ∧ a < ndof1 + ndof2) := by omega
      rw [if_pos (And.intro ha1 hba), if_neg hn, if_pos ha1, if_pos hb1]
      ring
    · have hn : ¬ (a < ndof1 ∧ b ≤ a) := fun h => ha1 h.1
      have hp : ndof1 ≤ a ∧ a < ndof1 + ndof2 := by omega
      rw [if_neg hn, if_pos hp, if_neg ha1]
      by_cases hb1 : b < ndof1
      · have hn2 : ¬ (ndof1 ≤ b ∧ b < ndof1 + (a - ndof1 + 1)) := by omega
        rw [if_pos hb1, if_neg hn2, if_pos hb1]
        ring
      · have hp2 : ndof1 ≤ b ∧ b < ndof1 + (a - ndof1 + 1) := by omega
        rw [if_neg hb1, if_pos hp2, if_neg hb1]
        ring

/-- The dot product of `w * x` with `x` is `w` times the squared length of
`x`. -/
theorem Vector.dot_Set {R : Type} [CommSemiring R] (v x : Vector R) (w : R) :
    (v.Set w x).dot x = w * Finset.sum (Finset.range v.size) fun i => x.elem i * x.elem i := by
  simp only [Vector.dot, Vector.Set, Finset.mul_sum]
  exact Finset.sum_congr rfl fun i _ => by ring

/-- Claim C27. In `DGDiffusionIntegrator::AssembleFaceMatrix` with a scalar
coefficient `Q` (read as 1 when absent), the weight `wq * kappa` of the jump
matrix at a point is `kappa * ip.weight * |nor|^2 * Q1/det(J1)` on a boundary
face (`ndof2 = 0`) and
`kappa * ip.weight * |nor|^2 * (Q1/det(J1) + Q2/det(J2)) / 2` on an interior
face, which is unchanged when the two pairs `(Q, det J)` are exchanged; on the
lower triangle, the part that is stored and that the closing loop mirrors, the
jump matrix receives that weight times the products of the entries of
`[shape1; -shape2]`, so the entry read for `(a,b)` is the `(a,b)` entry of
`[shape1; -shape2] * [shape1; -shape2]^T` times the weight. -/
theorem DGDiffusionIntegrator.jump_penalty_weight {R : Type} [Field R] [DecidableEq R]
    (IntRule : Option (IntegrationRule R)) (Q : Option (Coefficient R)) (sigma kappa : R)
    (el1 el2 : FiniteElement R) (Trans : FaceElementTransformations R) (ndof1 ndof2 n : Nat)
    (st : DenseMatrix R × DenseMatrix R) (ip : IntegrationPoint R) :
    DGDiffusionIntegrator.wq
        { IntRule := IntRule, Q := Q, MQ := none, sigma := sigma, kappa := kappa } el1 Trans
        0 ip * kappa =
      kappa * ip.weight *
        (DGDiffusionIntegrator.nor el1 Trans ip).dot (DGDiffusionIntegrator.nor el1 Trans ip) *
        ((match Q with
          | some Q => Q.Eval Trans.Elem1 (Trans.Loc1.Transform ip)
          | none => 1) / Trans.Elem1.Weight (Trans.Loc1.Transform ip)) ∧
    DGDiffusionIntegrator.wq
        { IntRule := IntRule, Q := Q, MQ := none, sigma := sigma, kappa := kappa } el1 Trans
        (n + 1) ip * kappa =
      kappa * ip.weight *
        (DGDiffusionIntegrator.nor el1 Trans ip).dot (DGDiffusionIntegrator.nor el1 Trans ip) *
        (((match Q with
            | some Q => Q.Eval Trans.Elem1 (Trans.Loc1.Transform ip)
            | none => 1) / Trans.Elem1.Weight (Trans.Loc1.Transform ip) +
          (match Q with
            | some Q => Q.Eval Trans.Elem2 (Trans.Loc2.Transform ip)
            | none => 1) / Trans.Elem2.Weight (Trans.Loc2.Transform ip)) / 2) ∧
    DGDiffusionIntegrator.wq
        { IntRule := IntRule, Q := Q, MQ := none, sigma := sigma, kappa := kappa } el1 Trans
        (n + 1) ip * kappa =
      kappa * ip.weight *
        (DGDiffusionIntegrator.nor el1 Trans ip).dot (DGDiffusionIntegrator.nor el1 Trans ip) *
        (((match Q with
            | some Q => Q.Eval Trans.Elem2 (Trans.Loc2.Transform ip)
            | none => 1) / Trans.Elem2.Weight (Trans.Loc2.Transform ip) +
          (match Q with
            | some Q => Q.Eval Trans.Elem1 (Trans.Loc1.Transform ip)
            | none => 1) / Trans.Elem1.Weight (Trans.Loc1.Transform ip)) / 2) ∧
    (∀ a b, b ≤ a → a < ndof1 + ndof2 →
      (DGDiffusionIntegrator.point
          { IntRule := IntRule, Q := Q, MQ := none, sigma := sigma, kappa := kappa }
          el1 el2 Trans ndof1 ndof2 st ip).2.elem a b =
        st.2.elem a b +
          DGDiffusionIntegrator.wq
              { IntRule := IntRule, Q := Q, MQ := none, sigma := sigma, kappa := kappa }
              el1 Trans ndof2 ip * kappa *
            (if a < ndof1 then el1.CalcShape (Trans.Loc1.Transform ip) a
              else -el2.CalcShape (Trans.Loc2.Transform ip) (a - ndof1)) *
            (if b < ndof1 then el1.CalcShape (Trans.Loc1.Transform ip) b
              else -el2.CalcShape (Trans.Loc2.Transform ip) (b - ndof1))) ∧
    ∀ a b, a < ndof1 + ndof2 → b < ndof1 + ndof2 →
      (DGDiffusionIntegrator.point
          { IntRule := IntRule, Q := Q, MQ := none, sigma := sigma, kappa := kappa }
          el1 el2 Trans ndof1 ndof2 st ip).2.elem (max a b) (min a b) =
        st.2.elem (max a b) (min a b) +
          DGDiffusionIntegrator.wq
              { IntRule := IntRule, Q := Q, MQ := none, sigma := sigma, kappa := kappa }
              el1 Trans ndof2 ip * kappa *
            (if a < ndof1 then el1.CalcShape (Trans.Loc1.Transform ip) a
              else -el2.CalcShape (Trans.Loc2.Transform ip) (a - ndof1)) *
            (if b < ndof1 then el1.CalcShape (Trans.Loc1.Transform ip) b
              else -el2.CalcShape (Trans.Loc2.Transform ip) (b - ndof1)) := by
  have hnn : (DGDiffusionIntegrator.nor el1 Trans ip).dot
        (DGDiffusionIntegrator.nor el1 Trans ip) =
      Finset.sum (Finset.range el1.GetDim) fun i =>
        (DGDiffusionIntegrator.nor el1 Trans ip).elem i *
          (DGDiffusionIntegrator.nor el1 Trans ip).elem i := by
    simp only [Vector.dot, DGDiffusionIntegrator.nor_size]
  have hlow : ∀ a b, b ≤ a → a < ndof1 + ndof2 →
      (DGDiffusionIntegrator.point
          { IntRule := IntRule, Q := Q, MQ := none, sigma := sigma, kappa := kappa }
          el1 el2 Trans ndof1 ndof2 st ip).2.elem a b =
        st.2.elem a b +
          DGDiffusionIntegrator.wq
              { IntRule := IntRule, Q := Q, MQ := none, sigma := sigma, kappa := kappa }
              el1 Trans ndof2 ip * kappa *
            (if a < ndof1 then el1.CalcShape (Trans.Loc1.Transform ip) a
              else -el2.CalcShape (Trans.Loc2.Transform ip) (a - ndof1)) *
            (if b < ndof1 then el1.CalcShape (Trans.Loc1.Transform ip) b
              else -el2.CalcShape (Trans.Loc2.Transform ip) (b - ndof1)) := by
    intro a b hba ha
    simp only [DGDiffusionIntegrator.point]
    by_cases hk : kappa = 0
    · simp [hk]
    · simp only [ne_eq, hk, not_false_eq_true, decide_True, if_true]
      exact DGDiffusionIntegrator.jumpBlocks_elem _ el1 el2 Trans ndof1 ndof2 _ st.2 ip a b
        hba ha
  refine ⟨?_, ?_, ?_, hlow, fun a b ha hb => ?_⟩
  · simp only [DGDiffusionIntegrator.wq, DGDiffusionIntegrator.ni1, ne_eq,
      not_true_eq_false, if_false, Vector.dot_Set, hnn]
    cases Q <;> simp only <;> ring
  · simp only [DGDiffusionIntegrator.wq, DGDiffusionIntegrator.ni1,
      DGDiffusionIntegrator.ni2, ne_eq, Nat.add_one_ne_zero, not_false_eq_true, if_true,
      Vector.dot_Set, hnn]
    cases Q <;> simp only <;> ring
  · simp only [DGDiffusionIntegrator.wq, DGDiffusionIntegrator.ni1,
      DGDiffusionIntegrator.ni2, ne_eq, Nat.add_one_ne_zero, not_false_eq_true, if_true,
      Vector.dot_Set, hnn]
    cases Q <;> simp only <;> ring
  · rcases le_total a b with h | h
    · rw [max_eq_right h, min_eq_left h, hlow b a h hb]
      ring
    · rw [max_eq_left h, min_eq_right h]
      exact hlow a b h ha

/-! ## Flux energy of the diffusion integrator: theorems -/

/-- The loop `for k < n, for j < m: v(k) += f k j` adds the sum of the `f a j`
to the entry `a < n`. -/
theorem Vector.foldl_addAt_rows {R : Type} [AddCommMonoid R] (n m : Nat) (f : Nat → Nat → R)
    (v : Vector R) (a : Nat) :
    ((List.range n).foldl
        (fun v k => (List.range m).foldl (fun v j => v.addAt k (f k j)) v) v).elem a =
      v.elem a + (if a < n then Finset.sum (Finset.range m) (f a) else 0) := by
  have hin : ∀ (v : Vector R) (k : Nat), k ∈ List.range n →
      ((List.range m).foldl (fun v j => v.addAt k (f k j)) v).elem a =
        v.elem a + (if a = 0 + k then Finset.sum (Finset.range m) (f k) else 0) := by
    intro v k _
    rw [Vector.foldl_additive_entry (List.range m) (fun v j => v.addAt k (f k j)) a
      (fun j => if a = k then f k j else 0)
      (fun v j _ => by
        simp only [Vector.addAt]
        split_ifs <;> simp)]
    congr 1
    by_cases h : a = k
    · simp only [h, Nat.zero_add, if_true]
      exact List.sum_range_eq_finset_sum m (f k)
    · have h' : ¬ a = 0 + k := by omega
      simp [h, h']
  rw [Vector.foldl_additive_entry (List.range n) _ a _ hin,
    List.sum_range_indicator n 0 a (fun k => Finset.sum (Finset.range m) (f k))]
  congr 1
  by_cases h : a < n
  · rw [if_pos h, if_pos ⟨Nat.zero_le a, by omega⟩, Nat.sub_zero]
  · rw [if_neg h, if_neg (fun hc => h (by omega))]

/-- The loops `for k < n, for j < m: v(k) += f k j` keep the length. -/
theorem Vector.foldl_addAt_rows_size {R : Type} [AddCommMonoid R] (n m : Nat)
    (f : Nat → Nat → R) (v : Vector R) :
    ((List.range n).foldl
        (fun v k => (List.range m).foldl (fun v j => v.addAt k (f k j)) v) v).size = v.size :=
  Vector.foldl_size _ _
    (fun v k => Vector.foldl_size _ (fun v j => v.addAt k (f k j)) (fun _ _ => rfl) v) v

/-- The entries of `pointflux`: `f(k) = sum_j flux(k*nd+j) * shape(j)` for
`k < dim`, and zero beyond. -/
theorem DiffusionIntegrator.pointflux_elem {R : Type} [Semiring R] (fluxelem : FiniteElement R)
    (flux : Vector R) (ip : IntegrationPoint R) (k : Nat) :
    (DiffusionIntegrator.pointflux fluxelem flux ip).elem k =
      if k < fluxelem.GetDim then
        Finset.sum (Finset.range fluxelem.GetDof) fun j =>
          flux.elem (k * fluxelem.GetDof + j) * fluxelem.CalcShape ip j
      else 0 := by
  simp only [DiffusionIntegrator.pointflux]
  rw [Vector.foldl_addAt_rows, zero_add]

/-- The vector `pointflux` has the length of the dimension. -/
theorem DiffusionIntegrator.pointflux_size {R : Type} [Semiring R]
    (fluxelem : FiniteElement R) (flux : Vector R) (ip : IntegrationPoint R) :
    (DiffusionIntegrator.pointflux fluxelem flux ip).size = fluxelem.GetDim := by
  simp only [DiffusionIntegrator.pointflux]
  rw [Vector.foldl_addAt_rows_size]

/-- Scaling `flux` by `t` scales `pointflux` by `t`. -/
theorem DiffusionIntegrator.pointflux_smul {R : Type} [CommSemiring R]
    (fluxelem : FiniteElement R) (flux : Vector R) (t : R) (ip : IntegrationPoint R)
    (k : Nat) :
    (DiffusionIntegrator.pointflux fluxelem
        { size := flux.size, elem := fun a => t * flux.elem a } ip).elem k =
      t * (DiffusionIntegrator.pointflux fluxelem flux ip).elem k := by
  rw [DiffusionIntegrator.pointflux_elem, DiffusionIntegrator.pointflux_elem]
  by_cases h : k < fluxelem.GetDim
  · rw [if_pos h, if_pos h, Finset.mul_sum]
    exact Finset.sum_congr rfl fun j _ => by ring
  · rw [if_neg h, if_neg h, mul_zero]

/-- The value added to the energy at one point, as a function of `flux`. -/
theorem DiffusionIntegrator.energyPoint_eq {R : Type} [CommSemiring R]
    (self : DiffusionIntegrator R) (fluxelem : FiniteElement R)
    (Trans : ElementTransformation R) (flux : Vector R) (e : R) (ip : IntegrationPoint R) :
    DiffusionIntegrator.energyPoint self fluxelem Trans flux e ip =
      e + Trans.Weight ip * ip.weight *
        (match self.MQ with
          | none =>
            (match self.Q with
              | some Q => Q.Eval Trans ip
              | none => 1) *
              (DiffusionIntegrator.pointflux fluxelem flux ip).dot
                (DiffusionIntegrator.pointflux fluxelem flux ip)
          | some MQ =>
            (MQ.Eval Trans ip).InnerProduct (DiffusionIntegrator.pointflux fluxelem flux ip)
              (DiffusionIntegrator.pointflux fluxelem flux ip)) := by
  obtain ⟨IntRule, Q, MQ⟩ := self
  cases MQ with
  | none =>
    cases Q with
    | none => simp [DiffusionIntegrator.energyPoint]
    | some Q =>
      simp only [DiffusionIntegrator.energyPoint]
      ring
  | some MQ => simp [DiffusionIntegrator.energyPoint]

/-- The flux energy is the sum over the points of the rule of order `2p` of
`Trans.Weight() * ip.weight * c`. -/
theorem DiffusionIntegrator.ComputeFluxEnergy_eq {R : Type} [CommSemiring R]
    (IntRules : IntegrationRules R) (self : DiffusionIntegrator R)
    (fluxelem : FiniteElement R) (Trans : ElementTransformation R) (flux : Vector R) :
    DiffusionIntegrator.ComputeFluxEnergy IntRules self fluxelem Trans flux =
      ((IntRules.Get fluxelem.GetGeomType (2 * fluxelem.GetOrder)).map fun ip =>
        Trans.Weight ip * ip.weight *
          (match self.MQ with
            | none =>
              (match self.Q with
                | some Q => Q.Eval Trans ip
                | none => 1) *
                (DiffusionIntegrator.pointflux fluxelem flux ip).dot
                  (DiffusionIntegrator.pointflux fluxelem flux ip)
            | some MQ =>
              (MQ.Eval Trans ip).InnerProduct
                (DiffusionIntegrator.pointflux fluxelem flux ip)
                (DiffusionIntegrator.pointflux fluxelem flux ip))).sum := by
  have hfun : DiffusionIntegrator.energyPoint self fluxelem Trans flux =
      fun e ip => e + Trans.Weight ip * ip.weight *
        (match self.MQ with
          | none =>
            (match self.Q with
              | some Q => Q.Eval Trans ip
              | none => 1) *
              (DiffusionIntegrator.pointflux fluxelem flux ip).dot
                (DiffusionIntegrator.pointflux fluxelem flux ip)
          | some MQ =>
            (MQ.Eval Trans ip).InnerProduct (DiffusionIntegrator.pointflux fluxelem flux ip)
              (DiffusionIntegrator.pointflux fluxelem flux ip)) := by
    funext e ip
    exact DiffusionIntegrator.energyPoint_eq self fluxelem Trans flux e ip
  simp only [DiffusionIntegrator.ComputeFluxEnergy, hfun]
  rw [List.foldl_add_map_sum, zero_add]

/-- Scaling `flux` by `t` scales the term of one point by `t^2`. -/
theorem DiffusionIntegrator.energy_term_smul {R : Type} [CommSemiring R]
    (self : DiffusionIntegrator R) (fluxelem : FiniteElement R)
    (Trans : ElementTransformation R) (flux : Vector R) (t : R) (ip : IntegrationPoint R) :
    (match self.MQ with
      | none =>
        (match self.Q with
          | some Q => Q.Eval Trans ip
          | none => 1) *
          (DiffusionIntegrator.pointflux fluxelem
              { size := flux.size, elem := fun a => t * flux.elem a } ip).dot
            (DiffusionIntegrator.pointflux fluxelem
              { size := flux.size, elem := fun a => t * flux.elem a } ip)
      | some MQ =>
        (MQ.Eval Trans ip).InnerProduct
          (DiffusionIntegrator.pointflux fluxelem
            { size := flux.size, elem := fun a => t * flux.elem a } ip)
          (DiffusionIntegrator.pointflux fluxelem
            { size := flux.size, elem := fun a => t * flux.elem a } ip)) =
      t ^ 2 *
        (match self.MQ with
          | none =>
            (match self.Q with
              | some Q => Q.Eval Trans ip
              | none => 1) *
              (DiffusionIntegrator.pointflux fluxelem flux ip).dot
                (DiffusionIntegrator.pointflux fluxelem flux ip)
          | some MQ =>
            (MQ.Eval Trans ip).InnerProduct (DiffusionIntegrator.pointflux fluxelem flux ip)
              (DiffusionIntegrator.pointflux fluxelem flux ip)) := by
  obtain ⟨IntRule, Q, MQ⟩ := self
  cases MQ with
  | none =>
    simp only [Vector.dot, DiffusionIntegrator.pointflux_size,
      DiffusionIntegrator.pointflux_smul, Finset.mul_sum]
    exact Finset.sum_congr rfl fun k _ => by ring
  | some MQ =>
    simp only [DenseMatrix.InnerProduct, DiffusionIntegrator.pointflux_smul, Finset.mul_sum]
    exact Finset.sum_congr rfl fun i _ => Finset.sum_congr rfl fun j _ => by ring

/-- Claim C28. `DiffusionIntegrator::ComputeFluxEnergy` returns the sum over the
points of the rule of order `2p` of `Trans.Weight() * ip.weight * c`, with
`f(k) = sum_j flux(k*nd+j) * shape(j)` and `c = Q * (f . f)` (`Q = 1` if
absent) or `c = f^T * MQ * f`. It is a quadratic form in `flux`:
`energy(t * flux) = t^2 * energy(flux)`, `energy(0) = 0`, and without a matrix
coefficient, with non-negative weights and `Q >= 0`, the energy is
non-negative. -/
theorem DiffusionIntegrator.flux_energy_quadratic {R : Type} [LinearOrderedField R]
    (IntRules : IntegrationRules R) (self : DiffusionIntegrator R)
    (fluxelem : FiniteElement R) (Trans : ElementTransformation R) (flux : Vector R)
    (t : R) :
    (∀ ip k, k < fluxelem.GetDim →
      (DiffusionIntegrator.pointflux fluxelem flux ip).elem k =
        Finset.sum (Finset.range fluxelem.GetDof) fun j =>
          flux.elem (k * fluxelem.GetDof + j) * fluxelem.CalcShape ip j) ∧
    DiffusionIntegrator.ComputeFluxEnergy IntRules self fluxelem Trans flux =
      ((IntRules.Get fluxelem.GetGeomType (2 * fluxelem.GetOrder)).map fun ip =>
        Trans.Weight ip * ip.weight *
          (match self.MQ with
            | none =>
              (match self.Q with
                | some Q => Q.Eval Trans ip
                | none => 1) *
                (DiffusionIntegrator.pointflux fluxelem flux ip).dot
                  (DiffusionIntegrator.pointflux fluxelem flux ip)
            | some MQ =>
              (MQ.Eval Trans ip).InnerProduct
                (DiffusionIntegrator.pointflux fluxelem flux ip)
                (DiffusionIntegrator.pointflux fluxelem flux ip))).sum ∧
    DiffusionIntegrator.ComputeFluxEnergy IntRules self fluxelem Trans
        { size := flux.size, elem := fun a => t * flux.elem a } =
      t ^ 2 * DiffusionIntegrator.ComputeFluxEnergy IntRules self fluxelem Trans flux ∧
    DiffusionIntegrator.ComputeFluxEnergy IntRules self fluxelem Trans
        { size := flux.size, elem := fun _ => 0 } = 0 ∧
    (self.MQ = none →
      (∀ ip, ip ∈ IntRules.Get fluxelem.GetGeomType (2 * fluxelem.GetOrder) →
        0 ≤ Trans.Weight ip * ip.weight) →
      (∀ Q, self.Q = some Q →
        ∀ ip, ip ∈ IntRules.Get fluxelem.GetGeomType (2 * fluxelem.GetOrder) →
          0 ≤ Q.Eval Trans ip) →
      0 ≤ DiffusionIntegrator.ComputeFluxEnergy IntRules self fluxelem Trans flux) := by
  have hscale : ∀ s : R,
      DiffusionIntegrator.ComputeFluxEnergy IntRules self fluxelem Trans
          { size := flux.size, elem := fun a => s * flux.elem a } =
        s ^ 2 * DiffusionIntegrator.ComputeFluxEnergy IntRules self fluxelem Trans flux := by
    intro s
    rw [DiffusionIntegrator.ComputeFluxEnergy_eq, DiffusionIntegrator.ComputeFluxEnergy_eq,
      ← List.sum_map_mul_left_eq]
    congr 1
    apply List.map_congr_left
    intro ip _
    rw [DiffusionIntegrator.energy_term_smul]
    ring
  refine ⟨fun ip k hk => ?_, DiffusionIntegrator.ComputeFluxEnergy_eq _ _ _ _ _, hscale t,
    ?_, fun hMQ hw hQ => ?_⟩
  · rw [DiffusionIntegrator.pointflux_elem, if_pos hk]
  · have h0 := hscale 0
    simp only [zero_mul, ne_eq, OfNat.ofNat_ne_zero, not_false_eq_true, zero_pow] at h0
    exact h0
  · rw [DiffusionIntegrator.ComputeFluxEnergy_eq]
    apply List.sum_nonneg
    intro x hx
    obtain ⟨ip, hip, rfl⟩ := List.mem_map.mp hx
    obtain ⟨IntRule, Q, MQ⟩ := self
    simp only at hMQ
    subst hMQ
    refine mul_nonneg (hw ip hip) (mul_nonneg ?_ ?_)
    · cases Q with
      | none => exact zero_le_one
      | some Q => exact hQ Q rfl ip hip
    · exact Finset.sum_nonneg fun k _ => mul_self_nonneg _

/-! ## Vector curl-curl integrator, energy: theorems -/

/-- The entries of the matrix `grad` of the energy loop: the sums of the
coefficients of a component against the gradients `dshape` of the assembly
loop. -/
theorem VectorCurlCurlIntegrator.grad_elem {R : Type} [Field R] (el : FiniteElement R)
    (Tr : ElementTransformation R) (elfun : Vector R) (ip : IntegrationPoint R) (c e : Nat) :
    (VectorCurlCurlIntegrator.grad el Tr elfun ip).elem c e =
      Finset.sum (Finset.range el.GetDof) fun k =>
        elfun.elem (k + el.GetDof * c) *
          (VectorCurlCurlIntegrator.dshape el Tr ip).elem k e := by
  simp only [VectorCurlCurlIntegrator.grad, VectorCurlCurlIntegrator.dshape, Mult,
    DenseMatrix.mulEntry, MultAtB, Finset.sum_mul, Finset.mul_sum]
  rw [Finset.sum_comm]
  exact Finset.sum_congr rfl fun k _ => Finset.sum_congr rfl fun d _ => by ring

/-- The matrix `dshape` of the vector curl-curl integrator has `dof` rows and
`dim` columns. -/
theorem VectorCurlCurlIntegrator.dshape_dims {R : Type} [Field R] (el : FiniteElement R)
    (Tr : ElementTransformation R) (ip : IntegrationPoint R) :
    (VectorCurlCurlIntegrator.dshape el Tr ip).height = el.GetDof ∧
    (VectorCurlCurlIntegrator.dshape el Tr ip).width = el.GetDim :=
  ⟨rfl, rfl⟩

/-- The entries of `curlshape` in two dimensions. -/
theorem VectorCurlCurlIntegrator.curlshape_2d {R : Type} [Field R] (el : FiniteElement R)
    (Tr : ElementTransformation R) (ip : IntegrationPoint R) (hd : el.GetDim = 2)
    (k : Nat) (hk : k < el.GetDof) :
    (VectorCurlCurlIntegrator.curlshape el Tr ip).elem k 0 =
      -(VectorCurlCurlIntegrator.dshape el Tr ip).elem k 1 ∧
    (VectorCurlCurlIntegrator.curlshape el Tr ip).elem (el.GetDof + k) 0 =
      (VectorCurlCurlIntegrator.dshape el Tr ip).elem k 0 := by
  have hw : (VectorCurlCurlIntegrator.dshape el Tr ip).width = 2 := hd
  have hh : (VectorCurlCurlIntegrator.dshape el Tr ip).height = el.GetDof := rfl
  have h1 : ¬ (el.GetDof + k < el.GetDof) := by omega
  have h2 : el.GetDof + k < 2 * el.GetDof := by omega
  simp only [VectorCurlCurlIntegrator.curlshape, DenseMatrix.GradToCurl, hw, hh, if_true,
    true_and, if_pos hk, if_neg h1, if_pos h2, Nat.add_sub_cancel_left, and_self]

/-- In two dimensions the product of `elfun` with the column of `curlshape` is
minus the scalar curl of the energy loop. -/
theorem VectorCurlCurlIntegrator.curl_column_2d {R : Type} [Field R] (el : FiniteElement R)
    (Tr : ElementTransformation R) (elfun : Vector R) (ip : IntegrationPoint R)
    (hd : el.GetDim = 2) :
    (Finset.sum (Finset.range (el.GetDim * el.GetDof)) fun a =>
        elfun.elem a * (VectorCurlCurlIntegrator.curlshape el Tr ip).elem a 0) =
      -((VectorCurlCurlIntegrator.grad el Tr elfun ip).elem 0 1 -
        (VectorCurlCurlIntegrator.grad el Tr elfun ip).elem 1 0) := by
  have e0 : ∀ x, x + el.GetDof * 0 = x := fun x => by omega
  have e1 : ∀ x, x + el.GetDof * 1 = el.GetDof + x := fun x => by omega
  rw [VectorCurlCurlIntegrator.grad_elem, VectorCurlCurlIntegrator.grad_elem, hd, two_mul,
    Finset.sum_range_add]
  simp only [e0, e1]
  have s1 : (Finset.sum (Finset.range el.GetDof) fun a =>
        elfun.elem a * (VectorCurlCurlIntegrator.curlshape el Tr ip).elem a 0) =
      Finset.sum (Finset.range el.GetDof) fun a =>
        elfun.elem a * -(VectorCurlCurlIntegrator.dshape el Tr ip).elem a 1 :=
    Finset.sum_congr rfl fun a ha => by
      rw [(VectorCurlCurlIntegrator.curlshape_2d el Tr ip hd a (Finset.mem_range.mp ha)).1]
  have s2 : (Finset.sum (Finset.range el.GetDof) fun a =>
        elfun.elem (el.GetDof + a) *
          (VectorCurlCurlIntegrator.curlshape el Tr ip).elem (el.GetDof + a) 0) =
      Finset.sum (Finset.range el.GetDof) fun a =>
        elfun.elem (el.GetDof + a) * (VectorCurlCurlIntegrator.dshape el Tr ip).elem a 0 :=
    Finset.sum_congr rfl fun a ha => by
      rw [(VectorCurlCurlIntegrator.curlshape_2d el Tr ip hd a (Finset.mem_range.mp ha)).2]
  rw [s1, s2]
  simp only [mul_neg, Finset.sum_neg_distrib]
  ring

/-- The entries of `curlshape` in three dimensions. -/
theorem VectorCurlCurlIntegrator.curlshape_3d {R : Type} [Field R] (el : FiniteElement R)
    (Tr : ElementTransformation R) (ip : IntegrationPoint R) (hd : el.GetDim = 3)
    (k : Nat) (hk : k < el.GetDof) :
    ((VectorCurlCurlIntegrator.curlshape el Tr ip).elem k 0 = 0 ∧
      (VectorCurlCurlIntegrator.curlshape el Tr ip).elem k 1 =
        (VectorCurlCurlIntegrator.dshape el Tr ip).elem k 2 ∧
      (VectorCurlCurlIntegrator.curlshape el Tr ip).elem k 2 =
        -(VectorCurlCurlIntegrator.dshape el Tr ip).elem k 1) ∧
    ((VectorCurlCurlIntegrator.curlshape el Tr ip).elem (el.GetDof + k) 0 =
        -(VectorCurlCurlIntegrator.dshape el Tr ip).elem k 2 ∧
      (VectorCurlCurlIntegrator.curlshape el Tr ip).elem (el.GetDof + k) 1 = 0 ∧
      (VectorCurlCurlIntegrator.curlshape el Tr ip).elem (el.GetDof + k) 2 =
        (VectorCurlCurlIntegrator.dshape el Tr ip).elem k 0) ∧
    ((VectorCurlCurlIntegrator.curlshape el Tr ip).elem (el.GetDof + el.GetDof + k) 0 =
        (VectorCurlCurlIntegrator.dshape el Tr ip).elem k 1 ∧
      (VectorCurlCurlIntegrator.curlshape el Tr ip).elem (el.GetDof + el.GetDof + k) 1 =
        -(VectorCurlCurlIntegrator.dshape el Tr ip).elem k 0 ∧
      (VectorCurlCurlIntegrator.curlshape el Tr ip).elem (el.GetDof + el.GetDof + k) 2 = 0) := by
  have hw : ¬ (VectorCurlCurlIntegrator.dshape el Tr ip).width = 2 := by
    rw [(VectorCurlCurlIntegrator.dshape_dims el Tr ip).2, hd]
    decide
  have hh : (VectorCurlCurlIntegrator.dshape el Tr ip).height = el.GetDof := rfl
  have h1 : ¬ (el.GetDof + k < el.GetDof) := by omega
  have h2 : el.GetDof + k < 2 * el.GetDof := by omega
  have h3 : ¬ (el.GetDof + el.GetDof + k < el.GetDof) := by omega
  have h4 : ¬ (el.GetDof + el.GetDof + k < 2 * el.GetDof) := by omega
  have h5 : el.GetDof + el.GetDof + k < 3 * el.GetDof := by omega
  have h6 : el.GetDof + el.GetDof + k - 2 * el.GetDof = k := by omega
  simp only [VectorCurlCurlIntegrator.curlshape, DenseMatrix.GradToCurl, hw, hh, if_false,
    if_true, if_pos hk, if_neg h1, if_pos h2, if_neg h3, if_neg h4, if_pos h5, h6,
    Nat.add_sub_cancel_left, one_ne_zero, OfNat.ofNat_ne_zero, OfNat.ofNat_ne_one,
    and_self]

/-- In three dimensions the products of `elfun` with the three columns of
`curlshape` are the three components of the curl of the energy loop. -/
theorem VectorCurlCurlIntegrator.curl_columns_3d {R : Type} [Field R] (el : FiniteElement R)
    (Tr : ElementTransformation R) (elfun : Vector R) (ip : IntegrationPoint R)
    (hd : el.GetDim = 3) :
    (Finset.sum (Finset.range (el.GetDim * el.GetDof)) fun a =>
        elfun.elem a * (VectorCurlCurlIntegrator.curlshape el Tr ip).elem a 0) =
      (VectorCurlCurlIntegrator.grad el Tr elfun ip).elem 2 1 -
        (VectorCurlCurlIntegrator.grad el Tr elfun ip).elem 1 2 ∧
    (Finset.sum (Finset.range (el.GetDim * el.GetDof)) fun a =>
        elfun.elem a * (VectorCurlCurlIntegrator.curlshape el Tr ip).elem a 1) =
      (VectorCurlCurlIntegrator.grad el Tr elfun ip).elem 0 2 -
        (VectorCurlCurlIntegrator.grad el Tr elfun ip).elem 2 0 ∧
    (Finset.sum (Finset.range (el.GetDim * el.GetDof)) fun a =>
        elfun.elem a * (VectorCurlCurlIntegrator.curlshape el Tr ip).elem a 2) =
      (VectorCurlCurlIntegrator.grad el Tr elfun ip).elem 1 0 -
        (VectorCurlCurlIntegrator.grad el Tr elfun ip).elem 0 1 := by
  have e0 : ∀ x, x + el.GetDof * 0 = x := fun x => by omega
  have e1 : ∀ x, x + el.GetDof * 1 = el.GetDof + x := fun x => by omega
  have e2 : ∀ x, x + el.GetDof * 2 = el.GetDof + el.GetDof + x := fun x => by omega
  have e3 : 3 * el.GetDof = el.GetDof + el.GetDof + el.GetDof := by omega
  have split : ∀ c,
      (Finset.sum (Finset.range (el.GetDim * el.GetDof)) fun a =>
        elfun.elem a * (VectorCurlCurlIntegrator.curlshape el Tr ip).elem a c) =
      (Finset.sum (Finset.range el.GetDof) fun k =>
        elfun.elem k * (VectorCurlCurlIntegrator.curlshape el Tr ip).elem k c) +
      (Finset.sum (Finset.range el.GetDof) fun k =>
        elfun.elem (el.GetDof + k) *
          (VectorCurlCurlIntegrator.curlshape el Tr ip).elem (el.GetDof + k) c) +
      (Finset.sum (Finset.range el.GetDof) fun k =>
        elfun.elem (el.GetDof + el.GetDof + k) *
          (VectorCurlCurlIntegrator.curlshape el Tr ip).elem
            (el.GetDof + el.GetDof + k) c) := by
    intro c
    rw [hd, e3, Finset.sum_range_add, Finset.sum_range_add]
  have blocks : ∀ (c : Nat) (x y z : Nat → R),
      (∀ k, k < el.GetDof →
        (VectorCurlCurlIntegrator.curlshape el Tr ip).elem k c = x k ∧
        (VectorCurlCurlIntegrator.curlshape el Tr ip).elem (el.GetDof + k) c = y k ∧
        (VectorCurlCurlIntegrator.curlshape el Tr ip).elem (el.GetDof + el.GetDof + k) c =
          z k) →
      (Finset.sum (Finset.range (el.GetDim * el.GetDof)) fun a =>
        elfun.elem a * (VectorCurlCurlIntegrator.curlshape el Tr ip).elem a c) =
      (Finset.sum (Finset.range el.GetDof) fun k => elfun.elem k * x k) +
      (Finset.sum (Finset.range el.GetDof) fun k => elfun.elem (el.GetDof + k) * y k) +
      (Finset.sum (Finset.range el.GetDof) fun k =>
        elfun.elem (el.GetDof + el.GetDof + k) * z k) := by
    intro c x y z h
    rw [split c]
    congr 1
    · congr 1
      · exact Finset.sum_congr rfl fun k hk => by rw [(h k (Finset.mem_range.mp hk)).1]
      · exact Finset.sum_congr rfl fun k hk => by rw [(h k (Finset.mem_range.mp hk)).2.1]
    · exact Finset.sum_congr rfl fun k hk => by rw [(h k (Finset.mem_range.mp hk)).2.2]
  simp only [VectorCurlCurlIntegrator.grad_elem, e0, e1, e2]
  refine ⟨?_, ?_, ?_⟩
  · rw [blocks 0 (fun _ => 0)
      (fun k => -(VectorCurlCurlIntegrator.dshape el Tr ip).elem k 2)
      (fun k => (VectorCurlCurlIntegrator.dshape el Tr ip).elem k 1)
      (fun k hk => by
        obtain ⟨a, b, c⟩ := VectorCurlCurlIntegrator.curlshape_3d el Tr ip hd k hk
        exact ⟨a.1, b.1, c.1⟩)]
    simp only [mul_zero, Finset.sum_const_zero, mul_neg, Finset.sum_neg_distrib]
    ring
  · rw [blocks 1 (fun k => (VectorCurlCurlIntegrator.dshape el Tr ip).elem k 2)
      (fun _ => 0)
      (fun k => -(VectorCurlCurlIntegrator.dshape el Tr ip).elem k 0)
      (fun k hk => by
        obtain ⟨a, b, c⟩ := VectorCurlCurlIntegrator.curlshape_3d el Tr ip hd k hk
        exact ⟨a.2.1, b.2.1, c.2.1⟩)]
    simp only [mul_zero, Finset.sum_const_zero, mul_neg, Finset.sum_neg_distrib]
    ring
  · rw [blocks 2 (fun k => -(VectorCurlCurlIntegrator.dshape el Tr ip).elem k 1)
      (fun k => (VectorCurlCurlIntegrator.dshape el Tr ip).elem k 0)
      (fun _ => 0)
      (fun k hk => by
        obtain ⟨a, b, c⟩ := VectorCurlCurlIntegrator.curlshape_3d el Tr ip hd k hk
        exact ⟨a.2.2, b.2.2, c.2.2⟩)]
    simp only [mul_zero, Finset.sum_const_zero, mul_neg, Finset.sum_neg_distrib]
    ring

/-- The height and width of `curlshape`. -/
theorem VectorCurlCurlIntegrator.curlshape_dims {R : Type} [Field R] (el : FiniteElement R)
    (Tr : ElementTransformation R) (ip : IntegrationPoint R) :
    (VectorCurlCurlIntegrator.curlshape el Tr ip).height = el.GetDim * el.GetDof ∧
    (VectorCurlCurlIntegrator.curlshape el Tr ip).width = (el.GetDim * (el.GetDim - 1)) / 2 := by
  simp only [VectorCurlCurlIntegrator.curlshape, DenseMatrix.GradToCurl]
  split_ifs <;> exact ⟨rfl, rfl⟩

/-- The quadratic form of the matrix left by the quadrature loop of the vector
curl-curl integrator in a square buffer of size `dim*dof`. -/
theorem VectorCurlCurlIntegrator.foldl_point_quadForm {R : Type} [Field R]
    (self : VectorCurlCurlIntegrator R) (el : FiniteElement R)
    (Tr : ElementTransformation R) (u : Nat → R) (ir : IntegrationRule R)
    (E : DenseMatrix R) (hh : E.height = el.GetDim * el.GetDof)
    (hw : E.width = el.GetDim * el.GetDof) :
    (ir.foldl (VectorCurlCurlIntegrator.point self el Tr) E).height =
      el.GetDim * el.GetDof ∧
    (ir.foldl (VectorCurlCurlIntegrator.point self el Tr) E).width =
      el.GetDim * el.GetDof ∧
    (ir.foldl (VectorCurlCurlIntegrator.point self el Tr) E).quadForm u =
      E.quadForm u +
        (ir.map fun ip =>
          (match self.Q with
            | some Q => ip.weight / Tr.Weight ip * Q.Eval Tr ip
            | none => ip.weight / Tr.Weight ip) *
            Finset.sum (Finset.range ((el.GetDim * (el.GetDim - 1)) / 2)) fun c =>
              (Finset.sum (Finset.range (el.GetDim * el.GetDof)) fun a =>
                u a * (VectorCurlCurlIntegrator.curlshape el Tr ip).elem a c) ^ 2).sum := by
  induction ir generalizing E with
  | nil => exact ⟨hh, hw, by simp⟩
  | cons ip ir ih =>
    obtain ⟨ch, cw⟩ := VectorCurlCurlIntegrator.curlshape_dims el Tr ip
    have hstep : (VectorCurlCurlIntegrator.point self el Tr E ip).quadForm u =
        E.quadForm u +
          (match self.Q with
            | some Q => ip.weight / Tr.Weight ip * Q.Eval Tr ip
            | none => ip.weight / Tr.Weight ip) *
            Finset.sum (Finset.range ((el.GetDim * (el.GetDim - 1)) / 2)) fun c =>
              (Finset.sum (Finset.range (el.GetDim * el.GetDof)) fun a =>
                u a * (VectorCurlCurlIntegrator.curlshape el Tr ip).elem a c) ^ 2 := by
      simp only [VectorCurlCurlIntegrator.point]
      rw [AddMult_a_AAt_quadForm _ _ E (ch.trans hh.symm) (hw.trans hh.symm) u, cw, hh]
    obtain ⟨i1, i2, i3⟩ := ih (VectorCurlCurlIntegrator.point self el Tr E ip) hh hw
    refine ⟨i1, i2, ?_⟩
    rw [List.foldl_cons, i3, hstep, List.map_cons, List.sum_cons, add_assoc]

/-- The energy loop of the vector curl-curl integrator adds, at each point,
the weight times the squared curl. -/
theorem VectorCurlCurlIntegrator.energy_eq_sum {R : Type} [Field R]
    (IntRules : IntegrationRules R) (self : VectorCurlCurlIntegrator R)
    (el : FiniteElement R) (Tr : ElementTransformation R) (elfun : Vector R) :
    VectorCurlCurlIntegrator.GetElementEnergy IntRules self el Tr elfun =
      1 / 2 *
        ((VectorCurlCurlIntegrator.rule IntRules self el Tr).map fun ip =>
          VectorCurlCurlIntegrator.energyPoint self el Tr elfun 0 ip).sum := by
  simp only [VectorCurlCurlIntegrator.GetElementEnergy]
  rw [List.foldl_eq_sum_of_add _ _
    (fun ip => VectorCurlCurlIntegrator.energyPoint self el Tr elfun 0 ip)
    (fun e ip => by simp only [VectorCurlCurlIntegrator.energyPoint, zero_add]), zero_add]

/-- At one point, the weight times the sum of the squared products of `elfun`
with the columns of `curlshape` is the value the energy loop adds. -/
theorem VectorCurlCurlIntegrator.energyPoint_eq_columns {R : Type} [Field R]
    (self : VectorCurlCurlIntegrator R) (el : FiniteElement R)
    (Tr : ElementTransformation R) (elfun : Vector R) (ip : IntegrationPoint R)
    (hdim : el.GetDim = 2 ∨ el.GetDim = 3) :
    (match self.Q with
      | some Q => ip.weight / Tr.Weight ip * Q.Eval Tr ip
      | none => ip.weight / Tr.Weight ip) *
      (Finset.sum (Finset.range ((el.GetDim * (el.GetDim - 1)) / 2)) fun c =>
        (Finset.sum (Finset.range (el.GetDim * el.GetDof)) fun a =>
          elfun.elem a * (VectorCurlCurlIntegrator.curlshape el Tr ip).elem a c) ^ 2) =
      VectorCurlCurlIntegrator.energyPoint self el Tr elfun 0 ip := by
  obtain ⟨IntRule, Q⟩ := self
  rcases hdim with hd | hd
  · have hc := VectorCurlCurlIntegrator.curl_column_2d el Tr elfun ip hd
    have hcld : (el.GetDim * (el.GetDim - 1)) / 2 = 1 := by rw [hd]
    rw [hcld, Finset.sum_range_one, hc]
    simp only [VectorCurlCurlIntegrator.energyPoint, hd, if_true, zero_add]
    cases Q <;> simp only <;> ring
  · obtain ⟨c0, c1, c2⟩ := VectorCurlCurlIntegrator.curl_columns_3d el Tr elfun ip hd
    have hcld : (el.GetDim * (el.GetDim - 1)) / 2 = 3 := by rw [hd]
    have h32 : ¬ ((3 : Nat) = 2) := by decide
    rw [hcld, Finset.sum_range_succ, Finset.sum_range_succ, Finset.sum_range_one, c0, c1, c2]
    simp only [VectorCurlCurlIntegrator.energyPoint, hd, h32, if_false, zero_add]
    cases Q <;> simp only <;> ring

/-- Claim C29. For an element of dimension 2 or 3,
`VectorCurlCurlIntegrator::GetElementEnergy(el, Tr, elfun)` is one half of the
quadratic form `elfun^T * K * elfun` of the matrix `K` that
`VectorCurlCurlIntegrator::AssembleElementMatrix` leaves in a square buffer of
size `dim*dof`, for the same mapping, coefficient and rule. -/
theorem VectorCurlCurlIntegrator.energy_is_half_quadratic_form {R : Type} [Field R]
    (IntRules : IntegrationRules R) (self : VectorCurlCurlIntegrator R)
    (el : FiniteElement R) (Tr : ElementTransformation R) (elfun : Vector R)
    (e : Nat → Nat → R) (hdim : el.GetDim = 2 ∨ el.GetDim = 3) :
    ∃ K, VectorCurlCurlIntegrator.AssembleElementMatrix IntRules self el Tr
        { height := el.GetDim * el.GetDof, width := el.GetDim * el.GetDof, elem := e } =
          Except.ok K ∧
      K.height = el.GetDim * el.GetDof ∧ K.width = el.GetDim * el.GetDof ∧
      VectorCurlCurlIntegrator.GetElementEnergy IntRules self el Tr elfun =
        1 / 2 * K.quadForm elfun.elem := by
  obtain ⟨h1, h2, h3⟩ := VectorCurlCurlIntegrator.foldl_point_quadForm self el Tr elfun.elem
    (VectorCurlCurlIntegrator.rule IntRules self el Tr)
    ((({ height := el.GetDim * el.GetDof, width := el.GetDim * el.GetDof, elem := e } :
      DenseMatrix R)).assign 0) rfl rfl
  refine ⟨_, rfl, h1, h2, ?_⟩
  rw [VectorCurlCurlIntegrator.energy_eq_sum, h3]
  rw [DenseMatrix.quadForm_assign_zero, zero_add]
  congr 2
  apply List.map_congr_left
  intro ip _
  exact (VectorCurlCurlIntegrator.energyPoint_eq_columns self el Tr elfun ip hdim).symm

/-- Witness for C29: the linear triangle under the identity mapping. -/
theorem VectorCurlCurlIntegrator.energy_is_half_quadratic_form_witness :
    (Example.linearTriangle.GetDim = 2 ∨ Example.linearTriangle.GetDim = 3) ∧
    ∃ K, VectorCurlCurlIntegrator.AssembleElementMatrix Example.rules
        { IntRule := none, Q := none } Example.linearTriangle Example.identityMap
        { height := Example.linearTriangle.GetDim * Example.linearTriangle.GetDof,
          width := Example.linearTriangle.GetDim * Example.linearTriangle.GetDof,
          elem := fun _ _ => 7 } = Except.ok K ∧
      K.height = Example.linearTriangle.GetDim * Example.linearTriangle.GetDof ∧
      K.width = Example.linearTriangle.GetDim * Example.linearTriangle.GetDof ∧
      VectorCurlCurlIntegrator.GetElementEnergy Example.rules { IntRule := none, Q := none }
          Example.linearTriangle Example.identityMap
          { size := 6, elem := fun i => (i : ℚ) } =
        1 / 2 * K.quadForm fun i => (i : ℚ) :=
  ⟨Or.inl rfl,
    VectorCurlCurlIntegrator.energy_is_half_quadratic_form Example.rules
      { IntRule := none, Q := none } Example.linearTriangle Example.identityMap
      { size := 6, elem := fun i => (i : ℚ) } (fun _ _ => 7) (Or.inl rfl)⟩

/-! ## Discontinuous Galerkin trace integrator: conservation -/

/-- Two indices `T*d + k'` and `T*i + k` with `k', k < T` are equal exactly when
the blocks and the offsets are. -/
theorem Nat.block_index_eq_iff (T d i k' k : Nat) (hk' : k' < T) (hk : k < T) :
    T * d + k' = T * i + k ↔ d = i ∧ k' = k := by
  constructor
  · intro h
    have hd : i = d := (Nat.block_index_iff T i d k' hk').mp ⟨by omega, by omega⟩
    subst hd
    exact ⟨rfl, by omega⟩
  · rintro ⟨rfl, rfl⟩
    rfl

/-- The statement `E(a,b) += v` adds `v` to the entry `(a,b)`. -/
theorem DenseMatrix.addAt_same {R : Type} [Add R] (E : DenseMatrix R) (a b : Nat) (v : R) :
    (E.addAt a b v).elem a b = E.elem a b + v := by
  simp only [DenseMatrix.addAt, and_self, if_true]

/-- The statement `E(r,c) += v` leaves every other entry as it is. -/
theorem DenseMatrix.addAt_other {R : Type} [Add R] (E : DenseMatrix R) (r c a b : Nat)
    (v : R) (h : ¬ (a = r ∧ b = c)) : (E.addAt r c v).elem a b = E.elem a b := by
  simp only [DenseMatrix.addAt, if_neg h]

/-- A loop none of whose passes writes the entry `(a,b)` leaves it as it is. -/
theorem DenseMatrix.foldl_range_skip {R : Type} (n : Nat)
    (g : DenseMatrix R → Nat → DenseMatrix R) (a b : Nat)
    (h : ∀ E i, i < n → (g E i).elem a b = E.elem a b) (E : DenseMatrix R) :
    ((List.range n).foldl g E).elem a b = E.elem a b := by
  induction n with
  | zero => rfl
  | succ n ih =>
    rw [List.range_succ, List.foldl_append, List.foldl_cons, List.foldl_nil,
      h _ n (Nat.lt_succ_self n)]
    exact ih fun E i hi => h E i (Nat.lt_succ_of_lt hi)

/-- A loop of which exactly the pass `i0` writes the entry `(a,b)`, adding `v`,
adds `v` to it once; no property of the addition is used. -/
theorem DenseMatrix.foldl_range_once {R : Type} [Add R] (n : Nat)
    (g : DenseMatrix R → Nat → DenseMatrix R) (a b i0 : Nat) (v : R) (hi0 : i0 < n)
    (hskip : ∀ E i, i < n → i ≠ i0 → (g E i).elem a b = E.elem a b)
    (htouch : ∀ E, (g E i0).elem a b = E.elem a b + v) (E : DenseMatrix R) :
    ((List.range n).foldl g E).elem a b = E.elem a b + v := by
  induction n with
  | zero => exact absurd hi0 (Nat.not_lt_zero _)
  | succ n ih =>
    rw [List.range_succ, List.foldl_append, List.foldl_cons, List.foldl_nil]
    rcases Nat.lt_succ_iff_lt_or_eq.mp hi0 with h | h
    · rw [hskip _ n (Nat.lt_succ_self n) (by omega)]
      exact ih h fun E i hi hne => hskip E i (Nat.lt_succ_of_lt hi) hne
    · subst h
      rw [htouch, DenseMatrix.foldl_range_skip i0 g a b fun E i hi =>
        hskip E i (Nat.lt_succ_of_lt hi) (by omega)]

/-- In any arithmetic, the loop of lines 1377-1382 adds `p k l` to the entry
`(T*i+k, T*i+l)` of a diagonal block and writes no entry of another block. -/
theorem ElasticityIntegrator.diag_loop_entry {S : Type} [Add S] (n T : Nat)
    (p : Nat → Nat → S) (E : DenseMatrix S) (i j k l : Nat)
    (hi : i < n) (hk : k < T) (hl : l < T) :
    ((List.range n).foldl
        (fun E d =>
          (List.range T).foldl
            (fun E k' =>
              (List.range T).foldl (fun E l' => E.addAt (T * d + k') (T * d + l') (p k' l')) E)
            E)
        E).elem (T * i + k) (T * j + l) =
      if i = j then E.elem (T * i + k) (T * j + l) + p k l
      else E.elem (T * i + k) (T * j + l) := by
  by_cases hij : i = j
  · subst hij
    rw [if_pos rfl]
    refine DenseMatrix.foldl_range_once n _ _ _ i _ hi (fun E d _ hd => ?_) (fun E => ?_) E
    · refine DenseMatrix.foldl_range_skip T _ _ _ (fun E k' hk' => ?_) E
      refine DenseMatrix.foldl_range_skip T _ _ _ (fun E l' _ => ?_) E
      refine DenseMatrix.addAt_other E _ _ _ _ _ fun h => hd ?_
      exact ((Nat.block_index_eq_iff T d i k' k hk' hk).mp h.1.symm).1
    · refine DenseMatrix.foldl_range_once T _ _ _ k _ hk (fun E k' hk' hne => ?_)
        (fun E => ?_) E
      · refine DenseMatrix.foldl_range_skip T _ _ _ (fun E l' _ => ?_) E
        refine DenseMatrix.addAt_other E _ _ _ _ _ fun h => hne ?_
        exact ((Nat.block_index_eq_iff T i i k' k hk' hk).mp h.1.symm).2
      · refine DenseMatrix.foldl_range_once T _ _ _ l _ hl (fun E l' hl' hne => ?_)
          (fun E => ?_) E
        · refine DenseMatrix.addAt_other E _ _ _ _ _ fun h => hne ?_
          exact ((Nat.block_index_eq_iff T i i l' l hl' hl).mp h.2.symm).2
        · exact DenseMatrix.addAt_same E _ _ _
  · rw [if_neg hij]
    refine DenseMatrix.foldl_range_skip n _ _ _ (fun E d _ => ?_) E
    refine DenseMatrix.foldl_range_skip T _ _ _ (fun E k' hk' => ?_) E
    refine DenseMatrix.foldl_range_skip T _ _ _ (fun E l' hl' => ?_) E
    refine DenseMatrix.addAt_other E _ _ _ _ _ fun h => hij ?_
    exact ((Nat.block_index_eq_iff T d i k' k hk' hk).mp h.1.symm).1.symm.trans
      ((Nat.block_index_eq_iff T d j l' l hl' hl).mp h.2.symm).1

/-- In any arithmetic, the loop of lines 1383-1391 adds `q i j k l` to the entry
`(T*i+k, T*j+l)`, once. -/
theorem ElasticityIntegrator.all_loop_entry {S : Type} [Add S] (n T : Nat)
    (q : Nat → Nat → Nat → Nat → S) (E : DenseMatrix S) (i j k l : Nat)
    (hi : i < n) (hj : j < n) (hk : k < T) (hl : l < T) :
    ((List.range n).foldl
        (fun E i' =>
          (List.range n).foldl
            (fun E j' =>
              (List.range T).foldl
                (fun E k' =>
                  (List.range T).foldl
                    (fun E l' => E.addAt (T * i' + k') (T * j' + l') (q i' j' k' l')) E)
                E)
            E)
        E).elem (T * i + k) (T * j + l) =
      E.elem (T * i + k) (T * j + l) + q i j k l := by
  refine DenseMatrix.foldl_range_once n _ _ _ i _ hi (fun E i' _ hne => ?_) (fun E => ?_) E
  · refine DenseMatrix.foldl_range_skip n _ _ _ (fun E j' _ => ?_) E
    refine DenseMatrix.foldl_range_skip T _ _ _ (fun E k' hk' => ?_) E
    refine DenseMatrix.foldl_range_skip T _ _ _ (fun E l' _ => ?_) E
    refine DenseMatrix.addAt_other E _ _ _ _ _ fun h => hne ?_
    exact ((Nat.block_index_eq_iff T i' i k' k hk' hk).mp h.1.symm).1
  · refine DenseMatrix.foldl_range_once n _ _ _ j _ hj (fun E j' _ hne => ?_) (fun E => ?_) E
    · refine DenseMatrix.foldl_range_skip T _ _ _ (fun E k' _ => ?_) E
      refine DenseMatrix.foldl_range_skip T _ _ _ (fun E l' hl' => ?_) E
      refine DenseMatrix.addAt_other E _ _ _ _ _ fun h => hne ?_
      exact ((Nat.block_index_eq_iff T j' j l' l hl' hl).mp h.2.symm).1
    · refine DenseMatrix.foldl_range_once T _ _ _ k _ hk (fun E k' hk' hne => ?_)
        (fun E => ?_) E
      · refine DenseMatrix.foldl_range_skip T _ _ _ (fun E l' _ => ?_) E
        refine DenseMatrix.addAt_other E _ _ _ _ _ fun h => hne ?_
        exact ((Nat.block_index_eq_iff T i i k' k hk' hk).mp h.1.symm).2
      · refine DenseMatrix.foldl_range_once T _ _ _ l _ hl (fun E l' hl' hne => ?_)
          (fun E => ?_) E
        · refine DenseMatrix.addAt_other E _ _ _ _ _ fun h => hne ?_
          exact ((Nat.block_index_eq_iff T j j l' l hl' hl).mp h.2.symm).2
        · exact DenseMatrix.addAt_same E _ _ _

/-- In any arithmetic with `M` nonzero, one pass of lines 1372-1392 leaves in
the entry `(dof*i+k, dof*j+l)` the value after the `L` update, plus
`(M*w)*pelmat(k,l)` when `i = j`, plus `((M*w)*gshape(k,j))*gshape(l,i)`, added
and multiplied in this order. -/
theorem ElasticityIntegrator.update_entry_ordered {S : Type} [Add S] [Mul S] [Zero S]
    [DecidableEq S] (dof dim : Nat) (w L M : S) (gshape pelmat : DenseMatrix S)
    (divshape : Vector S) (E : DenseMatrix S) (hM : M ≠ 0) (i j k l : Nat)
    (hi : i < dim) (hj : j < dim) (hk : k < dof) (hl : l < dof) :
    (ElasticityIntegrator.update dof dim w L M gshape pelmat divshape E).elem
        (dof * i + k) (dof * j + l) =
      (if i = j then
        (if L ≠ 0 then AddMult_a_VVt (L * w) divshape E else E).elem
            (dof * i + k) (dof * j + l) + M * w * pelmat.elem k l
      else
        (if L ≠ 0 then AddMult_a_VVt (L * w) divshape E else E).elem
            (dof * i + k) (dof * j + l)) +
        M * w * gshape.elem k j * gshape.elem l i := by
  simp only [ElasticityIntegrator.update, if_pos hM]
  rw [ElasticityIntegrator.all_loop_entry dim dof
      (fun i' j' k' l' => M * w * gshape.elem k' j' * gshape.elem l' i') _ i j k l hi hj hk hl,
    ElasticityIntegrator.diag_loop_entry dim dof (fun k' l' => M * w * pelmat.elem k' l') _
      i j k l hi hk hl]

/-! ## Elasticity integrator: symmetry -/

/-- One quadrature point of the elasticity integrator maps a buffer that is
symmetric on the entries `(dof*i+k, dof*j+l)` to a buffer that is symmetric
there. -/
theorem ElasticityIntegrator.point_keeps_symmetry {R : Type} [Field R] [DecidableEq R]
    (self : ElasticityIntegrator R) (el : FiniteElement R) (Trans : ElementTransformation R)
    (E : DenseMatrix R) (ip : IntegrationPoint R)
    (hE : ∀ i j k l, i < el.GetDim → j < el.GetDim → k < el.GetDof → l < el.GetDof →
      E.elem (el.GetDof * i + k) (el.GetDof * j + l) =
        E.elem (el.GetDof * j + l) (el.GetDof * i + k))
    (i j k l : Nat) (hi : i < el.GetDim) (hj : j < el.GetDim) (hk : k < el.GetDof)
    (hl : l < el.GetDof) :
    (ElasticityIntegrator.point self el Trans E ip).elem
        (el.GetDof * i + k) (el.GetDof * j + l) =
      (ElasticityIntegrator.point self el Trans E ip).elem
        (el.GetDof * j + l) (el.GetDof * i + k) := by
  simp only [ElasticityIntegrator.point]
  rw [ElasticityIntegrator.update_elem el.GetDof el.GetDim _ _ _ _ _ _ rfl E i j k l
      hi hj hk hl,
    ElasticityIntegrator.update_elem el.GetDof el.GetDim _ _ _ _ _ _ rfl E j i l k
      hj hi hl hk, hE i j k l hi hj hk hl]
  congr 1
  by_cases h : i = j
  · subst h
    simp only [if_true, MultAAt]
    have hs : (Finset.sum (Finset.range (ElasticityIntegrator.gshape el Trans ip).width)
          fun s => (ElasticityIntegrator.gshape el Trans ip).elem k s *
            (ElasticityIntegrator.gshape el Trans ip).elem l s) =
        Finset.sum (Finset.range (ElasticityIntegrator.gshape el Trans ip).width)
          fun s => (ElasticityIntegrator.gshape el Trans ip).elem l s *
            (ElasticityIntegrator.gshape el Trans ip).elem k s :=
      Finset.sum_congr rfl fun s _ => mul_comm _ _
    rw [hs]
    ring
  · rw [if_neg h, if_neg (fun h' => h h'.symm)]
    ring

/-- The quadrature loop of the elasticity integrator keeps a buffer symmetric
on the entries `(dof*i+k, dof*j+l)`. -/
theorem ElasticityIntegrator.loop_keeps_symmetry {R : Type} [Field R] [DecidableEq R]
    (self : ElasticityIntegrator R) (el : FiniteElement R) (Trans : ElementTransformation R)
    (ir : IntegrationRule R) (E : DenseMatrix R)
    (hE : ∀ i j k l, i < el.GetDim → j < el.GetDim → k < el.GetDof → l < el.GetDof →
      E.elem (el.GetDof * i + k) (el.GetDof * j + l) =
        E.elem (el.GetDof * j + l) (el.GetDof * i + k)) :
    ∀ i j k l, i < el.GetDim → j < el.GetDim → k < el.GetDof → l < el.GetDof →
      (ir.foldl (ElasticityIntegrator.point self el Trans) E).elem
          (el.GetDof * i + k) (el.GetDof * j + l) =
        (ir.foldl (ElasticityIntegrator.point self el Trans) E).elem
          (el.GetDof * j + l) (el.GetDof * i + k) := by
  induction ir generalizing E with
  | nil => exact hE
  | cons ip ir ih =>
    exact ih _ (ElasticityIntegrator.point_keeps_symmetry self el Trans E ip hE)

/-- Counterexample to C31: in the arithmetic of `double`, one pass of lines
1372-1392 for `gshape = [[3, 5]]` (one basis function in dimension 2), `w = 1`,
`L = 0` and `M = 2^53 - 1` on a zeroed buffer leaves
`elmat(0,1) = 135107988821114848` and `elmat(1,0) = 135107988821114864`: the
products `((M*w)*5)*3` and `((M*w)*3)*5` round differently. -/
theorem ElasticityIntegrator.rounding_breaks_symmetry :
    (ElasticityIntegrator.update 1 2 (⟨1⟩ : Double) 0 ⟨9007199254740991⟩
        Example.gshapeDouble Example.pelmatDouble Example.divshapeDouble
        Example.zerosDouble).elem 0 1 = ⟨135107988821114848⟩ ∧
    (ElasticityIntegrator.update 1 2 (⟨1⟩ : Double) 0 ⟨9007199254740991⟩
        Example.gshapeDouble Example.pelmatDouble Example.divshapeDouble
        Example.zerosDouble).elem 1 0 = ⟨135107988821114864⟩ ∧
    (ElasticityIntegrator.update 1 2 (⟨1⟩ : Double) 0 ⟨9007199254740991⟩
        Example.gshapeDouble Example.pelmatDouble Example.divshapeDouble
        Example.zerosDouble).elem 0 1 ≠
      (ElasticityIntegrator.update 1 2 (⟨1⟩ : Double) 0 ⟨9007199254740991⟩
        Example.gshapeDouble Example.pelmatDouble Example.divshapeDouble
        Example.zerosDouble).elem 1 0 := by
  refine ⟨by decide, by decide, by decide⟩

/-- Claim C31 as amended. In exact arithmetic
`ElasticityIntegrator::AssembleElementMatrix` returns a symmetric square matrix
of size `dof*dim`, for every element, mapping, rule and Lame coefficients:
`elmat(dof*i+k, dof*j+l) = elmat(dof*j+l, dof*i+k)`. In any arithmetic, that of
`double` included, one pass of the loop with `M` nonzero leaves in the entry
`(dof*i+k, dof*j+l)` the value after the `L` update, plus `(M*w)*pelmat(k,l)`
when `i = j`, plus `((M*w)*gshape(k,j))*gshape(l,i)`: an entry and its mirror
receive the same factors multiplied in a different order, so that in `double`
they agree up to rounding only. -/
theorem ElasticityIntegrator.symmetric_in_exact_arithmetic {R : Type} [Field R]
    [DecidableEq R] (IntRules : IntegrationRules R) (self : ElasticityIntegrator R)
    (el : FiniteElement R) (Trans : ElementTransformation R) (elmat : DenseMatrix R) :
    (∃ K, ElasticityIntegrator.AssembleElementMatrix IntRules self el Trans elmat =
        Except.ok K ∧
      K.height = el.GetDof * el.GetDim ∧ K.width = el.GetDof * el.GetDim ∧
      (∀ i j k l, i < el.GetDim → j < el.GetDim → k < el.GetDof → l < el.GetDof →
        K.elem (el.GetDof * i + k) (el.GetDof * j + l) =
          K.elem (el.GetDof * j + l) (el.GetDof * i + k)) ∧
      ∀ a b, a < el.GetDof * el.GetDim → b < el.GetDof * el.GetDim →
        K.elem a b = K.elem b a) ∧
    ∀ (S : Type) [Add S] [Mul S] [Zero S] [DecidableEq S] (dof dim : Nat) (w L M : S)
      (gshape pelmat : DenseMatrix S) (divshape : Vector S) (E : DenseMatrix S),
      M ≠ 0 → ∀ i j k l, i < dim → j < dim → k < dof → l < dof →
        (ElasticityIntegrator.update dof dim w L M gshape pelmat divshape E).elem
            (dof * i + k) (dof * j + l) =
          (if i = j then
            (if L ≠ 0 then AddMult_a_VVt (L * w) divshape E else E).elem
                (dof * i + k) (dof * j + l) + M * w * pelmat.elem k l
          else
            (if L ≠ 0 then AddMult_a_VVt (L * w) divshape E else E).elem
                (dof * i + k) (dof * j + l)) +
            M * w * gshape.elem k j * gshape.elem l i := by
  refine ⟨?_, fun S _ _ _ _ dof dim w L M gshape pelmat divshape E hM i j k l hi hj hk hl =>
    ElasticityIntegrator.update_entry_ordered dof dim w L M gshape pelmat divshape E hM
      i j k l hi hj hk hl⟩
  have hsym := ElasticityIntegrator.loop_keeps_symmetry self el Trans
    (ElasticityIntegrator.rule IntRules self el Trans)
    ((elmat.SetSize (el.GetDof * el.GetDim) (el.GetDof * el.GetDim)).assign 0)
    (fun _ _ _ _ _ _ _ _ => rfl)
  refine ⟨_, rfl, ?_, ?_, hsym, fun a b ha hb => ?_⟩
  · exact (DenseMatrix.foldl_dims _ (ElasticityIntegrator.point self el Trans)
      (fun E ip => ElasticityIntegrator.update_dims _ _ _ _ _ _ _ _ E) _).1
  · exact (DenseMatrix.foldl_dims _ (ElasticityIntegrator.point self el Trans)
      (fun E ip => ElasticityIntegrator.update_dims _ _ _ _ _ _ _ _ E) _).2
  · have hpos : 0 < el.GetDof := by
      rcases Nat.eq_zero_or_pos el.GetDof with h | h
      · rw [h, Nat.zero_mul] at ha
        exact absurd ha (Nat.not_lt_zero _)
      · exact h
    have h := hsym (a / el.GetDof) (b / el.GetDof) (a % el.GetDof) (b % el.GetDof)
      (Nat.div_lt_of_lt_mul ha) (Nat.div_lt_of_lt_mul hb) (Nat.mod_lt _ hpos)
      (Nat.mod_lt _ hpos)
    rw [Nat.div_add_mod, Nat.div_add_mod] at h
    exact h

/-! ## Discontinuous Galerkin diffusion integrator: the symmetric variant -/

/-- Claim C32. With `sigma = -1`, `DGDiffusionIntegrator::AssembleFaceMatrix`
returns, for every face (boundary or interior), pair of elements, scalar or
matrix coefficient and `kappa`, the matrix `-(A + A^T)` plus the mirrored jump
matrix, `A` and `jmat` being what the quadrature loop leaves (no jump term when
`kappa = 0`); this matrix is symmetric. -/
theorem DGDiffusionIntegrator.symmetric_interior_penalty {R : Type} [Field R]
    [DecidableEq R] (IntRules : IntegrationRules R) (IntRule : Option (IntegrationRule R))
    (Q : Option (Coefficient R)) (MQ : Option (MatrixCoefficient R)) (kappa : R)
    (el1 el2 : FiniteElement R) (Trans : FaceElementTransformations R)
    (elmat jmat : DenseMatrix R) :
    ∃ M, DGDiffusionIntegrator.AssembleFaceMatrix IntRules
          { IntRule := IntRule, Q := Q, MQ := MQ, sigma := -1, kappa := kappa } jmat el1 el2
          Trans elmat = Except.ok M ∧
      M.height = el1.GetDof + (if Trans.Elem2No ≥ 0 then el2.GetDof else 0) ∧
      M.width = el1.GetDof + (if Trans.Elem2No ≥ 0 then el2.GetDof else 0) ∧
      (∀ i j, i < el1.GetDof + (if Trans.Elem2No ≥ 0 then el2.GetDof else 0) →
        j < el1.GetDof + (if Trans.Elem2No ≥ 0 then el2.GetDof else 0) →
        M.elem i j =
          -((DGDiffusionIntegrator.accumulate IntRules
                { IntRule := IntRule, Q := Q, MQ := MQ, sigma := -1, kappa := kappa }
                el1 el2 Trans elmat jmat).1.elem i j +
              (DGDiffusionIntegrator.accumulate IntRules
                { IntRule := IntRule, Q := Q, MQ := MQ, sigma := -1, kappa := kappa }
                el1 el2 Trans elmat jmat).1.elem j i) +
            (if kappa ≠ 0 then
              (DGDiffusionIntegrator.accumulate IntRules
                { IntRule := IntRule, Q := Q, MQ := MQ, sigma := -1, kappa := kappa }
                el1 el2 Trans elmat jmat).2.elem (max i j) (min i j)
            else 0)) ∧
      ∀ i j, i < el1.GetDof + (if Trans.Elem2No ≥ 0 then el2.GetDof else 0) →
        j < el1.GetDof + (if Trans.Elem2No ≥ 0 then el2.GetDof else 0) →
        M.elem i j = M.elem j i := by
  obtain ⟨a1, a2, _⟩ := DGDiffusionIntegrator.accumulate_dims IntRules
    { IntRule := IntRule, Q := Q, MQ := MQ, sigma := -1, kappa := kappa } el1 el2 Trans
    elmat jmat
  have fd := DGDiffusionIntegrator.finish_dims (-1 : R) (decide (kappa ≠ 0))
    (el1.GetDof + (if Trans.Elem2No ≥ 0 then el2.GetDof else 0))
    (DGDiffusionIntegrator.accumulate IntRules
      { IntRule := IntRule, Q := Q, MQ := MQ, sigma := -1, kappa := kappa } el1 el2 Trans
      elmat jmat).2
    (DGDiffusionIntegrator.accumulate IntRules
      { IntRule := IntRule, Q := Q, MQ := MQ, sigma := -1, kappa := kappa } el1 el2 Trans
      elmat jmat).1
  refine ⟨_, rfl, fd.1.trans a1, fd.2.trans a2, fun i j hi hj => ?_, fun i j hi hj => ?_⟩
  · rw [DGDiffusionIntegrator.finish_elem, if_pos (And.intro hi hj)]
    by_cases hk : kappa = 0
    · simp [hk]
      ring
    · simp [hk]
      ring
  · rw [DGDiffusionIntegrator.finish_elem, DGDiffusionIntegrator.finish_elem,
      if_pos (And.intro hi hj), if_pos (And.intro hj hi), max_comm j i, min_comm j i]
    ring

/-! ## Group convection and convection: the constant field -/

/-- With the trial and the test space equal, one pass of the loop of the mixed
form adds what one pass of the loop of the single-space form adds. -/
theorem MassIntegrator.point2_same_space {R : Type} [Field R] (self : MassIntegrator R)
    (el : FiniteElement R) (Trans : ElementTransformation R) :
    MassIntegrator.point2 self el el Trans = MassIntegrator.point self el Trans := by
  funext E ip
  simp only [MassIntegrator.point2, MassIntegrator.point, AddMultVWt, AddMult_a_VVt,
    Vector.scale]
  congr 1
  funext i j
  split_ifs
  · ring
  · rfl

/-- Claim C34 at its failing input. With a supplied rule, or for an element
whose function space is not `rQk`, `MassIntegrator::AssembleElementMatrix2(el,
el, Trans)` equals `MassIntegrator::AssembleElementMatrix(el, Trans)`. For an
`rQk` element without a supplied rule the single-space form reads the table of
refined rules and the mixed form the plain table: for the refined linear
segment the entry `(2,2)` is `1/4` from the single-space form and `1` from the
mixed form. -/
theorem MassIntegrator.mixed_form_skips_refined_rule :
    (∀ (IntRules RefinedIntRules : IntegrationRules ℚ) (self : MassIntegrator ℚ)
        (el : FiniteElement ℚ) (Trans : ElementTransformation ℚ) (elmat : DenseMatrix ℚ),
      (self.IntRule ≠ none ∨ el.Space ≠ FunctionSpace.rQk) →
      MassIntegrator.AssembleElementMatrix2 IntRules self el el Trans elmat =
        MassIntegrator.AssembleElementMatrix IntRules RefinedIntRules self el Trans elmat) ∧
    (∀ (IntRules RefinedIntRules : IntegrationRules ℚ) (Q : Option (Coefficient ℚ))
        (el : FiniteElement ℚ) (Trans : ElementTransformation ℚ),
      el.Space = FunctionSpace.rQk →
      MassIntegrator.rule IntRules RefinedIntRules { IntRule := none, Q := Q } el Trans =
          RefinedIntRules.Get el.GetGeomType (2 * el.GetOrder + Trans.OrderW) ∧
        MassIntegrator.rule2 IntRules { IntRule := none, Q := Q } el el Trans =
          IntRules.Get el.GetGeomType (el.GetOrder + el.GetOrder + Trans.OrderW)) ∧
    (∃ M M2,
      MassIntegrator.AssembleElementMatrix Example.segmentRules Example.refinedRules
          Example.mass Example.refinedSegment Example.segmentMap (Example.zeros 0 0) =
        Except.ok M ∧
      MassIntegrator.AssembleElementMatrix2 Example.segmentRules Example.mass
          Example.refinedSegment Example.refinedSegment Example.segmentMap
          (Example.zeros 0 0) = Except.ok M2 ∧
      Example.refinedSegment.Space = FunctionSpace.rQk ∧
      M.elem 2 2 = 1 / 4 ∧ M2.elem 2 2 = 1 ∧ M2.elem 2 2 ≠ M.elem 2 2) := by
  refine ⟨fun IntRules RefinedIntRules self el Trans elmat h => ?_,
    fun IntRules RefinedIntRules Q el Trans h => ?_, ?_⟩
  · have hr : MassIntegrator.rule2 IntRules self el el Trans =
        MassIntegrator.rule IntRules RefinedIntRules self el Trans := by
      simp only [MassIntegrator.rule2, MassIntegrator.rule]
      cases hI : self.IntRule with
      | some ir => rfl
      | none =>
        rcases h with h | h
        · exact absurd hI h
        · simp only [if_neg h, two_mul]
    simp only [MassIntegrator.AssembleElementMatrix2, MassIntegrator.AssembleElementMatrix,
      MassIntegrator.point2_same_space, hr]
  · refine ⟨?_, rfl⟩
    simp only [MassIntegrator.rule, if_pos h]
  · have h1 : (List.foldl
          (MassIntegrator.point Example.mass Example.refinedSegment Example.segmentMap)
          (((Example.zeros 0 0).SetSize Example.refinedSegment.GetDof
            Example.refinedSegment.GetDof).assign 0)
          (MassIntegrator.rule Example.segmentRules Example.refinedRules Example.mass
            Example.refinedSegment Example.segmentMap)).elem 2 2 = 1 / 4 := by
      norm_num [MassIntegrator.rule, MassIntegrator.point, Example.mass,
        Example.refinedSegment, Example.segmentMap, Example.refinedRules, AddMult_a_VVt,
        DenseMatrix.assign, DenseMatrix.SetSize]
    have h2 : (List.foldl
          (MassIntegrator.point2 Example.mass Example.refinedSegment Example.refinedSegment
            Example.segmentMap)
          (((Example.zeros 0 0).SetSize Example.refinedSegment.GetDof
            Example.refinedSegment.GetDof).assign 0)
          (MassIntegrator.rule2 Example.segmentRules Example.mass Example.refinedSegment
            Example.refinedSegment Example.segmentMap)).elem 2 2 = 1 := by
      norm_num [MassIntegrator.rule2, MassIntegrator.point2, Example.mass,
        Example.refinedSegment, Example.segmentMap, Example.segmentRules,
        Example.segmentMidpointRule, AddMultVWt, Vector.scale, DenseMatrix.assign,
        DenseMatrix.SetSize]
    refine ⟨_, _, rfl, rfl, rfl, h1, h2, fun h => ?_⟩
    exact absurd (h2.symm.trans (h.trans h1)) (by norm_num)

end mfem
